import Mathlib

/-!
BVON: a shallow embedding of the codec and its checked properties.

The definitions follow `src/index.js` and `src/lib/Int64.js` function by function.
JavaScript values are modelled by the inductive `Value`; a JavaScript string is its
list of UTF-16 code units; a number is the bit pattern of its IEEE-754 double; the
writer and the reader are state-passing functions whose result keeps the state also
when an exception is thrown. The byte buffer (`ByteView`, an external package) is
modelled as an unbounded array of bytes: its capacity is not represented.

An `Int64` is its two signed 32-bit words and its sign mode. The methods of `Int64` that
test whether the WebAssembly module was instantiated take that fact as the parameter
`wasm`; the operations of the module are modelled by the instructions its bytes encode.
The methods that call themselves carry the number of nested calls still allowed.
-/

namespace Bvon

/-! ## JavaScript primitives -/

/-- A JavaScript string, as its sequence of UTF-16 code units. -/
abbrev JSString := List Nat

/-- The ToInt32 conversion of ECMAScript on an integer (the effect of `x | 0`). -/
def toInt32 (x : Int) : Int := (x + 2147483648) % 4294967296 - 2147483648

/-- The ToUint32 conversion of ECMAScript on an integer (the effect of `x >>> 0`). -/
def toUint32 (x : Int) : Nat := (x % 4294967296).toNat

/-- The exceptions the codec and the host runtime raise, one constructor per throw site. -/
inductive JSError where
  /-- `new Error('Invalid code point')` in `ByteEncoder`. -/
  | invalidCodePoint
  /-- `new RangeError('length in writeHeader is invalid')`. -/
  | headerRange
  /-- `new Error('invalid size')` in `readHeader`. -/
  | invalidSize
  /-- `new Error('Key of type ... is invalid.')` in `readKey`; `none` is `undefined`. -/
  | invalidKey (blockType : Option Nat)
  /-- `new Error('Constructor ... is unknown')` in `readBlock`. -/
  | unknownConstructor
  /-- `new BVONError('Unsupported type: ...')` in `readBlock`; `none` is `undefined`. -/
  | unsupportedType (blockType : Option Nat)
  /-- A `TypeError` raised by the host runtime. -/
  | typeError
  /-- A `RangeError` raised by the host runtime or by a `ByteView` accessor. -/
  | rangeError
  /-- A failure of the text decoder of `ByteView` on malformed bytes. -/
  | malformedText
  /-- The `Error` of the `UOID` constructor on a text that is not an identifier. -/
  | uoidArgument
  /-- The host behaviour at this point is not represented (the construction of a
  `RegExp` from operands that are not both text). -/
  | notRepresented
  /-- The nesting budget of `readBlock` is used up; `deserialize` gives a budget that
  exceeds the number of bytes of the buffer. The same report is made by the recursive
  methods of `Int64` when their budget of nested calls is used up. -/
  | nestingBudget
  /-- `new BVONError('division by zero')` in `Int64.divide`. -/
  | divisionByZero
  /-- A `WebAssembly.RuntimeError`: a trap of the module of `Int64.js` (a division or
  remainder by zero, a signed division whose quotient is not representable). -/
  | wasmTrap
  /-- `new BVONError('radix')` in `Int64.toString` and `fromString`. -/
  | radix
  /-- `new BVONError('empty string')` in `fromString`. -/
  | emptyString
  /-- `new BVONError('interior hyphen')` in `fromString`. -/
  | interiorHyphen
  deriving DecidableEq, Repr

/-- The outcome of a stateful operation: JavaScript keeps the mutated state also when
an exception propagates, so both cases carry the state. -/
inductive Result (σ α : Type) where
  | ok (value : α) (state : σ)
  | error (e : JSError) (state : σ)

/-- The state left by an operation, whether it returned or threw. -/
def Result.state {σ α : Type} : Result σ α → σ
  | .ok _ s => s
  | .error _ s => s

/-- The value an operation returned, if it returned. -/
def Result.value? {σ α : Type} : Result σ α → Option α
  | .ok a _ => some a
  | .error _ _ => none

/-- A stateful operation that may throw. -/
abbrev Step (σ α : Type) := σ → Result σ α

/-- Sequencing of stateful operations: an exception skips the continuation. -/
def Step.bind {σ α β : Type} (m : Step σ α) (f : α → Step σ β) : Step σ β :=
  fun s =>
    match m s with
    | .ok a s1 => f a s1
    | .error e s1 => .error e s1

instance {σ : Type} : Monad (Step σ) where
  pure a := fun s => .ok a s
  bind := Step.bind

/-- The `throw` statement. -/
def Step.throw {σ α : Type} (e : JSError) : Step σ α := fun s => .error e s

/-- Updating the state. -/
def Step.modify {σ : Type} (f : σ → σ) : Step σ Unit := fun s => .ok () (f s)

/-! ## The UTF-8 encoder (`ByteEncoder.encode`) -/

/-- The builtin `String.prototype.codePointAt` at the index where the code unit `first`
stands and `rest` follows: a high surrogate followed by a low surrogate is read as one
supplementary code point, any other code unit is its own code point. -/
def codePointAt (first : Nat) (rest : JSString) : Nat :=
  match rest with
  | [] => first
  | second :: _ =>
    if 0xD800 ≤ first ∧ first ≤ 0xDBFF ∧ 0xDC00 ≤ second ∧ second ≤ 0xDFFF then
      (first - 0xD800) * 0x400 + (second - 0xDC00) + 0x10000
    else first

/-- The bytes `ByteEncoder.encode` appends for one code point (the `if` chain of the
loop body), or the `Invalid code point` error. -/
def ByteEncoder.encodeCodePoint (codePoint : Nat) : Except JSError (List Nat) :=
  if codePoint < 0x80 then
    .ok [codePoint]
  else if codePoint < 0x800 then
    .ok [codePoint >>> 0x6 ||| 0xC0, codePoint &&& 0x3F ||| 0x80]
  else if codePoint < 0x10000 then
    .ok [codePoint >>> 0xC ||| 0xE0, codePoint >>> 0x6 &&& 0x3F ||| 0x80,
      codePoint &&& 0x3F ||| 0x80]
  else if codePoint < 0x110000 then
    .ok [codePoint >>> 0x12 ||| 0xF0, codePoint >>> 0xC &&& 0x3F ||| 0x80,
      codePoint >>> 0x6 &&& 0x3F ||| 0x80, codePoint &&& 0x3F ||| 0x80]
  else
    .error .invalidCodePoint

/-- The loop of `ByteEncoder.encode`. The loop variable `index` is represented by the
suffix of the string that starts at `index`; `if (codePoint > 0xE000) ++index` drops one
more code unit of that suffix. -/
def ByteEncoder.encodeFrom : JSString → Except JSError (List Nat)
  | [] => .ok []
  | first :: rest =>
    let codePoint := codePointAt first rest
    match ByteEncoder.encodeCodePoint codePoint with
    | .error e => .error e
    | .ok bytes =>
      match rest with
      | [] => .ok bytes
      | second :: rest2 =>
        if codePoint > 0xE000 then
          match ByteEncoder.encodeFrom rest2 with
          | .error e => .error e
          | .ok more => .ok (bytes ++ more)
        else
          match ByteEncoder.encodeFrom (second :: rest2) with
          | .error e => .error e
          | .ok more => .ok (bytes ++ more)

/-- The method `ByteEncoder.encode(string)`. -/
def ByteEncoder.encode (string : JSString) : Except JSError (List Nat) :=
  ByteEncoder.encodeFrom string

/-- The UTF-16 code units of one code point, as a JavaScript string holds it. -/
def utf16Units (codePoint : Nat) : List Nat :=
  if codePoint < 0x10000 then [codePoint]
  else [0xD800 + (codePoint - 0x10000) / 0x400, 0xDC00 + (codePoint - 0x10000) % 0x400]

/-- The JavaScript string that holds a sequence of code points. -/
def JSString.ofCodePoints (codePoints : List Nat) : JSString :=
  codePoints.flatMap utf16Units

/-- The standard UTF-8 bytes of one code point below 0x110000, as the specification words
it: 1 byte below 0x80, 2 below 0x800, 3 below 0x10000, 4 below 0x110000. -/
def utf8OfCodePoint (c : Nat) : List Nat :=
  if c < 0x80 then [c]
  else if c < 0x800 then [0xC0 + c / 64, 0x80 + c % 64]
  else if c < 0x10000 then [0xE0 + c / 4096, 0x80 + c / 64 % 64, 0x80 + c % 64]
  else [0xF0 + c / 262144, 0x80 + c / 4096 % 64, 0x80 + c / 64 % 64, 0x80 + c % 64]

/-- The standard UTF-8 encoding of a sequence of code points: the concatenation, in
order, of the bytes of each code point. -/
def utf8Spec (codePoints : List Nat) : List Nat :=
  codePoints.flatMap utf8OfCodePoint

/-! ## Numbers -/

/-- A JavaScript number: the 64-bit pattern of its IEEE-754 double (sign bit, 11 exponent
bits, 52 fraction bits), read modulo 2^64. -/
structure JSNumber where
  bits : Nat
  deriving DecidableEq, Repr

namespace JSNumber

/-- The sign bit. -/
def sign (n : JSNumber) : Nat := n.bits / 2 ^ 63 % 2

/-- The biased exponent field. -/
def exponent (n : JSNumber) : Nat := n.bits / 2 ^ 52 % 2048

/-- The fraction field. -/
def fraction (n : JSNumber) : Nat := n.bits % 2 ^ 52

/-- The integer with the sign of the double and the given magnitude. -/
def withSign (n : JSNumber) (magnitude : Nat) : Int :=
  if n.sign = 1 then - (magnitude : Int) else (magnitude : Int)

/-- The mathematical value of a double when that value is an integer (both zeros give
0), and `none` for a fractional, infinite or NaN double. A normal double is
`(2^52 + fraction) * 2^(exponent - 1075)`; a subnormal one is an integer only at zero. -/
def toInt? (n : JSNumber) : Option Int :=
  if n.exponent = 2047 then none
  else if n.exponent = 0 then (if n.fraction = 0 then some 0 else none)
  else if 1075 ≤ n.exponent then
    some (n.withSign ((2 ^ 52 + n.fraction) * 2 ^ (n.exponent - 1075)))
  else if (2 ^ 52 + n.fraction) % 2 ^ (1075 - n.exponent) = 0 then
    some (n.withSign ((2 ^ 52 + n.fraction) / 2 ^ (1075 - n.exponent)))
  else none

/-- The builtin test `Object.is(number, -0)`. -/
def isNegativeZero (n : JSNumber) : Bool := decide (n.bits % 2 ^ 64 = 2 ^ 63)

/-- The builtin `Number.isSafeInteger`: an integral number of magnitude at most 2^53 - 1. -/
def isSafeInteger (n : JSNumber) : Bool :=
  match n.toInt? with
  | some i => decide (i.natAbs ≤ 9007199254740991)
  | none => false

/-- The number of binary digits of `n`, computed with `fuel` halvings at most. -/
def bitLength : Nat → Nat → Nat
  | 0, _ => 0
  | fuel + 1, n => if n = 0 then 0 else bitLength fuel (n / 2) + 1

/-- The double of an integer that a double represents exactly (every integer of
magnitude below 2^53 is one; a larger magnitude is truncated to 53 significant bits). -/
def ofInt (i : Int) : JSNumber :=
  if i = 0 then ⟨0⟩
  else
    let a := i.natAbs
    let k := bitLength a a - 1
    let significand := if k ≤ 52 then a * 2 ^ (52 - k) else a / 2 ^ (k - 52)
    ⟨(if i < 0 then 2 ^ 63 else 0) + (1023 + k) * 2 ^ 52 + (significand - 2 ^ 52)⟩

/-- The number `-0`. -/
def negZero : JSNumber := ⟨2 ^ 63⟩

end JSNumber

/-! ## Int64 (`src/lib/Int64.js`) -/

/-- An `Int64`: two 32-bit signed words and the sign-mode flag. -/
structure Int64 where
  low : Int
  high : Int
  unsigned : Bool
  deriving DecidableEq, Repr

namespace Int64

/-- The constructor: `this[0] = low | 0`, `this[1] = high | 0`,
`this.#unsigned = Boolean(unsigned)`. -/
def new (low high : Int) (unsigned : Bool) : Int64 :=
  ⟨toInt32 low, toInt32 high, unsigned⟩

/-- The constant `Int64.ZERO`. -/
def ZERO : Int64 := Int64.new 0 0 false

/-- The constant `Int64.UNSIGNED_ZERO`. -/
def UNSIGNED_ZERO : Int64 := Int64.new 0 0 true

/-- The constant `Int64.ONE`. -/
def ONE : Int64 := Int64.new 1 0 false

/-- The constant `Int64.MAX_VALUE`. -/
def MAX_VALUE : Int64 := Int64.new (toInt32 0xffffffff) (toInt32 0x7fffffff) false

/-- The constant `Int64.MAX_UNSIGNED_VALUE`. -/
def MAX_UNSIGNED_VALUE : Int64 := Int64.new (toInt32 0xffffffff) (toInt32 0xffffffff) true

/-- The constant `Int64.MIN_VALUE`. -/
def MIN_VALUE : Int64 := Int64.new 0 (toInt32 0x80000000) false

/-- The method `equals`, for an operand that is an `Int64`. -/
def equals (self other : Int64) : Bool :=
  if self.unsigned ≠ other.unsigned ∧ toUint32 self.high >>> 31 = 1 ∧
      toUint32 other.high >>> 31 = 1 then
    false
  else
    decide (self.high = other.high ∧ self.low = other.low)

/-- The method `not`. -/
def not (self : Int64) : Int64 :=
  Int64.new (-self.low - 1) (-self.high - 1) self.unsigned

/-- The method `add`, for an operand that is an `Int64`: four 16-bit chunks summed with
carries. -/
def add (self addend : Int64) : Int64 :=
  let a48 := toUint32 self.high >>> 16
  let a32 := toUint32 self.high &&& 0xffff
  let a16 := toUint32 self.low >>> 16
  let a00 := toUint32 self.low &&& 0xffff
  let b48 := toUint32 addend.high >>> 16
  let b32 := toUint32 addend.high &&& 0xffff
  let b16 := toUint32 addend.low >>> 16
  let b00 := toUint32 addend.low &&& 0xffff
  let c00 := a00 + b00
  let c16 := c00 >>> 16
  let c00 := c00 &&& 0xffff
  let c16 := c16 + (a16 + b16)
  let c32 := c16 >>> 16
  let c16 := c16 &&& 0xffff
  let c32 := c32 + (a32 + b32)
  let c48 := c32 >>> 16
  let c32 := c32 &&& 0xffff
  let c48 := c48 + (a48 + b48)
  let c48 := c48 &&& 0xffff
  let low := (c16 <<< 16) ||| c00
  let high := (c48 <<< 16) ||| c32
  Int64.new low high self.unsigned

/-- The method `negate`. -/
def negate (self : Int64) : Int64 :=
  if !self.unsigned && self.equals MIN_VALUE then MIN_VALUE
  else self.not.add ONE

/-- The tail of `fromNumber` for a value that is not negative: the upper range check of
the sign mode, then `new Int64((value % 2^32) | 0, (value / 2^32) | 0, unsigned)`. -/
def fromNumberNonNeg (value : Int) (unsigned : Bool) : Int64 :=
  if unsigned then
    if value ≥ 18446744073709551616 then MAX_UNSIGNED_VALUE
    else Int64.new (value % 4294967296) (value / 4294967296) unsigned
  else
    if value + 1 ≥ 9223372036854775808 then MAX_VALUE
    else Int64.new (value % 4294967296) (value / 4294967296) unsigned

/-- The function `fromNumber(value, unsigned)` on an integer-valued number, or on NaN
(`none`). The recursive call `fromNumber(-value, unsigned)` is made with a positive
argument, where only the tail `fromNumberNonNeg` applies. -/
def fromNumber (value : Option Int) (unsigned : Bool) : Int64 :=
  match value with
  | none => if unsigned then UNSIGNED_ZERO else ZERO
  | some v =>
    if unsigned ∧ v < 0 then UNSIGNED_ZERO
    else if ¬ unsigned ∧ v ≤ -9223372036854775808 then MIN_VALUE
    else if v < 0 then (fromNumberNonNeg (-v) unsigned).negate
    else fromNumberNonNeg v unsigned

end Int64

/-! ## Int64: the WebAssembly module

The module that `Int64.js` instantiates when it is loaded exports `mul`, `div_s`, `div_u`,
`rem_s`, `rem_u` and `get_high`. Each of the five operations assembles two 64-bit
operands from its four 32-bit parameters, applies one instruction (`i64.mul`,
`i64.div_s`, `i64.div_u`, `i64.rem_s`, `i64.rem_u`), stores the high word of the result in
a global and returns the low word; `get_high` returns the global. The methods read it
right after the operation, so an operation is modelled as returning both words. Whether
the instantiation succeeded (`wasm` is not `null`) is the parameter `wasm` of the methods
that test `if (wasm)`. -/

namespace Wasm

/-- The 64-bit operand assembled from two parameters:
`i64.extend_i32_u(low) | (i64.extend_i32_u(high) << 32)`. A JavaScript number reaches an
`i32` parameter through ToInt32. -/
def operand (low high : Int) : Nat := toUint32 low + toUint32 high * 4294967296

/-- The signed reading of a 64-bit pattern. -/
def signed (x : Nat) : Int :=
  if x < 9223372036854775808 then (x : Int) else (x : Int) - 18446744073709551616

/-- The two words an operation leaves for a 64-bit result given by any integer congruent
to it modulo 2^64: the returned `i32.wrap_i64(result)` and the global
`i32.wrap_i64(result >> 32)`, each read by JavaScript as a signed 32-bit integer. -/
def words (x : Int) : Int × Int := (toInt32 x, toInt32 (x / 4294967296))

/-- The export `mul` (`i64.mul`). -/
def mul (low high otherLow otherHigh : Int) : Int × Int :=
  words ((operand low high : Int) * (operand otherLow otherHigh : Int))

/-- The export `div_s` (`i64.div_s`): the quotient truncated toward zero; a trap when the
divisor is zero and when the quotient of -2^63 by -1 is not representable. -/
def div_s (low high otherLow otherHigh : Int) : Except JSError (Int × Int) :=
  if operand otherLow otherHigh = 0 then .error .wasmTrap
  else if signed (operand low high) = -9223372036854775808 ∧
      signed (operand otherLow otherHigh) = -1 then .error .wasmTrap
  else .ok (words (Int.tdiv (signed (operand low high)) (signed (operand otherLow otherHigh))))

/-- The export `div_u` (`i64.div_u`): a trap when the divisor is zero. -/
def div_u (low high otherLow otherHigh : Int) : Except JSError (Int × Int) :=
  if operand otherLow otherHigh = 0 then .error .wasmTrap
  else .ok (words ((operand low high / operand otherLow otherHigh : Nat) : Int))

/-- The export `rem_s` (`i64.rem_s`): the remainder has the sign of the dividend; a trap
when the divisor is zero. -/
def rem_s (low high otherLow otherHigh : Int) : Except JSError (Int × Int) :=
  if operand otherLow otherHigh = 0 then .error .wasmTrap
  else .ok (words (Int.tmod (signed (operand low high)) (signed (operand otherLow otherHigh))))

/-- The export `rem_u` (`i64.rem_u`): a trap when the divisor is zero. -/
def rem_u (low high otherLow otherHigh : Int) : Except JSError (Int × Int) :=
  if operand otherLow otherHigh = 0 then .error .wasmTrap
  else .ok (words ((operand low high % operand otherLow otherHigh : Nat) : Int))

end Wasm

/-! ## Int64: comparison, shifts, multiplication and division

The operand of a binary method is an `Int64`: the conversion `Int64.from(other)` of an
operand that is a number or a string is not part of these definitions. -/

namespace Int64

/-- The constant `Int64.UNSIGNED_ONE`. -/
def UNSIGNED_ONE : Int64 := Int64.new 1 0 true

/-- The constant `Int64.NEGATIVE_ONE`. -/
def NEGATIVE_ONE : Int64 := Int64.new (-1) (-1) false

/-- The getter `isZero`. -/
def isZero (self : Int64) : Bool := decide (self.high = 0 ∧ self.low = 0)

/-- The getter `isNegative`. -/
def isNegative (self : Int64) : Bool := !self.unsigned && decide (self.high < 0)

/-- The getter `isOdd`: `(this.low & 1) === 1`. -/
def isOdd (self : Int64) : Bool := decide (self.low % 2 = 1)

/-- The method `toUnsigned`. -/
def toUnsigned (self : Int64) : Int64 :=
  if self.unsigned then self else Int64.new self.low self.high true

/-- The method `toSigned`. -/
def toSigned (self : Int64) : Int64 :=
  if !self.unsigned then self else Int64.new self.low self.high false

/-- The method `valueOf`, as an exact integer: `(high >>> 0) * 2^32 + (low >>> 0)` for an
unsigned value, `high * 2^32 + (low >>> 0)` for a signed one. The number that JavaScript
computes is this integer rounded to a double, the integer itself when its magnitude is
below 2^53. -/
def valueOf (self : Int64) : Int :=
  if self.unsigned then (toUint32 self.high : Int) * 4294967296 + (toUint32 self.low : Int)
  else self.high * 4294967296 + (toUint32 self.low : Int)

/-- The method `subtract`. -/
def subtract (self subtrahend : Int64) : Int64 := self.add subtrahend.negate

/-- The method `compare`. -/
def compare (self other : Int64) : Int :=
  if self.equals other then 0
  else
    let thisNeg := self.isNegative
    let otherNeg := other.isNegative
    if thisNeg && !otherNeg then -1
    else if !thisNeg && otherNeg then 1
    else if !self.unsigned then (if (self.subtract other).isNegative then -1 else 1)
    else if toUint32 other.high > toUint32 self.high ∨
        (other.high = self.high ∧ toUint32 other.low > toUint32 self.low) then -1
    else 1

/-- The method `greaterThan`. -/
def greaterThan (self other : Int64) : Bool := decide (self.compare other > 0)

/-- The method `greaterThanOrEqual`. -/
def greaterThanOrEqual (self other : Int64) : Bool := decide (self.compare other ≥ 0)

/-- The method `lessThan`. -/
def lessThan (self other : Int64) : Bool := decide (self.compare other < 0)

/-- The method `lessThanOrEqual`. -/
def lessThanOrEqual (self other : Int64) : Bool := decide (self.compare other ≤ 0)

/-- The function `fromInt(value, unsigned)`; the caches hold values that are equal
field by field to the ones built here. -/
def fromInt (value : Int) (unsigned : Bool) : Int64 :=
  if unsigned then
    let value : Int := toUint32 value
    Int64.new value (if Bvon.toInt32 value < 0 then -1 else 0) true
  else
    let value := Bvon.toInt32 value
    Int64.new value (if value < 0 then -1 else 0) false

/-- The constant `TWO_PWR_24`, `fromInt(1 << 24)`. -/
def TWO_PWR_24 : Int64 := fromInt 16777216 false

/-- The method `shiftLeft(numBits)` for a count that is a number: `numBits &= 63`, then
the words `low << numBits` and `(high << numBits) | (low >>> (32 - numBits))`, or `0` and
`low << (numBits - 32)`. The operator `|` acts on the 32-bit patterns of its operands. -/
def shiftLeft (self : Int64) (numBits : Int) : Int64 :=
  let numBits := (numBits % 64).toNat
  if numBits = 0 then self
  else if numBits < 32 then
    Int64.new (self.low * 2 ^ numBits)
      (toUint32 (self.high * 2 ^ numBits) ||| (toUint32 self.low >>> (32 - numBits)) : Nat)
      self.unsigned
  else Int64.new 0 (self.low * 2 ^ (numBits - 32)) self.unsigned

/-- The method `shiftRight(numBits)` for a count that is a number; `>>` divides a signed
word with rounding toward minus infinity. -/
def shiftRight (self : Int64) (numBits : Int) : Int64 :=
  let numBits := (numBits % 64).toNat
  if numBits = 0 then self
  else if numBits < 32 then
    Int64.new
      ((toUint32 self.low >>> numBits) ||| toUint32 (self.high * 2 ^ (32 - numBits)) : Nat)
      (self.high / 2 ^ numBits) self.unsigned
  else
    Int64.new (self.high / 2 ^ (numBits - 32)) (if self.high ≥ 0 then 0 else -1) self.unsigned

/-- The method `shiftRightUnsigned(numBits)` for a count that is a number: `high >>> n`
shifts the unsigned pattern of the high word, and the last branch is
`new Int64(this.high >> (numBits - 32), 0, this.unsigned)`, with the signed shift `>>`. -/
def shiftRightUnsigned (self : Int64) (numBits : Int) : Int64 :=
  let numBits := (numBits % 64).toNat
  if numBits = 0 then self
  else if numBits < 32 then
    Int64.new
      ((toUint32 self.low >>> numBits) ||| toUint32 (self.high * 2 ^ (32 - numBits)) : Nat)
      (toUint32 self.high >>> numBits : Nat) self.unsigned
  else if numBits = 32 then Int64.new self.high 0 self.unsigned
  else Int64.new (self.high / 2 ^ (numBits - 32)) 0 self.unsigned

/-- The method `toInt32` (the conversion of the low word, not the function `toInt32` of
the primitives): `this.unsigned ? this.low >>> 0 : this.low`. -/
def toInt32 (self : Int64) : Int :=
  if self.unsigned then (toUint32 self.low : Int) else self.low

/-- The last part of `multiply`: the sum of the products of the 16-bit chunks of both
values that reach the low 64 bits. Every intermediate sum but the last is below 2^32, and
the last is reduced by `& 0xffff`. -/
def multiplyChunks (self multiplier : Int64) : Int64 :=
  let a48 := toUint32 self.high >>> 16
  let a32 := toUint32 self.high &&& 0xffff
  let a16 := toUint32 self.low >>> 16
  let a00 := toUint32 self.low &&& 0xffff
  let b48 := toUint32 multiplier.high >>> 16
  let b32 := toUint32 multiplier.high &&& 0xffff
  let b16 := toUint32 multiplier.low >>> 16
  let b00 := toUint32 multiplier.low &&& 0xffff
  let c00 := a00 * b00
  let c16 := c00 >>> 16
  let c00 := c00 &&& 0xffff
  let c16 := c16 + a16 * b00
  let c32 := c16 >>> 16
  let c16 := c16 &&& 0xffff
  let c16 := c16 + a00 * b16
  let c32 := c32 + (c16 >>> 16)
  let c16 := c16 &&& 0xffff
  let c32 := c32 + a32 * b00
  let c48 := c32 >>> 16
  let c32 := c32 &&& 0xffff
  let c32 := c32 + a16 * b16
  let c48 := c48 + (c32 >>> 16)
  let c32 := c32 &&& 0xffff
  let c32 := c32 + a00 * b32
  let c48 := c48 + (c32 >>> 16)
  let c32 := c32 &&& 0xffff
  let c48 := c48 + (a48 * b00 + a32 * b16 + a16 * b32 + a00 * b48)
  let c48 := c48 &&& 0xffff
  Int64.new ((c16 <<< 16) ||| c00 : Nat) ((c48 <<< 16) ||| c32 : Nat) self.unsigned

/-- The method `multiply`, with the number of nested calls still allowed. The product
`this * multiplier` of the branch of small values is the product of two integers below
2^24, which a double holds exactly. -/
def multiplyFuel (wasm : Bool) : Nat → Int64 → Int64 → Except JSError Int64
  | 0, _, _ => .error .nestingBudget
  | fuel + 1, self, multiplier =>
    if self.isZero then .ok ZERO
    else if wasm then
      let product := Wasm.mul self.low self.high multiplier.low multiplier.high
      .ok (Int64.new product.1 product.2 self.unsigned)
    else if multiplier.isZero then .ok ZERO
    else if self.equals MIN_VALUE then .ok (if multiplier.isOdd then MIN_VALUE else ZERO)
    else if multiplier.equals MIN_VALUE then .ok (if self.isOdd then MIN_VALUE else ZERO)
    else if self.isNegative then
      if multiplier.isNegative then multiplyFuel wasm fuel self.negate multiplier.negate
      else (multiplyFuel wasm fuel self.negate multiplier).map negate
    else if multiplier.isNegative then
      (multiplyFuel wasm fuel self multiplier.negate).map negate
    else if self.lessThan TWO_PWR_24 && multiplier.lessThan TWO_PWR_24 then
      .ok (fromNumber (some (self.valueOf * multiplier.valueOf)) self.unsigned)
    else .ok (multiplyChunks self multiplier)

/-- The method `multiply`. A nested call is made on negated operands only, so three
calls are the deepest nesting. -/
def multiply (wasm : Bool) (self multiplier : Int64) : Except JSError Int64 :=
  multiplyFuel wasm 3 self multiplier

/-- The loop at the end of `divide`. Its condition `rem.greaterThanOrEquals(divisor)`
names a method that the class does not define (its comparison methods are `greaterThan`,
`greaterThanOrEqual`, `lessThan` and `lessThanOrEqual`): the member is `undefined` and
calling it is a `TypeError`, raised when the condition is evaluated for the first time,
before the body of the loop runs. -/
def divideLoop : Except JSError Int64 := .error .typeError

/-- The method `divide`, with the number of nested calls still allowed. -/
def divideFuel (wasm : Bool) : Nat → Int64 → Int64 → Except JSError Int64
  | 0, _, _ => .error .nestingBudget
  | fuel + 1, self, divisor =>
    if divisor.isZero then .error .divisionByZero
    else if wasm then
      if !self.unsigned && decide (self.high = -0x80000000) && decide (divisor.low = -1) &&
          decide (divisor.high = -1) then
        .ok self
      else
        match (if self.unsigned then Wasm.div_u else Wasm.div_s)
            self.low self.high divisor.low divisor.high with
        | .error e => .error e
        | .ok quotient => .ok (Int64.new quotient.1 quotient.2 self.unsigned)
    else if self.isZero then .ok (if self.unsigned then UNSIGNED_ZERO else ZERO)
    else if !self.unsigned then
      if self.equals MIN_VALUE then
        if divisor.equals ONE || divisor.equals NEGATIVE_ONE then .ok MIN_VALUE
        else if divisor.equals MIN_VALUE then .ok ONE
        else do
          let halfThis := self.shiftRight 1
          let approx := (← divideFuel wasm fuel halfThis divisor).shiftLeft 1
          if approx.equals ZERO then
            pure (if divisor.isNegative then ONE else NEGATIVE_ONE)
          else do
            let rem := self.subtract (← multiply wasm divisor approx)
            let res := approx.add (← divideFuel wasm fuel rem divisor)
            pure res
      else if divisor.equals MIN_VALUE then
        .ok (if self.unsigned then UNSIGNED_ZERO else ZERO)
      else if self.isNegative then
        if divisor.isNegative then divideFuel wasm fuel self.negate divisor.negate
        else (divideFuel wasm fuel self.negate divisor).map negate
      else if divisor.isNegative then
        (divideFuel wasm fuel self divisor.negate).map negate
      else divideLoop
    else
      let divisor := if !divisor.unsigned then divisor.toUnsigned else divisor
      if divisor.greaterThan self then .ok UNSIGNED_ZERO
      else if divisor.greaterThan (self.shiftRightUnsigned 1) then .ok UNSIGNED_ONE
      else divideLoop

/-- The method `divide`. A nested call is made on the halved minimum value or on negated
operands, so four calls are the deepest nesting. -/
def divide (wasm : Bool) (self divisor : Int64) : Except JSError Int64 :=
  divideFuel wasm 4 self divisor

/-- The method `mod`. -/
def mod (wasm : Bool) (self divisor : Int64) : Except JSError Int64 :=
  if wasm then
    match (if self.unsigned then Wasm.rem_u else Wasm.rem_s)
        self.low self.high divisor.low divisor.high with
    | .error e => .error e
    | .ok remainder => .ok (Int64.new remainder.1 remainder.2 self.unsigned)
  else do
    let quotient ← divide wasm self divisor
    let product ← multiply wasm quotient divisor
    pure (self.subtract product)

/-- The method `remainder`. -/
def remainder (wasm : Bool) (self divisor : Int64) : Except JSError Int64 :=
  mod wasm self divisor

end Int64

/-! ## Int64: conversion to and from text -/

/-- The character of a digit value below 36, as `Number.prototype.toString` writes it:
`0` to `9`, then `a` to `z`. -/
def digitChar (digit : Nat) : Nat := if digit < 10 then 0x30 + digit else 0x61 + (digit - 10)

/-- The digits of a non-negative integer in a radix, most significant first, written in
front of `result`; `fuel` bounds the number of digits. -/
def digitsCore (radix : Nat) : Nat → Nat → JSString → JSString
  | 0, _, result => result
  | fuel + 1, n, result =>
    let result := digitChar (n % radix) :: result
    if n / radix = 0 then result else digitsCore radix fuel (n / radix) result

/-- The builtin `Number.prototype.toString(radix)` on an integer of magnitude below 2^53
and a radix from 2 to 36. -/
def numberToString (n : Int) (radix : Nat) : JSString :=
  if n < 0 then 0x2D :: digitsCore radix (n.natAbs + 1) n.natAbs []
  else digitsCore radix (n.natAbs + 1) n.natAbs []

/-- The white space that `parseInt` skips at the start of its text: the white-space and
line-terminator code points of ECMAScript. -/
def isStrWhiteSpace (c : Nat) : Bool :=
  decide (c = 0x09 ∨ c = 0x0A ∨ c = 0x0B ∨ c = 0x0C ∨ c = 0x0D ∨ c = 0x20 ∨ c = 0xA0 ∨
    c = 0x1680 ∨ (0x2000 ≤ c ∧ c ≤ 0x200A) ∨ c = 0x2028 ∨ c = 0x2029 ∨ c = 0x202F ∨
    c = 0x205F ∨ c = 0x3000 ∨ c = 0xFEFF)

/-- The value of a character as a digit, letters of both cases counting from 10; 36 for a
character that is no digit in any radix. -/
def digitValue (c : Nat) : Nat :=
  if 0x30 ≤ c ∧ c ≤ 0x39 then c - 0x30
  else if 0x61 ≤ c ∧ c ≤ 0x7A then c - 0x61 + 10
  else if 0x41 ≤ c ∧ c ≤ 0x5A then c - 0x41 + 10
  else 36

/-- The builtin `parseInt(string, radix)` for a radix from 2 to 36; `none` is NaN. Leading
white space is skipped, one sign is read, a radix of 16 allows the prefix `0x`, and the
longest run of digits of the radix is the value; with no digit the result is NaN. The
value is exact when it is below 2^53, as it is for the texts of at most eight characters
that `fromString` passes. -/
def parseInt (string : JSString) (radix : Nat) : Option Int :=
  let text := string.dropWhile isStrWhiteSpace
  let negative := decide (text.head? = some 0x2D)
  let text := if text.head? = some 0x2D ∨ text.head? = some 0x2B then text.tail else text
  let text :=
    if radix = 16 ∧ (text.take 2 = [0x30, 0x78] ∨ text.take 2 = [0x30, 0x58]) then text.drop 2
    else text
  let digits := text.takeWhile fun c => decide (digitValue c < radix)
  if digits = [] then none
  else
    let value : Nat := digits.foldl (fun acc c => acc * radix + digitValue c) 0
    some (if negative then -(value : Int) else (value : Int))

namespace Int64

/-- The loop of `toString`, with the number of iterations still allowed: the quotient and
the remainder by `radixToPower`, the digits of the remainder, and for every group but the
first one the padding with zeros to six digits. -/
def toStringLoop (wasm : Bool) (radix : Nat) (radixToPower : Int64) :
    Nat → Int64 → JSString → Except JSError JSString
  | 0, _, _ => .error .nestingBudget
  | fuel + 1, rem, result => do
    let remDiv ← divide wasm rem radixToPower
    let intval := toUint32 (rem.subtract (← multiply wasm remDiv radixToPower)).toInt32
    let digits := numberToString intval radix
    if remDiv.isZero then pure (digits ++ result)
    else
      toStringLoop wasm radix radixToPower fuel remDiv
        (List.replicate (6 - digits.length) 0x30 ++ digits ++ result)

/-- The method `toString(radix)` for a radix that is an integer (0 stands for a radix
that is left out or zero, replaced by 10), with the number of nested calls still allowed.
`Math.pow(radix, 6)` is an integer below 2^32, which a double holds exactly. Every
iteration of the loop divides by at least 64, so a 64-bit value is consumed within 11
iterations. -/
def toStringFuel (wasm : Bool) (radix : Nat) : Nat → Int64 → Except JSError JSString
  | 0, _ => .error .nestingBudget
  | fuel + 1, self =>
    let radix := if radix = 0 then 10 else radix
    if radix < 2 ∨ radix > 36 then .error .radix
    else if self.isZero then .ok [0x30]
    else if self.isNegative then
      if self.equals MIN_VALUE then do
        let radixLong := fromNumber (some (radix : Int)) false
        let div ← divide wasm self radixLong
        let rem1 := (← multiply wasm div radixLong).subtract self
        let head ← toStringFuel wasm radix fuel div
        pure (head ++ numberToString rem1.toInt32 radix)
      else do
        let digits ← toStringFuel wasm radix fuel self.negate
        pure (0x2D :: digits)
    else
      let radixToPower := fromNumber (some ((radix : Int) ^ 6)) self.unsigned
      toStringLoop wasm radix radixToPower 11 self []

/-- The method `toString(radix)`. A nested call is made on the quotient of the minimum
value and on a negated value, so three calls are the deepest nesting. -/
def toString (wasm : Bool) (self : Int64) (radix : Nat) : Except JSError JSString :=
  toStringFuel wasm radix 3 self

/-- The loop of `fromString` over the groups of eight characters, `iterations` of them
from `index` on. -/
def fromStringLoop (wasm : Bool) (str : JSString) (radix : Nat) (radixToPower : Int64) :
    Nat → Nat → Int64 → Except JSError Int64
  | 0, _, result => .ok result
  | iterations + 1, index, result => do
    let size := min 8 (str.length - index)
    let value := parseInt ((str.drop index).take size) radix
    if size < 8 then do
      let power := fromNumber (some ((radix : Int) ^ size)) false
      let result := (← multiply wasm result power).add (fromNumber value false)
      fromStringLoop wasm str radix radixToPower iterations (index + 8) result
    else do
      let result ← multiply wasm result radixToPower
      let result := result.add (fromNumber value false)
      fromStringLoop wasm str radix radixToPower iterations (index + 8) result

/-- The text `NaN`. -/
def textNaN : JSString := [0x4E, 0x61, 0x4E]

/-- The text `Infinity`. -/
def textInfinity : JSString := [0x49, 0x6E, 0x66, 0x69, 0x6E, 0x69, 0x74, 0x79]

/-- The function `fromString(str, unsigned, radix)` for `unsigned` a boolean and `radix`
an integer (0 stands for a radix that is left out or zero, replaced by 10). The loop
`while (index < str.length)` with `index += 8` runs once for every group of eight
characters. `Math.pow(radix, 8)` is an integer below 2^53, which a double holds
exactly. -/
def fromString (wasm : Bool) (unsigned : Bool) (radix : Nat) : JSString → Except JSError Int64
  | [] => .error .emptyString
  | first :: rest =>
    let str := first :: rest
    if str = textNaN ∨ str = textInfinity ∨ str = 0x2B :: textInfinity ∨
        str = 0x2D :: textInfinity then .ok ZERO
    else
      let radix := if radix = 0 then 10 else radix
      if radix < 2 ∨ radix > 36 then .error .radix
      else if first ≠ 0x2D ∧ 0x2D ∈ rest then .error .interiorHyphen
      else if first = 0x2D then (fromString wasm unsigned radix rest).map negate
      else do
        let radixToPower := fromNumber (some ((radix : Int) ^ 8)) false
        let result ← fromStringLoop wasm str radix radixToPower ((str.length + 7) / 8) 0 ZERO
        pure (Int64.new result.low result.high unsigned)

/-- The second argument of `Int64.from(value, unsigned)`: left out, a boolean or a
number. -/
inductive Second where
  | undefined
  | boolean (b : Bool)
  | number (n : Nat)

/-- The static method `Int64.from(value, unsigned)` on a string: `fromString(value,
unsigned)`, in which a second argument that is a number is the radix
(`radix = unsigned; unsigned = false`) and any other one is converted to a boolean. -/
def fromText (wasm : Bool) (value : JSString) (unsigned : Second) : Except JSError Int64 :=
  match unsigned with
  | .undefined => fromString wasm false 0 value
  | .boolean b => fromString wasm b 0 value
  | .number n => fromString wasm false n value

end Int64

/-! ## Values -/

/-- The JavaScript values the codec handles. A plain record lists its own enumerable
fields in `Object.keys` order. A `classInstance` is an object whose prototype belongs to
a class other than the built-in ones: `kind` identifies the class (its `constructor`),
`fields` are its own enumerable fields, and `args` is the value that the `args` function
registered for that class returns for this object (unused when the class is not in the
registry). Boxed numbers and strings, subclasses of the built-in containers and objects
with a `toBVON` method are not represented. -/
inductive Value where
  | undefined
  | null
  | boolean (b : Bool)
  | number (n : JSNumber)
  | bigint (b : Int)
  | string (s : JSString)
  | int64 (x : Int64)
  /-- A `Date`; `none` is the invalid date, whose time value is NaN. -/
  | date (time : Option Int)
  | array (items : List Value)
  | object (fields : List (JSString × Value))
  | map (entries : List (Value × Value))
  | set (members : List Value)
  | byteView (bytes : List Nat)
  | regExp (source flags : JSString)
  | uoid (text : JSString)
  | classInstance (kind : Nat) (fields : List (JSString × Value)) (args : Value)

/-! The wire tags (`TYPES`). -/

namespace TYPES

abbrev UNDEFINED : Nat := 0x0
abbrev NULL : Nat := 0x1
abbrev INT32 : Nat := 0x2
abbrev INT64 : Nat := 0x3
abbrev DOUBLE : Nat := 0x4
abbrev BIGINT : Nat := 0x5
abbrev STRING : Nat := 0x6
abbrev BOOLEAN : Nat := 0x7
abbrev DATE : Nat := 0x8
abbrev OBJECT : Nat := 0x9
abbrev ARRAY : Nat := 0xa
abbrev BYTEVIEW : Nat := 0xb
abbrev SET : Nat := 0xc
abbrev MAP : Nat := 0xd
abbrev DB_REF : Nat := 0xe
abbrev REGEX : Nat := 0xf
abbrev UOID : Nat := 0x10
abbrev CONSTRUCTOR : Nat := 0xff

end TYPES

/-- The constant `INT32_MAX`. -/
abbrev INT32_MAX : Int := 0x7fffffff

/-- The constant `INT32_MIN`. -/
abbrev INT32_MIN : Int := -0x80000000

/-! ## The interning tables -/

/-- A JavaScript `Map` from strings to numbers, as its entries in insertion order. -/
abbrev JSMap := List (JSString × Nat)

/-- The method `Map.prototype.get`; `none` is `undefined`. -/
def JSMap.get (m : JSMap) (key : JSString) : Option Nat :=
  match m with
  | [] => none
  | (k, v) :: rest => if k = key then some v else JSMap.get rest key

/-- The method `Map.prototype.has`. -/
def JSMap.has (m : JSMap) (key : JSString) : Bool := (JSMap.get m key).isSome

/-- The method `Map.prototype.set`: the value of a present key is replaced in place, a
new key is appended. -/
def JSMap.set (m : JSMap) (key : JSString) (value : Nat) : JSMap :=
  match m with
  | [] => [(key, value)]
  | (k, v) :: rest => if k = key then (k, value) :: rest else (k, v) :: JSMap.set rest key value

/-- A JavaScript array of strings that may have holes (`none` is a hole, read as
`undefined`). -/
abbrev JSArray := List (Option JSString)

/-- The element read `array[index]`; `none` is `undefined`. -/
def JSArray.get (a : JSArray) (index : Nat) : Option JSString := (a.getD index none)

/-- The assignment `array[index] = value`: an index at or past the length extends the
array, leaving holes in between. -/
def JSArray.set (a : JSArray) (index : Nat) (value : JSString) : JSArray :=
  if index < a.length then List.set a index (some value)
  else a ++ List.replicate (index - a.length) none ++ [some value]

/-- The decimal text of an array index, as `Object.keys` names it. -/
def decimalString (n : Nat) : JSString := (Nat.toDigits 10 n).map Char.toNat

/-! ## Schema -/

/-- The class `Schema`: the forward table `refs`, the counter `refIndex` and the inverse
array `map` (the field `serializers`, an array that is never used, is left out). -/
structure Schema where
  refs : JSMap
  refIndex : Nat
  map : JSArray
  deriving DecidableEq, Repr

namespace Schema

/-- The registration step of `#getKeys`: `if (this.refs.has(key) === false)` then
`this.refs.set(key, ++this.refIndex)` and `this.map[this.refIndex] = key`. -/
def register (self : Schema) (key : JSString) : Schema :=
  if JSMap.has self.refs key = false then
    { refs := JSMap.set self.refs key (self.refIndex + 1),
      refIndex := self.refIndex + 1,
      map := JSArray.set self.map (self.refIndex + 1) key }
  else self

/-- The registration of the index names `start`, `start + 1`, ... of `count` elements
that are not objects (the bytes of a `ByteView`). -/
def registerIndices (self : Schema) (start : Nat) : Nat → Schema
  | 0 => self
  | count + 1 => registerIndices (self.register (decimalString start)) (start + 1) count

mutual
/-- The method `#getKeys(obj)` on an object: every name of `Object.keys(obj)` is
registered, and a value that is an object is searched (`#searchArray` for an array,
`#getKeys` otherwise). Maps, sets, dates, regular expressions and identifiers have no
own enumerable names; an `Int64` has the names `0` and `1` of its two words, a `ByteView`
the indices of its bytes, an array the indices of its elements. -/
def getKeys : Value → Schema → Schema
  | .object fields, self => getKeysFields fields self
  | .classInstance _ fields _, self => getKeysFields fields self
  | .array items, self => getKeysItems items 0 self
  | .int64 _, self => (self.register (decimalString 0)).register (decimalString 1)
  | .byteView bytes, self => self.registerIndices 0 bytes.length
  | _, self => self
/-- The value test of both walks: `if (v && typeof v === 'object')`, then
`Array.isArray(v) ? #searchArray(v) : #getKeys(v)`. -/
def searchValue : Value → Schema → Schema
  | .array items, self => searchArray items self
  | .object fields, self => getKeysFields fields self
  | .classInstance _ fields _, self => getKeysFields fields self
  | .int64 _, self => (self.register (decimalString 0)).register (decimalString 1)
  | .byteView bytes, self => self.registerIndices 0 bytes.length
  | _, self => self
/-- The loop of `#getKeys` over the fields of a record. -/
def getKeysFields : List (JSString × Value) → Schema → Schema
  | [], self => self
  | (key, value) :: rest, self => getKeysFields rest (searchValue value (self.register key))
/-- The loop of `#getKeys` over the index names of an array. -/
def getKeysItems : List Value → Nat → Schema → Schema
  | [], _, self => self
  | item :: rest, index, self =>
    getKeysItems rest (index + 1) (searchValue item (self.register (decimalString index)))
/-- The method `#searchArray(obj)`. -/
def searchArray : List Value → Schema → Schema
  | [], self => self
  | item :: rest, self => searchArray rest (searchValue item self)
end

/-- The state of a `Schema` before `#getKeys` runs in the constructor. -/
def empty : Schema := { refs := [], refIndex := 0, map := [] }

/-- The constructor `new Schema(obj)`: `Object.keys` throws a `TypeError` on `null` and
`undefined`; a string has its indices as names; other primitives have none. -/
def new (obj : Value) : Except JSError Schema :=
  match obj with
  | .null => .error .typeError
  | .undefined => .error .typeError
  | .string s => .ok (empty.registerIndices 0 s.length)
  | v => .ok (getKeys v empty)

end Schema

/-! ## The byte buffer of the writer -/

/-- The bytes of a `ByteView`, by index. The view the writer owns is allocated once
(33,554,432 zero bytes by default) and reused by every call; its capacity is not
represented. -/
abbrev Buffer := Nat → Nat

namespace Buffer

/-- The fresh buffer `new ByteView(size)`: every byte is zero. -/
def zero : Buffer := fun _ => 0

/-- The element store `buffer[index] = number` of a byte array: the value is kept
modulo 256. -/
def setByte (buffer : Buffer) (index : Nat) (number : Nat) : Buffer :=
  fun i => if i = index then number % 256 else buffer i

/-- The stores of consecutive bytes from `offset` on (`buffer.set(bytes, offset)`, and
the multi-byte accessors once their bytes are laid out). -/
def setBytes (buffer : Buffer) (offset : Nat) : List Nat → Buffer
  | [] => buffer
  | b :: rest => setBytes (setByte buffer offset b) (offset + 1) rest

/-- The method `buffer.slice(start, end)`. -/
def slice (buffer : Buffer) (start stop : Nat) : List Nat :=
  (List.range (stop - start)).map (fun i => buffer (start + i))

end Buffer

/-- The `count` low bytes of `n`, least significant first. -/
def littleEndian : Nat → Nat → List Nat
  | 0, _ => []
  | count + 1, n => n % 256 :: littleEndian count (n / 256)

/-- The `count` low bytes of `n`, most significant first. -/
def bigEndian (count : Nat) (n : Nat) : List Nat := (littleEndian count n).reverse

/-! ## The writer (`BVONSerializer`) -/

/-- An entry of the registry of custom types: the class (`constructor`), its `code` and
its `build` function. The `args` function is represented by the field `args` of a
`Value.classInstance`. -/
structure BVONConstructor where
  kind : Nat
  code : Nat
  build : List Value → Value

/-- The class `BVONSerializer`. -/
structure BVONSerializer where
  map : JSMap
  buffer : Buffer
  offset : Nat
  constructors : List BVONConstructor
  refIndex : Nat

/-- The function `getBigIntByteLength`, first loop: `while (left > min32)` with
`bytes += 4` and `left >>= bit32` on arbitrary-precision integers. -/
def bigIntLoop32 : Nat → Int → Nat → Int × Nat
  | 0, left, bytes => (left, bytes)
  | fuel + 1, left, bytes =>
    if left > 0xffffffff then bigIntLoop32 fuel (left / 4294967296) (bytes + 4)
    else (left, bytes)

/-- The function `getBigIntByteLength`, second loop: `while (left > 0xffff)` with
`bytes += 2` and `left >>= 16`, a shift of the number converted to a signed 32-bit
integer. -/
def bigIntLoop16 : Nat → Int → Nat → Int × Nat
  | 0, left, bytes => (left, bytes)
  | fuel + 1, left, bytes =>
    if left > 0xffff then bigIntLoop16 fuel (toInt32 left / 65536) (bytes + 2)
    else (left, bytes)

/-- The function `getBigIntByteLength`, third loop: `while (left > 0)` with `++bytes`
and `left >>= 8`. -/
def bigIntLoop8 : Nat → Int → Nat → Int × Nat
  | 0, left, bytes => (left, bytes)
  | fuel + 1, left, bytes =>
    if left > 0 then bigIntLoop8 fuel (toInt32 left / 256) (bytes + 1)
    else (left, bytes)

/-- The function `getBigIntByteLength(bi)`. Each loop strictly decreases a positive
`left`, so `left` itself bounds the number of its iterations. -/
def getBigIntByteLength (bi : Int) : Nat :=
  let r32 := bigIntLoop32 bi.toNat bi 0
  let r16 := bigIntLoop16 r32.1.toNat r32.1 r32.2
  let r8 := bigIntLoop8 r16.1.toNat r16.1 r16.2
  r8.2

namespace BVONSerializer

/-- The constructor, with the default registry `builtinConstructors` (empty) unless one
is given. -/
def new (constructors : List BVONConstructor) : BVONSerializer :=
  { map := [], buffer := Buffer.zero, offset := 0, constructors := constructors, refIndex := 0 }

/-- The method `reset` (its last statement `this.buffer.set(0, 0)` copies from a source
of no elements and changes no byte). -/
def reset (self : BVONSerializer) : BVONSerializer :=
  { self with offset := 0, refIndex := 0, map := [] }

/-- The method `setUint8`. -/
def setUint8 (number : Nat) : Step BVONSerializer Unit :=
  Step.modify fun self =>
    { self with buffer := self.buffer.setByte self.offset number, offset := self.offset + 1 }

/-- The method `setUint16`: `number & 0xff` then `number >> 8`. -/
def setUint16 (number : Nat) : Step BVONSerializer Unit :=
  Step.modify fun self =>
    { self with
      buffer := (self.buffer.setByte self.offset (number &&& 0xff)).setByte (self.offset + 1)
        (number >>> 8),
      offset := self.offset + 2 }

/-- The method `setUint32`: the accessor `setUint32(offset, number, true)` of the view,
little-endian. -/
def setUint32 (number : Nat) : Step BVONSerializer Unit :=
  Step.modify fun self =>
    { self with
      buffer := self.buffer.setBytes self.offset (littleEndian 4 number),
      offset := self.offset + 4 }

/-- The method `setInt32`: the accessor `setInt32(offset, number, true)` of the view,
little-endian two-complement. -/
def setInt32 (number : Int) : Step BVONSerializer Unit :=
  Step.modify fun self =>
    { self with
      buffer := self.buffer.setBytes self.offset (littleEndian 4 (toUint32 number)),
      offset := self.offset + 4 }

/-- The method `setInt64`: the bytes `low & 0xff`, `(low >> 8) & 0xff`, ... of the low
word, then those of the high word. -/
def setInt64 (value : Int64) : Step BVONSerializer Unit :=
  Step.modify fun self =>
    { self with
      buffer := self.buffer.setBytes self.offset
        [(value.low % 256).toNat, (value.low / 256 % 256).toNat,
          (value.low / 65536 % 256).toNat, (value.low / 16777216 % 256).toNat,
          (value.high % 256).toNat, (value.high / 256 % 256).toNat,
          (value.high / 65536 % 256).toNat, (value.high / 16777216 % 256).toNat],
      offset := self.offset + 8 }

/-- The method `setFloat64`: the accessor `setFloat64(offset, number, true)` of the view,
the eight bytes of the double, little-endian. -/
def setFloat64 (number : JSNumber) : Step BVONSerializer Unit :=
  Step.modify fun self =>
    { self with
      buffer := self.buffer.setBytes self.offset (littleEndian 8 number.bits),
      offset := self.offset + 8 }

/-- The method `setBigInt`, first loop: `offset -= 4`, then
`setInt32(offset, Number(left & min32))` of the view, called with no little-endian flag
and so big-endian (the specification calls these chunks big-endian), then
`left >>= bit32`. -/
def setBigIntLoop32 : Nat → Int → Nat → Buffer → Int × Nat × Buffer
  | 0, left, offset, buffer => (left, offset, buffer)
  | fuel + 1, left, offset, buffer =>
    if left > 0xffffffff then
      setBigIntLoop32 fuel (left / 4294967296) (offset - 4)
        (buffer.setBytes (offset - 4) (bigEndian 4 (left % 4294967296).toNat))
    else (left, offset, buffer)

/-- The method `setBigInt`, second loop: `offset -= 2`, then
`setInt16(offset, left & 0xffff)` of the view (big-endian), then `left >>= 16`. -/
def setBigIntLoop16 : Nat → Int → Nat → Buffer → Int × Nat × Buffer
  | 0, left, offset, buffer => (left, offset, buffer)
  | fuel + 1, left, offset, buffer =>
    if left > 0xffff then
      setBigIntLoop16 fuel (toInt32 left / 65536) (offset - 2)
        (buffer.setBytes (offset - 2) (bigEndian 2 (left % 65536).toNat))
    else (left, offset, buffer)

/-- The method `setBigInt`, third loop: `offset -= 1`, then
`setInt8(offset, left & 0xff)` of the view, then `left >>= 8`. -/
def setBigIntLoop8 : Nat → Int → Nat → Buffer → Int × Nat × Buffer
  | 0, left, offset, buffer => (left, offset, buffer)
  | fuel + 1, left, offset, buffer =>
    if left > 0 then
      setBigIntLoop8 fuel (toInt32 left / 256) (offset - 1)
        (buffer.setBytes (offset - 1) (bigEndian 1 (left % 256).toNat))
    else (left, offset, buffer)

/-- The method `setBigInt(byteLength, number)`. -/
def setBigInt (byteLength : Nat) (number : Int) : Step BVONSerializer Unit :=
  Step.modify fun self =>
    let r32 := setBigIntLoop32 number.toNat number (self.offset + byteLength) self.buffer
    let r16 := setBigIntLoop16 r32.1.toNat r32.1 r32.2.1 r32.2.2
    let r8 := setBigIntLoop8 r16.1.toNat r16.1 r16.2.1 r16.2.2
    { self with buffer := r8.2.2, offset := self.offset + byteLength }

/-- The method `writeHeader`. -/
def writeHeader (byteLength : Nat) : Step BVONSerializer Unit :=
  if byteLength < 0x100 then do
    setUint8 8
    setUint8 byteLength
  else if byteLength < 0x10000 then do
    setUint8 16
    setUint16 byteLength
  else if byteLength < 0x100000000 then do
    setUint8 32
    setUint32 byteLength
  else
    Step.throw .headerRange

/-- The copy of encoded bytes at the write position: `this.buffer.set(bytes, this.offset)`
then `this.offset += bytes.length`. -/
def setView (bytes : List Nat) : Step BVONSerializer Unit :=
  Step.modify fun self =>
    { self with buffer := self.buffer.setBytes self.offset bytes,
                offset := self.offset + bytes.length }

/-- The call `byteEncoder.encode(string)` inside a writer method: its exception leaves
the writer as it is at that point. -/
def encode (string : JSString) : Step BVONSerializer (List Nat) :=
  fun self =>
    match ByteEncoder.encode string with
    | .ok bytes => .ok bytes self
    | .error e => .error e self

/-- The method `writeString`. -/
def writeString (string : JSString) : Step BVONSerializer Unit := do
  setUint8 TYPES.STRING
  let bytes ← encode string
  writeHeader bytes.length
  setView bytes

/-- The method `useSchema`: `this.map = schema.refs` makes the writer share the table of
the schema, and `this.refIndex = schema.refIndex` copies the counter. -/
def useSchema (schema : Schema) (self : BVONSerializer) : BVONSerializer :=
  { self with map := schema.refs, refIndex := schema.refIndex }

/-- The lookup `this.constructors.get(constructor)` in the registry, a `Map` built from
the list of entries, where a later entry of the same class replaces an earlier one. -/
def findConstructor (constructors : List BVONConstructor) (kind : Nat) :
    Option BVONConstructor :=
  constructors.reverse.find? (fun c => c.kind = kind)

/-- The lookup `this.map.get(string)`; `none` is `undefined`. -/
def getRef (string : JSString) : Step BVONSerializer (Option Nat) :=
  fun self => .ok (JSMap.get self.map string) self

/-- The lookup `this.constructors.get(constructor)` of `writeCustomType`. -/
def getConstructor (kind : Nat) : Step BVONSerializer (Option BVONConstructor) :=
  fun self => .ok (findConstructor self.constructors kind) self

/-- The method `writeRef`. -/
def writeRef (ref : Nat) : Step BVONSerializer Unit := do
  setUint8 TYPES.DB_REF
  writeHeader ref

/-- The method `writeKey` (its `console.log(string)` has no effect on the writer). The
test `!ref` holds when the name has no entry and also when its entry is the number 0. -/
def writeKey (string : JSString) : Step BVONSerializer Unit := do
  let ref ← getRef string
  if ref = none ∨ ref = some 0 then do
    Step.modify fun self =>
      { self with map := JSMap.set self.map string self.refIndex, refIndex := self.refIndex + 1 }
    setUint8 TYPES.STRING
    let bytes ← encode string
    writeHeader bytes.length
    setView bytes
  else
    writeRef (ref.getD 0)

/-- The method `writeUOID`. -/
def writeUOID (string : JSString) : Step BVONSerializer Unit := do
  setUint8 TYPES.UOID
  let bytes ← encode string
  writeHeader bytes.length
  setView bytes

/-- The method `writeInteger`. -/
def writeInteger (number : Int) : Step BVONSerializer Unit := do
  setUint8 TYPES.INT32
  setInt32 number

/-- The method `writeInteger64`. -/
def writeInteger64 (number : Int64) : Step BVONSerializer Unit := do
  setUint8 TYPES.INT64
  setInt64 number

/-- The method `writeDouble`. -/
def writeDouble (number : JSNumber) : Step BVONSerializer Unit := do
  setUint8 TYPES.DOUBLE
  setFloat64 number

/-- The method `writeNumber`. Inside the branch of safe integers the number is the
integer `i` that `toInt?` gives, which the comparisons with `INT32_MAX` and `INT32_MIN`
and the call `Int64.from(number)` (that is `fromNumber(number, undefined)`) use. -/
def writeNumber (number : JSNumber) : Step BVONSerializer Unit :=
  let isNegativeZero := number.isNegativeZero
  if !isNegativeZero && number.isSafeInteger then
    match number.toInt? with
    | some i =>
      if i ≤ INT32_MAX ∧ i ≥ INT32_MIN then writeInteger i
      else writeInteger64 (Int64.fromNumber (some i) false)
    | none => writeDouble number
  else writeDouble number

/-- The method `writeDate`: `date.valueOf()` is the time value, NaN for an invalid date. -/
def writeDate (time : Option Int) : Step BVONSerializer Unit := do
  setUint8 TYPES.DATE
  setInt64 (Int64.fromNumber time false)

/-- The method `writeBigInt`, for an argument that is a `bigint`. -/
def writeBigInt (number : Int) : Step BVONSerializer Unit := do
  let byteLength := getBigIntByteLength number
  setUint8 TYPES.BIGINT
  writeHeader byteLength
  setBigInt byteLength number

/-- The method `writeBoolean`. -/
def writeBoolean (bool : Bool) : Step BVONSerializer Unit := do
  setUint8 TYPES.BOOLEAN
  setUint8 (if bool then 1 else 0)

/-- The method `writeView`. -/
def writeView (item : List Nat) : Step BVONSerializer Unit := do
  setUint8 TYPES.BYTEVIEW
  writeHeader item.length
  setView item

mutual
/-- The method `write(item)` with `writeObject`, `writeArray`, `writeSet`, `writeMap` and
`writeCustomType` inlined at their call sites. -/
def write : Value → Step BVONSerializer Unit
  | .undefined => setUint8 TYPES.NULL
  | .null => setUint8 TYPES.NULL
  | .bigint b => writeBigInt b
  | .string s => writeString s
  | .number n => writeNumber n
  | .boolean b => writeBoolean b
  | .date time => writeDate time
  | .int64 x => writeInteger64 x
  | .array items => do
    setUint8 TYPES.ARRAY
    writeHeader items.length
    writeMembers items
  | .map entries => do
    setUint8 TYPES.MAP
    writeHeader entries.length
    writeEntries entries
  | .uoid text => writeUOID text
  | .set members => do
    setUint8 TYPES.SET
    writeHeader members.length
    writeMembers members
  | .byteView bytes => writeView bytes
  | .regExp source flags => do
    setUint8 TYPES.REGEX
    writeString source
    writeString flags
  | .object fields => do
    setUint8 TYPES.OBJECT
    writeHeader fields.length
    writeFields fields
  | .classInstance kind fields args => do
    let entry ← getConstructor kind
    match entry with
    | some entry => do
      setUint8 TYPES.CONSTRUCTOR
      writeHeader entry.code
      write args
    | none => do
      setUint8 TYPES.OBJECT
      writeHeader fields.length
      writeStringFields fields
/-- The loop `for (const member of item) this.write(member)`. -/
def writeMembers : List Value → Step BVONSerializer Unit
  | [] => pure ()
  | member :: rest => do
    write member
    writeMembers rest
/-- The loop `for (const [key, value] of item)` of `writeMap`. -/
def writeEntries : List (Value × Value) → Step BVONSerializer Unit
  | [] => pure ()
  | (key, value) :: rest => do
    write key
    write value
    writeEntries rest
/-- The loop over `Object.keys(item)` of a plain record: `writeKey` then `write`. -/
def writeFields : List (JSString × Value) → Step BVONSerializer Unit
  | [] => pure ()
  | (key, value) :: rest => do
    writeKey key
    write value
    writeFields rest
/-- The loop over `Object.keys(item)` of an object of an unregistered class:
`writeString` then `write`. -/
def writeStringFields : List (JSString × Value) → Step BVONSerializer Unit
  | [] => pure ()
  | (key, value) :: rest => do
    writeString key
    write value
    writeStringFields rest
end

end BVONSerializer

/-! ## The reader (`BVONDeserializer`) -/

/-- A number the reader uses as a length or an id: a non-negative integer, `undefined`
(a byte read past the end of the buffer) or NaN. -/
inductive Length where
  | num (n : Nat)
  | undefined
  | nan
  deriving DecidableEq, Repr

/-- Whether a byte is a UTF-8 continuation byte. -/
def isContinuation (b : Nat) : Bool := decide (0x80 ≤ b ∧ b < 0xC0)

/-- Modelled from the spec: the text decoding `ByteView.prototype.toString` of the
external byte-buffer package, as UTF-8 decoding into UTF-16 code units in which malformed
bytes are an error (`none`), not silently repaired. -/
def utf8Decode : List Nat → Option JSString
  | [] => some []
  | b :: rest =>
    if b < 0x80 then (utf8Decode rest).map (fun t => b :: t)
    else
      match rest with
      | [] => none
      | c1 :: rest1 =>
        if !isContinuation c1 then none
        else if 0xC0 ≤ b ∧ b < 0xE0 then
          (utf8Decode rest1).map (fun t => utf16Units ((b - 0xC0) * 64 + (c1 - 0x80)) ++ t)
        else
          match rest1 with
          | [] => none
          | c2 :: rest2 =>
            if !isContinuation c2 then none
            else if 0xE0 ≤ b ∧ b < 0xF0 then
              (utf8Decode rest2).map (fun t =>
                utf16Units ((b - 0xE0) * 4096 + (c1 - 0x80) * 64 + (c2 - 0x80)) ++ t)
            else
              match rest2 with
              | [] => none
              | c3 :: rest3 =>
                if !isContinuation c3 then none
                else if 0xF0 ≤ b ∧ b < 0xF8 ∧
                    (b - 0xF0) * 262144 + (c1 - 0x80) * 4096 + (c2 - 0x80) * 64 + (c3 - 0x80)
                      < 0x110000 then
                  (utf8Decode rest3).map (fun t =>
                    utf16Units ((b - 0xF0) * 262144 + (c1 - 0x80) * 4096 + (c2 - 0x80) * 64
                      + (c3 - 0x80)) ++ t)
                else none

/-- The test of the `UOID` constructor on a text: 28 characters of the alphabet
`2-9A-HJ-NP-Z`. -/
def isUOIDText (text : JSString) : Bool :=
  decide (text.length = 28) && text.all fun c =>
    decide ((0x32 ≤ c ∧ c ≤ 0x39) ∨ (0x41 ≤ c ∧ c ≤ 0x48) ∨ (0x4A ≤ c ∧ c ≤ 0x4E) ∨
      (0x50 ≤ c ∧ c ≤ 0x5A))

/-- The text `undefined`, the property name that the value `undefined` is converted to. -/
def undefinedName : JSString := [0x75, 0x6E, 0x64, 0x65, 0x66, 0x69, 0x6E, 0x65, 0x64]

/-- The text `__proto__`. -/
def protoName : JSString := [0x5F, 0x5F, 0x70, 0x72, 0x6F, 0x74, 0x6F, 0x5F, 0x5F]

/-- The assignment `obj[key] = value` on a record built from `{}`: the value of a present
name is replaced, a new name is added after the others; a key that is `undefined` names
the property `undefined`; the name `__proto__` reaches the prototype setter and adds no
own field. The reordering of integer-like names by the host is not represented. -/
def assignField (fields : List (JSString × Value)) (key : Option JSString) (value : Value) :
    List (JSString × Value) :=
  let name := key.getD undefinedName
  if name = protoName then fields
  else if fields.any (fun f => f.1 = name) then
    fields.map (fun f => if f.1 = name then (f.1, value) else f)
  else fields ++ [(name, value)]

/-- The comparison SameValueZero of `Set` and `Map` on the values the reader builds:
primitives are compared by value (NaN equals NaN, both zeros are equal), and every object
is a fresh one, equal to no earlier one. -/
def sameValueZero : Value → Value → Bool
  | .undefined, .undefined => true
  | .null, .null => true
  | .boolean a, .boolean b => a = b
  | .number a, .number b =>
    decide (a.bits % 2 ^ 64 = b.bits % 2 ^ 64) ||
      (decide (a.bits % 2 ^ 63 = 0) && decide (b.bits % 2 ^ 63 = 0)) ||
      (decide (a.exponent = 2047 ∧ a.fraction ≠ 0) && decide (b.exponent = 2047 ∧ b.fraction ≠ 0))
  | .bigint a, .bigint b => a = b
  | .string a, .string b => a = b
  | _, _ => false

/-- The method `Set.prototype.add` on the members in insertion order. -/
def setAdd (members : List Value) (value : Value) : List Value :=
  if members.any (fun m => sameValueZero m value) then members else members ++ [value]

/-- The method `Map.prototype.set` on the entries in insertion order. -/
def mapSet (entries : List (Value × Value)) (key value : Value) : List (Value × Value) :=
  if entries.any (fun e => sameValueZero e.1 key) then
    entries.map (fun e => if sameValueZero e.1 key then (e.1, value) else e)
  else entries ++ [(key, value)]

/-- The iteration of a string: one string for each code point, a surrogate pair staying
together. -/
def stringItems : JSString → List JSString
  | [] => []
  | first :: rest =>
    match rest with
    | [] => [[first]]
    | second :: rest2 =>
      if 0xD800 ≤ first ∧ first ≤ 0xDBFF ∧ 0xDC00 ≤ second ∧ second ≤ 0xDFFF then
        [first, second] :: stringItems rest2
      else [first] :: stringItems (second :: rest2)

/-- The spread `...args` of a call: the elements of an iterable value, `none` (a
`TypeError`) for a value that is not iterable. -/
def spread : Value → Option (List Value)
  | .array items => some items
  | .set members => some members
  | .map entries => some (entries.map fun e => .array [e.1, e.2])
  | .string s => some ((stringItems s).map fun c => .string c)
  | .byteView bytes => some (bytes.map fun b => .number (JSNumber.ofInt b))
  | _ => none

/-- The class `BVONDeserializer`. The registry `constructors` is an array indexed by
code; `offset` is `none` when it is NaN; `buffer` is `none` when it is `null`. -/
structure BVONDeserializer where
  constructors : List BVONConstructor
  map : JSArray
  offset : Option Nat
  refIndex : Nat
  buffer : Option (List Nat)

namespace BVONDeserializer

/-- The constructor. -/
def new (constructors : List BVONConstructor) : BVONDeserializer :=
  { constructors := constructors, map := [], offset := some 0, refIndex := 0, buffer := none }

/-- The method `useSchema`: `this.map = schema.map` makes the reader share the array of
the schema, and `this.refIndex = schema.refIndex` copies the counter. -/
def useSchema (schema : Schema) (self : BVONDeserializer) : BVONDeserializer :=
  { self with map := schema.map, refIndex := schema.refIndex }

/-- The method `reset`. -/
def reset (self : BVONDeserializer) : BVONDeserializer :=
  { self with offset := some 0, refIndex := 0, map := [], buffer := none }

/-- The addition `this.offset += length`. -/
def advance (offset : Option Nat) (length : Length) : Option Nat :=
  match offset, length with
  | some o, .num n => some (o + n)
  | _, _ => none

/-- The element read `this.buffer[this.offset++]`: `undefined` past the end or at a NaN
offset, a `TypeError` when the buffer is `null`. -/
def readUint8 : Step BVONDeserializer (Option Nat) :=
  fun self =>
    match self.buffer with
    | none => .error .typeError self
    | some bytes =>
      .ok (self.offset.bind fun o => bytes[o]?) { self with offset := advance self.offset (.num 1) }

/-- The method `readUint16`: `buffer[offset++] + (buffer[offset++] << 8)`, NaN when the
first byte is `undefined`, and a second byte that is `undefined` shifts to 0. -/
def readUint16 : Step BVONDeserializer Length := do
  let first ← readUint8
  let second ← readUint8
  match first with
  | none => pure .nan
  | some a => pure (.num (a + ((second.getD 0) <<< 8)))

/-- The four bytes the accessors `getUint32` and `getFloat64` of the view start from: a
NaN offset is index 0, and a range that passes the end is a `RangeError`. -/
def viewBytes (count : Nat) : Step BVONDeserializer (List Nat) :=
  fun self =>
    match self.buffer with
    | none => .error .typeError self
    | some bytes =>
      let index := self.offset.getD 0
      if index + count ≤ bytes.length then .ok ((bytes.drop index).take count) self
      else .error .rangeError self

/-- The value of little-endian bytes. -/
def ofLittleEndian : List Nat → Nat
  | [] => 0
  | b :: rest => b + 256 * ofLittleEndian rest

/-- The method `readUint32`. -/
def readUint32 : Step BVONDeserializer Length := do
  let bytes ← viewBytes 4
  Step.modify fun self => { self with offset := advance self.offset (.num 4) }
  pure (.num (ofLittleEndian bytes))

/-- The four-byte word read of `readInt32` and `readInt64`:
`b0 | (b1 << 8) | (b2 << 16) | (b3 << 24)`, where a byte that is `undefined` counts 0. -/
def readWord : Step BVONDeserializer Int := do
  let b0 ← readUint8
  let b1 ← readUint8
  let b2 ← readUint8
  let b3 ← readUint8
  pure (toInt32 ((b0.getD 0 ||| (b1.getD 0 <<< 8) ||| (b2.getD 0 <<< 16) ||| (b3.getD 0 <<< 24) : Nat)))

/-- The method `readInt32`. -/
def readInt32 : Step BVONDeserializer Int := readWord

/-- The method `readInt64`. -/
def readInt64 : Step BVONDeserializer Int64 := do
  let low ← readWord
  let high ← readWord
  pure (Int64.new low high false)

/-- The method `readDouble`. -/
def readDouble : Step BVONDeserializer JSNumber := do
  let bytes ← viewBytes 8
  Step.modify fun self => { self with offset := advance self.offset (.num 8) }
  pure ⟨ofLittleEndian bytes⟩

/-- The method `readHeader`. -/
def readHeader : Step BVONDeserializer Length := do
  let lengthHeader ← readUint8
  match lengthHeader with
  | some 0x08 => do
    let res ← readUint8
    match res with
    | some n => pure (.num n)
    | none => pure .undefined
  | some 0x10 => readUint16
  | some 0x20 => readUint32
  | _ => Step.throw .invalidSize

/-- The loop of `readBigInt`: `res = (res << bits) + BigInt(this.buffer[this.offset + index])`,
where `BigInt(undefined)` is a `TypeError`. -/
def readBigIntLoop (bytes : List Nat) (offset : Option Nat) : Nat → Nat → Int → Except JSError Int
  | 0, _, res => .ok res
  | count + 1, index, res =>
    match offset.bind (fun o => bytes[o + index]?) with
    | none => .error .typeError
    | some b => readBigIntLoop bytes offset count (index + 1) (res * 256 + b)

/-- The method `readBigInt(length)`; a length that is `undefined` or NaN runs no
iteration. -/
def readBigInt (length : Length) : Step BVONDeserializer Int :=
  fun self =>
    match self.buffer with
    | none => .error .typeError self
    | some bytes =>
      let count := match length with
        | .num n => n
        | _ => 0
      match readBigIntLoop bytes self.offset count 0 0 with
      | .error e => .error e self
      | .ok res => .ok res { self with offset := advance self.offset length }

/-- The bytes of `this.buffer.slice(this.offset, this.offset + length)`: both bounds are
clamped to the buffer, and a NaN bound is 0. -/
def sliceBytes (bytes : List Nat) (offset : Option Nat) (length : Length) : List Nat :=
  match offset, length with
  | some o, .num n => (bytes.drop o).take n
  | _, _ => []

/-- The method `readString(length)`. -/
def readString (length : Length) : Step BVONDeserializer JSString :=
  fun self =>
    match self.buffer with
    | none => .error .typeError self
    | some bytes =>
      match utf8Decode (sliceBytes bytes self.offset length) with
      | none => .error .malformedText self
      | some str => .ok str { self with offset := advance self.offset length }

/-- The element read `this.map[ref]`; `none` is `undefined`, also for a `ref` that is
`undefined` or NaN. -/
def getName (ref : Length) : Step BVONDeserializer (Option JSString) :=
  fun self =>
    match ref with
    | .num n => .ok (JSArray.get self.map n) self
    | _ => .ok none self

/-- The method `readKey(blockType)`; its `switch` is the chain of comparisons of
`blockType` with the case labels; the key is `none` when `this.map[ref]` is `undefined`. -/
def readKey (blockType : Option Nat) : Step BVONDeserializer (Option JSString) :=
  if blockType = some TYPES.DB_REF then do
    let ref ← readHeader
    getName ref
  else if blockType = some TYPES.STRING then do
    let length ← readHeader
    let str ← readString length
    Step.modify fun self =>
      { self with map := JSArray.set self.map self.refIndex str, refIndex := self.refIndex + 1 }
    pure (some str)
  else
    Step.throw (.invalidKey blockType)

/-- The loop of the `OBJECT` case of `readBlock`, with `remaining` iterations to run:
`obj[this.readKey(curr)] = this.readBlock()`, then the next key tag is read when another
iteration follows. -/
def readFields (block : Step BVONDeserializer Value) :
    Nat → Option Nat → List (JSString × Value) → Step BVONDeserializer (List (JSString × Value))
  | 0, _, obj => pure obj
  | remaining + 1, curr, obj => do
    let key ← readKey curr
    let value ← block
    let obj := assignField obj key value
    if 0 < remaining then do
      let curr ← readUint8
      readFields block remaining curr obj
    else
      readFields block remaining curr obj

/-- The loop of the `MAP` case of `readBlock`. -/
def readEntries (block : Step BVONDeserializer Value) :
    Nat → List (Value × Value) → Step BVONDeserializer (List (Value × Value))
  | 0, map => pure map
  | remaining + 1, map => do
    let key ← block
    let value ← block
    readEntries block remaining (mapSet map key value)

/-- The loop of the `SET` case of `readBlock`. -/
def readMembers (block : Step BVONDeserializer Value) :
    Nat → List Value → Step BVONDeserializer (List Value)
  | 0, set => pure set
  | remaining + 1, set => do
    let member ← block
    readMembers block remaining (setAdd set member)

/-- The loop of the `ARRAY` case of `readBlock`: `arr[index] = this.readBlock()`. -/
def readItems (block : Step BVONDeserializer Value) :
    Nat → List Value → Step BVONDeserializer (List Value)
  | 0, arr => pure arr
  | remaining + 1, arr => do
    let item ← block
    readItems block remaining (arr ++ [item])

/-- The number of iterations of a loop `while (++index < length)`: none when the length
is `undefined` or NaN. -/
def iterations : Length → Nat
  | .num n => n
  | _ => 0

/-- The lookup `this.constructors[code]` in the registry of the reader, an array filled
by `this.constructors[item.code] = item`, where a later entry of the same code replaces
an earlier one. -/
def findCode (constructors : List BVONConstructor) (code : Length) : Option BVONConstructor :=
  match code with
  | .num n => constructors.reverse.find? (fun c => c.code = n)
  | _ => none

/-- The lookup `this.constructors[code]` of `readBlock`. -/
def getCode (code : Length) : Step BVONDeserializer (Option BVONConstructor) :=
  fun self => .ok (findCode self.constructors code) self

/-- The `BYTEVIEW` case of `readBlock` after the header: `new ByteView(length)`, a view
of `length` zero bytes (none when the length is `undefined` or NaN), then
`this.buffer.copy(buf, 0, this.offset, this.offset + length)`, which copies the bytes the
buffer has in that range, then `this.offset += length`. -/
def readView (length : Length) : Step BVONDeserializer (List Nat) :=
  fun self =>
    match self.buffer with
    | none => .error .typeError self
    | some bytes =>
      let copied := sliceBytes bytes self.offset length
      .ok (copied ++ List.replicate (iterations length - copied.length) 0)
        { self with offset := advance self.offset length }

/-- The method `valueOf` of a signed `Int64`: `high * 2^32 + (low >>> 0)`, as an exact
integer. -/
def int64ValueOf (x : Int64) : Int := x.high * 4294967296 + toUint32 x.low

/-- The time value of `new Date(value)`: an integer of magnitude above 8.64e15 gives the
invalid date. -/
def timeClip (value : Int) : Option Int :=
  if value.natAbs ≤ 8640000000000000 then some value else none

/-- The `switch` of `readBlock` on the tag byte just read, as the chain of comparisons of
`blockType` with the case labels in their order; `block` is the recursive call
`this.readBlock()`. -/
def readBlockCase (block : Step BVONDeserializer Value) (blockType : Option Nat) :
    Step BVONDeserializer Value :=
  if blockType = some TYPES.STRING then do
    let length ← readHeader
    let str ← readString length
    pure (.string str)
  else if blockType = some TYPES.UOID then do
    let length ← readHeader
    let str ← readString length
    if isUOIDText str then pure (.uoid str) else Step.throw .uoidArgument
  else if blockType = some TYPES.BYTEVIEW then do
    let length ← readHeader
    let buf ← readView length
    pure (.byteView buf)
  else if blockType = some TYPES.INT32 then do
    let int32 ← readInt32
    pure (.number (JSNumber.ofInt int32))
  else if blockType = some TYPES.INT64 then do
    let int64 ← readInt64
    pure (.int64 int64)
  else if blockType = some TYPES.DOUBLE then do
    let double ← readDouble
    pure (.number double)
  else if blockType = some TYPES.DATE then do
    let int64 ← readInt64
    pure (.date (timeClip (int64ValueOf int64)))
  else if blockType = some TYPES.BIGINT then do
    let length ← readHeader
    let res ← readBigInt length
    pure (.bigint res)
  else if blockType = some TYPES.CONSTRUCTOR then do
    let code ← readHeader
    let args ← block
    let constructor ← getCode code
    match constructor with
    | some constructor =>
      match spread args with
      | some elements => pure (constructor.build elements)
      | none => Step.throw .typeError
    | none => Step.throw .unknownConstructor
  else if blockType = some TYPES.BOOLEAN then do
    let byte ← readUint8
    pure (.boolean (decide (byte.getD 0 ≠ 0)))
  else if blockType = some TYPES.NULL then
    pure .null
  else if blockType = some TYPES.UNDEFINED then
    pure .undefined
  else if blockType = some TYPES.OBJECT then do
    let keyLength ← readHeader
    let curr ← readUint8
    let obj ← readFields (block) (iterations keyLength) curr []
    pure (.object obj)
  else if blockType = some TYPES.MAP then do
    let size ← readHeader
    let map ← readEntries (block) (iterations size) []
    pure (.map map)
  else if blockType = some TYPES.SET then do
    let size ← readHeader
    let set ← readMembers (block) (iterations size) []
    pure (.set set)
  else if blockType = some TYPES.ARRAY then do
    let length ← readHeader
    match length with
    | .nan => Step.throw .rangeError
    | .undefined => pure (.array [.undefined])
    | .num n => do
      let arr ← readItems (block) n []
      pure (.array arr)
  else if blockType = some TYPES.REGEX then do
    let source ← block
    let flags ← block
    match source, flags with
    | .string s, .string f => pure (.regExp s f)
    | _, _ => Step.throw .notRepresented
  else
    Step.throw (.unsupportedType blockType)

/-- The method `readBlock`. The argument is the number of nested calls still allowed: a
call with none left reports `nestingBudget`. -/
def readBlock : Nat → Step BVONDeserializer Value
  | 0 => Step.throw .nestingBudget
  | depth + 1 => do
    let blockType ← readUint8
    readBlockCase (readBlock depth) blockType

end BVONDeserializer

/-! ## The class `BVON` -/

/-- The class `BVON` (and a class made by `createBVON`): its private static writer and
reader. -/
structure BVON where
  serializer : BVONSerializer
  deserializer : BVONDeserializer

namespace BVON

/-- The class as it is when the module is loaded, with the given registry (the default
export has the empty registry `builtinConstructors`). -/
def new (constructors : List BVONConstructor) : BVON :=
  { serializer := BVONSerializer.new constructors,
    deserializer := BVONDeserializer.new constructors }

/-- The schema object after a writer that shares its table `refs` has run: the table is
the `map` of the writer. -/
def schemaAfterWrite (schema : Option Schema) (serializer : BVONSerializer) : Option Schema :=
  schema.map fun s => { s with refs := serializer.map }

/-- The schema object after a reader that shares its array `map` has run. -/
def schemaAfterRead (schema : Option Schema) (deserializer : BVONDeserializer) : Option Schema :=
  schema.map fun s => { s with map := deserializer.map }

/-- The static method `BVON.serialize(data, schema)`. The state is the class together with
the schema object, which the writer mutates through the shared table. When `write`
throws, `reset` is not reached. -/
def serialize (data : Value) (schema : Option Schema) (self : BVON) :
    Result (BVON × Option Schema) (List Nat) :=
  let serializer :=
    match schema with
    | some s => self.serializer.useSchema s
    | none => self.serializer
  match BVONSerializer.write data serializer with
  | .error e serializer =>
    .error e ({ self with serializer := serializer }, schemaAfterWrite schema serializer)
  | .ok _ serializer =>
    let buffer := serializer.buffer.slice 0 serializer.offset
    .ok buffer ({ self with serializer := serializer.reset }, schemaAfterWrite schema serializer)

/-- The loop of the static method `BVON.serializeCollection(data, schema)`, on the chunks
of `data` that are still to be written and the `response` built so far: for each chunk
`useSchema` when a schema is given, `write`, the push of the slice from 0 to the offset,
and `reset`. When `write` throws, the loop ends there. -/
def serializeCollectionFrom (schema : Option Schema) (self : BVON) :
    List Value → List (List Nat) → Result (BVON × Option Schema) (List (List Nat))
  | [], response => .ok response (self, schema)
  | chunk :: rest, response =>
    let serializer :=
      match schema with
      | some s => self.serializer.useSchema s
      | none => self.serializer
    match BVONSerializer.write chunk serializer with
    | .error e serializer =>
      .error e ({ self with serializer := serializer }, schemaAfterWrite schema serializer)
    | .ok _ serializer =>
      serializeCollectionFrom (schemaAfterWrite schema serializer)
        { self with serializer := serializer.reset } rest
        (response ++ [serializer.buffer.slice 0 serializer.offset])

/-- The static method `BVON.serializeCollection(data, schema)`. -/
def serializeCollection (data : List Value) (schema : Option Schema) (self : BVON) :
    Result (BVON × Option Schema) (List (List Nat)) :=
  serializeCollectionFrom schema self data []

/-- The static method `BVON.deserialize(buffer, schema)`. When `readBlock` throws, `reset`
is not reached. -/
def deserialize (buffer : List Nat) (schema : Option Schema) (self : BVON) :
    Result (BVON × Option Schema) Value :=
  let deserializer :=
    match schema with
    | some s => self.deserializer.useSchema s
    | none => self.deserializer
  let deserializer := { deserializer with buffer := some buffer }
  match BVONDeserializer.readBlock (buffer.length + 1) deserializer with
  | .error e deserializer =>
    .error e ({ self with deserializer := deserializer }, schemaAfterRead schema deserializer)
  | .ok res deserializer =>
    .ok res ({ self with deserializer := deserializer.reset }, schemaAfterRead schema deserializer)

/-- The loop of the static method `BVON.deserializeCollection(data, schema)`, on the
chunks of `data` that are still to be read and the `response` built so far: for each
chunk `useSchema` when a schema is given, the assignment of the buffer, the push of what
`readBlock` returns, and `reset`. When `readBlock` throws, the loop ends there. The
nesting allowance of each `readBlock` exceeds the number of bytes of its chunk. -/
def deserializeCollectionFrom (schema : Option Schema) (self : BVON) :
    List (List Nat) → List Value → Result (BVON × Option Schema) (List Value)
  | [], response => .ok response (self, schema)
  | chunk :: rest, response =>
    let deserializer :=
      match schema with
      | some s => self.deserializer.useSchema s
      | none => self.deserializer
    let deserializer := { deserializer with buffer := some chunk }
    match BVONDeserializer.readBlock (chunk.length + 1) deserializer with
    | .error e deserializer =>
      .error e ({ self with deserializer := deserializer }, schemaAfterRead schema deserializer)
    | .ok res deserializer =>
      deserializeCollectionFrom (schemaAfterRead schema deserializer)
        { self with deserializer := deserializer.reset } rest (response ++ [res])

/-- The static method `BVON.deserializeCollection(data, schema)`. -/
def deserializeCollection (data : List (List Nat)) (schema : Option Schema) (self : BVON) :
    Result (BVON × Option Schema) (List Value) :=
  deserializeCollectionFrom schema self data []

end BVON

/-- The expression `BVON.deserialize(BVON.serialize(data, schema), schema)`: the reader
runs on the class and the schema object as the writer left them; `none` when either call
throws. -/
def BVON.roundTrip (data : Value) (schema : Option Schema) (self : BVON) : Option Value :=
  match BVON.serialize data schema self with
  | .error _ _ => none
  | .ok buffer (self1, schema1) => (BVON.deserialize buffer schema1 self1).value?

/-! ## Structural equality of values -/

mutual
/-- Structural equality of values, as a computable test. -/
def Value.beq (x v : Value) : Bool :=
  match x with
  | .undefined => match v with
    | .undefined => true
    | _ => false
  | .null => match v with
    | .null => true
    | _ => false
  | .boolean a => match v with
    | .boolean b => decide (a = b)
    | _ => false
  | .number a => match v with
    | .number b => decide (a = b)
    | _ => false
  | .bigint a => match v with
    | .bigint b => decide (a = b)
    | _ => false
  | .string a => match v with
    | .string b => decide (a = b)
    | _ => false
  | .int64 a => match v with
    | .int64 b => decide (a = b)
    | _ => false
  | .date a => match v with
    | .date b => decide (a = b)
    | _ => false
  | .array a => match v with
    | .array b => Value.beqList a b
    | _ => false
  | .object a => match v with
    | .object b => Value.beqFields a b
    | _ => false
  | .map a => match v with
    | .map b => Value.beqEntries a b
    | _ => false
  | .set a => match v with
    | .set b => Value.beqList a b
    | _ => false
  | .byteView a => match v with
    | .byteView b => decide (a = b)
    | _ => false
  | .regExp a1 a2 => match v with
    | .regExp b1 b2 => decide (a1 = b1) && decide (a2 = b2)
    | _ => false
  | .uoid a => match v with
    | .uoid b => decide (a = b)
    | _ => false
  | .classInstance k1 f1 a1 => match v with
    | .classInstance k2 f2 a2 => decide (k1 = k2) && (Value.beqFields f1 f2 && Value.beq a1 a2)
    | _ => false
termination_by structural x
/-- Structural equality of lists of values. -/
def Value.beqList (x l : List Value) : Bool :=
  match x with
  | [] => match l with
    | [] => true
    | _ :: _ => false
  | a :: as => match l with
    | [] => false
    | b :: bs => Value.beq a b && Value.beqList as bs
termination_by structural x
/-- Structural equality of lists of fields. -/
def Value.beqFields (x l : List (JSString × Value)) : Bool :=
  match x with
  | [] => match l with
    | [] => true
    | _ :: _ => false
  | a :: as => match l with
    | [] => false
    | b :: bs => decide (a.1 = b.1) && (Value.beq a.2 b.2 && Value.beqFields as bs)
termination_by structural x
/-- Structural equality of lists of entries. -/
def Value.beqEntries (x l : List (Value × Value)) : Bool :=
  match x with
  | [] => match l with
    | [] => true
    | _ :: _ => false
  | a :: as => match l with
    | [] => false
    | b :: bs => Value.beq a.1 b.1 && (Value.beq a.2 b.2 && Value.beqEntries as bs)
termination_by structural x
end

/-! ## Definitions used to state the properties -/

/-- The tag that the specification gives to a number: `INT32` for an integer other than
negative zero of magnitude at most 2^53 - 1 inside the signed 32-bit range, `INT64` for
such an integer outside that range, `DOUBLE` for every other number. -/
def numberTagSpec (number : JSNumber) : Nat :=
  match number.toInt? with
  | some i =>
    if number.isNegativeZero = false ∧ i.natAbs ≤ 9007199254740991 then
      if -2147483648 ≤ i ∧ i ≤ 2147483647 then 0x02 else 0x03
    else 0x04
  | none => 0x04

/-- The bytes of a length header, as the specification words them: the selector 8 and
the length below 0x100, the selector 16 and the two little-endian bytes below 0x10000,
the selector 32 and the four little-endian bytes otherwise. -/
def headerBytes (n : Nat) : List Nat :=
  if n < 0x100 then [8, n]
  else if n < 0x10000 then [16, n % 256, n / 256]
  else [32, n % 256, n / 256 % 256, n / 65536 % 256, n / 16777216 % 256]

/-- Two writers agree when they hold the same interning table, counter, registry and
offset, and the same bytes below the offset. -/
def BVONSerializer.Agree (a b : BVONSerializer) : Prop :=
  a.map = b.map ∧ a.offset = b.offset ∧ a.refIndex = b.refIndex ∧
    a.constructors = b.constructors ∧ ∀ i, i < a.offset → a.buffer i = b.buffer i

/-- Two outcomes agree when both return the same value or both throw the same exception,
and the writers they leave agree. -/
def Result.Agree {α : Type} (r1 r2 : Result BVONSerializer α) : Prop :=
  match r1, r2 with
  | .ok a s1, .ok b s2 => a = b ∧ s1.Agree s2
  | .error e1 s1, .error e2 s2 => e1 = e2 ∧ s1.Agree s2
  | _, _ => False

/-- An operation of the writer is uniform when on writers that agree its outcomes agree,
and it leaves the registry as it is. -/
def Step.Uniform {α : Type} (m : Step BVONSerializer α) : Prop :=
  ∀ s1 s2 : BVONSerializer, s1.Agree s2 →
    (m s1).Agree (m s2) ∧ (m s1).state.constructors = s1.constructors

mutual
/-- The field names of the plain records inside a value: every name that `write` can
pass to `writeKey`. -/
def Value.recordNames : Value → List JSString
  | .array items => Value.recordNamesList items
  | .set members => Value.recordNamesList members
  | .map entries => Value.recordNamesEntries entries
  | .object fields => Value.recordNamesFields fields
  | .classInstance _ fields args => Value.recordNamesValues fields ++ Value.recordNames args
  | _ => []
/-- The field names of the plain records inside the elements of a list. -/
def Value.recordNamesList : List Value → List JSString
  | [] => []
  | v :: rest => Value.recordNames v ++ Value.recordNamesList rest
/-- The field names of the plain records inside the keys and values of map entries. -/
def Value.recordNamesEntries : List (Value × Value) → List JSString
  | [] => []
  | (k, v) :: rest => Value.recordNames k ++ (Value.recordNames v ++ Value.recordNamesEntries rest)
/-- The names of the fields of a plain record and those inside their values. -/
def Value.recordNamesFields : List (JSString × Value) → List JSString
  | [] => []
  | (k, v) :: rest => k :: (Value.recordNames v ++ Value.recordNamesFields rest)
/-- The field names of the plain records inside the values of the fields of an object that
is not a plain record. -/
def Value.recordNamesValues : List (JSString × Value) → List JSString
  | [] => []
  | (_, v) :: rest => Value.recordNames v ++ Value.recordNamesValues rest
end

/-- An operation keeps a property of the state when the state it leaves, on return or on
an exception, has the property whenever the state it started from has it. -/
def Step.Keeps {σ α : Type} (P : σ → Prop) (m : Step σ α) : Prop :=
  ∀ s, P s → P (m s).state

/-- The reader holds, below index `n`, the names that the array `m0` holds there, and
its counter is at least `n`. -/
def BVONDeserializer.Above (n : Nat) (m0 : JSArray) (st : BVONDeserializer) : Prop :=
  n ≤ st.refIndex ∧ ∀ i, i < n → JSArray.get st.map i = JSArray.get m0 i

/-- Every id that the forward table of a schema holds is at least 1. -/
def Schema.Positive (s : Schema) : Prop :=
  ∀ (k : JSString) (id : Nat), JSMap.get s.refs k = some id → id ≠ 0

/-- The number of bytes of the buffer at and after the offset of the reader: none when
the offset is NaN or the buffer is `null`. -/
def BVONDeserializer.remaining (st : BVONDeserializer) : Nat :=
  match st.buffer, st.offset with
  | some bytes, some o => bytes.length - o
  | _, _ => 0

/-- An operation of the reader shrinks when it never moves the offset back and never
reports a used-up nesting budget. -/
def Step.Shrinks {α : Type} (m : Step BVONDeserializer α) : Prop :=
  ∀ s : BVONDeserializer,
    (m s).state.remaining ≤ s.remaining ∧ ∀ t, m s ≠ .error .nestingBudget t

/-- An operation of the reader is bounded by `d` when it shrinks on every state that has
fewer than `d` bytes left to read. -/
def Step.Bounded {α : Type} (d : Nat) (m : Step BVONDeserializer α) : Prop :=
  ∀ s : BVONDeserializer, s.remaining < d →
    (m s).state.remaining ≤ s.remaining ∧ ∀ t, m s ≠ .error .nestingBudget t

/-- Equality of the outcomes of a function that may throw is decidable. -/
instance {ε α : Type} [DecidableEq ε] [DecidableEq α] : DecidableEq (Except ε α) := fun a b =>
  match a, b with
  | .ok x, .ok y =>
    if h : x = y then isTrue (by rw [h]) else isFalse (fun h2 => h (Except.ok.inj h2))
  | .error x, .error y =>
    if h : x = y then isTrue (by rw [h]) else isFalse (fun h2 => h (Except.error.inj h2))
  | .ok _, .error _ => isFalse (fun h => Except.noConfusion h)
  | .error _, .ok _ => isFalse (fun h => Except.noConfusion h)

/-- The exception an operation threw, if it threw. -/
def Result.error? {σ α : Type} : Result σ α → Option JSError
  | .ok _ _ => none
  | .error e _ => some e

/-- The words of an `Int64` are signed 32-bit integers, as the constructor leaves them. -/
def Int64.Valid (x : Int64) : Prop :=
  -2147483648 ≤ x.low ∧ x.low ≤ 2147483647 ∧ -2147483648 ≤ x.high ∧ x.high ≤ 2147483647

instance (x : Int64) : Decidable x.Valid := by
  unfold Int64.Valid
  infer_instance

/-- The 64-bit pattern of an `Int64`, as a natural number below 2^64: the unsigned low
word plus 2^32 times the unsigned high word. -/
def Int64.bits (x : Int64) : Nat := toUint32 x.low + 4294967296 * toUint32 x.high

/-- The signed `Int64` of an integer: the two words of its two-complement pattern. -/
def Int64.ofInt (n : Int) : Int64 :=
  ⟨Bvon.toInt32 n, Bvon.toInt32 (n / 4294967296), false⟩

/-- The grammar of a decimal text, as the specification words it: an optional sign, then
either the digit `0` alone or a digit from `1` to `9` followed by any digits. -/
def decimalGrammar (s : JSString) : Bool :=
  let body := if s.head? = some 0x2B ∨ s.head? = some 0x2D then s.tail else s
  match body with
  | [] => false
  | first :: rest =>
    decide (body = [0x30]) ||
      (decide (0x31 ≤ first ∧ first ≤ 0x39) && rest.all fun c => decide (0x30 ≤ c ∧ c ≤ 0x39))

/-- The payload of an `Int64`, as the specification words it: eight bytes, the low word
then the high word, each word little-endian. -/
def int64Bytes (x : Int64) : List Nat :=
  littleEndian 4 (toUint32 x.low) ++ littleEndian 4 (toUint32 x.high)

/-- The registry of the extension example of the specification: one class, with the code
1, whose `build(x, y)` returns the record `{x, y}`; an argument that is not passed is
`undefined`. -/
def pointRegistry : List BVONConstructor :=
  [{ kind := 1, code := 1,
     build := fun elements =>
       .object [([0x78], elements.getD 0 .undefined), ([0x79], elements.getD 1 .undefined)] }]

/-- An object of the class of `pointRegistry` with the fields `x` and `y`; the `args`
function of the example returns `[v.x, v.y]`. -/
def point (x y : Value) : Value :=
  .classInstance 1 [([0x78], x), ([0x79], y)] (.array [x, y])

/-- The value of a text of digits in a radix, as `parseInt` accumulates it. -/
def textValue (radix : Nat) (text : JSString) : Nat :=
  text.foldl (fun acc c => acc * radix + digitValue c) 0

/-- Every character of a text is a digit of the radix written as `toString` writes it:
`0` to `9`, then `a` to `z`. -/
def LowerDigits (radix : Nat) (text : JSString) : Prop :=
  ∀ c ∈ text, ∃ d, d < radix ∧ c = digitChar d

/-- The seventeen tags of `TYPES` that `readBlock` has a case for: every tag but `DB_REF`. -/
def valueTags : List Nat :=
  [TYPES.UNDEFINED, TYPES.NULL, TYPES.INT32, TYPES.INT64, TYPES.DOUBLE, TYPES.BIGINT,
    TYPES.STRING, TYPES.BOOLEAN, TYPES.DATE, TYPES.OBJECT, TYPES.ARRAY, TYPES.BYTEVIEW,
    TYPES.SET, TYPES.MAP, TYPES.REGEX, TYPES.UOID, TYPES.CONSTRUCTOR]

/-- The tags whose block starts with a length header. -/
def headedTags : List Nat :=
  [TYPES.STRING, TYPES.UOID, TYPES.BYTEVIEW, TYPES.BIGINT, TYPES.CONSTRUCTOR, TYPES.OBJECT,
    TYPES.MAP, TYPES.SET, TYPES.ARRAY]

/-- A registry whose one class has the code 2^32. -/
def wideRegistry : List BVONConstructor :=
  [{ kind := 1, code := 4294967296, build := fun _ => .null }]

/-- The writer as the store of the tag byte of a field leaves it: the byte at the offset
is the tag and the offset is one more; nothing else differs. -/
def BVONSerializer.tagged (self : BVONSerializer) (tag : Nat) : BVONSerializer :=
  { self with buffer := self.buffer.setByte self.offset tag, offset := self.offset + 1 }

/-- The writer stands at or after the offset `o` and holds below `o` the bytes of `b`. -/
def BVONSerializer.Below (o : Nat) (b : Buffer) (st : BVONSerializer) : Prop :=
  o ≤ st.offset ∧ ∀ i, i < o → st.buffer i = b i

/-- The batch API of the writer, as the specification words it: the single API applied
to each element in turn. The successive calls `BVON.serialize(v, s)` run on one class and
one schema object, each on the state the call before it left; their byte ranges are
collected in order, and a call that throws ends the sequence with its exception. -/
def serializeEach (schema : Option Schema) (self : BVON) :
    List Value → Result (BVON × Option Schema) (List (List Nat))
  | [] => .ok [] (self, schema)
  | v :: rest =>
    match BVON.serialize v schema self with
    | .error e state => .error e state
    | .ok bytes (self1, schema1) =>
      match serializeEach schema1 self1 rest with
      | .error e state => .error e state
      | .ok more state => .ok (bytes :: more) state

/-- The batch API of the reader, as the specification words it: the successive calls
`BVON.deserialize(b, s)`, one for each buffer in turn, each on the state the call before
it left. -/
def deserializeEach (schema : Option Schema) (self : BVON) :
    List (List Nat) → Result (BVON × Option Schema) (List Value)
  | [] => .ok [] (self, schema)
  | b :: rest =>
    match BVON.deserialize b schema self with
    | .error e state => .error e state
    | .ok value (self1, schema1) =>
      match deserializeEach schema1 self1 rest with
      | .error e state => .error e state
      | .ok more state => .ok (value :: more) state

/-! ## The names that the walk of a schema meets -/

/-- The index names `start`, `start + 1`, ... of `count` elements, in order. -/
def indexNames (start : Nat) : Nat → List JSString
  | 0 => []
  | count + 1 => decimalString start :: indexNames (start + 1) count

mutual
/-- The names that `#getKeys(obj)` passes to its registration step, in the order in which
the walk meets them (a name is listed at every occurrence). -/
def Schema.visitedKeys : Value → List JSString
  | .object fields => Schema.visitedFields fields
  | .classInstance _ fields _ => Schema.visitedFields fields
  | .array items => Schema.visitedItems items 0
  | .int64 _ => [decimalString 0, decimalString 1]
  | .byteView bytes => indexNames 0 bytes.length
  | _ => []
/-- The names met below a value that both walks test. -/
def Schema.visitedValue : Value → List JSString
  | .array items => Schema.visitedArray items
  | .object fields => Schema.visitedFields fields
  | .classInstance _ fields _ => Schema.visitedFields fields
  | .int64 _ => [decimalString 0, decimalString 1]
  | .byteView bytes => indexNames 0 bytes.length
  | _ => []
/-- The names met by the loop of `#getKeys` over the fields of a record: each name, then
the names below its value. -/
def Schema.visitedFields : List (JSString × Value) → List JSString
  | [] => []
  | (key, value) :: rest => key :: (Schema.visitedValue value ++ Schema.visitedFields rest)
/-- The names met by the loop of `#getKeys` over an array: each index, then the names
below the element. -/
def Schema.visitedItems : List Value → Nat → List JSString
  | [], _ => []
  | item :: rest, index =>
    decimalString index :: (Schema.visitedValue item ++ Schema.visitedItems rest (index + 1))
/-- The names met by `#searchArray`. -/
def Schema.visitedArray : List Value → List JSString
  | [] => []
  | item :: rest => Schema.visitedValue item ++ Schema.visitedArray rest
end

/-- The names that the constructor `new Schema(obj)` meets, in order. -/
def Schema.visited : Value → List JSString
  | .string s => indexNames 0 s.length
  | v => Schema.visitedKeys v

/-- The distinct names of a list, in the order of their first occurrence. -/
def firstSeen (names : List JSString) : List JSString :=
  names.foldl (fun acc k => if k ∈ acc then acc else acc ++ [k]) []

/-- The tables of a schema hold the names `names`, numbered from 1 in their order: the
forward table pairs each name with its number, the counter is the number of names, and
the inverse array has a hole at index 0 followed by the names. -/
def Schema.Holds (names : List JSString) (s : Schema) : Prop :=
  s.refs = names.zip (List.range' 1 names.length) ∧ s.refIndex = names.length ∧
    s.map = (if names = [] then [] else none :: names.map some)

/-! ## Equality of values is decidable -/

mutual
theorem Value.eq_of_beq (x : Value) : ∀ b, Value.beq x b = true → x = b :=
  match x with
  | .undefined => fun b h => by cases b <;> simp_all [Value.beq]
  | .null => fun b h => by cases b <;> simp_all [Value.beq]
  | .boolean _ => fun b h => by cases b <;> simp_all [Value.beq]
  | .number _ => fun b h => by cases b <;> simp_all [Value.beq]
  | .bigint _ => fun b h => by cases b <;> simp_all [Value.beq]
  | .string _ => fun b h => by cases b <;> simp_all [Value.beq]
  | .int64 _ => fun b h => by cases b <;> simp_all [Value.beq]
  | .date _ => fun b h => by cases b <;> simp_all [Value.beq]
  | .array a => fun b h => by
    cases b <;> simp [Value.beq] at h
    rename_i b
    rw [Value.eq_of_beqList a b h]
  | .object a => fun b h => by
    cases b <;> simp [Value.beq] at h
    rename_i b
    rw [Value.eq_of_beqFields a b h]
  | .map a => fun b h => by
    cases b <;> simp [Value.beq] at h
    rename_i b
    rw [Value.eq_of_beqEntries a b h]
  | .set a => fun b h => by
    cases b <;> simp [Value.beq] at h
    rename_i b
    rw [Value.eq_of_beqList a b h]
  | .byteView _ => fun b h => by cases b <;> simp_all [Value.beq]
  | .regExp _ _ => fun b h => by cases b <;> simp_all [Value.beq]
  | .uoid _ => fun b h => by cases b <;> simp_all [Value.beq]
  | .classInstance k f a => fun b h => by
    cases b <;> simp [Value.beq] at h
    rename_i k2 f2 a2
    rw [h.1, Value.eq_of_beqFields f f2 h.2.1, Value.eq_of_beq a a2 h.2.2]
termination_by structural x
theorem Value.eq_of_beqList (x : List Value) : ∀ b, Value.beqList x b = true → x = b :=
  match x with
  | [] => fun b h => by cases b <;> simp_all [Value.beqList]
  | a :: as => fun b h => by
    cases b <;> simp [Value.beqList] at h
    rename_i b bs
    rw [Value.eq_of_beq a b h.1, Value.eq_of_beqList as bs h.2]
termination_by structural x
theorem Value.eq_of_beqFields (x : List (JSString × Value)) :
    ∀ b, Value.beqFields x b = true → x = b :=
  match x with
  | [] => fun b h => by cases b <;> simp_all [Value.beqFields]
  | a :: as => fun b h => by
    cases b <;> simp [Value.beqFields] at h
    rename_i b bs
    rw [Prod.ext h.1 (Value.eq_of_beq a.2 b.2 h.2.1), Value.eq_of_beqFields as bs h.2.2]
termination_by structural x
theorem Value.eq_of_beqEntries (x : List (Value × Value)) :
    ∀ b, Value.beqEntries x b = true → x = b :=
  match x with
  | [] => fun b h => by cases b <;> simp_all [Value.beqEntries]
  | a :: as => fun b h => by
    cases b <;> simp [Value.beqEntries] at h
    rename_i b bs
    rw [Prod.ext (Value.eq_of_beq a.1 b.1 h.1) (Value.eq_of_beq a.2 b.2 h.2.1),
      Value.eq_of_beqEntries as bs h.2.2]
termination_by structural x
end

mutual
theorem Value.beq_self (x : Value) : Value.beq x x = true :=
  match x with
  | .undefined => by simp [Value.beq]
  | .null => by simp [Value.beq]
  | .boolean _ => by simp [Value.beq]
  | .number _ => by simp [Value.beq]
  | .bigint _ => by simp [Value.beq]
  | .string _ => by simp [Value.beq]
  | .int64 _ => by simp [Value.beq]
  | .date _ => by simp [Value.beq]
  | .array a => by simp [Value.beq, Value.beqList_self a]
  | .object a => by simp [Value.beq, Value.beqFields_self a]
  | .map a => by simp [Value.beq, Value.beqEntries_self a]
  | .set a => by simp [Value.beq, Value.beqList_self a]
  | .byteView _ => by simp [Value.beq]
  | .regExp _ _ => by simp [Value.beq]
  | .uoid _ => by simp [Value.beq]
  | .classInstance _ f a => by simp [Value.beq, Value.beqFields_self f, Value.beq_self a]
termination_by structural x
theorem Value.beqList_self (x : List Value) : Value.beqList x x = true :=
  match x with
  | [] => by simp [Value.beqList]
  | a :: as => by simp [Value.beqList, Value.beq_self a, Value.beqList_self as]
termination_by structural x
theorem Value.beqFields_self (x : List (JSString × Value)) : Value.beqFields x x = true :=
  match x with
  | [] => by simp [Value.beqFields]
  | a :: as => by simp [Value.beqFields, Value.beq_self a.2, Value.beqFields_self as]
termination_by structural x
theorem Value.beqEntries_self (x : List (Value × Value)) : Value.beqEntries x x = true :=
  match x with
  | [] => by simp [Value.beqEntries]
  | a :: as => by
    simp [Value.beqEntries, Value.beq_self a.1, Value.beq_self a.2, Value.beqEntries_self as]
termination_by structural x
end

instance : DecidableEq Value := fun a b =>
  decidable_of_iff (Value.beq a b = true)
    ⟨Value.eq_of_beq a b, fun h => by rw [h]; exact Value.beq_self b⟩

/-! ## Stateful operations: evaluation rules -/

@[simp] theorem Step.bind_apply {σ α β : Type} (m : Step σ α) (f : α → Step σ β) (s : σ) :
    (m >>= f) s = match m s with
      | .ok a s1 => f a s1
      | .error e s1 => .error e s1 := rfl

@[simp] theorem Step.pure_apply {σ α : Type} (a : α) (s : σ) :
    (pure a : Step σ α) s = .ok a s := rfl

@[simp] theorem Step.throw_apply {σ α : Type} (e : JSError) (s : σ) :
    (Step.throw e : Step σ α) s = .error e s := rfl

@[simp] theorem Step.modify_apply {σ : Type} (f : σ → σ) (s : σ) :
    Step.modify f s = .ok () (f s) := rfl

/-! ## The byte buffer -/

theorem Buffer.setBytes_apply_lt (bytes : List Nat) :
    ∀ (buffer : Buffer) (offset i : Nat), i < offset →
      (buffer.setBytes offset bytes) i = buffer i := by
  induction bytes with
  | nil => intro buffer offset i _; rfl
  | cons b rest ih =>
    intro buffer offset i h
    simp only [Buffer.setBytes]
    rw [ih _ _ _ (by omega)]
    simp only [Buffer.setByte]
    rw [if_neg (by omega)]

theorem Buffer.setBytes_apply_ge (bytes : List Nat) :
    ∀ (buffer : Buffer) (offset i : Nat), offset + bytes.length ≤ i →
      (buffer.setBytes offset bytes) i = buffer i := by
  induction bytes with
  | nil => intro buffer offset i _; rfl
  | cons b rest ih =>
    intro buffer offset i h
    simp only [List.length_cons] at h
    simp only [Buffer.setBytes]
    rw [ih _ _ _ (by omega)]
    simp only [Buffer.setByte]
    rw [if_neg (by omega)]

theorem Buffer.setBytes_apply_mid (bytes : List Nat) :
    ∀ (buffer : Buffer) (offset k : Nat), k < bytes.length →
      (buffer.setBytes offset bytes) (offset + k) = bytes.getD k 0 % 256 := by
  induction bytes with
  | nil => intro buffer offset k h; simp at h
  | cons b rest ih =>
    intro buffer offset k h
    simp only [Buffer.setBytes]
    cases k with
    | zero =>
      rw [Buffer.setBytes_apply_lt _ _ _ _ (by omega)]
      simp [Buffer.setByte]
    | succ k =>
      simp only [List.length_cons] at h
      have := ih (buffer.setByte offset b) (offset + 1) k (by omega)
      rw [show offset + (k + 1) = offset + 1 + k by omega, this]
      simp

theorem Buffer.slice_setBytes (buffer : Buffer) (offset : Nat) (bytes : List Nat)
    (h : ∀ b ∈ bytes, b < 256) :
    (buffer.setBytes offset bytes).slice offset (offset + bytes.length) = bytes := by
  apply List.ext_getElem
  · simp [Buffer.slice]
  · intro k h1 h2
    simp only [Buffer.slice, List.getElem_map, List.getElem_range]
    rw [Buffer.setBytes_apply_mid _ _ _ _ h2]
    rw [List.getD_eq_getElem _ _ h2]
    exact Nat.mod_eq_of_lt (h _ (List.getElem_mem h2))

/-! ## Concrete runs of the codec -/

/-- Claim C1, at the input `[{}, 1]`: the writer produces the array tag, the header of
two elements, an empty record and the integer 1, and the reader returns `[{}, null]`,
because the `OBJECT` case reads one byte for a key tag before it tests the field count. -/
theorem roundTrip_empty_record_before_element :
    (BVON.serialize (.array [.object [], .number (JSNumber.ofInt 1)]) none (BVON.new [])).value?
        = some [10, 8, 2, 9, 8, 0, 2, 1, 0, 0, 0] ∧
      BVON.roundTrip (.array [.object [], .number (JSNumber.ofInt 1)]) none (BVON.new [])
        = some (.array [.object [], .null]) ∧
      BVON.roundTrip (.array [.object [], .number (JSNumber.ofInt 1)]) none (BVON.new [])
        ≠ some (.array [.object [], .number (JSNumber.ofInt 1)]) := by
  decide!

/-- Claim C2, at the schema built from `{a: 1}` and the record `{b: 1, a: 2}`: the new
name `b` is given the id 1 that the schema gave to `a`, the reader stores `b` at index 1
of the inverse array, and the back-reference written for `a` decodes to `b`, so the
result is `{b: 2}`. -/
theorem roundTrip_schema_unregistered_key :
    Schema.new (.object [([97], .number (JSNumber.ofInt 1))])
        = .ok ⟨[([97], 1)], 1, [none, some [97]]⟩ ∧
      (BVON.serialize
          (.object [([98], .number (JSNumber.ofInt 1)), ([97], .number (JSNumber.ofInt 2))])
          (some ⟨[([97], 1)], 1, [none, some [97]]⟩) (BVON.new [])).value?
        = some [9, 8, 2, 6, 8, 1, 98, 2, 1, 0, 0, 0, 14, 8, 1, 2, 2, 0, 0, 0] ∧
      BVON.roundTrip
          (.object [([98], .number (JSNumber.ofInt 1)), ([97], .number (JSNumber.ofInt 2))])
          (some ⟨[([97], 1)], 1, [none, some [97]]⟩) (BVON.new [])
        = some (.object [([98], .number (JSNumber.ofInt 2))]) := by
  refine ⟨rfl, ?_, ?_⟩ <;> decide!

/-- Claim C3, at the string of the code points U+FF01 and U+0061: `encode` returns the
three bytes of U+FF01 only, where the standard encoding has the byte 0x61 after them;
the test `codePoint > 0xE000` skips the code unit that follows. -/
theorem encode_skips_unit_after_high_bmp :
    ByteEncoder.encode (JSString.ofCodePoints [0xFF01, 0x61]) = .ok [0xEF, 0xBC, 0x81] ∧
      utf8Spec [0xFF01, 0x61] = [0xEF, 0xBC, 0x81, 0x61] ∧
      ByteEncoder.encode (JSString.ofCodePoints [0xFF01, 0x61])
        ≠ .ok (utf8Spec [0xFF01, 0x61]) := by
  refine ⟨rfl, by decide, ?_⟩
  intro h
  have h2 : ByteEncoder.encode (JSString.ofCodePoints [0xFF01, 0x61])
      = .ok [0xEF, 0xBC, 0x81] := rfl
  rw [h2] at h
  injection h with h3
  exact absurd h3 (by decide)

/-- Claim C4, at the big integer 2^31: the writer produces a payload of two zero bytes
(`left >>= 16` turns 2147483648 into -32768, which ends both loops), and the reader
returns the big integer 0. -/
theorem roundTrip_bigint_two_pow_31 :
    getBigIntByteLength 2147483648 = 2 ∧
      (BVON.serialize (.bigint 2147483648) none (BVON.new [])).value? = some [5, 8, 2, 0, 0] ∧
      BVON.roundTrip (.bigint 2147483648) none (BVON.new []) = some (.bigint 0) ∧
      BVON.roundTrip (.bigint 2147483648) none (BVON.new [])
        ≠ some (.bigint 2147483648) := by
  decide!

/-- Claim C7, at the input `[{a: 1}, {a: 2}]` with no schema: the first key registered
has the id 0, which the test `!ref` reads as absent, so the second occurrence of `a` is
written again as `STRING` text (bytes 6, 8, 1, 97) and not as a back-reference. -/
theorem serialize_repeats_first_key :
    (BVON.serialize
        (.array [.object [([97], .number (JSNumber.ofInt 1))],
          .object [([97], .number (JSNumber.ofInt 2))]]) none (BVON.new [])).value?
      = some [10, 8, 2, 9, 8, 1, 6, 8, 1, 97, 2, 1, 0, 0, 0,
          9, 8, 1, 6, 8, 1, 97, 2, 2, 0, 0, 0] := by
  decide!

/-- Claim C8, at the schema built from `{}` and the records `{a: 1, b: 2}`, `{a: 3, b: 4}`,
`{a: 5, b: 6}`: the name `a` is registered with the id 0, so the second and the third
record write the key `a` again as `STRING` text; only `b` is a back-reference. -/
theorem serializeCollection_empty_schema_repeats_key :
    Schema.new (.object []) = .ok Schema.empty ∧
      (BVON.serializeCollection
        [.object [([97], .number (JSNumber.ofInt 1)), ([98], .number (JSNumber.ofInt 2))],
          .object [([97], .number (JSNumber.ofInt 3)), ([98], .number (JSNumber.ofInt 4))],
          .object [([97], .number (JSNumber.ofInt 5)), ([98], .number (JSNumber.ofInt 6))]]
        (some Schema.empty) (BVON.new [])).value?
      = some [[9, 8, 2, 6, 8, 1, 97, 2, 1, 0, 0, 0, 6, 8, 1, 98, 2, 2, 0, 0, 0],
          [9, 8, 2, 6, 8, 1, 97, 2, 3, 0, 0, 0, 14, 8, 1, 2, 4, 0, 0, 0],
          [9, 8, 2, 6, 8, 1, 97, 2, 5, 0, 0, 0, 14, 8, 1, 2, 6, 0, 0, 0]] := by
  refine ⟨rfl, ?_⟩
  decide!

/-! ## The tag of a number -/

theorem BVONSerializer.tagged_first_byte (tag : Nat) (h : tag < 256)
    (payload : Step BVONSerializer Unit) (self : BVONSerializer)
    (hp : ∀ s : BVONSerializer, ∃ bytes : List Nat,
      payload s = .ok () { s with buffer := s.buffer.setBytes s.offset bytes,
                                  offset := s.offset + bytes.length }) :
    ∃ st, (BVONSerializer.setUint8 tag >>= fun _ => payload) self = .ok () st ∧
      st.buffer self.offset = tag := by
  obtain ⟨bytes, hb⟩ := hp { self with buffer := self.buffer.setByte self.offset tag,
                                       offset := self.offset + 1 }
  simp only [Step.bind_apply, BVONSerializer.setUint8, Step.modify_apply, hb]
  refine ⟨_, rfl, ?_⟩
  simp only
  rw [Buffer.setBytes_apply_lt _ _ _ _ (by omega)]
  simp [Buffer.setByte, Nat.mod_eq_of_lt h]

theorem BVONSerializer.writeInteger_first_byte (number : Int) (self : BVONSerializer) :
    ∃ st, BVONSerializer.writeInteger number self = .ok () st ∧ st.buffer self.offset = 0x02 :=
  BVONSerializer.tagged_first_byte 0x02 (by decide) _ self
    (fun s => ⟨littleEndian 4 (toUint32 number), rfl⟩)

theorem BVONSerializer.writeInteger64_first_byte (number : Int64) (self : BVONSerializer) :
    ∃ st, BVONSerializer.writeInteger64 number self = .ok () st ∧
      st.buffer self.offset = 0x03 :=
  BVONSerializer.tagged_first_byte 0x03 (by decide) _ self (fun s => ⟨_, rfl⟩)

theorem BVONSerializer.writeDouble_first_byte (number : JSNumber) (self : BVONSerializer) :
    ∃ st, BVONSerializer.writeDouble number self = .ok () st ∧ st.buffer self.offset = 0x04 :=
  BVONSerializer.tagged_first_byte 0x04 (by decide) _ self
    (fun s => ⟨littleEndian 8 number.bits, rfl⟩)

theorem BVONSerializer.writeNumber_first_byte (number : JSNumber) (self : BVONSerializer) :
    ∃ st, BVONSerializer.writeNumber number self = .ok () st ∧
      st.buffer self.offset = numberTagSpec number := by
  unfold BVONSerializer.writeNumber numberTagSpec JSNumber.isSafeInteger
  cases h : number.toInt? with
  | none =>
    simpa using BVONSerializer.writeDouble_first_byte number self
  | some i =>
    by_cases hz : number.isNegativeZero = true
    · simpa [hz] using BVONSerializer.writeDouble_first_byte number self
    · by_cases hs : i.natAbs ≤ 9007199254740991
      · by_cases hr : i ≤ INT32_MAX ∧ i ≥ INT32_MIN
        · have hr2 : -2147483648 ≤ i ∧ i ≤ 2147483647 := ⟨hr.2, hr.1⟩
          simpa [hz, hs, hr, hr2] using BVONSerializer.writeInteger_first_byte i self
        · have hr2 : ¬ (-2147483648 ≤ i ∧ i ≤ 2147483647) := fun h => hr ⟨h.2, h.1⟩
          simpa [hz, hs, hr, hr2] using
            BVONSerializer.writeInteger64_first_byte (Int64.fromNumber (some i) false) self
      · simpa [hz, hs] using BVONSerializer.writeDouble_first_byte number self

/-- Claim C5: for every number, `writeNumber` returns and the byte it writes first is
`INT32` (0x02) when the number is an integer other than negative zero of magnitude at
most 2^53 - 1 inside the signed 32-bit range, `INT64` (0x03) when it is such an integer
outside that range, and `DOUBLE` (0x04) for every other number; 2147483647 gives `INT32`,
2147483648 and 9007199254740991 give `INT64`, and -0 gives `DOUBLE`. -/
theorem writeNumber_tag (number : JSNumber) (self : BVONSerializer) :
    (∃ st, BVONSerializer.writeNumber number self = .ok () st ∧
      st.buffer self.offset = numberTagSpec number) ∧
    numberTagSpec (JSNumber.ofInt 2147483647) = 0x02 ∧
    numberTagSpec (JSNumber.ofInt 2147483648) = 0x03 ∧
    numberTagSpec (JSNumber.ofInt 9007199254740991) = 0x03 ∧
    numberTagSpec JSNumber.negZero = 0x04 ∧
    (JSNumber.ofInt 2147483647).toInt? = some 2147483647 ∧
    (JSNumber.ofInt 2147483648).toInt? = some 2147483648 ∧
    (JSNumber.ofInt 9007199254740991).toInt? = some 9007199254740991 :=
  ⟨BVONSerializer.writeNumber_first_byte number self, by decide!, by decide!, by decide!,
    by decide!, by decide!, by decide!, by decide!⟩

/-! ## The length header -/

theorem headerBytes_lt (n : Nat) (h : n < 0x100000000) : ∀ b ∈ headerBytes n, b < 256 := by
  intro b hb
  unfold headerBytes at hb
  split at hb
  · simp at hb; omega
  · split at hb
    · simp at hb; omega
    · simp at hb; omega

theorem Buffer.setByte_mod (buffer : Buffer) (index number : Nat) :
    buffer.setByte index (number % 256) = buffer.setByte index number := by
  funext i
  simp [Buffer.setByte]

theorem BVONSerializer.writeHeader_eq (n : Nat) (h : n < 0x100000000) (self : BVONSerializer) :
    BVONSerializer.writeHeader n self = BVONSerializer.setView (headerBytes n) self := by
  unfold BVONSerializer.writeHeader headerBytes
  by_cases h1 : n < 0x100
  · simp only [h1, if_true]
    rfl
  · by_cases h2 : n < 0x10000
    · simp only [h1, h2, if_true, if_false, Step.bind_apply, BVONSerializer.setUint8,
        BVONSerializer.setUint16, BVONSerializer.setView, Step.modify_apply, Buffer.setBytes,
        List.length_cons, List.length_nil]
      have e1 : n &&& 0xff = n % 256 := Nat.and_pow_two_sub_one_eq_mod n 8
      have e2 : n >>> 8 = n / 256 := Nat.shiftRight_eq_div_pow n 8
      rw [e1, e2, Buffer.setByte_mod]
    · simp only [h1, h2, h, if_true, if_false, Step.bind_apply, BVONSerializer.setUint8,
        BVONSerializer.setUint32, BVONSerializer.setView, Step.modify_apply, Buffer.setBytes,
        List.length_cons, List.length_nil, littleEndian]
      simp only [Buffer.setByte_mod, Nat.div_div_eq_div_mul]

theorem Buffer.setBytes_append (a : List Nat) :
    ∀ (buffer : Buffer) (offset : Nat) (b : List Nat),
      buffer.setBytes offset (a ++ b) = (buffer.setBytes offset a).setBytes (offset + a.length) b := by
  induction a with
  | nil => intro buffer offset b; rfl
  | cons x rest ih =>
    intro buffer offset b
    show (buffer.setByte offset x).setBytes (offset + 1) (rest ++ b) = _
    rw [ih]
    simp only [Buffer.setBytes, List.length_cons]
    rw [show offset + (rest.length + 1) = offset + 1 + rest.length by omega]

theorem BVONSerializer.setView_setView (a b : List Nat) (self : BVONSerializer) :
    (BVONSerializer.setView a >>= fun _ => BVONSerializer.setView b) self =
      BVONSerializer.setView (a ++ b) self := by
  simp only [Step.bind_apply, BVONSerializer.setView, Step.modify_apply,
    Buffer.setBytes_append, List.length_append, Nat.add_assoc]

theorem BVONSerializer.setView_then (a : List Nat) (m : Step BVONSerializer Unit)
    (self : BVONSerializer) :
    (BVONSerializer.setView a >>= fun _ => m) self =
      m { self with buffer := self.buffer.setBytes self.offset a,
                    offset := self.offset + a.length } := by
  simp only [Step.bind_apply, BVONSerializer.setView, Step.modify_apply]

theorem BVONSerializer.writeString_eq (string : JSString) (bytes : List Nat)
    (he : ByteEncoder.encode string = .ok bytes) (hl : bytes.length < 0x100000000)
    (self : BVONSerializer) :
    BVONSerializer.writeString string self =
      BVONSerializer.setView (6 :: (headerBytes bytes.length ++ bytes)) self := by
  simp only [BVONSerializer.writeString, Step.bind_apply, BVONSerializer.setUint8,
    Step.modify_apply, BVONSerializer.encode, he, BVONSerializer.writeHeader_eq _ hl]
  simp only [BVONSerializer.setView, Step.modify_apply, Buffer.setBytes, List.length_cons,
    Buffer.setBytes_append, List.length_append]
  congr 2
  omega

/-- Claim C6: `writeHeader(n)` writes exactly the bytes 8, n when n is below 0x100,
exactly 16, n mod 256, n div 256 when n is from 0x100 to below 0x10000, exactly 32 and
the four little-endian bytes of n when n is from 0x10000 to below 0x100000000, advancing
the offset by their number and changing no other byte nor the interning state; it throws
the range error, writing nothing, when n is 0x100000000 or more; so the header of a
string of 255, 256 or 65536 encoded bytes starts with the selector 8, 16 or 32. -/
theorem writeHeader_bytes (n : Nat) (self : BVONSerializer) :
    (n < 0x100000000 →
      ∃ st, BVONSerializer.writeHeader n self = .ok () st ∧
        st.offset = self.offset + (headerBytes n).length ∧
        st.buffer.slice self.offset st.offset = headerBytes n ∧
        (∀ i, i < self.offset ∨ st.offset ≤ i → st.buffer i = self.buffer i) ∧
        st.map = self.map ∧ st.refIndex = self.refIndex) ∧
    (n < 0x100 → headerBytes n = [8, n]) ∧
    (0x100 ≤ n → n < 0x10000 → headerBytes n = [16, n % 256, n / 256]) ∧
    (0x10000 ≤ n → n < 0x100000000 →
      headerBytes n = [32, n % 256, n / 256 % 256, n / 65536 % 256, n / 16777216 % 256]) ∧
    (0x100000000 ≤ n → BVONSerializer.writeHeader n self = .error .headerRange self) ∧
    (∀ (string : JSString) (bytes : List Nat), ByteEncoder.encode string = .ok bytes →
      bytes.length < 0x100000000 →
      BVONSerializer.writeString string self =
        BVONSerializer.setView (6 :: (headerBytes bytes.length ++ bytes)) self) ∧
    (headerBytes 255).head? = some 8 ∧ (headerBytes 256).head? = some 16 ∧
    (headerBytes 65536).head? = some 32 := by
  refine ⟨?_, ?_, ?_, ?_, ?_, ?_, by decide, by decide, by decide⟩
  · intro h
    refine ⟨_, BVONSerializer.writeHeader_eq n h self, rfl, ?_, ?_, rfl, rfl⟩
    · exact Buffer.slice_setBytes _ _ _ (headerBytes_lt n h)
    · intro i hi
      rcases hi with hi | hi
      · exact Buffer.setBytes_apply_lt _ _ _ _ hi
      · exact Buffer.setBytes_apply_ge _ _ _ _ hi
  · intro h
    simp [headerBytes, h]
  · intro h1 h2
    simp [headerBytes, h2, Nat.not_lt.mpr h1]
  · intro h1 _
    have : ¬ n < 0x100 := by omega
    simp [headerBytes, Nat.not_lt.mpr h1, this]
  · intro h
    have h1 : ¬ n < 0x100 := by omega
    have h2 : ¬ n < 0x10000 := by omega
    have h3 : ¬ n < 0x100000000 := by omega
    simp [BVONSerializer.writeHeader, h1, h2, h3]
  · intro string bytes he hl
    exact BVONSerializer.writeString_eq string bytes he hl self

/-- The statement of `writeHeader_bytes` holds at the lengths 255, 300, 65536 and
0x100000000 and at the string `a`, on a fresh writer. -/
theorem writeHeader_bytes_witness :
    (∃ st, BVONSerializer.writeHeader 300 (BVONSerializer.new []) = .ok () st ∧
      st.offset = 3 ∧ st.buffer.slice 0 st.offset = [16, 44, 1]) ∧
    headerBytes 255 = [8, 255] ∧
    headerBytes 65536 = [32, 0, 0, 1, 0] ∧
    BVONSerializer.writeHeader 0x100000000 (BVONSerializer.new [])
      = .error .headerRange (BVONSerializer.new []) ∧
    BVONSerializer.writeString [97] (BVONSerializer.new [])
      = BVONSerializer.setView [6, 8, 1, 97] (BVONSerializer.new []) := by
  have h300 := writeHeader_bytes 300 (BVONSerializer.new [])
  have h255 := writeHeader_bytes 255 (BVONSerializer.new [])
  have h65536 := writeHeader_bytes 65536 (BVONSerializer.new [])
  have hmax := writeHeader_bytes 0x100000000 (BVONSerializer.new [])
  obtain ⟨st, he, ho, hsl, _⟩ := h300.1 (by decide)
  have e300 : headerBytes 300 = [16, 44, 1] := h300.2.2.1 (by decide) (by decide)
  rw [e300] at ho hsl
  refine ⟨⟨st, he, ho, hsl⟩, h255.2.1 (by decide), h65536.2.2.2.1 (by decide) (by decide),
    hmax.2.2.2.2.1 (by decide), ?_⟩
  exact h300.2.2.2.2.2.1 [97] [97] rfl (by decide)

/-! ## Uniformity of the writer -/

theorem Step.uniform_pure {α : Type} (a : α) : (pure a : Step BVONSerializer α).Uniform := by
  intro s1 s2 h
  exact ⟨⟨rfl, h⟩, rfl⟩

theorem Step.uniform_throw {α : Type} (e : JSError) :
    (Step.throw e : Step BVONSerializer α).Uniform := by
  intro s1 s2 h
  exact ⟨⟨rfl, h⟩, rfl⟩

theorem Step.uniform_bind {α β : Type} (m : Step BVONSerializer α)
    (f : α → Step BVONSerializer β) (hm : m.Uniform) (hf : ∀ a, (f a).Uniform) :
    (m >>= f).Uniform := by
  intro s1 s2 h
  have h1 := hm s1 s2 h
  simp only [Step.bind_apply]
  cases e1 : m s1 with
  | ok a t1 =>
    cases e2 : m s2 with
    | ok b t2 =>
      rw [e1, e2] at h1
      obtain ⟨⟨hab, ht⟩, hc⟩ := h1
      subst hab
      have h2 := hf a t1 t2 ht
      refine ⟨h2.1, ?_⟩
      rw [h2.2]
      exact hc
    | error e t2 =>
      rw [e1, e2] at h1
      exact absurd h1.1 (by simp [Result.Agree])
  | error e t1 =>
    cases e2 : m s2 with
    | ok b t2 =>
      rw [e1, e2] at h1
      exact absurd h1.1 (by simp [Result.Agree])
    | error e' t2 =>
      rw [e1, e2] at h1
      exact h1

theorem BVONSerializer.uniform_setView (bytes : List Nat) :
    (BVONSerializer.setView bytes).Uniform := by
  intro s1 s2 h
  obtain ⟨hm, ho, hr, hc, hb⟩ := h
  refine ⟨⟨rfl, hm, ?_, hr, hc, ?_⟩, rfl⟩
  · simp only [ho]
  · intro i hi
    simp only at hi ⊢
    by_cases h1 : i < s1.offset
    · rw [Buffer.setBytes_apply_lt _ _ _ _ h1, Buffer.setBytes_apply_lt _ _ _ _ (ho ▸ h1)]
      exact hb i h1
    · obtain ⟨k, hk⟩ : ∃ k, i = s1.offset + k := ⟨i - s1.offset, by omega⟩
      subst hk
      have hk : k < bytes.length := by omega
      rw [Buffer.setBytes_apply_mid _ _ _ _ hk, ← ho, Buffer.setBytes_apply_mid _ _ _ _ hk]

theorem BVONSerializer.uniform_setUint8 (number : Nat) :
    (BVONSerializer.setUint8 number).Uniform :=
  BVONSerializer.uniform_setView [number]

theorem BVONSerializer.uniform_writeHeader (n : Nat) :
    (BVONSerializer.writeHeader n).Uniform := by
  by_cases h : n < 0x100000000
  · have : BVONSerializer.writeHeader n = BVONSerializer.setView (headerBytes n) :=
      funext (BVONSerializer.writeHeader_eq n h)
    rw [this]
    exact BVONSerializer.uniform_setView _
  · have : BVONSerializer.writeHeader n = Step.throw .headerRange := by
      have h1 : ¬ n < 0x100 := by omega
      have h2 : ¬ n < 0x10000 := by omega
      simp [BVONSerializer.writeHeader, h1, h2, h]
    rw [this]
    exact Step.uniform_throw _

theorem BVONSerializer.uniform_encode (string : JSString) :
    (BVONSerializer.encode string).Uniform := by
  intro s1 s2 h
  unfold BVONSerializer.encode
  cases ByteEncoder.encode string with
  | ok bytes => exact ⟨⟨rfl, h⟩, rfl⟩
  | error e => exact ⟨⟨rfl, h⟩, rfl⟩

theorem BVONSerializer.uniform_getRef (string : JSString) :
    (BVONSerializer.getRef string).Uniform := by
  intro s1 s2 h
  refine ⟨⟨?_, h⟩, rfl⟩
  rw [h.1]

theorem BVONSerializer.uniform_getConstructor (kind : Nat) :
    (BVONSerializer.getConstructor kind).Uniform := by
  intro s1 s2 h
  refine ⟨⟨?_, h⟩, rfl⟩
  rw [h.2.2.2.1]

theorem BVONSerializer.uniform_setInt32 (number : Int) :
    (BVONSerializer.setInt32 number).Uniform :=
  BVONSerializer.uniform_setView (littleEndian 4 (toUint32 number))

theorem BVONSerializer.uniform_setInt64 (value : Int64) :
    (BVONSerializer.setInt64 value).Uniform :=
  BVONSerializer.uniform_setView
    [(value.low % 256).toNat, (value.low / 256 % 256).toNat,
      (value.low / 65536 % 256).toNat, (value.low / 16777216 % 256).toNat,
      (value.high % 256).toNat, (value.high / 256 % 256).toNat,
      (value.high / 65536 % 256).toNat, (value.high / 16777216 % 256).toNat]

theorem BVONSerializer.uniform_setFloat64 (number : JSNumber) :
    (BVONSerializer.setFloat64 number).Uniform :=
  BVONSerializer.uniform_setView (littleEndian 8 number.bits)

/-! ## The payload of a big integer -/

theorem Buffer.setByte_comm (buffer : Buffer) (i j x y : Nat) (h : i ≠ j) :
    (buffer.setByte i x).setByte j y = (buffer.setByte j y).setByte i x := by
  funext k
  simp only [Buffer.setByte]
  by_cases h1 : k = j
  · have h2 : ¬ k = i := by omega
    rw [if_pos h1, if_neg h2, if_pos h1]
  · rw [if_neg h1]
    by_cases h2 : k = i
    · rw [if_pos h2, if_pos h2]
    · rw [if_neg h2, if_neg h2, if_neg h1]

theorem Buffer.setByte_setBytes_comm (bytes : List Nat) :
    ∀ (buffer : Buffer) (q i x : Nat), i < q →
      (buffer.setBytes q bytes).setByte i x = (buffer.setByte i x).setBytes q bytes := by
  induction bytes with
  | nil => intro buffer q i x _; rfl
  | cons b rest ih =>
    intro buffer q i x h
    simp only [Buffer.setBytes]
    rw [ih _ _ _ _ (by omega), Buffer.setByte_comm _ _ _ _ _ (by omega)]

theorem Buffer.setBytes_comm (a : List Nat) :
    ∀ (buffer : Buffer) (p q : Nat) (bytes : List Nat), p + a.length ≤ q →
      (buffer.setBytes q bytes).setBytes p a = (buffer.setBytes p a).setBytes q bytes := by
  induction a with
  | nil => intro buffer p q bytes _; rfl
  | cons x rest ih =>
    intro buffer p q bytes h
    simp only [List.length_cons] at h
    simp only [Buffer.setBytes]
    rw [Buffer.setByte_setBytes_comm _ _ _ _ _ (by omega), ih _ _ _ _ (by omega)]

theorem Buffer.setBytes_prepend (buffer : Buffer) (p : Nat) (a bytes : List Nat) :
    (buffer.setBytes (p + a.length) bytes).setBytes p a = buffer.setBytes p (a ++ bytes) := by
  rw [Buffer.setBytes_comm _ _ _ _ _ (Nat.le_refl _), Buffer.setBytes_append]

theorem bigEndian_length (count n : Nat) : (bigEndian count n).length = count := by
  unfold bigEndian
  rw [List.length_reverse]
  induction count generalizing n with
  | zero => rfl
  | succ k ih => simp [littleEndian, ih]

theorem BVONSerializer.setBigIntLoop32_spec (fuel : Nat) :
    ∀ left : Int, ∃ (w : List Nat) (left1 : Int),
      (∀ c, bigIntLoop32 fuel left c = (left1, c + w.length)) ∧
      ∀ (o : Nat) (buffer : Buffer), w.length ≤ o →
        BVONSerializer.setBigIntLoop32 fuel left o buffer =
          (left1, o - w.length, buffer.setBytes (o - w.length) w) := by
  induction fuel with
  | zero => intro left; exact ⟨[], left, fun c => rfl, fun o buffer _ => rfl⟩
  | succ fuel ih =>
    intro left
    by_cases h : left > 0xffffffff
    · obtain ⟨w, left1, hc, hs⟩ := ih (left / 4294967296)
      refine ⟨w ++ bigEndian 4 (left % 4294967296).toNat, left1, ?_, ?_⟩
      · intro c
        simp only [bigIntLoop32, h, if_true, hc, List.length_append, bigEndian_length]
        all_goals first | omega | (congr 1; omega)
      · intro o buffer ho
        simp only [List.length_append, bigEndian_length] at ho ⊢
        simp only [BVONSerializer.setBigIntLoop32, h, if_true]
        rw [hs _ _ (by omega)]
        have e : o - 4 = o - (w.length + 4) + w.length := by omega
        rw [show o - 4 - w.length = o - (w.length + 4) by omega]
        congr 2
        rw [e, Buffer.setBytes_prepend]
    · exact ⟨[], left, fun c => by simp [bigIntLoop32, h],
        fun o buffer _ => by simp [BVONSerializer.setBigIntLoop32, h, Buffer.setBytes]⟩

theorem BVONSerializer.setBigIntLoop16_spec (fuel : Nat) :
    ∀ left : Int, ∃ (w : List Nat) (left1 : Int),
      (∀ c, bigIntLoop16 fuel left c = (left1, c + w.length)) ∧
      ∀ (o : Nat) (buffer : Buffer), w.length ≤ o →
        BVONSerializer.setBigIntLoop16 fuel left o buffer =
          (left1, o - w.length, buffer.setBytes (o - w.length) w) := by
  induction fuel with
  | zero => intro left; exact ⟨[], left, fun c => rfl, fun o buffer _ => rfl⟩
  | succ fuel ih =>
    intro left
    by_cases h : left > 0xffff
    · obtain ⟨w, left1, hc, hs⟩ := ih (toInt32 left / 65536)
      refine ⟨w ++ bigEndian 2 (left % 65536).toNat, left1, ?_, ?_⟩
      · intro c
        simp only [bigIntLoop16, h, if_true, hc, List.length_append, bigEndian_length]
        all_goals first | omega | (congr 1; omega)
      · intro o buffer ho
        simp only [List.length_append, bigEndian_length] at ho ⊢
        simp only [BVONSerializer.setBigIntLoop16, h, if_true]
        rw [hs _ _ (by omega)]
        have e : o - 2 = o - (w.length + 2) + w.length := by omega
        rw [show o - 2 - w.length = o - (w.length + 2) by omega]
        congr 2
        rw [e, Buffer.setBytes_prepend]
    · exact ⟨[], left, fun c => by simp [bigIntLoop16, h],
        fun o buffer _ => by simp [BVONSerializer.setBigIntLoop16, h, Buffer.setBytes]⟩

theorem BVONSerializer.setBigIntLoop8_spec (fuel : Nat) :
    ∀ left : Int, ∃ (w : List Nat) (left1 : Int),
      (∀ c, bigIntLoop8 fuel left c = (left1, c + w.length)) ∧
      ∀ (o : Nat) (buffer : Buffer), w.length ≤ o →
        BVONSerializer.setBigIntLoop8 fuel left o buffer =
          (left1, o - w.length, buffer.setBytes (o - w.length) w) := by
  induction fuel with
  | zero => intro left; exact ⟨[], left, fun c => rfl, fun o buffer _ => rfl⟩
  | succ fuel ih =>
    intro left
    by_cases h : left > 0
    · obtain ⟨w, left1, hc, hs⟩ := ih (toInt32 left / 256)
      refine ⟨w ++ bigEndian 1 (left % 256).toNat, left1, ?_, ?_⟩
      · intro c
        simp only [bigIntLoop8, h, if_true, hc, List.length_append, bigEndian_length]
        all_goals first | omega | (congr 1; omega)
      · intro o buffer ho
        simp only [List.length_append, bigEndian_length] at ho ⊢
        simp only [BVONSerializer.setBigIntLoop8, h, if_true]
        rw [hs _ _ (by omega)]
        have e : o - 1 = o - (w.length + 1) + w.length := by omega
        rw [show o - 1 - w.length = o - (w.length + 1) by omega]
        congr 2
        rw [e, Buffer.setBytes_prepend]
    · exact ⟨[], left, fun c => by simp [bigIntLoop8, h],
        fun o buffer _ => by simp [BVONSerializer.setBigIntLoop8, h, Buffer.setBytes]⟩

theorem BVONSerializer.setBigInt_eq (number : Int) :
    ∃ w : List Nat, w.length = getBigIntByteLength number ∧
      ∀ self : BVONSerializer,
        BVONSerializer.setBigInt (getBigIntByteLength number) number self =
          BVONSerializer.setView w self := by
  obtain ⟨w32, l32, hc32, hs32⟩ := BVONSerializer.setBigIntLoop32_spec number.toNat number
  obtain ⟨w16, l16, hc16, hs16⟩ := BVONSerializer.setBigIntLoop16_spec l32.toNat l32
  obtain ⟨w8, l8, hc8, hs8⟩ := BVONSerializer.setBigIntLoop8_spec l16.toNat l16
  have hlen : getBigIntByteLength number = w32.length + w16.length + w8.length := by
    simp only [getBigIntByteLength, hc32, hc16, hc8]
    omega
  refine ⟨(w8 ++ w16) ++ w32, by simp [hlen]; omega, ?_⟩
  intro self
  simp only [BVONSerializer.setBigInt, BVONSerializer.setView, Step.modify_apply, hlen]
  rw [hs32 _ _ (by omega)]
  simp only
  rw [hs16 _ _ (by omega)]
  simp only
  rw [hs8 _ _ (by omega)]
  simp only [List.length_append]
  have key : ∀ a b c o : Nat, o + (a + b + c) - a - b - c = o ∧
      o + (a + b + c) - a - b = o + c ∧ o + (a + b + c) - a = o + c + b := by
    intro a b c o
    omega
  obtain ⟨e1, e2, e3⟩ := key w32.length w16.length w8.length self.offset
  have p1 := Buffer.setBytes_prepend
    (self.buffer.setBytes (self.offset + w8.length + w16.length) w32) self.offset w8 w16
  have p2 := Buffer.setBytes_prepend self.buffer self.offset (w8 ++ w16) w32
  simp only [List.length_append, ← Nat.add_assoc] at p2
  rw [e1, e2, e3, p1, p2]
  rw [show w32.length + w16.length + w8.length = w8.length + w16.length + w32.length by omega]

theorem BVONSerializer.uniform_writeBigInt (number : Int) :
    (BVONSerializer.writeBigInt number).Uniform := by
  obtain ⟨w, _, hw⟩ := BVONSerializer.setBigInt_eq number
  have : BVONSerializer.setBigInt (getBigIntByteLength number) number
      = BVONSerializer.setView w := funext hw
  unfold BVONSerializer.writeBigInt
  simp only [this]
  exact Step.uniform_bind _ _ (BVONSerializer.uniform_setUint8 _) fun _ =>
    Step.uniform_bind _ _ (BVONSerializer.uniform_writeHeader _) fun _ =>
      BVONSerializer.uniform_setView _

theorem BVONSerializer.uniform_tagged (tag : Nat) (m : Step BVONSerializer Unit)
    (h : m.Uniform) : (BVONSerializer.setUint8 tag >>= fun _ => m).Uniform :=
  Step.uniform_bind _ _ (BVONSerializer.uniform_setUint8 tag) fun _ => h

theorem BVONSerializer.uniform_headed (n : Nat) (m : Step BVONSerializer Unit)
    (h : m.Uniform) : (BVONSerializer.writeHeader n >>= fun _ => m).Uniform :=
  Step.uniform_bind _ _ (BVONSerializer.uniform_writeHeader n) fun _ => h

theorem BVONSerializer.uniform_encoded (string : JSString) :
    (BVONSerializer.encode string >>= fun bytes =>
      BVONSerializer.writeHeader bytes.length >>= fun _ =>
        BVONSerializer.setView bytes).Uniform :=
  Step.uniform_bind _ _ (BVONSerializer.uniform_encode string) fun bytes =>
    BVONSerializer.uniform_headed _ _ (BVONSerializer.uniform_setView bytes)

theorem BVONSerializer.uniform_writeString (string : JSString) :
    (BVONSerializer.writeString string).Uniform :=
  BVONSerializer.uniform_tagged _ _ (BVONSerializer.uniform_encoded string)

theorem BVONSerializer.uniform_writeUOID (string : JSString) :
    (BVONSerializer.writeUOID string).Uniform :=
  BVONSerializer.uniform_tagged _ _ (BVONSerializer.uniform_encoded string)

theorem BVONSerializer.uniform_writeRef (ref : Nat) :
    (BVONSerializer.writeRef ref).Uniform :=
  BVONSerializer.uniform_tagged _ _ (BVONSerializer.uniform_writeHeader ref)

theorem BVONSerializer.uniform_register (string : JSString) :
    (Step.modify fun self : BVONSerializer =>
      { self with map := JSMap.set self.map string self.refIndex,
                  refIndex := self.refIndex + 1 }).Uniform := by
  intro s1 s2 h
  obtain ⟨hm, ho, hr, hc, hb⟩ := h
  refine ⟨⟨rfl, ?_, ho, ?_, hc, hb⟩, rfl⟩
  · simp only [hm, hr]
  · simp only [hr]

theorem BVONSerializer.uniform_writeKey (string : JSString) :
    (BVONSerializer.writeKey string).Uniform := by
  unfold BVONSerializer.writeKey
  refine Step.uniform_bind _ _ (BVONSerializer.uniform_getRef string) fun ref => ?_
  by_cases h : ref = none ∨ ref = some 0
  · rw [if_pos h]
    exact Step.uniform_bind _ _ (BVONSerializer.uniform_register string) fun _ =>
      BVONSerializer.uniform_tagged _ _ (BVONSerializer.uniform_encoded string)
  · rw [if_neg h]
    exact BVONSerializer.uniform_writeRef _

theorem BVONSerializer.uniform_writeInteger (number : Int) :
    (BVONSerializer.writeInteger number).Uniform :=
  BVONSerializer.uniform_tagged _ _ (BVONSerializer.uniform_setInt32 number)

theorem BVONSerializer.uniform_writeInteger64 (number : Int64) :
    (BVONSerializer.writeInteger64 number).Uniform :=
  BVONSerializer.uniform_tagged _ _ (BVONSerializer.uniform_setInt64 number)

theorem BVONSerializer.uniform_writeDouble (number : JSNumber) :
    (BVONSerializer.writeDouble number).Uniform :=
  BVONSerializer.uniform_tagged _ _ (BVONSerializer.uniform_setFloat64 number)

theorem BVONSerializer.uniform_writeNumber (number : JSNumber) :
    (BVONSerializer.writeNumber number).Uniform := by
  unfold BVONSerializer.writeNumber
  simp only
  split
  · split
    · split
      · exact BVONSerializer.uniform_writeInteger _
      · exact BVONSerializer.uniform_writeInteger64 _
    · exact BVONSerializer.uniform_writeDouble _
  · exact BVONSerializer.uniform_writeDouble _

theorem BVONSerializer.uniform_writeDate (time : Option Int) :
    (BVONSerializer.writeDate time).Uniform :=
  BVONSerializer.uniform_tagged _ _ (BVONSerializer.uniform_setInt64 _)

theorem BVONSerializer.uniform_writeBoolean (bool : Bool) :
    (BVONSerializer.writeBoolean bool).Uniform :=
  BVONSerializer.uniform_tagged _ _ (BVONSerializer.uniform_setUint8 _)

theorem BVONSerializer.uniform_writeView (item : List Nat) :
    (BVONSerializer.writeView item).Uniform :=
  BVONSerializer.uniform_tagged _ _
    (BVONSerializer.uniform_headed _ _ (BVONSerializer.uniform_setView item))

mutual
theorem BVONSerializer.uniform_write (x : Value) : (BVONSerializer.write x).Uniform :=
  match x with
  | .undefined => by rw [BVONSerializer.write]; exact BVONSerializer.uniform_setUint8 _
  | .null => by rw [BVONSerializer.write]; exact BVONSerializer.uniform_setUint8 _
  | .bigint b => by rw [BVONSerializer.write]; exact BVONSerializer.uniform_writeBigInt b
  | .string s => by rw [BVONSerializer.write]; exact BVONSerializer.uniform_writeString s
  | .number n => by rw [BVONSerializer.write]; exact BVONSerializer.uniform_writeNumber n
  | .boolean b => by rw [BVONSerializer.write]; exact BVONSerializer.uniform_writeBoolean b
  | .date t => by rw [BVONSerializer.write]; exact BVONSerializer.uniform_writeDate t
  | .int64 i => by rw [BVONSerializer.write]; exact BVONSerializer.uniform_writeInteger64 i
  | .array items => by
    rw [BVONSerializer.write]
    exact BVONSerializer.uniform_tagged _ _
      (BVONSerializer.uniform_headed _ _ (BVONSerializer.uniform_writeMembers items))
  | .map entries => by
    rw [BVONSerializer.write]
    exact BVONSerializer.uniform_tagged _ _
      (BVONSerializer.uniform_headed _ _ (BVONSerializer.uniform_writeEntries entries))
  | .uoid text => by rw [BVONSerializer.write]; exact BVONSerializer.uniform_writeUOID text
  | .set members => by
    rw [BVONSerializer.write]
    exact BVONSerializer.uniform_tagged _ _
      (BVONSerializer.uniform_headed _ _ (BVONSerializer.uniform_writeMembers members))
  | .byteView bytes => by rw [BVONSerializer.write]; exact BVONSerializer.uniform_writeView bytes
  | .regExp source flags => by
    rw [BVONSerializer.write]
    exact BVONSerializer.uniform_tagged _ _
      (Step.uniform_bind _ _ (BVONSerializer.uniform_writeString source) fun _ =>
        BVONSerializer.uniform_writeString flags)
  | .object fields => by
    rw [BVONSerializer.write]
    exact BVONSerializer.uniform_tagged _ _
      (BVONSerializer.uniform_headed _ _ (BVONSerializer.uniform_writeFields fields))
  | .classInstance kind fields args => by
    rw [BVONSerializer.write]
    refine Step.uniform_bind _ _ (BVONSerializer.uniform_getConstructor kind) fun entry => ?_
    cases entry with
    | some entry =>
      exact BVONSerializer.uniform_tagged _ _
        (BVONSerializer.uniform_headed _ _ (BVONSerializer.uniform_write args))
    | none =>
      exact BVONSerializer.uniform_tagged _ _
        (BVONSerializer.uniform_headed _ _ (BVONSerializer.uniform_writeStringFields fields))
termination_by structural x
theorem BVONSerializer.uniform_writeMembers (x : List Value) :
    (BVONSerializer.writeMembers x).Uniform :=
  match x with
  | [] => by rw [BVONSerializer.writeMembers]; exact Step.uniform_pure _
  | member :: rest => by
    rw [BVONSerializer.writeMembers]
    exact Step.uniform_bind _ _ (BVONSerializer.uniform_write member) fun _ =>
      BVONSerializer.uniform_writeMembers rest
termination_by structural x
theorem BVONSerializer.uniform_writeEntries (x : List (Value × Value)) :
    (BVONSerializer.writeEntries x).Uniform :=
  match x with
  | [] => by rw [BVONSerializer.writeEntries]; exact Step.uniform_pure _
  | (key, value) :: rest => by
    rw [BVONSerializer.writeEntries]
    exact Step.uniform_bind _ _ (BVONSerializer.uniform_write key) fun _ =>
      Step.uniform_bind _ _ (BVONSerializer.uniform_write value) fun _ =>
        BVONSerializer.uniform_writeEntries rest
termination_by structural x
theorem BVONSerializer.uniform_writeFields (x : List (JSString × Value)) :
    (BVONSerializer.writeFields x).Uniform :=
  match x with
  | [] => by rw [BVONSerializer.writeFields]; exact Step.uniform_pure _
  | (key, value) :: rest => by
    rw [BVONSerializer.writeFields]
    exact Step.uniform_bind _ _ (BVONSerializer.uniform_writeKey key) fun _ =>
      Step.uniform_bind _ _ (BVONSerializer.uniform_write value) fun _ =>
        BVONSerializer.uniform_writeFields rest
termination_by structural x
theorem BVONSerializer.uniform_writeStringFields (x : List (JSString × Value)) :
    (BVONSerializer.writeStringFields x).Uniform :=
  match x with
  | [] => by rw [BVONSerializer.writeStringFields]; exact Step.uniform_pure _
  | (key, value) :: rest => by
    rw [BVONSerializer.writeStringFields]
    exact Step.uniform_bind _ _ (BVONSerializer.uniform_writeString key) fun _ =>
      Step.uniform_bind _ _ (BVONSerializer.uniform_write value) fun _ =>
        BVONSerializer.uniform_writeStringFields rest
termination_by structural x
end

/-! ## A second call on the same class -/

theorem BVONSerializer.Agree.slice_eq {a b : BVONSerializer} (h : a.Agree b) :
    a.buffer.slice 0 a.offset = b.buffer.slice 0 b.offset := by
  obtain ⟨_, ho, _, _, hb⟩ := h
  rw [← ho]
  simp only [Buffer.slice]
  apply List.map_congr_left
  intro i hi
  simp only [List.mem_range] at hi
  exact hb _ (by omega)

theorem BVONSerializer.writeKey_first_byte (key : JSString) (st : BVONSerializer)
    (h : JSMap.get st.map key = none) :
    (BVONSerializer.writeKey key st).state.buffer st.offset = 6 := by
  simp only [BVONSerializer.writeKey, Step.bind_apply, BVONSerializer.getRef, h, true_or,
    if_true, Step.modify_apply, BVONSerializer.setUint8, BVONSerializer.encode]
  cases ByteEncoder.encode key with
  | error e => simp [Result.state, Buffer.setByte, TYPES.STRING]
  | ok bytes =>
    simp only
    by_cases hl : bytes.length < 0x100000000
    · rw [BVONSerializer.writeHeader_eq _ hl]
      simp only [BVONSerializer.setView, Step.modify_apply, Result.state]
      rw [Buffer.setBytes_apply_lt _ _ _ _ (by omega), Buffer.setBytes_apply_lt _ _ _ _ (by omega)]
      simp [Buffer.setByte, TYPES.STRING]
    · have h1 : ¬ bytes.length < 0x100 := by omega
      have h2 : ¬ bytes.length < 0x10000 := by omega
      simp [BVONSerializer.writeHeader, h1, h2, hl, Result.state, Buffer.setByte, TYPES.STRING]

/-- Claim C9: when `BVON.serialize(v1)` with no schema returns, on a class in any state,
the writer of the class is left with offset 0, an empty interning table and the counter
0, and `BVON.serialize(v2)` with no schema on that class gives exactly what it gives on a
fresh class with the same registry (the same bytes, or an exception in both); a key that
the interning table does not hold is written with the tag `STRING`. -/
theorem serialize_twice_same_as_fresh (self : BVON) (v1 v2 : Value)
    (h : (BVON.serialize v1 none self).value? ≠ none) :
    ((BVON.serialize v1 none self).state.1.serializer.offset = 0 ∧
      (BVON.serialize v1 none self).state.1.serializer.map = [] ∧
      (BVON.serialize v1 none self).state.1.serializer.refIndex = 0) ∧
    (BVON.serialize v2 none (BVON.serialize v1 none self).state.1).value? =
      (BVON.serialize v2 none (BVON.new self.serializer.constructors)).value? ∧
    (∀ (key : JSString) (st : BVONSerializer), JSMap.get st.map key = none →
      (BVONSerializer.writeKey key st).state.buffer st.offset = TYPES.STRING) := by
  have hrefl : self.serializer.Agree self.serializer := ⟨rfl, rfl, rfl, rfl, fun _ _ => rfl⟩
  have h1 := BVONSerializer.uniform_write v1 _ _ hrefl
  refine ⟨?_, ?_, fun key st hk => BVONSerializer.writeKey_first_byte key st hk⟩
  · simp only [BVON.serialize] at h ⊢
    cases e : BVONSerializer.write v1 self.serializer with
    | error err st => rw [e] at h; simp [Result.value?] at h
    | ok u st => simp [Result.state, BVONSerializer.reset]
  · simp only [BVON.serialize, BVON.new] at h ⊢
    cases e : BVONSerializer.write v1 self.serializer with
    | error err st => rw [e] at h; simp [Result.value?] at h
    | ok u st =>
      rw [e] at h1
      have hc : st.constructors = self.serializer.constructors := h1.2
      have hag : st.reset.Agree (BVONSerializer.new self.serializer.constructors) :=
        ⟨rfl, rfl, rfl, hc, fun i hi => absurd hi (Nat.not_lt_zero i)⟩
      have h2 := (BVONSerializer.uniform_write v2 _ _ hag).1
      simp only [Result.state]
      cases e1 : BVONSerializer.write v2 st.reset with
      | ok a t1 =>
        cases e2 : BVONSerializer.write v2
            (BVONSerializer.new self.serializer.constructors) with
        | ok b t2 =>
          rw [e1, e2] at h2
          simp only [Result.value?]
          rw [h2.2.slice_eq]
        | error err t2 => rw [e1, e2] at h2; exact absurd h2 (by simp [Result.Agree])
      | error err t1 =>
        cases e2 : BVONSerializer.write v2
            (BVONSerializer.new self.serializer.constructors) with
        | ok b t2 => rw [e1, e2] at h2; exact absurd h2 (by simp [Result.Agree])
        | error err2 t2 => simp [Result.value?]

/-- The statement of `serialize_twice_same_as_fresh` holds at the fresh class and the
values `{a: 1}` and `[{a: 2}, {a: 3}]`, where the first call returns and the second
gives the bytes in which the first key `a` is `STRING` text. -/
theorem serialize_twice_same_as_fresh_witness :
    (BVON.serialize (.object [([97], .number (JSNumber.ofInt 1))]) none (BVON.new [])).value?
        ≠ none ∧
      (BVON.serialize
          (.array [.object [([97], .number (JSNumber.ofInt 2))],
            .object [([97], .number (JSNumber.ofInt 3))]]) none
          (BVON.serialize (.object [([97], .number (JSNumber.ofInt 1))]) none
            (BVON.new [])).state.1).value? =
        some [10, 8, 2, 9, 8, 1, 6, 8, 1, 97, 2, 2, 0, 0, 0,
          9, 8, 1, 6, 8, 1, 97, 2, 3, 0, 0, 0] := by
  refine ⟨by decide!, ?_⟩
  rw [(serialize_twice_same_as_fresh (BVON.new [])
      (.object [([97], .number (JSNumber.ofInt 1))])
      (.array [.object [([97], .number (JSNumber.ofInt 2))],
        .object [([97], .number (JSNumber.ofInt 3))]]) (by decide!)).2.1]
  decide!

/-! ## Properties kept by every step -/

theorem Step.keeps_pure {σ α : Type} (P : σ → Prop) (a : α) : (pure a : Step σ α).Keeps P :=
  fun _ h => h

theorem Step.keeps_throw {σ α : Type} (P : σ → Prop) (e : JSError) :
    (Step.throw e : Step σ α).Keeps P :=
  fun _ h => h

theorem Step.keeps_bind {σ α β : Type} (P : σ → Prop) (m : Step σ α) (f : α → Step σ β)
    (hm : m.Keeps P) (hf : ∀ a, (f a).Keeps P) : (m >>= f).Keeps P := by
  intro s h
  have h1 := hm s h
  simp only [Step.bind_apply]
  cases e : m s with
  | ok a t => rw [e] at h1; exact hf a t h1
  | error err t => rw [e] at h1; exact h1

theorem Step.keeps_modify {σ : Type} (P : σ → Prop) (f : σ → σ) (h : ∀ s, P s → P (f s)) :
    (Step.modify f).Keeps P :=
  fun s hs => h s hs

/-! ## The writer leaves a table that registers every name as it is -/

theorem BVONSerializer.keeps_setView (m0 : JSMap) (bytes : List Nat) :
    (BVONSerializer.setView bytes).Keeps fun st => st.map = m0 :=
  fun _ h => h

theorem BVONSerializer.keeps_setUint8 (m0 : JSMap) (number : Nat) :
    (BVONSerializer.setUint8 number).Keeps fun st => st.map = m0 :=
  fun _ h => h

theorem BVONSerializer.keeps_writeHeader (m0 : JSMap) (n : Nat) :
    (BVONSerializer.writeHeader n).Keeps fun st => st.map = m0 := by
  unfold BVONSerializer.writeHeader
  split
  · exact Step.keeps_bind _ _ _ (BVONSerializer.keeps_setUint8 m0 _) fun _ =>
      BVONSerializer.keeps_setUint8 m0 _
  · split
    · exact Step.keeps_bind _ _ _ (BVONSerializer.keeps_setUint8 m0 _) fun _ => fun _ h => h
    · split
      · exact Step.keeps_bind _ _ _ (BVONSerializer.keeps_setUint8 m0 _) fun _ => fun _ h => h
      · exact Step.keeps_throw _ _

theorem BVONSerializer.keeps_tagged (m0 : JSMap) (tag : Nat) (m : Step BVONSerializer Unit)
    (h : m.Keeps fun st => st.map = m0) :
    (BVONSerializer.setUint8 tag >>= fun _ => m).Keeps fun st => st.map = m0 :=
  Step.keeps_bind _ _ _ (BVONSerializer.keeps_setUint8 m0 tag) fun _ => h

theorem BVONSerializer.keeps_headed (m0 : JSMap) (n : Nat) (m : Step BVONSerializer Unit)
    (h : m.Keeps fun st => st.map = m0) :
    (BVONSerializer.writeHeader n >>= fun _ => m).Keeps fun st => st.map = m0 :=
  Step.keeps_bind _ _ _ (BVONSerializer.keeps_writeHeader m0 n) fun _ => h

theorem BVONSerializer.keeps_encoded (m0 : JSMap) (string : JSString) :
    (BVONSerializer.encode string >>= fun bytes =>
      BVONSerializer.writeHeader bytes.length >>= fun _ =>
        BVONSerializer.setView bytes).Keeps fun st => st.map = m0 := by
  refine Step.keeps_bind _ _ _ ?_ fun bytes =>
    BVONSerializer.keeps_headed m0 _ _ (BVONSerializer.keeps_setView m0 bytes)
  intro s h
  unfold BVONSerializer.encode
  cases ByteEncoder.encode string <;> exact h

theorem BVONSerializer.keeps_writeString (m0 : JSMap) (string : JSString) :
    (BVONSerializer.writeString string).Keeps fun st => st.map = m0 :=
  BVONSerializer.keeps_tagged m0 _ _ (BVONSerializer.keeps_encoded m0 string)

theorem BVONSerializer.keeps_writeNumber (m0 : JSMap) (number : JSNumber) :
    (BVONSerializer.writeNumber number).Keeps fun st => st.map = m0 := by
  unfold BVONSerializer.writeNumber
  simp only
  split
  · split
    · split
      · exact BVONSerializer.keeps_tagged m0 _ _ fun _ h => h
      · exact BVONSerializer.keeps_tagged m0 _ _ fun _ h => h
    · exact BVONSerializer.keeps_tagged m0 _ _ fun _ h => h
  · exact BVONSerializer.keeps_tagged m0 _ _ fun _ h => h

theorem BVONSerializer.keeps_writeBigInt (m0 : JSMap) (number : Int) :
    (BVONSerializer.writeBigInt number).Keeps fun st => st.map = m0 :=
  BVONSerializer.keeps_tagged m0 _ _ (BVONSerializer.keeps_headed m0 _ _ fun _ h => h)

theorem BVONSerializer.keeps_writeKey (m0 : JSMap) (string : JSString)
    (h : ∃ id, JSMap.get m0 string = some id ∧ id ≠ 0) :
    (BVONSerializer.writeKey string).Keeps fun st => st.map = m0 := by
  obtain ⟨id, hid, hne⟩ := h
  intro s hs
  have hs' : s.map = m0 := hs
  have hcond : ¬ (JSMap.get s.map string = none ∨ JSMap.get s.map string = some 0) := by
    rw [hs', hid]
    simp [hne]
  simp only [BVONSerializer.writeKey, Step.bind_apply, BVONSerializer.getRef, hcond, if_false]
  exact BVONSerializer.keeps_tagged m0 _ _ (BVONSerializer.keeps_writeHeader m0 _) s hs

mutual
theorem BVONSerializer.keeps_write (m0 : JSMap) (x : Value)
    (h : ∀ k ∈ x.recordNames, ∃ id, JSMap.get m0 k = some id ∧ id ≠ 0) :
    (BVONSerializer.write x).Keeps fun st => st.map = m0 :=
  match x with
  | .undefined => by rw [BVONSerializer.write]; exact BVONSerializer.keeps_setUint8 m0 _
  | .null => by rw [BVONSerializer.write]; exact BVONSerializer.keeps_setUint8 m0 _
  | .bigint b => by rw [BVONSerializer.write]; exact BVONSerializer.keeps_writeBigInt m0 b
  | .string s => by rw [BVONSerializer.write]; exact BVONSerializer.keeps_writeString m0 s
  | .number n => by rw [BVONSerializer.write]; exact BVONSerializer.keeps_writeNumber m0 n
  | .boolean b => by
    rw [BVONSerializer.write]
    exact BVONSerializer.keeps_tagged m0 _ _ (BVONSerializer.keeps_setUint8 m0 _)
  | .date t => by
    rw [BVONSerializer.write]
    exact BVONSerializer.keeps_tagged m0 _ _ fun _ h => h
  | .int64 i => by
    rw [BVONSerializer.write]
    exact BVONSerializer.keeps_tagged m0 _ _ fun _ h => h
  | .array items => by
    rw [BVONSerializer.write]
    exact BVONSerializer.keeps_tagged m0 _ _ (BVONSerializer.keeps_headed m0 _ _
      (BVONSerializer.keeps_writeMembers m0 items (by simpa [Value.recordNames] using h)))
  | .map entries => by
    rw [BVONSerializer.write]
    exact BVONSerializer.keeps_tagged m0 _ _ (BVONSerializer.keeps_headed m0 _ _
      (BVONSerializer.keeps_writeEntries m0 entries (by simpa [Value.recordNames] using h)))
  | .uoid text => by
    rw [BVONSerializer.write]
    exact BVONSerializer.keeps_tagged m0 _ _ (BVONSerializer.keeps_encoded m0 text)
  | .set members => by
    rw [BVONSerializer.write]
    exact BVONSerializer.keeps_tagged m0 _ _ (BVONSerializer.keeps_headed m0 _ _
      (BVONSerializer.keeps_writeMembers m0 members (by simpa [Value.recordNames] using h)))
  | .byteView bytes => by
    rw [BVONSerializer.write]
    exact BVONSerializer.keeps_tagged m0 _ _ (BVONSerializer.keeps_headed m0 _ _ fun _ h => h)
  | .regExp source flags => by
    rw [BVONSerializer.write]
    exact BVONSerializer.keeps_tagged m0 _ _
      (Step.keeps_bind _ _ _ (BVONSerializer.keeps_writeString m0 source) fun _ =>
        BVONSerializer.keeps_writeString m0 flags)
  | .object fields => by
    rw [BVONSerializer.write]
    exact BVONSerializer.keeps_tagged m0 _ _ (BVONSerializer.keeps_headed m0 _ _
      (BVONSerializer.keeps_writeFields m0 fields (by simpa [Value.recordNames] using h)))
  | .classInstance kind fields args => by
    rw [BVONSerializer.write]
    refine Step.keeps_bind _ _ _ (fun _ h => h) fun entry => ?_
    have h1 : ∀ k ∈ Value.recordNamesValues fields, ∃ id, JSMap.get m0 k = some id ∧ id ≠ 0 :=
      fun k hk => h k (by simp [Value.recordNames, hk])
    have h2 : ∀ k ∈ args.recordNames, ∃ id, JSMap.get m0 k = some id ∧ id ≠ 0 :=
      fun k hk => h k (by simp [Value.recordNames, hk])
    cases entry with
    | some entry =>
      exact BVONSerializer.keeps_tagged m0 _ _ (BVONSerializer.keeps_headed m0 _ _
        (BVONSerializer.keeps_write m0 args h2))
    | none =>
      exact BVONSerializer.keeps_tagged m0 _ _ (BVONSerializer.keeps_headed m0 _ _
        (BVONSerializer.keeps_writeStringFields m0 fields h1))
termination_by structural x
theorem BVONSerializer.keeps_writeMembers (m0 : JSMap) (x : List Value)
    (h : ∀ k ∈ Value.recordNamesList x, ∃ id, JSMap.get m0 k = some id ∧ id ≠ 0) :
    (BVONSerializer.writeMembers x).Keeps fun st => st.map = m0 :=
  match x with
  | [] => by rw [BVONSerializer.writeMembers]; exact Step.keeps_pure _ _
  | member :: rest => by
    rw [BVONSerializer.writeMembers]
    exact Step.keeps_bind _ _ _
      (BVONSerializer.keeps_write m0 member fun k hk =>
        h k (by simp [Value.recordNamesList, hk])) fun _ =>
      BVONSerializer.keeps_writeMembers m0 rest fun k hk =>
        h k (by simp [Value.recordNamesList, hk])
termination_by structural x
theorem BVONSerializer.keeps_writeEntries (m0 : JSMap) (x : List (Value × Value))
    (h : ∀ k ∈ Value.recordNamesEntries x, ∃ id, JSMap.get m0 k = some id ∧ id ≠ 0) :
    (BVONSerializer.writeEntries x).Keeps fun st => st.map = m0 :=
  match x with
  | [] => by rw [BVONSerializer.writeEntries]; exact Step.keeps_pure _ _
  | (key, value) :: rest => by
    rw [BVONSerializer.writeEntries]
    exact Step.keeps_bind _ _ _
      (BVONSerializer.keeps_write m0 key fun k hk =>
        h k (by simp [Value.recordNamesEntries, hk])) fun _ =>
      Step.keeps_bind _ _ _
        (BVONSerializer.keeps_write m0 value fun k hk =>
          h k (by simp [Value.recordNamesEntries, hk])) fun _ =>
        BVONSerializer.keeps_writeEntries m0 rest fun k hk =>
          h k (by simp [Value.recordNamesEntries, hk])
termination_by structural x
theorem BVONSerializer.keeps_writeFields (m0 : JSMap) (x : List (JSString × Value))
    (h : ∀ k ∈ Value.recordNamesFields x, ∃ id, JSMap.get m0 k = some id ∧ id ≠ 0) :
    (BVONSerializer.writeFields x).Keeps fun st => st.map = m0 :=
  match x with
  | [] => by rw [BVONSerializer.writeFields]; exact Step.keeps_pure _ _
  | (key, value) :: rest => by
    rw [BVONSerializer.writeFields]
    exact Step.keeps_bind _ _ _
      (BVONSerializer.keeps_writeKey m0 key (h key (by simp [Value.recordNamesFields]))) fun _ =>
      Step.keeps_bind _ _ _
        (BVONSerializer.keeps_write m0 value fun k hk =>
          h k (by simp [Value.recordNamesFields, hk])) fun _ =>
        BVONSerializer.keeps_writeFields m0 rest fun k hk =>
          h k (by simp [Value.recordNamesFields, hk])
termination_by structural x
theorem BVONSerializer.keeps_writeStringFields (m0 : JSMap) (x : List (JSString × Value))
    (h : ∀ k ∈ Value.recordNamesValues x, ∃ id, JSMap.get m0 k = some id ∧ id ≠ 0) :
    (BVONSerializer.writeStringFields x).Keeps fun st => st.map = m0 :=
  match x with
  | [] => by rw [BVONSerializer.writeStringFields]; exact Step.keeps_pure _ _
  | (key, value) :: rest => by
    rw [BVONSerializer.writeStringFields]
    exact Step.keeps_bind _ _ _ (BVONSerializer.keeps_writeString m0 key) fun _ =>
      Step.keeps_bind _ _ _
        (BVONSerializer.keeps_write m0 value fun k hk =>
          h k (by simp [Value.recordNamesValues, hk])) fun _ =>
        BVONSerializer.keeps_writeStringFields m0 rest fun k hk =>
          h k (by simp [Value.recordNamesValues, hk])
termination_by structural x
end

/-! ## The reader leaves the names below the counter of the schema as they are -/

theorem JSArray.get_set_ne (a : JSArray) (i j : Nat) (value : JSString) (h : i < j) :
    JSArray.get (JSArray.set a j value) i = JSArray.get a i := by
  unfold JSArray.get JSArray.set
  simp only [List.getD_eq_getElem?_getD]
  by_cases hj : j < a.length
  · rw [if_pos hj, List.getElem?_set_ne (by omega)]
  · rw [if_neg hj]
    by_cases hi : i < a.length
    · rw [List.append_assoc, List.getElem?_append_left hi]
    · rw [List.getElem?_append_left (by simp; omega),
        List.getElem?_append_right (by omega), List.getElem?_eq_none (Nat.le_of_not_lt hi)]
      cases hr : (List.replicate (j - a.length) none)[i - a.length]? with
      | none => rfl
      | some x =>
        have := List.getElem?_mem hr
        rw [List.mem_replicate] at this
        rw [this.2]
        rfl

theorem BVONDeserializer.keeps_readUint8 (n : Nat) (m0 : JSArray) :
    BVONDeserializer.readUint8.Keeps (BVONDeserializer.Above n m0) := by
  intro s h
  unfold BVONDeserializer.readUint8
  split <;> exact h

theorem BVONDeserializer.keeps_readUint16 (n : Nat) (m0 : JSArray) :
    BVONDeserializer.readUint16.Keeps (BVONDeserializer.Above n m0) := by
  unfold BVONDeserializer.readUint16
  refine Step.keeps_bind _ _ _ (BVONDeserializer.keeps_readUint8 n m0) fun first =>
    Step.keeps_bind _ _ _ (BVONDeserializer.keeps_readUint8 n m0) fun second => ?_
  cases first <;> exact Step.keeps_pure _ _

theorem BVONDeserializer.keeps_viewBytes (n : Nat) (m0 : JSArray) (count : Nat) :
    (BVONDeserializer.viewBytes count).Keeps (BVONDeserializer.Above n m0) := by
  intro s h
  unfold BVONDeserializer.viewBytes
  split
  · exact h
  · simp only
    split <;> exact h

theorem BVONDeserializer.keeps_advance (n : Nat) (m0 : JSArray) (length : Length) :
    (Step.modify fun self : BVONDeserializer =>
      { self with offset := BVONDeserializer.advance self.offset length }).Keeps
        (BVONDeserializer.Above n m0) :=
  fun _ h => h

theorem BVONDeserializer.keeps_readUint32 (n : Nat) (m0 : JSArray) :
    BVONDeserializer.readUint32.Keeps (BVONDeserializer.Above n m0) :=
  Step.keeps_bind _ _ _ (BVONDeserializer.keeps_viewBytes n m0 4) fun _ =>
    Step.keeps_bind _ _ _ (BVONDeserializer.keeps_advance n m0 _) fun _ => Step.keeps_pure _ _

theorem BVONDeserializer.keeps_readWord (n : Nat) (m0 : JSArray) :
    BVONDeserializer.readWord.Keeps (BVONDeserializer.Above n m0) :=
  Step.keeps_bind _ _ _ (BVONDeserializer.keeps_readUint8 n m0) fun _ =>
    Step.keeps_bind _ _ _ (BVONDeserializer.keeps_readUint8 n m0) fun _ =>
      Step.keeps_bind _ _ _ (BVONDeserializer.keeps_readUint8 n m0) fun _ =>
        Step.keeps_bind _ _ _ (BVONDeserializer.keeps_readUint8 n m0) fun _ =>
          Step.keeps_pure _ _

theorem BVONDeserializer.keeps_readInt64 (n : Nat) (m0 : JSArray) :
    BVONDeserializer.readInt64.Keeps (BVONDeserializer.Above n m0) :=
  Step.keeps_bind _ _ _ (BVONDeserializer.keeps_readWord n m0) fun _ =>
    Step.keeps_bind _ _ _ (BVONDeserializer.keeps_readWord n m0) fun _ => Step.keeps_pure _ _

theorem BVONDeserializer.keeps_readDouble (n : Nat) (m0 : JSArray) :
    BVONDeserializer.readDouble.Keeps (BVONDeserializer.Above n m0) :=
  Step.keeps_bind _ _ _ (BVONDeserializer.keeps_viewBytes n m0 8) fun _ =>
    Step.keeps_bind _ _ _ (BVONDeserializer.keeps_advance n m0 _) fun _ => Step.keeps_pure _ _

theorem BVONDeserializer.keeps_readHeader (n : Nat) (m0 : JSArray) :
    BVONDeserializer.readHeader.Keeps (BVONDeserializer.Above n m0) := by
  unfold BVONDeserializer.readHeader
  refine Step.keeps_bind _ _ _ (BVONDeserializer.keeps_readUint8 n m0) fun lengthHeader => ?_
  split
  · refine Step.keeps_bind _ _ _ (BVONDeserializer.keeps_readUint8 n m0) fun res => ?_
    cases res <;> exact Step.keeps_pure _ _
  · exact BVONDeserializer.keeps_readUint16 n m0
  · exact BVONDeserializer.keeps_readUint32 n m0
  · exact Step.keeps_throw _ _

theorem BVONDeserializer.keeps_readBigInt (n : Nat) (m0 : JSArray) (length : Length) :
    (BVONDeserializer.readBigInt length).Keeps (BVONDeserializer.Above n m0) := by
  intro s h
  unfold BVONDeserializer.readBigInt
  split
  · exact h
  · simp only
    split <;> exact h

theorem BVONDeserializer.keeps_readString (n : Nat) (m0 : JSArray) (length : Length) :
    (BVONDeserializer.readString length).Keeps (BVONDeserializer.Above n m0) := by
  intro s h
  unfold BVONDeserializer.readString
  split
  · exact h
  · split <;> exact h

theorem BVONDeserializer.keeps_readView (n : Nat) (m0 : JSArray) (length : Length) :
    (BVONDeserializer.readView length).Keeps (BVONDeserializer.Above n m0) := by
  intro s h
  unfold BVONDeserializer.readView
  split <;> exact h

theorem BVONDeserializer.keeps_getName (n : Nat) (m0 : JSArray) (ref : Length) :
    (BVONDeserializer.getName ref).Keeps (BVONDeserializer.Above n m0) := by
  intro s h
  unfold BVONDeserializer.getName
  split <;> exact h

theorem BVONDeserializer.keeps_readKey (n : Nat) (m0 : JSArray) (blockType : Option Nat) :
    (BVONDeserializer.readKey blockType).Keeps (BVONDeserializer.Above n m0) := by
  unfold BVONDeserializer.readKey
  split
  · exact Step.keeps_bind _ _ _ (BVONDeserializer.keeps_readHeader n m0) fun ref =>
      BVONDeserializer.keeps_getName n m0 ref
  split
  · refine Step.keeps_bind _ _ _ (BVONDeserializer.keeps_readHeader n m0) fun length =>
      Step.keeps_bind _ _ _ (BVONDeserializer.keeps_readString n m0 length) fun str =>
        Step.keeps_bind _ _ _ (Step.keeps_modify _ _ ?_) fun _ => Step.keeps_pure _ _
    intro s h
    refine ⟨Nat.le_succ_of_le h.1, fun i hi => ?_⟩
    simp only
    rw [JSArray.get_set_ne _ _ _ _ (Nat.lt_of_lt_of_le hi h.1)]
    exact h.2 i hi
  · exact Step.keeps_throw _ _

theorem BVONDeserializer.keeps_readFields (n : Nat) (m0 : JSArray)
    (block : Step BVONDeserializer Value) (hb : block.Keeps (BVONDeserializer.Above n m0))
    (remaining : Nat) :
    ∀ (curr : Option Nat) (obj : List (JSString × Value)),
      (BVONDeserializer.readFields block remaining curr obj).Keeps
        (BVONDeserializer.Above n m0) := by
  induction remaining with
  | zero => intro curr obj; exact Step.keeps_pure _ _
  | succ k ih =>
    intro curr obj
    unfold BVONDeserializer.readFields
    refine Step.keeps_bind _ _ _ (BVONDeserializer.keeps_readKey n m0 curr) fun key =>
      Step.keeps_bind _ _ _ hb fun value => ?_
    simp only
    split
    · exact Step.keeps_bind _ _ _ (BVONDeserializer.keeps_readUint8 n m0) fun c => ih c _
    · exact ih _ _

theorem BVONDeserializer.keeps_readEntries (n : Nat) (m0 : JSArray)
    (block : Step BVONDeserializer Value) (hb : block.Keeps (BVONDeserializer.Above n m0))
    (remaining : Nat) :
    ∀ (map : List (Value × Value)),
      (BVONDeserializer.readEntries block remaining map).Keeps
        (BVONDeserializer.Above n m0) := by
  induction remaining with
  | zero => intro map; exact Step.keeps_pure _ _
  | succ k ih =>
    intro map
    unfold BVONDeserializer.readEntries
    exact Step.keeps_bind _ _ _ hb fun key => Step.keeps_bind _ _ _ hb fun value => ih _

theorem BVONDeserializer.keeps_readMembers (n : Nat) (m0 : JSArray)
    (block : Step BVONDeserializer Value) (hb : block.Keeps (BVONDeserializer.Above n m0))
    (remaining : Nat) :
    ∀ (set : List Value),
      (BVONDeserializer.readMembers block remaining set).Keeps
        (BVONDeserializer.Above n m0) := by
  induction remaining with
  | zero => intro set; exact Step.keeps_pure _ _
  | succ k ih =>
    intro set
    unfold BVONDeserializer.readMembers
    exact Step.keeps_bind _ _ _ hb fun member => ih _

theorem BVONDeserializer.keeps_readItems (n : Nat) (m0 : JSArray)
    (block : Step BVONDeserializer Value) (hb : block.Keeps (BVONDeserializer.Above n m0))
    (remaining : Nat) :
    ∀ (arr : List Value),
      (BVONDeserializer.readItems block remaining arr).Keeps
        (BVONDeserializer.Above n m0) := by
  induction remaining with
  | zero => intro arr; exact Step.keeps_pure _ _
  | succ k ih =>
    intro arr
    unfold BVONDeserializer.readItems
    exact Step.keeps_bind _ _ _ hb fun item => ih _

theorem BVONDeserializer.keeps_readBlockCase (n : Nat) (m0 : JSArray)
    (block : Step BVONDeserializer Value) (ih : block.Keeps (BVONDeserializer.Above n m0))
    (blockType : Option Nat) :
    (BVONDeserializer.readBlockCase block blockType).Keeps (BVONDeserializer.Above n m0) := by
  unfold BVONDeserializer.readBlockCase
  by_cases h1 : blockType = some TYPES.STRING
  · rw [if_pos h1]
    exact Step.keeps_bind _ _ _ (BVONDeserializer.keeps_readHeader n m0) fun length =>
      Step.keeps_bind _ _ _ (BVONDeserializer.keeps_readString n m0 length) fun _ =>
        Step.keeps_pure _ _
  rw [if_neg h1]
  by_cases h2 : blockType = some TYPES.UOID
  · rw [if_pos h2]
    refine Step.keeps_bind _ _ _ (BVONDeserializer.keeps_readHeader n m0) fun length =>
      Step.keeps_bind _ _ _ (BVONDeserializer.keeps_readString n m0 length) fun str => ?_
    split
    · exact Step.keeps_pure _ _
    · exact Step.keeps_throw _ _
  rw [if_neg h2]
  by_cases h3 : blockType = some TYPES.BYTEVIEW
  · rw [if_pos h3]
    exact Step.keeps_bind _ _ _ (BVONDeserializer.keeps_readHeader n m0) fun length =>
      Step.keeps_bind _ _ _ (BVONDeserializer.keeps_readView n m0 length) fun _ =>
        Step.keeps_pure _ _
  rw [if_neg h3]
  by_cases h4 : blockType = some TYPES.INT32
  · rw [if_pos h4]
    exact Step.keeps_bind _ _ _ (BVONDeserializer.keeps_readWord n m0) fun _ =>
      Step.keeps_pure _ _
  rw [if_neg h4]
  by_cases h5 : blockType = some TYPES.INT64
  · rw [if_pos h5]
    exact Step.keeps_bind _ _ _ (BVONDeserializer.keeps_readInt64 n m0) fun _ =>
      Step.keeps_pure _ _
  rw [if_neg h5]
  by_cases h6 : blockType = some TYPES.DOUBLE
  · rw [if_pos h6]
    exact Step.keeps_bind _ _ _ (BVONDeserializer.keeps_readDouble n m0) fun _ =>
      Step.keeps_pure _ _
  rw [if_neg h6]
  by_cases h7 : blockType = some TYPES.DATE
  · rw [if_pos h7]
    exact Step.keeps_bind _ _ _ (BVONDeserializer.keeps_readInt64 n m0) fun _ =>
      Step.keeps_pure _ _
  rw [if_neg h7]
  by_cases h8 : blockType = some TYPES.BIGINT
  · rw [if_pos h8]
    exact Step.keeps_bind _ _ _ (BVONDeserializer.keeps_readHeader n m0) fun length =>
      Step.keeps_bind _ _ _ (BVONDeserializer.keeps_readBigInt n m0 length) fun _ =>
        Step.keeps_pure _ _
  rw [if_neg h8]
  by_cases h9 : blockType = some TYPES.CONSTRUCTOR
  · rw [if_pos h9]
    refine Step.keeps_bind _ _ _ (BVONDeserializer.keeps_readHeader n m0) fun code =>
      Step.keeps_bind _ _ _ ih fun args =>
        Step.keeps_bind _ _ _ (fun _ h => h) fun constructor => ?_
    split
    · split
      · exact Step.keeps_pure _ _
      · exact Step.keeps_throw _ _
    · exact Step.keeps_throw _ _
  rw [if_neg h9]
  by_cases h10 : blockType = some TYPES.BOOLEAN
  · rw [if_pos h10]
    exact Step.keeps_bind _ _ _ (BVONDeserializer.keeps_readUint8 n m0) fun _ =>
      Step.keeps_pure _ _
  rw [if_neg h10]
  by_cases h11 : blockType = some TYPES.NULL
  · rw [if_pos h11]
    exact Step.keeps_pure _ _
  rw [if_neg h11]
  by_cases h12 : blockType = some TYPES.UNDEFINED
  · rw [if_pos h12]
    exact Step.keeps_pure _ _
  rw [if_neg h12]
  by_cases h13 : blockType = some TYPES.OBJECT
  · rw [if_pos h13]
    exact Step.keeps_bind _ _ _ (BVONDeserializer.keeps_readHeader n m0) fun keyLength =>
      Step.keeps_bind _ _ _ (BVONDeserializer.keeps_readUint8 n m0) fun curr =>
        Step.keeps_bind _ _ _ (BVONDeserializer.keeps_readFields n m0 _ ih _ _ _) fun _ =>
          Step.keeps_pure _ _
  rw [if_neg h13]
  by_cases h14 : blockType = some TYPES.MAP
  · rw [if_pos h14]
    exact Step.keeps_bind _ _ _ (BVONDeserializer.keeps_readHeader n m0) fun size =>
      Step.keeps_bind _ _ _ (BVONDeserializer.keeps_readEntries n m0 _ ih _ _) fun _ =>
        Step.keeps_pure _ _
  rw [if_neg h14]
  by_cases h15 : blockType = some TYPES.SET
  · rw [if_pos h15]
    exact Step.keeps_bind _ _ _ (BVONDeserializer.keeps_readHeader n m0) fun size =>
      Step.keeps_bind _ _ _ (BVONDeserializer.keeps_readMembers n m0 _ ih _ _) fun _ =>
        Step.keeps_pure _ _
  rw [if_neg h15]
  by_cases h16 : blockType = some TYPES.ARRAY
  · rw [if_pos h16]
    refine Step.keeps_bind _ _ _ (BVONDeserializer.keeps_readHeader n m0) fun length => ?_
    split
    · exact Step.keeps_throw _ _
    · exact Step.keeps_pure _ _
    · exact Step.keeps_bind _ _ _ (BVONDeserializer.keeps_readItems n m0 _ ih _ _) fun _ =>
        Step.keeps_pure _ _
  rw [if_neg h16]
  by_cases h17 : blockType = some TYPES.REGEX
  · rw [if_pos h17]
    refine Step.keeps_bind _ _ _ ih fun source => Step.keeps_bind _ _ _ ih fun flags => ?_
    split
    · exact Step.keeps_pure _ _
    · exact Step.keeps_throw _ _
  rw [if_neg h17]
  exact Step.keeps_throw _ _

theorem BVONDeserializer.keeps_readBlock (n : Nat) (m0 : JSArray) (depth : Nat) :
    (BVONDeserializer.readBlock depth).Keeps (BVONDeserializer.Above n m0) := by
  induction depth with
  | zero => exact Step.keeps_throw _ _
  | succ d ih =>
    rw [BVONDeserializer.readBlock]
    exact Step.keeps_bind _ _ _ (BVONDeserializer.keeps_readUint8 n m0) fun blockType =>
      BVONDeserializer.keeps_readBlockCase n m0 _ ih blockType

/-! ## The nesting budget of the reader is never used up -/

theorem Step.Shrinks.bounded {α : Type} {m : Step BVONDeserializer α} (h : m.Shrinks)
    (d : Nat) : m.Bounded d :=
  fun s _ => h s

theorem Step.bounded_pure {α : Type} (d : Nat) (a : α) :
    (pure a : Step BVONDeserializer α).Bounded d :=
  fun _ _ => ⟨Nat.le_refl _, fun _ h => by cases h⟩

theorem Step.bounded_throw {α : Type} (d : Nat) (e : JSError) (he : e ≠ .nestingBudget) :
    (Step.throw e : Step BVONDeserializer α).Bounded d :=
  fun _ _ => ⟨Nat.le_refl _, fun _ h => by
    simp only [Step.throw_apply, Result.error.injEq] at h
    exact he h.1⟩

theorem Step.bounded_bind {α β : Type} (d : Nat) (m : Step BVONDeserializer α)
    (f : α → Step BVONDeserializer β) (hm : m.Bounded d) (hf : ∀ a, (f a).Bounded d) :
    (m >>= f).Bounded d := by
  intro s hs
  have h1 := hm s hs
  simp only [Step.bind_apply]
  cases e : m s with
  | ok a t =>
    rw [e] at h1
    have ht : t.remaining ≤ s.remaining := h1.1
    have h2 := hf a t (Nat.lt_of_le_of_lt ht hs)
    exact ⟨Nat.le_trans h2.1 ht, h2.2⟩
  | error err t =>
    rw [e] at h1
    refine ⟨h1.1, ?_⟩
    intro t2 h
    have h' : (Result.error err t : Result BVONDeserializer β)
        = Result.error JSError.nestingBudget t2 := h
    simp only [Result.error.injEq] at h'
    exact h1.2 t (by rw [h'.1])

theorem BVONDeserializer.remaining_advance (s : BVONDeserializer) (length : Length) :
    ({ s with offset := BVONDeserializer.advance s.offset length } :
      BVONDeserializer).remaining ≤ s.remaining := by
  unfold BVONDeserializer.remaining BVONDeserializer.advance
  cases hb : s.buffer with
  | none => simp
  | some bytes =>
    cases ho : s.offset with
    | none => simp
    | some o =>
      cases length with
      | num n => simp; omega
      | undefined => simp
      | nan => simp

theorem BVONDeserializer.shrinks_readUint8 : BVONDeserializer.readUint8.Shrinks := by
  intro s
  unfold BVONDeserializer.readUint8
  cases hb : s.buffer with
  | none => exact ⟨Nat.le_refl _, fun _ h => by simp at h⟩
  | some bytes =>
    refine ⟨?_, fun _ h => by simp at h⟩
    have := BVONDeserializer.remaining_advance s (.num 1)
    rw [hb] at this
    simpa [Result.state] using this

theorem BVONDeserializer.readUint8_some (s : BVONDeserializer) (b : Nat)
    (t : BVONDeserializer) (h : BVONDeserializer.readUint8 s = .ok (some b) t) :
    t.remaining < s.remaining := by
  unfold BVONDeserializer.readUint8 at h
  cases hb : s.buffer with
  | none => rw [hb] at h; simp at h
  | some bytes =>
    rw [hb] at h
    simp only [Result.ok.injEq] at h
    obtain ⟨h1, h2⟩ := h
    cases ho : s.offset with
    | none => rw [ho] at h1; simp at h1
    | some o =>
      rw [ho] at h1
      have h1 : bytes[o]? = some b := h1
      have hlt : o < bytes.length := by
        by_contra hc
        rw [List.getElem?_eq_none (by omega)] at h1
        cases h1
      subst h2
      simp only [BVONDeserializer.remaining, hb, ho, BVONDeserializer.advance]
      omega

theorem Step.shrinks_pure {α : Type} (a : α) : (pure a : Step BVONDeserializer α).Shrinks :=
  fun _ => ⟨Nat.le_refl _, fun _ h => by cases h⟩

theorem Step.shrinks_throw {α : Type} (e : JSError) (he : e ≠ .nestingBudget) :
    (Step.throw e : Step BVONDeserializer α).Shrinks :=
  fun _ => ⟨Nat.le_refl _, fun _ h => by
    simp only [Step.throw_apply, Result.error.injEq] at h
    exact he h.1⟩

theorem Step.shrinks_bind {α β : Type} (m : Step BVONDeserializer α)
    (f : α → Step BVONDeserializer β) (hm : m.Shrinks) (hf : ∀ a, (f a).Shrinks) :
    (m >>= f).Shrinks := by
  intro s
  have h1 := hm s
  simp only [Step.bind_apply]
  cases e : m s with
  | ok a t =>
    rw [e] at h1
    have h2 := hf a t
    exact ⟨Nat.le_trans h2.1 h1.1, h2.2⟩
  | error err t =>
    rw [e] at h1
    refine ⟨h1.1, ?_⟩
    intro t2 h
    have h' : (Result.error err t : Result BVONDeserializer β)
        = Result.error JSError.nestingBudget t2 := h
    simp only [Result.error.injEq] at h'
    exact h1.2 t (by rw [h'.1])

theorem BVONDeserializer.shrinks_readUint16 : BVONDeserializer.readUint16.Shrinks := by
  unfold BVONDeserializer.readUint16
  refine Step.shrinks_bind _ _ BVONDeserializer.shrinks_readUint8 fun first =>
    Step.shrinks_bind _ _ BVONDeserializer.shrinks_readUint8 fun second => ?_
  cases first <;> exact Step.shrinks_pure _

theorem BVONDeserializer.shrinks_viewBytes (count : Nat) :
    (BVONDeserializer.viewBytes count).Shrinks := by
  intro s
  unfold BVONDeserializer.viewBytes
  cases hb : s.buffer with
  | none => exact ⟨Nat.le_refl _, fun _ h => by simp at h⟩
  | some bytes =>
    simp only
    split
    · exact ⟨Nat.le_refl _, fun _ h => by simp at h⟩
    · exact ⟨Nat.le_refl _, fun _ h => by simp at h⟩

theorem BVONDeserializer.shrinks_advance (length : Length) :
    (Step.modify fun self : BVONDeserializer =>
      { self with offset := BVONDeserializer.advance self.offset length }).Shrinks :=
  fun s => ⟨BVONDeserializer.remaining_advance s length, fun _ h => by cases h⟩

theorem BVONDeserializer.shrinks_readUint32 : BVONDeserializer.readUint32.Shrinks :=
  Step.shrinks_bind _ _ (BVONDeserializer.shrinks_viewBytes 4) fun _ =>
    Step.shrinks_bind _ _ (BVONDeserializer.shrinks_advance _) fun _ => Step.shrinks_pure _

theorem BVONDeserializer.shrinks_readWord : BVONDeserializer.readWord.Shrinks :=
  Step.shrinks_bind _ _ BVONDeserializer.shrinks_readUint8 fun _ =>
    Step.shrinks_bind _ _ BVONDeserializer.shrinks_readUint8 fun _ =>
      Step.shrinks_bind _ _ BVONDeserializer.shrinks_readUint8 fun _ =>
        Step.shrinks_bind _ _ BVONDeserializer.shrinks_readUint8 fun _ => Step.shrinks_pure _

theorem BVONDeserializer.shrinks_readInt64 : BVONDeserializer.readInt64.Shrinks :=
  Step.shrinks_bind _ _ BVONDeserializer.shrinks_readWord fun _ =>
    Step.shrinks_bind _ _ BVONDeserializer.shrinks_readWord fun _ => Step.shrinks_pure _

theorem BVONDeserializer.shrinks_readDouble : BVONDeserializer.readDouble.Shrinks :=
  Step.shrinks_bind _ _ (BVONDeserializer.shrinks_viewBytes 8) fun _ =>
    Step.shrinks_bind _ _ (BVONDeserializer.shrinks_advance _) fun _ => Step.shrinks_pure _

theorem BVONDeserializer.shrinks_readHeader : BVONDeserializer.readHeader.Shrinks := by
  unfold BVONDeserializer.readHeader
  refine Step.shrinks_bind _ _ BVONDeserializer.shrinks_readUint8 fun lengthHeader => ?_
  split
  · refine Step.shrinks_bind _ _ BVONDeserializer.shrinks_readUint8 fun res => ?_
    cases res <;> exact Step.shrinks_pure _
  · exact BVONDeserializer.shrinks_readUint16
  · exact BVONDeserializer.shrinks_readUint32
  · exact Step.shrinks_throw _ (by decide)

theorem BVONDeserializer.shrinks_readBigInt (length : Length) :
    (BVONDeserializer.readBigInt length).Shrinks := by
  intro s
  unfold BVONDeserializer.readBigInt
  cases hb : s.buffer with
  | none => exact ⟨Nat.le_refl _, fun _ h => by simp at h⟩
  | some bytes =>
    simp only
    cases hl : BVONDeserializer.readBigIntLoop bytes s.offset
        (match length with
          | .num n => n
          | _ => 0) 0 0 with
    | error e =>
      refine ⟨Nat.le_refl _, fun t h => ?_⟩
      simp only [Result.error.injEq] at h
      have he := h.1
      subst he
      have key : ∀ (count index : Nat) (res : Int),
          BVONDeserializer.readBigIntLoop bytes s.offset count index res
            ≠ .error .nestingBudget := by
        intro count
        induction count with
        | zero => intro index res h; simp [BVONDeserializer.readBigIntLoop] at h
        | succ c ih =>
          intro index res h
          simp only [BVONDeserializer.readBigIntLoop] at h
          split at h
          · simp at h
          · exact ih _ _ h
      exact key _ _ _ hl
    | ok res =>
      refine ⟨?_, fun _ h => by simp at h⟩
      have := BVONDeserializer.remaining_advance s length
      rw [hb] at this
      simpa [Result.state] using this

theorem BVONDeserializer.shrinks_readString (length : Length) :
    (BVONDeserializer.readString length).Shrinks := by
  intro s
  unfold BVONDeserializer.readString
  cases hb : s.buffer with
  | none => exact ⟨Nat.le_refl _, fun _ h => by simp at h⟩
  | some bytes =>
    simp only
    split
    · exact ⟨Nat.le_refl _, fun _ h => by simp at h⟩
    · refine ⟨?_, fun _ h => by simp at h⟩
      have := BVONDeserializer.remaining_advance s length
      rw [hb] at this
      simpa [Result.state] using this

theorem BVONDeserializer.shrinks_readView (length : Length) :
    (BVONDeserializer.readView length).Shrinks := by
  intro s
  unfold BVONDeserializer.readView
  cases hb : s.buffer with
  | none => exact ⟨Nat.le_refl _, fun _ h => by simp at h⟩
  | some bytes =>
    refine ⟨?_, fun _ h => by simp at h⟩
    have := BVONDeserializer.remaining_advance s length
    rw [hb] at this
    simpa [Result.state] using this

theorem BVONDeserializer.shrinks_getName (ref : Length) :
    (BVONDeserializer.getName ref).Shrinks := by
  intro s
  unfold BVONDeserializer.getName
  split
  · exact ⟨Nat.le_refl _, fun _ h => by cases h⟩
  · exact ⟨Nat.le_refl _, fun _ h => by cases h⟩

theorem BVONDeserializer.shrinks_getCode (code : Length) :
    (BVONDeserializer.getCode code).Shrinks :=
  fun _ => ⟨Nat.le_refl _, fun _ h => by cases h⟩

theorem BVONDeserializer.shrinks_readKey (blockType : Option Nat) :
    (BVONDeserializer.readKey blockType).Shrinks := by
  unfold BVONDeserializer.readKey
  split
  · exact Step.shrinks_bind _ _ BVONDeserializer.shrinks_readHeader fun ref =>
      BVONDeserializer.shrinks_getName ref
  split
  · refine Step.shrinks_bind _ _ BVONDeserializer.shrinks_readHeader fun length =>
      Step.shrinks_bind _ _ (BVONDeserializer.shrinks_readString length) fun str =>
        Step.shrinks_bind _ _ ?_ fun _ => Step.shrinks_pure _
    exact fun s => ⟨Nat.le_refl _, fun _ h => by cases h⟩
  · exact Step.shrinks_throw _ (by simp)

theorem BVONDeserializer.bounded_readFields (d : Nat) (block : Step BVONDeserializer Value)
    (hb : block.Bounded d) (remaining : Nat) :
    ∀ (curr : Option Nat) (obj : List (JSString × Value)),
      (BVONDeserializer.readFields block remaining curr obj).Bounded d := by
  induction remaining with
  | zero => intro curr obj; exact Step.bounded_pure _ _
  | succ k ih =>
    intro curr obj
    unfold BVONDeserializer.readFields
    refine Step.bounded_bind _ _ _ ((BVONDeserializer.shrinks_readKey curr).bounded d) fun key =>
      Step.bounded_bind _ _ _ hb fun value => ?_
    simp only
    split
    · exact Step.bounded_bind _ _ _ (BVONDeserializer.shrinks_readUint8.bounded d) fun c =>
        ih c _
    · exact ih _ _

theorem BVONDeserializer.bounded_readEntries (d : Nat) (block : Step BVONDeserializer Value)
    (hb : block.Bounded d) (remaining : Nat) :
    ∀ (map : List (Value × Value)),
      (BVONDeserializer.readEntries block remaining map).Bounded d := by
  induction remaining with
  | zero => intro map; exact Step.bounded_pure _ _
  | succ k ih =>
    intro map
    unfold BVONDeserializer.readEntries
    exact Step.bounded_bind _ _ _ hb fun key => Step.bounded_bind _ _ _ hb fun value => ih _

theorem BVONDeserializer.bounded_readMembers (d : Nat) (block : Step BVONDeserializer Value)
    (hb : block.Bounded d) (remaining : Nat) :
    ∀ (set : List Value), (BVONDeserializer.readMembers block remaining set).Bounded d := by
  induction remaining with
  | zero => intro set; exact Step.bounded_pure _ _
  | succ k ih =>
    intro set
    unfold BVONDeserializer.readMembers
    exact Step.bounded_bind _ _ _ hb fun member => ih _

theorem BVONDeserializer.bounded_readItems (d : Nat) (block : Step BVONDeserializer Value)
    (hb : block.Bounded d) (remaining : Nat) :
    ∀ (arr : List Value), (BVONDeserializer.readItems block remaining arr).Bounded d := by
  induction remaining with
  | zero => intro arr; exact Step.bounded_pure _ _
  | succ k ih =>
    intro arr
    unfold BVONDeserializer.readItems
    exact Step.bounded_bind _ _ _ hb fun item => ih _

theorem BVONDeserializer.bounded_readBlockCase (d : Nat) (block : Step BVONDeserializer Value)
    (ih : block.Bounded d) (blockType : Option Nat) :
    (BVONDeserializer.readBlockCase block blockType).Bounded d := by
  have hH := BVONDeserializer.shrinks_readHeader.bounded d
  have h8 := BVONDeserializer.shrinks_readUint8.bounded d
  unfold BVONDeserializer.readBlockCase
  by_cases h1 : blockType = some TYPES.STRING
  · rw [if_pos h1]
    exact Step.bounded_bind _ _ _ hH fun length =>
      Step.bounded_bind _ _ _ ((BVONDeserializer.shrinks_readString length).bounded d) fun _ =>
        Step.bounded_pure _ _
  rw [if_neg h1]
  by_cases h2 : blockType = some TYPES.UOID
  · rw [if_pos h2]
    refine Step.bounded_bind _ _ _ hH fun length =>
      Step.bounded_bind _ _ _ ((BVONDeserializer.shrinks_readString length).bounded d)
        fun str => ?_
    split
    · exact Step.bounded_pure _ _
    · exact Step.bounded_throw _ _ (by decide)
  rw [if_neg h2]
  by_cases h3 : blockType = some TYPES.BYTEVIEW
  · rw [if_pos h3]
    exact Step.bounded_bind _ _ _ hH fun length =>
      Step.bounded_bind _ _ _ ((BVONDeserializer.shrinks_readView length).bounded d) fun _ =>
        Step.bounded_pure _ _
  rw [if_neg h3]
  by_cases h4 : blockType = some TYPES.INT32
  · rw [if_pos h4]
    exact Step.bounded_bind _ _ _ (BVONDeserializer.shrinks_readWord.bounded d) fun _ =>
      Step.bounded_pure _ _
  rw [if_neg h4]
  by_cases h5 : blockType = some TYPES.INT64
  · rw [if_pos h5]
    exact Step.bounded_bind _ _ _ (BVONDeserializer.shrinks_readInt64.bounded d) fun _ =>
      Step.bounded_pure _ _
  rw [if_neg h5]
  by_cases h6 : blockType = some TYPES.DOUBLE
  · rw [if_pos h6]
    exact Step.bounded_bind _ _ _ (BVONDeserializer.shrinks_readDouble.bounded d) fun _ =>
      Step.bounded_pure _ _
  rw [if_neg h6]
  by_cases h7 : blockType = some TYPES.DATE
  · rw [if_pos h7]
    exact Step.bounded_bind _ _ _ (BVONDeserializer.shrinks_readInt64.bounded d) fun _ =>
      Step.bounded_pure _ _
  rw [if_neg h7]
  by_cases h8' : blockType = some TYPES.BIGINT
  · rw [if_pos h8']
    exact Step.bounded_bind _ _ _ hH fun length =>
      Step.bounded_bind _ _ _ ((BVONDeserializer.shrinks_readBigInt length).bounded d) fun _ =>
        Step.bounded_pure _ _
  rw [if_neg h8']
  by_cases h9 : blockType = some TYPES.CONSTRUCTOR
  · rw [if_pos h9]
    refine Step.bounded_bind _ _ _ hH fun code =>
      Step.bounded_bind _ _ _ ih fun args =>
        Step.bounded_bind _ _ _ ((BVONDeserializer.shrinks_getCode code).bounded d)
          fun constructor => ?_
    split
    · split
      · exact Step.bounded_pure _ _
      · exact Step.bounded_throw _ _ (by decide)
    · exact Step.bounded_throw _ _ (by decide)
  rw [if_neg h9]
  by_cases h10 : blockType = some TYPES.BOOLEAN
  · rw [if_pos h10]
    exact Step.bounded_bind _ _ _ h8 fun _ => Step.bounded_pure _ _
  rw [if_neg h10]
  by_cases h11 : blockType = some TYPES.NULL
  · rw [if_pos h11]
    exact Step.bounded_pure _ _
  rw [if_neg h11]
  by_cases h12 : blockType = some TYPES.UNDEFINED
  · rw [if_pos h12]
    exact Step.bounded_pure _ _
  rw [if_neg h12]
  by_cases h13 : blockType = some TYPES.OBJECT
  · rw [if_pos h13]
    exact Step.bounded_bind _ _ _ hH fun keyLength =>
      Step.bounded_bind _ _ _ h8 fun curr =>
        Step.bounded_bind _ _ _ (BVONDeserializer.bounded_readFields d _ ih _ _ _) fun _ =>
          Step.bounded_pure _ _
  rw [if_neg h13]
  by_cases h14 : blockType = some TYPES.MAP
  · rw [if_pos h14]
    exact Step.bounded_bind _ _ _ hH fun size =>
      Step.bounded_bind _ _ _ (BVONDeserializer.bounded_readEntries d _ ih _ _) fun _ =>
        Step.bounded_pure _ _
  rw [if_neg h14]
  by_cases h15 : blockType = some TYPES.SET
  · rw [if_pos h15]
    exact Step.bounded_bind _ _ _ hH fun size =>
      Step.bounded_bind _ _ _ (BVONDeserializer.bounded_readMembers d _ ih _ _) fun _ =>
        Step.bounded_pure _ _
  rw [if_neg h15]
  by_cases h16 : blockType = some TYPES.ARRAY
  · rw [if_pos h16]
    refine Step.bounded_bind _ _ _ hH fun length => ?_
    split
    · exact Step.bounded_throw _ _ (by decide)
    · exact Step.bounded_pure _ _
    · exact Step.bounded_bind _ _ _ (BVONDeserializer.bounded_readItems d _ ih _ _) fun _ =>
        Step.bounded_pure _ _
  rw [if_neg h16]
  by_cases h17 : blockType = some TYPES.REGEX
  · rw [if_pos h17]
    refine Step.bounded_bind _ _ _ ih fun source => Step.bounded_bind _ _ _ ih fun flags => ?_
    split
    · exact Step.bounded_pure _ _
    · exact Step.bounded_throw _ _ (by decide)
  rw [if_neg h17]
  exact Step.bounded_throw _ _ (by simp)

theorem BVONDeserializer.readBlockCase_none (block : Step BVONDeserializer Value) :
    BVONDeserializer.readBlockCase block none = Step.throw (.unsupportedType none) := by
  simp [BVONDeserializer.readBlockCase]

theorem BVONDeserializer.bounded_readBlock (d : Nat) :
    (BVONDeserializer.readBlock d).Bounded d := by
  induction d with
  | zero => intro s hs; exact absurd hs (Nat.not_lt_zero _)
  | succ d ih =>
    intro s hs
    rw [BVONDeserializer.readBlock]
    simp only [Step.bind_apply]
    have h1 := BVONDeserializer.shrinks_readUint8 s
    cases e : BVONDeserializer.readUint8 s with
    | error err t =>
      rw [e] at h1
      refine ⟨h1.1, ?_⟩
      intro t2 h
      have h' : (Result.error err t : Result BVONDeserializer Value)
          = Result.error JSError.nestingBudget t2 := h
      simp only [Result.error.injEq] at h'
      exact h1.2 t (by rw [h'.1])
    | ok blockType t =>
      rw [e] at h1
      simp only
      cases blockType with
      | none =>
        rw [BVONDeserializer.readBlockCase_none]
        refine ⟨h1.1, fun t2 h => ?_⟩
        simp [Step.throw] at h
      | some b =>
        have hlt := BVONDeserializer.readUint8_some s b t e
        have h2 := BVONDeserializer.bounded_readBlockCase d _ ih (some b) t (by omega)
        exact ⟨Nat.le_trans h2.1 h1.1, h2.2⟩

/-- The reader never uses up the nesting budget that `BVON.deserialize` gives it: the
outcome of `BVON.deserialize` is a value or an exception of the program. -/
theorem BVON.deserialize_budget (buffer : List Nat) (schema : Option Schema) (self : BVON)
    (state : BVON × Option Schema) :
    BVON.deserialize buffer schema self ≠ .error .nestingBudget state := by
  intro h
  simp only [BVON.deserialize] at h
  have hb := BVONDeserializer.bounded_readBlock (buffer.length + 1)
  split at h
  · next err st he =>
    simp only [Result.error.injEq] at h
    have h1 := h.1
    subst h1
    refine (hb _ ?_).2 st he
    simp only [BVONDeserializer.remaining]
    split
    · rename_i hbuf hoff
      simp only [Option.some.injEq] at hbuf
      subst hbuf
      omega
    · omega
  · cases h

/-! ## The ids of a schema -/

theorem JSMap.get_set (m : JSMap) (key k : JSString) (value : Nat) :
    JSMap.get (JSMap.set m key value) k = if k = key then some value else JSMap.get m k := by
  induction m with
  | nil =>
    simp only [JSMap.set, JSMap.get]
    by_cases h : k = key
    · simp [h]
    · simp [h, Ne.symm h]
  | cons e rest ih =>
    obtain ⟨k1, v1⟩ := e
    simp only [JSMap.set]
    by_cases h1 : k1 = key
    · simp only [h1, if_true, JSMap.get]
      by_cases h : k = key
      · simp [h]
      · simp [h, Ne.symm h]
    · simp only [h1, if_false, JSMap.get, ih]
      by_cases h : k = key
      · subst h
        simp [h1]
      · simp [h]

theorem Schema.positive_register (s : Schema) (key : JSString) (h : s.Positive) :
    (s.register key).Positive := by
  unfold Schema.register
  split
  · intro k id hk
    simp only [JSMap.get_set] at hk
    split at hk
    · simp only [Option.some.injEq] at hk
      omega
    · exact h k id hk
  · exact h

theorem Schema.positive_registerIndices (count : Nat) :
    ∀ (s : Schema) (start : Nat), s.Positive → (s.registerIndices start count).Positive := by
  induction count with
  | zero => intro s start h; exact h
  | succ c ih =>
    intro s start h
    exact ih _ _ (Schema.positive_register s _ h)

mutual
theorem Schema.positive_searchValue (x : Value) :
    ∀ s : Schema, s.Positive → (Schema.searchValue x s).Positive :=
  match x with
  | .object fields => fun s h => by
    rw [Schema.searchValue]; exact Schema.positive_getKeysFields fields s h
  | .classInstance _ fields _ => fun s h => by
    rw [Schema.searchValue]; exact Schema.positive_getKeysFields fields s h
  | .array items => fun s h => by
    rw [Schema.searchValue]; exact Schema.positive_searchArray items s h
  | .int64 _ => fun s h => by
    rw [Schema.searchValue]
    exact Schema.positive_register _ _ (Schema.positive_register _ _ h)
  | .byteView bytes => fun s h => by
    rw [Schema.searchValue]; exact Schema.positive_registerIndices _ _ _ h
  | .undefined => fun s h => by simpa [Schema.searchValue] using h
  | .null => fun s h => by simpa [Schema.searchValue] using h
  | .boolean _ => fun s h => by simpa [Schema.searchValue] using h
  | .number _ => fun s h => by simpa [Schema.searchValue] using h
  | .bigint _ => fun s h => by simpa [Schema.searchValue] using h
  | .string _ => fun s h => by simpa [Schema.searchValue] using h
  | .date _ => fun s h => by simpa [Schema.searchValue] using h
  | .map _ => fun s h => by simpa [Schema.searchValue] using h
  | .set _ => fun s h => by simpa [Schema.searchValue] using h
  | .regExp _ _ => fun s h => by simpa [Schema.searchValue] using h
  | .uoid _ => fun s h => by simpa [Schema.searchValue] using h
termination_by structural x
theorem Schema.positive_getKeysFields (x : List (JSString × Value)) :
    ∀ s : Schema, s.Positive → (Schema.getKeysFields x s).Positive :=
  match x with
  | [] => fun s h => by rw [Schema.getKeysFields]; exact h
  | (key, value) :: rest => fun s h => by
    rw [Schema.getKeysFields]
    exact Schema.positive_getKeysFields rest _
      (Schema.positive_searchValue value _ (Schema.positive_register s key h))
termination_by structural x
theorem Schema.positive_getKeysItems (x : List Value) :
    ∀ (index : Nat) (s : Schema), s.Positive → (Schema.getKeysItems x index s).Positive :=
  match x with
  | [] => fun index s h => by rw [Schema.getKeysItems]; exact h
  | item :: rest => fun index s h => by
    rw [Schema.getKeysItems]
    exact Schema.positive_getKeysItems rest _ _
      (Schema.positive_searchValue item _ (Schema.positive_register s _ h))
termination_by structural x
theorem Schema.positive_searchArray (x : List Value) :
    ∀ s : Schema, s.Positive → (Schema.searchArray x s).Positive :=
  match x with
  | [] => fun s h => by rw [Schema.searchArray]; exact h
  | item :: rest => fun s h => by
    rw [Schema.searchArray]
    exact Schema.positive_searchArray rest _ (Schema.positive_searchValue item _ h)
termination_by structural x
end

theorem Schema.positive_getKeys (x : Value) :
    ∀ s : Schema, s.Positive → (Schema.getKeys x s).Positive :=
  match x with
  | .object fields => fun s h => by
    rw [Schema.getKeys]; exact Schema.positive_getKeysFields fields s h
  | .classInstance _ fields _ => fun s h => by
    rw [Schema.getKeys]; exact Schema.positive_getKeysFields fields s h
  | .array items => fun s h => by
    rw [Schema.getKeys]; exact Schema.positive_getKeysItems items 0 s h
  | .int64 _ => fun s h => by
    rw [Schema.getKeys]
    exact Schema.positive_register _ _ (Schema.positive_register _ _ h)
  | .byteView bytes => fun s h => by
    rw [Schema.getKeys]; exact Schema.positive_registerIndices _ _ _ h
  | .undefined => fun s h => by simpa [Schema.getKeys] using h
  | .null => fun s h => by simpa [Schema.getKeys] using h
  | .boolean _ => fun s h => by simpa [Schema.getKeys] using h
  | .number _ => fun s h => by simpa [Schema.getKeys] using h
  | .bigint _ => fun s h => by simpa [Schema.getKeys] using h
  | .string _ => fun s h => by simpa [Schema.getKeys] using h
  | .date _ => fun s h => by simpa [Schema.getKeys] using h
  | .map _ => fun s h => by simpa [Schema.getKeys] using h
  | .set _ => fun s h => by simpa [Schema.getKeys] using h
  | .regExp _ _ => fun s h => by simpa [Schema.getKeys] using h
  | .uoid _ => fun s h => by simpa [Schema.getKeys] using h

theorem Schema.positive_empty : Schema.empty.Positive := by
  intro k id h
  simp [Schema.empty, JSMap.get] at h

theorem Schema.positive_new (sample : Value) (s : Schema) (h : Schema.new sample = .ok s) :
    s.Positive := by
  unfold Schema.new at h
  split at h
  · cases h
  · cases h
  · cases h
    exact Schema.positive_registerIndices _ _ _ Schema.positive_empty
  · cases h
    exact Schema.positive_getKeys _ _ Schema.positive_empty

/-! ## What the codec changes in a schema -/

/-- Claim C10, at the schema built from `{a: 1}`: `BVON.serialize({b: 1}, s)` returns and
leaves the forward table of the schema with the added entry `b`, and
`BVON.deserialize` of the bytes of `{b: null}` with that schema returns and leaves the
inverse array with `b` at index 1, where `a` was. -/
theorem codec_changes_schema :
    Schema.new (.object [([97], .number (JSNumber.ofInt 1))])
        = .ok ⟨[([97], 1)], 1, [none, some [97]]⟩ ∧
      (BVON.serialize (.object [([98], .number (JSNumber.ofInt 1))])
          (some ⟨[([97], 1)], 1, [none, some [97]]⟩) (BVON.new [])).value?
        = some [9, 8, 1, 6, 8, 1, 98, 2, 1, 0, 0, 0] ∧
      (BVON.serialize (.object [([98], .number (JSNumber.ofInt 1))])
          (some ⟨[([97], 1)], 1, [none, some [97]]⟩) (BVON.new [])).state.2
        = some ⟨[([97], 1), ([98], 1)], 1, [none, some [97]]⟩ ∧
      (BVON.deserialize [9, 8, 1, 6, 8, 1, 98, 1]
          (some ⟨[([97], 1)], 1, [none, some [97]]⟩) (BVON.new [])).value?
        = some (.object [([98], .null)]) ∧
      (BVON.deserialize [9, 8, 1, 6, 8, 1, 98, 1]
          (some ⟨[([97], 1)], 1, [none, some [97]]⟩) (BVON.new [])).state.2
        = some ⟨[([97], 1)], 1, [none, some [98]]⟩ ∧
      (BVON.serialize (.object [([98], .number (JSNumber.ofInt 1))])
          (some ⟨[([97], 1)], 1, [none, some [97]]⟩) (BVON.new [])).state.2
        ≠ some ⟨[([97], 1)], 1, [none, some [97]]⟩ ∧
      (BVON.deserialize [9, 8, 1, 6, 8, 1, 98, 1]
          (some ⟨[([97], 1)], 1, [none, some [97]]⟩) (BVON.new [])).state.2
        ≠ some ⟨[([97], 1)], 1, [none, some [97]]⟩ := by
  refine ⟨rfl, ?_, ?_, ?_, ?_, ?_, ?_⟩ <;> decide!

/-- Claim C10, amended: for every schema `s` built from a sample and every value `v`,
`BVON.serialize(v, s)` leaves `s.refIndex` and `s.map` as they were, and leaves `s.refs`
as it was when every field name of the records inside `v` is registered in `s`; for every
buffer, `BVON.deserialize(buffer, s)` leaves `s.refIndex` and `s.refs` as they were, and
leaves every entry of `s.map` below index `s.refIndex` as it was. -/
theorem codec_schema_frame (sample v : Value) (s : Schema) (self : BVON) (buffer : List Nat)
    (hs : Schema.new sample = .ok s) :
    (∃ s1, (BVON.serialize v (some s) self).state.2 = some s1 ∧
      s1.refIndex = s.refIndex ∧ s1.map = s.map ∧
      ((∀ k ∈ v.recordNames, JSMap.has s.refs k = true) → s1.refs = s.refs)) ∧
    (∃ s2, (BVON.deserialize buffer (some s) self).state.2 = some s2 ∧
      s2.refIndex = s.refIndex ∧ s2.refs = s.refs ∧
      ∀ i, i < s.refIndex → JSArray.get s2.map i = JSArray.get s.map i) := by
  constructor
  · have key : ∀ st : BVONSerializer,
        (∀ k ∈ v.recordNames, JSMap.has s.refs k = true) →
          (BVONSerializer.write v (st.useSchema s)).state.map = s.refs := by
      intro st hk
      refine BVONSerializer.keeps_write s.refs v (fun k hkm => ?_) _ rfl
      have h1 := hk k hkm
      unfold JSMap.has at h1
      cases hg : JSMap.get s.refs k with
      | none => rw [hg] at h1; simp at h1
      | some id => exact ⟨id, rfl, Schema.positive_new sample s hs k id hg⟩
    simp only [BVON.serialize]
    cases e : BVONSerializer.write v (self.serializer.useSchema s) with
    | error err st =>
      refine ⟨_, rfl, rfl, rfl, fun hk => ?_⟩
      have := key self.serializer hk
      rw [e] at this
      exact this
    | ok u st =>
      refine ⟨_, rfl, rfl, rfl, fun hk => ?_⟩
      have := key self.serializer hk
      rw [e] at this
      exact this
  · have key := BVONDeserializer.keeps_readBlock s.refIndex s.map (buffer.length + 1)
      { self.deserializer.useSchema s with buffer := some buffer }
      ⟨Nat.le_refl _, fun _ _ => rfl⟩
    simp only [BVON.deserialize]
    cases e : BVONDeserializer.readBlock (buffer.length + 1)
        { self.deserializer.useSchema s with buffer := some buffer } with
    | error err st =>
      rw [e] at key
      exact ⟨_, rfl, rfl, rfl, key.2⟩
    | ok u st =>
      rw [e] at key
      exact ⟨_, rfl, rfl, rfl, key.2⟩

/-- The statement of `codec_schema_frame` holds at the schema built from `{a: 1, b: 2}`,
the record `{b: 3, a: 4}`, whose names the schema registers, and the bytes of
`{c: null}`. -/
theorem codec_schema_frame_witness :
    Schema.new (.object [([97], .number (JSNumber.ofInt 1)), ([98], .number (JSNumber.ofInt 2))])
        = .ok ⟨[([97], 1), ([98], 2)], 2, [none, some [97], some [98]]⟩ ∧
      (∃ s1, (BVON.serialize
            (.object [([98], .number (JSNumber.ofInt 3)), ([97], .number (JSNumber.ofInt 4))])
            (some ⟨[([97], 1), ([98], 2)], 2, [none, some [97], some [98]]⟩)
            (BVON.new [])).state.2 = some s1 ∧
          s1.refs = [([97], 1), ([98], 2)]) ∧
      (∃ s2, (BVON.deserialize [9, 8, 1, 6, 8, 1, 99, 1]
            (some ⟨[([97], 1), ([98], 2)], 2, [none, some [97], some [98]]⟩)
            (BVON.new [])).state.2 = some s2 ∧
          JSArray.get s2.map 1 = some [97]) := by
  have h := codec_schema_frame
    (.object [([97], .number (JSNumber.ofInt 1)), ([98], .number (JSNumber.ofInt 2))])
    (.object [([98], .number (JSNumber.ofInt 3)), ([97], .number (JSNumber.ofInt 4))])
    ⟨[([97], 1), ([98], 2)], 2, [none, some [97], some [98]]⟩ (BVON.new [])
    [9, 8, 1, 6, 8, 1, 99, 1] rfl
  obtain ⟨⟨s1, h1, _, _, h1r⟩, ⟨s2, h2, _, _, h2m⟩⟩ := h
  exact ⟨rfl, ⟨s1, h1, h1r (by decide)⟩, ⟨s2, h2, h2m 1 (by decide)⟩⟩

/-! ## Int64: words and patterns -/

theorem toUint32_lt (x : Int) : toUint32 x < 4294967296 := by
  unfold toUint32; omega

theorem toUint32_toInt32 (x : Int) : toUint32 (toInt32 x) = toUint32 x := by
  unfold toUint32 toInt32; omega

theorem toUint32_natCast (n : Nat) : toUint32 (n : Int) = n % 4294967296 := by
  unfold toUint32; omega

theorem toInt32_range (x : Int) : -2147483648 ≤ toInt32 x ∧ toInt32 x ≤ 2147483647 := by
  unfold toInt32; omega

theorem Nat.and_65535 (x : Nat) : x &&& 0xffff = x % 65536 :=
  Nat.and_pow_two_sub_one_eq_mod x 16

theorem Nat.shiftRight_16 (x : Nat) : x >>> 16 = x / 65536 :=
  Nat.shiftRight_eq_div_pow x 16

theorem Nat.shiftLeft_16_or (a b : Nat) (h : b < 65536) : (a <<< 16) ||| b = a * 65536 + b := by
  rw [Nat.shiftLeft_eq, Nat.mul_comm a, ← Nat.mul_add_lt_is_or (i := 16) h a]

theorem Int64.bits_new (low high : Int) (u : Bool) :
    (Int64.new low high u).bits = toUint32 low + 4294967296 * toUint32 high := by
  simp only [Int64.new, Int64.bits, toUint32_toInt32]

theorem Int64.add_bits (a b : Int64) :
    (a.add b).bits = (a.bits + b.bits) % 18446744073709551616 := by
  unfold Int64.add
  simp only [Int64.bits_new, Nat.and_65535, Nat.shiftRight_16]
  rw [Nat.shiftLeft_16_or _ _ (Nat.mod_lt _ (by decide)),
    Nat.shiftLeft_16_or _ _ (Nat.mod_lt _ (by decide))]
  simp only [toUint32_natCast, Int64.bits]
  have h1 := toUint32_lt a.low
  have h2 := toUint32_lt a.high
  have h3 := toUint32_lt b.low
  have h4 := toUint32_lt b.high
  generalize toUint32 a.low = al at *
  generalize toUint32 a.high = ah at *
  generalize toUint32 b.low = bl at *
  generalize toUint32 b.high = bh at *
  omega

theorem Int64.valid_new (low high : Int) (u : Bool) : (Int64.new low high u).Valid := by
  have h1 := toInt32_range low
  have h2 := toInt32_range high
  simp only [Int64.new, Int64.Valid]; omega

theorem Int64.valid_add (a b : Int64) : (a.add b).Valid := by
  unfold Int64.add
  exact Int64.valid_new _ _ _

theorem Int64.unsigned_add (a b : Int64) : (a.add b).unsigned = a.unsigned := by
  unfold Int64.add Int64.new
  rfl

theorem Int64.words_of_bits {x y : Int64} (hx : x.Valid) (hy : y.Valid) (h : x.bits = y.bits) :
    x.low = y.low ∧ x.high = y.high := by
  unfold Int64.Valid at hx hy
  unfold Int64.bits toUint32 at h
  omega

theorem Int64.valid_ofInt (n : Int) : (Int64.ofInt n).Valid := by
  have h1 := toInt32_range n
  have h2 := toInt32_range (n / 4294967296)
  simp only [Int64.ofInt, Int64.Valid]; omega

theorem Int64.bits_ofInt (n : Int) :
    ((Int64.ofInt n).bits : Int) = n % 18446744073709551616 := by
  simp only [Int64.ofInt, Int64.bits, toUint32_toInt32]
  unfold toUint32; omega

theorem Int64.bits_lt (x : Int64) : x.bits < 18446744073709551616 := by
  have h1 := toUint32_lt x.low
  have h2 := toUint32_lt x.high
  unfold Int64.bits; omega

theorem Int64.valueOf_signed {x : Int64} (hx : x.Valid) (hu : x.unsigned = false) :
    x.valueOf = Wasm.signed x.bits := by
  unfold Int64.Valid at hx
  simp only [Int64.valueOf, hu, Bool.false_eq_true, if_false]
  unfold Wasm.signed Int64.bits toUint32
  split <;> omega

theorem Int64.equals_of_words {x y : Int64} (hu : x.unsigned = y.unsigned)
    (hl : x.low = y.low) (hh : x.high = y.high) : x.equals y = true := by
  simp [Int64.equals, hu, hl, hh]

theorem Wasm.signed_sum_bits (A B R E : Nat) (S : Int)
    (hS : S = Wasm.signed A + Wasm.signed B)
    (hR : R = (A + B) % 18446744073709551616) (hE : (E : Int) = S % 18446744073709551616) :
    R = E := by
  unfold Wasm.signed at hS
  by_cases h1 : A < 9223372036854775808 <;> by_cases h2 : B < 9223372036854775808 <;>
    simp only [h1, h2, if_true, if_false] at hS <;> omega



theorem Int64.bits_not (x : Int64) : x.not.bits = 18446744073709551615 - x.bits := by
  have h1 := toUint32_lt x.low
  have h2 := toUint32_lt x.high
  rw [Int64.not, Int64.bits_new]
  unfold Int64.bits toUint32 at *
  omega

theorem Int64.valid_not (x : Int64) : x.not.Valid := Int64.valid_new _ _ _

theorem Int64.unsigned_not (x : Int64) : x.not.unsigned = x.unsigned := rfl

theorem Int64.bits_ONE : Int64.ONE.bits = 1 := by decide

/-- The pattern of `negate` on a value other than the signed minimum -/
theorem Int64.bits_negate (x : Int64) (h : (!x.unsigned && x.equals Int64.MIN_VALUE) = false) :
    x.negate.bits = (18446744073709551616 - x.bits) % 18446744073709551616 := by
  have h1 := Int64.bits_lt x
  unfold Int64.negate
  rw [h]
  simp only [Bool.false_eq_true, if_false]
  rw [Int64.add_bits, Int64.bits_not, Int64.bits_ONE]
  omega

theorem Int64.valid_negate (x : Int64) : x.negate.Valid := by
  unfold Int64.negate
  split
  · decide
  · exact Int64.valid_add _ _

theorem Int64.unsigned_negate (x : Int64) : x.negate.unsigned = x.unsigned := by
  unfold Int64.negate
  split
  · rename_i h
    simp only [Bool.and_eq_true, Bool.not_eq_true'] at h
    rw [h.1]; rfl
  · rw [Int64.unsigned_add, Int64.unsigned_not]

theorem Int64.fromNumberNonNeg_safe (m : Int) (h0 : 0 ≤ m) (h1 : m ≤ 9007199254740991) :
    Int64.fromNumberNonNeg m false = Int64.new (m % 4294967296) (m / 4294967296) false := by
  unfold Int64.fromNumberNonNeg
  simp only [Bool.false_eq_true, if_false]
  rw [if_neg (by omega)]

/-- The `Int64` that `fromNumber` builds from a safe integer -/
theorem Int64.fromNumber_safe (n : Int) (h : n.natAbs ≤ 9007199254740991) :
    (Int64.fromNumber (some n) false).Valid ∧ (Int64.fromNumber (some n) false).unsigned = false ∧
      (Int64.fromNumber (some n) false).valueOf = n := by
  unfold Int64.fromNumber
  simp only [Bool.false_eq_true, false_and, if_false, not_false_eq_true, true_and]
  rw [if_neg (by omega)]
  by_cases hn : n < 0
  · rw [if_pos hn, Int64.fromNumberNonNeg_safe (-n) (by omega) (by omega)]
    have hv := Int64.valid_negate (Int64.new (-n % 4294967296) (-n / 4294967296) false)
    have hu := Int64.unsigned_negate (Int64.new (-n % 4294967296) (-n / 4294967296) false)
    have hu2 : (Int64.new (-n % 4294967296) (-n / 4294967296) false).unsigned = false := rfl
    rw [hu2] at hu
    refine ⟨hv, hu, ?_⟩
    rw [Int64.valueOf_signed hv hu, Int64.bits_negate]
    · rw [Int64.bits_new]
      unfold Wasm.signed toUint32
      split <;> omega
    · simp only [hu2, Bool.not_false, Bool.true_and]
      unfold Int64.equals
      rw [if_neg (by simp [hu2, Int64.MIN_VALUE, Int64.new])]
      simp only [Int64.new, Int64.MIN_VALUE, decide_eq_false_iff_not, not_and]
      intro hh
      exfalso
      unfold Bvon.toInt32 at hh
      omega
  · rw [if_neg hn, Int64.fromNumberNonNeg_safe n (by omega) (by omega)]
    refine ⟨Int64.valid_new _ _ _, rfl, ?_⟩
    rw [Int64.valueOf_signed (Int64.valid_new _ _ _) rfl, Int64.bits_new]
    unfold Wasm.signed toUint32
    split <;> omega

/-! ## Int64: addition -/

theorem Int64.valueOf_ofInt (n : Int) (hlo : -9223372036854775808 ≤ n)
    (hhi : n ≤ 9223372036854775807) : (Int64.ofInt n).valueOf = n := by
  rw [Int64.valueOf_signed (Int64.valid_ofInt n) rfl]
  have h := Int64.bits_ofInt n
  unfold Wasm.signed
  split <;> omega

/-- Claim C13: `a.add(b)` has the 64-bit pattern of the sum of the patterns modulo 2^64
and the sign mode of `a`; and for signed values whose mathematical sum lies in the signed
64-bit range, the value of `a.add(b)` is that sum, and `equals` holds between `a.add(b)`
and the `Int64` of the sum. -/
theorem add_wraps_to_64_bits (a b : Int64) :
    (a.add b).bits = (a.bits + b.bits) % 18446744073709551616 ∧
      (a.add b).unsigned = a.unsigned ∧
      (a.Valid → b.Valid → a.unsigned = false → b.unsigned = false →
        -9223372036854775808 ≤ a.valueOf + b.valueOf →
        a.valueOf + b.valueOf ≤ 9223372036854775807 →
        (a.add b).valueOf = a.valueOf + b.valueOf ∧
          (a.add b).equals (Int64.ofInt (a.valueOf + b.valueOf)) = true) := by
  refine ⟨Int64.add_bits a b, Int64.unsigned_add a b, ?_⟩
  intro ha hb hua hub hlo hhi
  have hbits : (a.add b).bits = (Int64.ofInt (a.valueOf + b.valueOf)).bits :=
    Wasm.signed_sum_bits a.bits b.bits _ _ (a.valueOf + b.valueOf)
      (by rw [Int64.valueOf_signed ha hua, Int64.valueOf_signed hb hub])
      (Int64.add_bits a b) (Int64.bits_ofInt _)
  have hw := Int64.words_of_bits (Int64.valid_add a b) (Int64.valid_ofInt _) hbits
  have hu : (a.add b).unsigned = false := by rw [Int64.unsigned_add, hua]
  refine ⟨?_, Int64.equals_of_words (by rw [hu]; rfl) hw.1 hw.2⟩
  rw [Int64.valueOf_signed (Int64.valid_add a b) hu, hbits,
    ← Int64.valueOf_signed (Int64.valid_ofInt _) rfl, Int64.valueOf_ofInt _ hlo hhi]

theorem add_wraps_to_64_bits_witness :
    ((Int64.ofInt 4294967295).add (Int64.ofInt (-4294967297))).valueOf
        = (Int64.ofInt 4294967295).valueOf + (Int64.ofInt (-4294967297)).valueOf ∧
      ((Int64.ofInt 4294967295).add (Int64.ofInt (-4294967297))).equals
        (Int64.ofInt ((Int64.ofInt 4294967295).valueOf + (Int64.ofInt (-4294967297)).valueOf))
        = true :=
  (add_wraps_to_64_bits (Int64.ofInt 4294967295) (Int64.ofInt (-4294967297))).2.2
    (by decide) (by decide) rfl rfl (by decide) (by decide)

/-! ## Int64: negation -/

theorem Int64.high_nonneg_iff {x : Int64} (hx : x.Valid) :
    0 ≤ x.high ↔ x.bits < 9223372036854775808 := by
  unfold Int64.Valid at hx
  have := toUint32_lt x.low
  unfold Int64.bits toUint32 at *
  omega

theorem Int64.equals_MIN_VALUE {x : Int64} (hx : x.Valid) (hu : x.unsigned = false) :
    x.equals Int64.MIN_VALUE = decide (x.bits = 9223372036854775808) := by
  unfold Int64.Valid at hx
  have hl := toUint32_lt x.low
  unfold Int64.equals
  rw [if_neg (by rw [hu]; simp [Int64.MIN_VALUE, Int64.new])]
  have e1 : Int64.MIN_VALUE.high = -2147483648 := by decide
  have e2 : Int64.MIN_VALUE.low = 0 := by decide
  rw [e1, e2]
  apply decide_eq_decide.2
  unfold Int64.bits toUint32 at *
  omega

/-- The negation of a negative value other than the minimum is not negative -/
theorem Int64.isNegative_negate {x : Int64} (hx : x.Valid) (hn : x.isNegative = true)
    (hm : x.equals Int64.MIN_VALUE = false) : x.negate.isNegative = false := by
  simp only [Int64.isNegative, Bool.and_eq_true, Bool.not_eq_true', decide_eq_true_eq] at hn
  have hb := Int64.bits_negate x (by rw [hm]; simp)
  rw [Int64.equals_MIN_VALUE hx hn.1, decide_eq_false_iff_not] at hm
  have h1 := (Int64.high_nonneg_iff hx).not.1 (by omega)
  have h2 := Int64.bits_lt x
  have h3 : 0 ≤ x.negate.high := (Int64.high_nonneg_iff (Int64.valid_negate x)).2 (by omega)
  simp only [Int64.isNegative, Bool.and_eq_false_imp, Bool.not_eq_true', decide_eq_false_iff_not]
  intro _
  omega

theorem Int64.isZero_iff (x : Int64) (hx : x.Valid) : x.isZero = true ↔ x.bits = 0 := by
  unfold Int64.Valid at hx
  simp only [Int64.isZero, decide_eq_true_eq]
  unfold Int64.bits toUint32
  omega

theorem Int64.isZero_negate {x : Int64} (hx : x.Valid) (hz : x.isZero = false) :
    x.negate.isZero = false := by
  have hz2 : ¬ x.bits = 0 := fun h => by
    rw [(Int64.isZero_iff x hx).2 h] at hz; cases hz
  have h2 := Int64.bits_lt x
  by_cases hm : (!x.unsigned && x.equals Int64.MIN_VALUE) = true
  · unfold Int64.negate
    rw [if_pos hm]
    decide
  · have hb := Int64.bits_negate x (by simpa using hm)
    cases h : x.negate.isZero with
    | false => rfl
    | true =>
      have := (Int64.isZero_iff _ (Int64.valid_negate x)).1 h
      omega

/-! ## Int64: multiplication returns -/

theorem Except.map_ok_of_ok {ε α β : Type} (f : α → β) (r : Except ε α)
    (h : ∃ p, r = .ok p) : ∃ q, r.map f = .ok q := by
  obtain ⟨p, rfl⟩ := h
  exact ⟨f p, rfl⟩

theorem Int64.multiplyFuel_nonneg (wasm : Bool) (fuel : Nat) (a b : Int64)
    (ha : a.isNegative = false) (hb : b.isNegative = false) :
    ∃ p, Int64.multiplyFuel wasm (fuel + 1) a b = .ok p := by
  simp only [Int64.multiplyFuel, ha, hb, Bool.false_eq_true, if_false]
  split_ifs <;> exact ⟨_, rfl⟩

/-- The method `multiply` returns on all operands: its budget of nested calls is never
used up. -/
theorem Int64.multiply_total (wasm : Bool) (a b : Int64) (ha : a.Valid) (hb : b.Valid) :
    ∃ p, Int64.multiply wasm a b = .ok p := by
  show ∃ p, Int64.multiplyFuel wasm (2 + 1) a b = .ok p
  simp only [Int64.multiplyFuel]
  by_cases h1 : a.isZero = true
  · rw [if_pos h1]; exact ⟨_, rfl⟩
  rw [if_neg h1]
  by_cases h2 : wasm = true
  · rw [if_pos h2]; exact ⟨_, rfl⟩
  rw [if_neg h2]
  by_cases h3 : b.isZero = true
  · rw [if_pos h3]; exact ⟨_, rfl⟩
  rw [if_neg h3]
  by_cases h4 : a.equals Int64.MIN_VALUE = true
  · rw [if_pos h4]; exact ⟨_, rfl⟩
  rw [if_neg h4]
  by_cases h5 : b.equals Int64.MIN_VALUE = true
  · rw [if_pos h5]; exact ⟨_, rfl⟩
  rw [if_neg h5]
  simp only [Bool.not_eq_true] at h4 h5
  by_cases h6 : a.isNegative = true
  · rw [if_pos h6]
    have hna := Int64.isNegative_negate ha h6 h4
    by_cases h7 : b.isNegative = true
    · rw [if_pos h7]
      exact Int64.multiplyFuel_nonneg wasm 1 _ _ hna (Int64.isNegative_negate hb h7 h5)
    · rw [if_neg h7]
      exact Except.map_ok_of_ok _ _
        (Int64.multiplyFuel_nonneg wasm 1 _ _ hna (by simpa using h7))
  · rw [if_neg h6]
    by_cases h7 : b.isNegative = true
    · rw [if_pos h7]
      exact Except.map_ok_of_ok _ _
        (Int64.multiplyFuel_nonneg wasm 1 _ _ (by simpa using h6)
          (Int64.isNegative_negate hb h7 h5))
    · rw [if_neg h7]
      split_ifs <;> exact ⟨_, rfl⟩

/-! ## Int64: division without the WebAssembly module -/

theorem Int64.equals_MIN_of_nonneg {x : Int64} (h : x.isNegative = false)
    (hu : x.unsigned = false) : x.equals Int64.MIN_VALUE = false := by
  simp only [Int64.isNegative, hu, Bool.not_false, Bool.true_and, decide_eq_false_iff_not] at h
  unfold Int64.equals
  split
  · rfl
  · have e1 : Int64.MIN_VALUE.high = -2147483648 := by decide
    rw [e1, decide_eq_false_iff_not]
    omega

/-- One call of `divide` without the module, on operands that are not negative. -/
theorem Int64.divideFuel_nonneg (fuel : Nat) (a b : Int64) (hu : a.unsigned = false)
    (ha : a.isNegative = false) (hb : b.isNegative = false) (haz : a.isZero = false)
    (hbz : b.isZero = false) (hbm : b.equals Int64.MIN_VALUE = false) :
    Int64.divideFuel false (fuel + 1) a b = .error .typeError := by
  simp only [Int64.divideFuel, hbz, haz, hu, Int64.equals_MIN_of_nonneg ha hu, hbm, ha, hb,
    Bool.false_eq_true, if_false, Bool.not_false, if_true, Int64.divideLoop]

/-- Two nested calls of `divide` without the module, on a signed dividend other than the
minimum. -/
theorem Int64.divideFuel_signed (fuel : Nat) (a b : Int64) (hva : a.Valid) (hvb : b.Valid)
    (hu : a.unsigned = false) (haz : a.isZero = false) (ham : a.equals Int64.MIN_VALUE = false)
    (hbz : b.isZero = false) (hbm : b.equals Int64.MIN_VALUE = false) :
    Int64.divideFuel false (fuel + 2) a b = .error .typeError := by
  rw [Int64.divideFuel]
  simp only [hbz, haz, hu, ham, hbm, Bool.false_eq_true, if_false, Bool.not_false, if_true]
  by_cases h6 : a.isNegative = true
  · rw [if_pos h6]
    have hna := Int64.isNegative_negate hva h6 ham
    have hua : a.negate.unsigned = false := by rw [Int64.unsigned_negate, hu]
    have hza := Int64.isZero_negate hva haz
    by_cases h7 : b.isNegative = true
    · rw [if_pos h7]
      have hub : b.unsigned = false := by
        simp only [Int64.isNegative, Bool.and_eq_true, Bool.not_eq_true'] at h7
        exact h7.1
      have hnb := Int64.isNegative_negate hvb h7 hbm
      exact Int64.divideFuel_nonneg fuel _ _ hua hna hnb hza (Int64.isZero_negate hvb hbz)
        (Int64.equals_MIN_of_nonneg hnb (by rw [Int64.unsigned_negate, hub]))
    · rw [if_neg h7, Int64.divideFuel_nonneg fuel _ _ hua hna (by simpa using h7) hza hbz hbm]
      rfl
  · rw [if_neg h6]
    by_cases h7 : b.isNegative = true
    · rw [if_pos h7]
      have hub : b.unsigned = false := by
        simp only [Int64.isNegative, Bool.and_eq_true, Bool.not_eq_true'] at h7
        exact h7.1
      have hnb := Int64.isNegative_negate hvb h7 hbm
      rw [Int64.divideFuel_nonneg fuel _ _ hu (by simpa using h6) hnb haz
        (Int64.isZero_negate hvb hbz)
        (Int64.equals_MIN_of_nonneg hnb (by rw [Int64.unsigned_negate, hub]))]
      rfl
    · rw [if_neg h7]
      rfl

theorem Int64.eq_MIN_of_equals {a : Int64} (hu : a.unsigned = false)
    (h : a.equals Int64.MIN_VALUE = true) : a = Int64.MIN_VALUE := by
  unfold Int64.equals at h
  split at h
  · cases h
  · simp only [decide_eq_true_eq] at h
    cases a
    simp only at hu h
    rw [hu, h.1, h.2]
    rfl

/-- Without the WebAssembly module, `divide` on a signed dividend returns only in the
cases that are decided before the loop, and raises the `TypeError` of the loop condition
in every other case. -/
theorem Int64.divide_fallback_signed (a b : Int64) (hva : a.Valid) (hvb : b.Valid)
    (hu : a.unsigned = false) :
    Int64.divide false a b =
      if b.isZero then .error .divisionByZero
      else if a.isZero then .ok Int64.ZERO
      else if a.equals Int64.MIN_VALUE then
        if b.equals Int64.ONE || b.equals Int64.NEGATIVE_ONE then .ok Int64.MIN_VALUE
        else if b.equals Int64.MIN_VALUE then .ok Int64.ONE
        else .error .typeError
      else if b.equals Int64.MIN_VALUE then .ok Int64.ZERO
      else .error .typeError := by
  show Int64.divideFuel false (3 + 1) a b = _
  rw [Int64.divideFuel]
  by_cases hbz : b.isZero = true
  · rw [if_pos hbz, if_pos hbz]
  rw [if_neg hbz, if_neg hbz, if_neg (by decide)]
  by_cases haz : a.isZero = true
  · rw [if_pos haz, if_pos haz, hu]
    rfl
  rw [if_neg haz, if_neg haz, hu, if_pos (by decide)]
  by_cases ham : a.equals Int64.MIN_VALUE = true
  · rw [if_pos ham, if_pos ham]
    by_cases h1 : (b.equals Int64.ONE || b.equals Int64.NEGATIVE_ONE) = true
    · rw [if_pos h1, if_pos h1]
    rw [if_neg h1, if_neg h1]
    by_cases hbm : b.equals Int64.MIN_VALUE = true
    · rw [if_pos hbm, if_pos hbm]
    rw [if_neg hbm, if_neg hbm]
    have ha := Int64.eq_MIN_of_equals hu ham
    have hhalf : Int64.divideFuel false 3 (a.shiftRight 1) b = .error .typeError := by
      rw [ha]
      exact Int64.divideFuel_signed 1 (Int64.MIN_VALUE.shiftRight 1) b (by decide) hvb
        rfl (by decide) (by decide) (by simpa using hbz) (by simpa using hbm)
    dsimp only
    rw [hhalf]
    rfl
  · rw [if_neg ham, if_neg ham]
    by_cases hbm : b.equals Int64.MIN_VALUE = true
    · rw [if_pos hbm, if_pos hbm]
      rfl
    · rw [if_neg hbm, if_neg hbm]
      have haz2 : a.isZero = false := by simpa using haz
      have ham2 : a.equals Int64.MIN_VALUE = false := by simpa using ham
      have hbz2 : b.isZero = false := by simpa using hbz
      have hbm2 : b.equals Int64.MIN_VALUE = false := by simpa using hbm
      have h := Int64.divideFuel_signed 2 a b hva hvb hu haz2 ham2 hbz2 hbm2
      rw [Int64.divideFuel, if_neg hbz, if_neg (by decide), if_neg haz, hu, if_pos (by decide),
        if_neg ham, if_neg hbm] at h
      exact h


theorem Int64.radixToPower_facts (r : Nat) (h1 : 2 ≤ r) (h2 : r ≤ 36) :
    (Int64.fromNumber (some ((r : Int) ^ 6)) false).Valid ∧
      (Int64.fromNumber (some ((r : Int) ^ 6)) false).isZero = false ∧
      (Int64.fromNumber (some ((r : Int) ^ 6)) false).equals Int64.MIN_VALUE = false := by
  interval_cases r <;> decide

/-- Without the WebAssembly module, the loop of `toString` fails in its first division. -/
theorem Int64.toStringLoop_fallback (r fuel : Nat) (h1 : 2 ≤ r) (h2 : r ≤ 36) (x : Int64)
    (hx : x.Valid) (hu : x.unsigned = false) (hz : x.isZero = false)
    (hn : x.isNegative = false) (result : JSString) :
    Int64.toStringLoop false r (Int64.fromNumber (some ((r : Int) ^ 6)) false) (fuel + 1) x result
      = .error .typeError := by
  obtain ⟨hv, hpz, hpm⟩ := Int64.radixToPower_facts r h1 h2
  rw [Int64.toStringLoop, Int64.divide_fallback_signed x _ hx hv hu, hpz, hz,
    Int64.equals_MIN_of_nonneg hn hu, hpm]
  rfl

theorem Int64.toString_MIN_fallback (r : Nat) (h1 : 2 ≤ r) (h2 : r ≤ 36) :
    Int64.toString false Int64.MIN_VALUE r = .error .typeError := by
  interval_cases r <;> decide!

/-- Without the WebAssembly module, `toString` fails on every signed value other than
zero, in every radix from 2 to 36. -/
theorem Int64.toString_fallback (x : Int64) (r : Nat) (hx : x.Valid) (hu : x.unsigned = false)
    (hz : x.isZero = false) (h1 : 2 ≤ r) (h2 : r ≤ 36) :
    Int64.toString false x r = .error .typeError := by
  by_cases hm : x.equals Int64.MIN_VALUE = true
  · rw [Int64.eq_MIN_of_equals hu hm]
    exact Int64.toString_MIN_fallback r h1 h2
  have hr0 : (if r = 0 then 10 else r) = r := by rw [if_neg (by omega)]
  show Int64.toStringFuel false r (2 + 1) x = _
  rw [Int64.toStringFuel]
  simp only [hr0]
  rw [if_neg (by omega), if_neg (by simpa using hz)]
  by_cases hn : x.isNegative = true
  · rw [if_pos hn, if_neg hm]
    show (do
      let digits ← Int64.toStringFuel false r (1 + 1) x.negate
      pure (0x2D :: digits)) = _
    rw [Int64.toStringFuel]
    simp only [hr0]
    rw [if_neg (by omega), if_neg (by simpa using Int64.isZero_negate hx hz),
      if_neg (by simpa using Int64.isNegative_negate hx hn (by simpa using hm))]
    rw [Int64.unsigned_negate, hu,
      Int64.toStringLoop_fallback r 10 h1 h2 _ (Int64.valid_negate x)
        (by rw [Int64.unsigned_negate, hu]) (Int64.isZero_negate hx hz)
        (Int64.isNegative_negate hx hn (by simpa using hm))]
    rfl
  · rw [if_neg hn]
    rw [hu]
    exact Int64.toStringLoop_fallback r 10 h1 h2 x hx hu hz (by simpa using hn) []

/-! ## Int64: division with the WebAssembly module -/

theorem toInt32_toInt32 (x : Int) : toInt32 (toInt32 x) = toInt32 x := by
  unfold toInt32; omega

theorem Wasm.operand_eq_bits (x : Int64) : Wasm.operand x.low x.high = x.bits := by
  unfold Wasm.operand Int64.bits; omega

/-- With the WebAssembly module, `divide` on signed operands and a divisor other than zero
returns the quotient truncated toward zero, except that a dividend whose high word is
0x80000000 divided by -1 is returned as it is. -/
theorem Int64.divide_wasm_signed (a b : Int64) (ha : a.Valid) (hb : b.Valid)
    (hua : a.unsigned = false) (hub : b.unsigned = false) (hbz : b.isZero = false) :
    Int64.divide true a b =
      if a.high = -2147483648 ∧ b.low = -1 ∧ b.high = -1 then .ok a
      else .ok (Int64.ofInt (Int.tdiv a.valueOf b.valueOf)) := by
  have hb0 : ¬ b.bits = 0 := fun h => by
    rw [(Int64.isZero_iff b hb).2 h] at hbz; cases hbz
  show Int64.divideFuel true (3 + 1) a b = _
  rw [Int64.divideFuel, if_neg (by simpa using hbz), if_pos rfl, hua]
  by_cases hg : a.high = -2147483648 ∧ b.low = -1 ∧ b.high = -1
  · rw [if_pos hg, if_pos (by simp [hg.1, hg.2.1, hg.2.2])]
  · rw [if_neg hg, if_neg (by simpa [and_assoc] using hg)]
    simp only [Bool.false_eq_true, if_false, Wasm.div_s, Wasm.operand_eq_bits]
    rw [if_neg hb0, ← Int64.valueOf_signed ha hua, ← Int64.valueOf_signed hb hub]
    have hover : ¬ (a.valueOf = -9223372036854775808 ∧ b.valueOf = -1) := by
      intro h
      apply hg
      unfold Int64.Valid at ha hb
      have hl := toUint32_lt a.low
      have hl2 := toUint32_lt b.low
      simp only [Int64.valueOf, hua, hub, Bool.false_eq_true, if_false] at h
      unfold toUint32 at *
      omega
    rw [if_neg hover]
    simp only [Wasm.words, Int64.new, Int64.ofInt, toInt32_toInt32]

/-! ## Int64: arithmetic with the WebAssembly module -/

theorem Int64.unsigned_new (l h : Int) (u : Bool) : (Int64.new l h u).unsigned = u := by
  unfold Int64.new
  dsimp only

/-- The pattern of `negate`, on every value. -/
theorem Int64.bits_negate_all (x : Int64) (hx : x.Valid) :
    x.negate.bits = (18446744073709551616 - x.bits) % 18446744073709551616 := by
  by_cases h : (!x.unsigned && x.equals Int64.MIN_VALUE) = true
  · have h2 := h
    simp only [Bool.and_eq_true, Bool.not_eq_true'] at h2
    have hb := (Int64.equals_MIN_VALUE hx h2.1).symm.trans h2.2
    simp only [decide_eq_true_eq] at hb
    unfold Int64.negate
    rw [if_pos h, hb]
    decide
  · exact Int64.bits_negate x (by simpa using h)

theorem Int64.bits_subtract (a b : Int64) (hb : b.Valid) :
    (a.subtract b).bits = (a.bits + 18446744073709551616 - b.bits) % 18446744073709551616 := by
  have h1 := Int64.bits_lt a
  have h2 := Int64.bits_lt b
  rw [Int64.subtract, Int64.add_bits, Int64.bits_negate_all b hb]
  omega

theorem Wasm.bits_words (x : Int) (u : Bool) :
    ((Int64.new (Wasm.words x).1 (Wasm.words x).2 u).bits : Int) = x % 18446744073709551616 := by
  simp only [Wasm.words, Int64.bits_new, toUint32_toInt32]
  unfold toUint32
  omega

/-- The pattern of `multiply` with the WebAssembly module. -/
theorem Int64.multiply_wasm (a b : Int64) :
    ∃ p, Int64.multiply true a b = .ok p ∧ p.Valid ∧
      p.bits = (a.bits * b.bits) % 18446744073709551616 ∧
      (a.unsigned = false → p.unsigned = false) := by
  show ∃ p, Int64.multiplyFuel true (2 + 1) a b = .ok p ∧ _
  rw [Int64.multiplyFuel]
  by_cases hz : a.isZero = true
  · rw [if_pos hz]
    refine ⟨_, rfl, by decide, ?_, fun _ => rfl⟩
    simp only [Int64.isZero, decide_eq_true_eq] at hz
    have : a.bits = 0 := by
      unfold Int64.bits
      rw [hz.1, hz.2]
      decide
    rw [this, Nat.zero_mul]
    decide
  · rw [if_neg hz, if_pos rfl]
    refine ⟨Int64.new (Wasm.mul a.low a.high b.low b.high).1
      (Wasm.mul a.low a.high b.low b.high).2 a.unsigned, rfl, Int64.valid_new _ _ _, ?_, ?_⟩
    swap
    · intro h
      rw [Int64.unsigned_new]
      exact h
    have h := Wasm.bits_words ((Wasm.operand a.low a.high : Int) * (Wasm.operand b.low b.high : Int))
      a.unsigned
    rw [Wasm.operand_eq_bits, Wasm.operand_eq_bits] at h
    unfold Wasm.mul
    simp only [Wasm.operand_eq_bits]
    have h2 : ((a.bits * b.bits % 18446744073709551616 : Nat) : Int)
        = (a.bits : Int) * (b.bits : Int) % 18446744073709551616 := by
      push_cast
      rfl
    omega

/-- The quotient of `divide` with the WebAssembly module, on a signed dividend that is not
negative and a signed divisor that is positive. -/
theorem Int64.divide_wasm_nonneg (a b : Int64) (ha : a.Valid) (hb : b.Valid)
    (hua : a.unsigned = false) (hub : b.unsigned = false)
    (han : a.bits < 9223372036854775808) (hbn : b.bits < 9223372036854775808)
    (hb0 : 0 < b.bits) :
    ∃ q, Int64.divide true a b = .ok q ∧ q.Valid ∧ q.unsigned = false ∧
      q.bits = a.bits / b.bits := by
  have hbz : b.isZero = false := by
    cases h : b.isZero with
    | false => rfl
    | true => have := (Int64.isZero_iff b hb).1 h; omega
  have hah := (Int64.high_nonneg_iff ha).2 han
  rw [Int64.divide_wasm_signed a b ha hb hua hub hbz, if_neg (by omega)]
  refine ⟨_, rfl, Int64.valid_ofInt _, rfl, ?_⟩
  have h1 := Int64.valueOf_signed ha hua
  have h2 := Int64.valueOf_signed hb hub
  unfold Wasm.signed at h1 h2
  rw [if_pos han] at h1
  rw [if_pos hbn] at h2
  rw [h1, h2]
  have h3 : Int.tdiv (a.bits : Int) (b.bits : Int) = ((a.bits / b.bits : Nat) : Int) := by
    rw [Int.tdiv_eq_ediv (by omega) (by omega)]
    rfl
  rw [h3]
  have h4 := Int64.bits_ofInt ((a.bits / b.bits : Nat) : Int)
  have h5 : a.bits / b.bits ≤ a.bits := Nat.div_le_self _ _
  generalize a.bits / b.bits = q at *
  omega

/-! ## Int64: texts of digits -/

theorem digitValue_digitChar (d : Nat) (h : d < 36) : digitValue (digitChar d) = d := by
  unfold digitValue digitChar
  split <;> split_ifs <;> omega

theorem foldl_textValue (radix : Nat) (text : JSString) :
    ∀ init : Nat, text.foldl (fun acc c => acc * radix + digitValue c) init
      = init * radix ^ text.length + textValue radix text := by
  induction text with
  | nil => intro init; simp [textValue]
  | cons c rest ih =>
    intro init
    simp only [List.foldl_cons, List.length_cons, textValue]
    rw [ih, ih (0 * radix + digitValue c)]
    ring

theorem textValue_cons (radix c : Nat) (rest : JSString) :
    textValue radix (c :: rest) = digitValue c * radix ^ rest.length + textValue radix rest := by
  simp only [textValue, List.foldl_cons]
  rw [foldl_textValue]
  simp [textValue]

theorem textValue_append (radix : Nat) (a b : JSString) :
    textValue radix (a ++ b) = textValue radix a * radix ^ b.length + textValue radix b := by
  simp only [textValue, List.foldl_append]
  rw [foldl_textValue]
  rfl

theorem textValue_zeros (radix k : Nat) (text : JSString) :
    textValue radix (List.replicate k 0x30 ++ text) = textValue radix text := by
  induction k with
  | zero => rfl
  | succ k ih =>
    rw [List.replicate_succ, List.cons_append, textValue_cons, ih]
    simp [digitValue]

theorem LowerDigits.append {radix : Nat} {a b : JSString} (ha : LowerDigits radix a)
    (hb : LowerDigits radix b) : LowerDigits radix (a ++ b) := by
  intro c hc
  rcases List.mem_append.1 hc with h | h
  · exact ha c h
  · exact hb c h

theorem LowerDigits.zeros (radix k : Nat) (h : 0 < radix) :
    LowerDigits radix (List.replicate k 0x30) := by
  intro c hc
  rw [List.mem_replicate] at hc
  exact ⟨0, h, by rw [hc.2]; rfl⟩

/-- The digits that `digitsCore` writes: their value, their number and their shape. -/
theorem digitsCore_spec (radix : Nat) (hr : 2 ≤ radix) (hr2 : radix ≤ 36) :
    ∀ (fuel n : Nat) (result : JSString), n < fuel →
      ∃ digits, digitsCore radix fuel n result = digits ++ result ∧ digits ≠ [] ∧
        textValue radix digits = n ∧ LowerDigits radix digits ∧
        ∀ k, n < radix ^ (k + 1) → digits.length ≤ k + 1 := by
  intro fuel
  induction fuel with
  | zero => intro n _ h; omega
  | succ fuel ih =>
    intro n result hn
    rw [digitsCore]
    have hmod : n % radix < radix := Nat.mod_lt _ (by omega)
    have hd : LowerDigits radix [digitChar (n % radix)] := by
      intro c hc
      rw [List.mem_singleton] at hc
      exact ⟨_, hmod, hc⟩
    have hv : digitValue (digitChar (n % radix)) = n % radix :=
      digitValue_digitChar _ (by omega)
    have hdm := Nat.div_add_mod n radix
    by_cases hq : n / radix = 0
    · rw [if_pos hq]
      refine ⟨[digitChar (n % radix)], rfl, by simp, ?_, hd, fun k _ => by simp⟩
      rw [hq] at hdm
      rw [textValue_cons, hv]
      simp only [List.length_nil, Nat.pow_zero, textValue, List.foldl_nil]
      omega
    · rw [if_neg hq]
      have hn0 : 0 < n := by
        rcases Nat.eq_zero_or_pos n with h | h
        · rw [h] at hq; simp at hq
        · exact h
      have hlt : n / radix < fuel := by
        have : n / radix < n := Nat.div_lt_self hn0 (by omega)
        omega
      obtain ⟨digits, h1, h2, h3, h4, h5⟩ := ih (n / radix) (digitChar (n % radix) :: result) hlt
      refine ⟨digits ++ [digitChar (n % radix)], ?_, by simp, ?_, h4.append hd, ?_⟩
      · rw [h1]; simp
      · rw [textValue_append, h3, textValue_cons, hv]
        simp only [List.length_singleton, Nat.pow_one, List.length_nil, Nat.pow_zero, textValue,
          List.foldl_nil]
        rw [Nat.mul_comm] at hdm
        omega
      · intro k hk
        cases k with
        | zero =>
          exfalso
          apply hq
          exact Nat.div_eq_of_lt (by simpa using hk)
        | succ k =>
          have : n / radix < radix ^ (k + 1) := by
            apply Nat.div_lt_of_lt_mul
            rw [Nat.pow_succ, Nat.mul_comm] at hk
            exact hk
          have := h5 k this
          simp only [List.length_append, List.length_singleton]
          omega

/-! ## Int64: `toString` with the WebAssembly module -/

theorem Except.ok_bind {ε α β : Type} (a : α) (f : α → Except ε β) :
    (Except.ok a >>= f) = f a := rfl

theorem pow6_bounds (r : Nat) (h1 : 2 ≤ r) (h2 : r ≤ 36) : 64 ≤ r ^ 6 ∧ r ^ 6 ≤ 2176782336 := by
  constructor
  · exact Nat.pow_le_pow_left h1 6
  · exact Nat.pow_le_pow_left h2 6

/-- The `Int64` that `fromNumber` builds from a natural number below 2^53 -/
theorem Int64.fromNumber_nat (n : Nat) (h : n ≤ 9007199254740991) :
    (Int64.fromNumber (some (n : Int)) false).Valid ∧
      (Int64.fromNumber (some (n : Int)) false).unsigned = false ∧
      (Int64.fromNumber (some (n : Int)) false).bits = n := by
  obtain ⟨hv, hu, hval⟩ := Int64.fromNumber_safe (n : Int) (by omega)
  refine ⟨hv, hu, ?_⟩
  rw [Int64.valueOf_signed hv hu] at hval
  have := Int64.bits_lt (Int64.fromNumber (some (n : Int)) false)
  unfold Wasm.signed at hval
  split at hval <;> omega

theorem Int64.toUint32_low (x : Int64) : toUint32 x.low = x.bits % 4294967296 := by
  have := toUint32_lt x.low
  unfold Int64.bits
  omega

/-- One iteration of the loop of `toString` with the WebAssembly module. -/
theorem Int64.toStringLoop_step (r : Nat) (hr : 2 ≤ r) (hr2 : r ≤ 36) (fuel : Nat)
    (rem : Int64) (result : JSString) (hv : rem.Valid) (hu : rem.unsigned = false)
    (hb : rem.bits < 9223372036854775808) :
    ∃ remDiv digits, remDiv.Valid ∧ remDiv.unsigned = false ∧ remDiv.bits = rem.bits / r ^ 6 ∧
      digits ≠ [] ∧ textValue r digits = rem.bits % r ^ 6 ∧ LowerDigits r digits ∧
      digits.length ≤ 6 ∧
      Int64.toStringLoop true r (Int64.fromNumber (some ((r : Int) ^ 6)) false) (fuel + 1) rem
          result =
        if remDiv.isZero then .ok (digits ++ result)
        else Int64.toStringLoop true r (Int64.fromNumber (some ((r : Int) ^ 6)) false) fuel
          remDiv (List.replicate (6 - digits.length) 0x30 ++ digits ++ result) := by
  obtain ⟨h64, h36⟩ := pow6_bounds r hr hr2
  have hcast : ((r : Int) ^ 6) = ((r ^ 6 : Nat) : Int) := by push_cast; rfl
  obtain ⟨hpv, hpu, hpb⟩ := Int64.fromNumber_nat (r ^ 6) (by omega)
  rw [← hcast] at hpv hpu hpb
  generalize Int64.fromNumber (some ((r : Int) ^ 6)) false = P at *
  obtain ⟨q, hq, hqv, hqu, hqb⟩ := Int64.divide_wasm_nonneg rem P hv hpv hu hpu hb (by omega)
    (by omega)
  obtain ⟨p, hp, hpv2, hpb2, -⟩ := Int64.multiply_wasm q P
  rw [hpb] at hqb hpb2
  have hdm := Nat.div_add_mod rem.bits (r ^ 6)
  have hml := Nat.mod_lt rem.bits (show 0 < r ^ 6 by omega)
  have hqr : rem.bits / r ^ 6 * r ^ 6 ≤ rem.bits := Nat.div_mul_le_self _ _
  have hsub := Int64.bits_subtract rem p hpv2
  have hus : (rem.subtract p).unsigned = false := by
    rw [Int64.subtract, Int64.unsigned_add, hu]
  have hint : toUint32 (rem.subtract p).toInt32 = rem.bits % r ^ 6 := by
    rw [Int64.toInt32, hus]
    simp only [Bool.false_eq_true, if_false]
    rw [Int64.toUint32_low, hsub, hpb2, hqb]
    rw [Nat.mul_comm] at hdm
    generalize rem.bits / r ^ 6 * r ^ 6 = qp at *
    generalize rem.bits % r ^ 6 = m at *
    omega
  obtain ⟨digits, hd1, hd2, hd3, hd4, hd5⟩ :=
    digitsCore_spec r hr hr2 (rem.bits % r ^ 6 + 1) (rem.bits % r ^ 6) [] (by omega)
  refine ⟨q, digits, hqv, hqu, hqb, hd2, hd3, hd4, hd5 5 hml, ?_⟩
  rw [Int64.toStringLoop, hq, Except.ok_bind, hp, Except.ok_bind, hint]
  have hnum : numberToString ((rem.bits % r ^ 6 : Nat) : Int) r = digits := by
    unfold numberToString
    rw [if_neg (by omega)]
    simp only [Int.natAbs_ofNat]
    rw [hd1, List.append_nil]
  dsimp only
  rw [hnum]
  rfl

/-- The loop of `toString` with the WebAssembly module returns the digits of its value. -/
theorem Int64.toStringLoop_wasm (r : Nat) (hr : 2 ≤ r) (hr2 : r ≤ 36) :
    ∀ (fuel : Nat) (rem : Int64) (result : JSString), rem.Valid → rem.unsigned = false →
      rem.bits < 9223372036854775808 → rem.bits < (r ^ 6) ^ (fuel + 1) →
      ∃ head, Int64.toStringLoop true r (Int64.fromNumber (some ((r : Int) ^ 6)) false)
          (fuel + 1) rem result = .ok (head ++ result) ∧
        head ≠ [] ∧ textValue r head = rem.bits ∧ LowerDigits r head := by
  obtain ⟨h64, h36⟩ := pow6_bounds r hr hr2
  intro fuel
  induction fuel with
  | zero =>
    intro rem result hv hu hb hlt
    obtain ⟨q, digits, hqv, hqu, hqb, hd2, hd3, hd4, hd5, hstep⟩ :=
      Int64.toStringLoop_step r hr hr2 0 rem result hv hu hb
    have hq0 : q.bits = 0 := by
      rw [hqb]
      exact Nat.div_eq_of_lt (by simpa using hlt)
    rw [hstep, if_pos ((Int64.isZero_iff q hqv).2 hq0)]
    refine ⟨digits, rfl, hd2, ?_, hd4⟩
    rw [hd3]
    exact Nat.mod_eq_of_lt (by simpa using hlt)
  | succ fuel ih =>
    intro rem result hv hu hb hlt
    obtain ⟨q, digits, hqv, hqu, hqb, hd2, hd3, hd4, hd5, hstep⟩ :=
      Int64.toStringLoop_step r hr hr2 (fuel + 1) rem result hv hu hb
    have hdm := Nat.div_add_mod rem.bits (r ^ 6)
    rw [hstep]
    by_cases hz : q.isZero = true
    · rw [if_pos hz]
      have hq0 := (Int64.isZero_iff q hqv).1 hz
      refine ⟨digits, rfl, hd2, ?_, hd4⟩
      rw [hd3]
      rw [hqb] at hq0
      rw [hq0] at hdm
      omega
    · rw [if_neg hz]
      have hqle : q.bits ≤ rem.bits := by rw [hqb]; exact Nat.div_le_self _ _
      have hqlt : q.bits < (r ^ 6) ^ (fuel + 1) := by
        rw [hqb]
        apply Nat.div_lt_of_lt_mul
        rw [Nat.pow_succ, Nat.mul_comm] at hlt
        exact hlt
      obtain ⟨head, h1, h2, h3, h4⟩ := ih q
        (List.replicate (6 - digits.length) 0x30 ++ digits ++ result) hqv hqu (by omega) hqlt
      refine ⟨head ++ (List.replicate (6 - digits.length) 0x30 ++ digits), ?_, by simp [h2], ?_,
        h4.append ((LowerDigits.zeros r _ (by omega)).append hd4)⟩
      · rw [h1]
        simp only [List.append_assoc]
      · rw [textValue_append, h3, textValue_zeros, hd3, hqb]
        simp only [List.length_append, List.length_replicate]
        rw [show 6 - digits.length + digits.length = 6 by omega, Nat.mul_comm]
        exact hdm

/-! ## Int64: `fromString` with the WebAssembly module -/

theorem digitValue_facts (c : Nat) (h : digitValue c < 36) :
    isStrWhiteSpace c = false ∧ c ≠ 0x2D ∧ c ≠ 0x2B ∧ (c = 0x78 → digitValue c = 33) := by
  unfold digitValue at h
  refine ⟨?_, ?_, ?_, ?_⟩
  · unfold isStrWhiteSpace
    rw [decide_eq_false_iff_not]
    split_ifs at h <;> omega
  · split_ifs at h <;> omega
  · split_ifs at h <;> omega
  · intro hc
    rw [hc]
    decide

theorem textValue_lt (radix : Nat) (text : JSString) (h : ∀ c ∈ text, digitValue c < radix) :
    textValue radix text < radix ^ text.length := by
  induction text using List.reverseRecOn with
  | nil => simp [textValue]
  | append_singleton rest c ih =>
    have h1 := ih (fun c hc => h c (List.mem_append_left _ hc))
    have h2 := h c (List.mem_append_right _ (List.mem_singleton_self c))
    rw [textValue_append, textValue_cons]
    have e : textValue radix [] = 0 := rfl
    rw [e]
    simp only [List.length_singleton, Nat.pow_one, List.length_nil, Nat.pow_zero, Nat.mul_one,
      Nat.add_zero, List.length_append, Nat.pow_succ, Nat.one_mul]
    have : (textValue radix rest + 1) * radix ≤ radix ^ rest.length * radix :=
      Nat.mul_le_mul_right _ h1
    rw [Nat.add_mul, Nat.one_mul] at this
    omega

/-- The builtin `parseInt` on a text of digits of the radix. -/
theorem parseInt_digits (r : Nat) (hr2 : r ≤ 36) (chunk : JSString) (hne : chunk ≠ [])
    (hd : ∀ c ∈ chunk, digitValue c < r) :
    parseInt chunk r = some ((textValue r chunk : Nat) : Int) := by
  cases chunk with
  | nil => exact absurd rfl hne
  | cons c rest =>
    obtain ⟨hw, hm, hp, -⟩ := digitValue_facts c (by have := hd c (List.mem_cons_self _ _); omega)
    unfold parseInt
    have e1 : List.dropWhile isStrWhiteSpace (c :: rest) = c :: rest := by
      rw [List.dropWhile_cons, hw]
      rfl
    simp only [e1, List.head?_cons, Option.some.injEq, hm, hp, or_self, if_false,
      decide_False]
    have e2 : ¬ (r = 16 ∧ (List.take 2 (c :: rest) = [0x30, 0x78] ∨
        List.take 2 (c :: rest) = [0x30, 0x58])) := by
      rintro ⟨h16, h⟩
      cases rest with
      | nil => simp at h
      | cons c2 rest2 =>
        have h2 := hd c2 (by simp)
        simp only [List.take_succ_cons, List.take_zero, List.cons.injEq, and_true] at h
        rcases h with h | h
        · rw [h.2, h16] at h2
          revert h2
          decide
        · rw [h.2, h16] at h2
          revert h2
          decide
    rw [if_neg e2]
    have e3 : List.takeWhile (fun c => decide (digitValue c < r)) (c :: rest) = c :: rest := by
      rw [List.takeWhile_eq_self_iff]
      intro x hx
      simpa using hd x hx
    rw [e3]
    simp [textValue]

theorem mod_step (a v c t M : Nat) :
    ((a % M + v) % M * c + t) % M = ((a + v) * c + t) % M := by
  have h1 : (a % M + v) % M ≡ a + v [MOD M] :=
    (Nat.mod_modEq _ _).trans ((Nat.mod_modEq a M).add_right v)
  exact (h1.mul_right c).add_right t

theorem pow_le_36_8 (r k : Nat) (h1 : 1 ≤ r) (h2 : r ≤ 36) (hk : k ≤ 8) :
    r ^ k ≤ 2821109907456 :=
  (Nat.pow_le_pow_right h1 hk).trans (Nat.pow_le_pow_left h2 8)

/-- The value accumulated by one group of characters of the loop of `fromString`. -/
theorem Int64.fromString_group (r : Nat) (hr : 2 ≤ r) (hr2 : r ≤ 36) (chunk : JSString)
    (hne : chunk ≠ []) (hlen : chunk.length ≤ 8) (hd : ∀ c ∈ chunk, digitValue c < r)
    (result power product : Int64) (hp : power.bits = r ^ chunk.length)
    (hprod : product.bits = result.bits * power.bits % 18446744073709551616) :
    (product.add (Int64.fromNumber (parseInt chunk r) false)).bits
      = (result.bits * r ^ chunk.length + textValue r chunk) % 18446744073709551616 := by
  have hv := textValue_lt r chunk hd
  have hpow := pow_le_36_8 r chunk.length (by omega) hr2 hlen
  obtain ⟨hn1, hn2, hn3⟩ := Int64.fromNumber_nat (textValue r chunk) (by omega)
  rw [parseInt_digits r hr2 chunk hne hd, Int64.add_bits, hprod, hn3, hp]
  exact Nat.mod_add_mod _ _ _

/-- The loop of `fromString` with the WebAssembly module, on a text of digits of the
radix: the pattern of the result is the value of the text modulo 2^64, continued from the
value accumulated so far. -/
theorem Int64.fromStringLoop_wasm (r : Nat) (hr : 2 ≤ r) (hr2 : r ≤ 36) (str : JSString)
    (hd : ∀ c ∈ str, digitValue c < r) :
    ∀ (iterations index : Nat) (result : Int64),
      iterations = (str.length - index + 7) / 8 →
      ∃ y, Int64.fromStringLoop true str r (Int64.fromNumber (some ((r : Int) ^ 8)) false)
          iterations index result = .ok y ∧
        y.bits % 18446744073709551616
          = (result.bits * r ^ (str.length - index) + textValue r (str.drop index))
            % 18446744073709551616 := by
  intro iterations
  induction iterations with
  | zero =>
    intro index result hi
    have hlen : str.length - index = 0 := by omega
    refine ⟨result, rfl, ?_⟩
    rw [hlen, List.drop_eq_nil_of_le (by omega)]
    simp [textValue]
  | succ k ih =>
    intro index result hi
    have hpos : 0 < str.length - index := by omega
    have hsplit : str.drop index
        = (str.drop index).take (min 8 (str.length - index)) ++ str.drop (index + 8) := by
      by_cases h8 : str.length - index < 8
      · rw [Nat.min_eq_right (by omega),
          List.drop_eq_nil_of_le (show str.length ≤ index + 8 by omega),
          List.append_nil, List.take_of_length_le (by simp)]
      · rw [Nat.min_eq_left (by omega), ← List.drop_drop, List.take_append_drop]
    have hchunk_len : ((str.drop index).take (min 8 (str.length - index))).length
        = min 8 (str.length - index) := by
      simp only [List.length_take, List.length_drop]
      omega
    have hchunk_ne : (str.drop index).take (min 8 (str.length - index)) ≠ [] := by
      intro h
      rw [h] at hchunk_len
      simp only [List.length_nil] at hchunk_len
      omega
    have hchunk_d : ∀ c ∈ (str.drop index).take (min 8 (str.length - index)),
        digitValue c < r := fun c hc => hd c (List.mem_of_mem_drop (List.mem_of_mem_take hc))
    have hpow := pow_le_36_8 r (min 8 (str.length - index)) (by omega) hr2 (Nat.min_le_left _ _)
    have hcast : ∀ n : Nat, ((r : Int) ^ n) = ((r ^ n : Nat) : Int) := fun n => by push_cast; rfl
    -- the value after this group
    have hgroup : ∃ y1 : Int64,
        Int64.fromStringLoop true str r (Int64.fromNumber (some ((r : Int) ^ 8)) false) (k + 1)
            index result
          = Int64.fromStringLoop true str r (Int64.fromNumber (some ((r : Int) ^ 8)) false) k
            (index + 8) y1 ∧
        y1.bits = (result.bits * r ^ min 8 (str.length - index)
          + textValue r ((str.drop index).take (min 8 (str.length - index))))
            % 18446744073709551616 := by
      rw [Int64.fromStringLoop]
      dsimp only
      by_cases h8 : min 8 (str.length - index) < 8
      · rw [if_pos h8]
        obtain ⟨p, hp1, -, hp3, -⟩ := Int64.multiply_wasm result
          (Int64.fromNumber (some ((r : Int) ^ min 8 (str.length - index))) false)
        rw [hp1, Except.ok_bind]
        refine ⟨_, rfl, ?_⟩
        have hb : (Int64.fromNumber (some ((r : Int) ^ min 8 (str.length - index))) false).bits
            = r ^ ((str.drop index).take (min 8 (str.length - index))).length := by
          rw [hcast, hchunk_len]
          exact (Int64.fromNumber_nat _ (by omega)).2.2
        have := Int64.fromString_group r hr hr2 _ hchunk_ne
          (by rw [hchunk_len]; exact Nat.min_le_left _ _) hchunk_d result _ p hb hp3
        rw [hchunk_len] at this
        exact this
      · rw [if_neg h8]
        obtain ⟨p, hp1, -, hp3, -⟩ := Int64.multiply_wasm result
          (Int64.fromNumber (some ((r : Int) ^ 8)) false)
        rw [hp1, Except.ok_bind]
        refine ⟨_, rfl, ?_⟩
        have h8' : min 8 (str.length - index) = 8 := by omega
        have hb : (Int64.fromNumber (some ((r : Int) ^ 8)) false).bits
            = r ^ ((str.drop index).take (min 8 (str.length - index))).length := by
          rw [hcast, hchunk_len, h8']
          rw [h8'] at hpow
          exact (Int64.fromNumber_nat _ (by omega)).2.2
        have := Int64.fromString_group r hr hr2 _ hchunk_ne
          (by rw [hchunk_len]; exact Nat.min_le_left _ _) hchunk_d result _ p hb hp3
        rw [hchunk_len] at this
        exact this
    obtain ⟨y1, hstep, hy1b⟩ := hgroup
    rw [hstep]
    obtain ⟨y, hy, hyb⟩ := ih (index + 8) y1 (by omega)
    refine ⟨y, hy, ?_⟩
    rw [hyb, hy1b]
    conv_rhs => rw [hsplit, textValue_append]
    have hl : (str.drop (index + 8)).length = str.length - (index + 8) := List.length_drop _ _
    rw [hl]
    have hL : str.length - index = min 8 (str.length - index) + (str.length - (index + 8)) := by
      omega
    have hpw : r ^ (str.length - index)
        = r ^ min 8 (str.length - index) * r ^ (str.length - (index + 8)) := by
      rw [← Nat.pow_add]
      exact congrArg _ hL
    rw [hpw]
    generalize textValue r ((str.drop index).take (min 8 (str.length - index))) = v
    generalize textValue r (str.drop (index + 8)) = t
    generalize r ^ min 8 (str.length - index) = a
    generalize r ^ (str.length - (index + 8)) = c
    have h1 : (result.bits * a + v) % 18446744073709551616 ≡ result.bits * a + v
        [MOD 18446744073709551616] := Nat.mod_modEq _ _
    have h2 := (h1.mul_right c).add_right t
    have h3 : (result.bits * a + v) * c + t = result.bits * (a * c) + (v * c + t) := by ring
    rw [h3] at h2
    exact h2

theorem lowerDigit_facts (r c : Nat) (hr2 : r ≤ 36) (h : ∃ d, d < r ∧ c = digitChar d) :
    digitValue c < r ∧ c ≠ 0x2D ∧ c ≠ 0x2B ∧ c ≠ 0x4E ∧ c ≠ 0x49 := by
  obtain ⟨d, hd, rfl⟩ := h
  rw [digitValue_digitChar d (by omega)]
  refine ⟨hd, ?_, ?_, ?_, ?_⟩ <;> unfold digitChar <;> split <;> omega

/-- The function `fromString` with the WebAssembly module, on a text of digits as
`toString` writes them: the pattern of the result is the value of the text modulo 2^64. -/
theorem Int64.fromString_wasm_digits (r : Nat) (hr : 2 ≤ r) (hr2 : r ≤ 36) (str : JSString)
    (hne : str ≠ []) (hl : LowerDigits r str) :
    ∃ y, Int64.fromString true false r str = .ok y ∧ y.Valid ∧ y.unsigned = false ∧
      y.bits = textValue r str % 18446744073709551616 := by
  cases str with
  | nil => exact absurd rfl hne
  | cons first rest =>
    obtain ⟨-, hf1, hf2, hf3, hf4⟩ := lowerDigit_facts r first hr2 (hl first (by simp))
    have hd : ∀ c ∈ first :: rest, digitValue c < r :=
      fun c hc => (lowerDigit_facts r c hr2 (hl c hc)).1
    have hh : ¬ (0x2D ∈ rest) := fun hm =>
      (lowerDigit_facts r 0x2D hr2 (hl _ (List.mem_cons_of_mem _ hm))).2.1 rfl
    have hr0 : (if r = 0 then 10 else r) = r := if_neg (by omega)
    rw [Int64.fromString]
    dsimp only
    rw [hr0]
    have c1 : ¬ (first :: rest = Int64.textNaN ∨ first :: rest = Int64.textInfinity ∨
        first :: rest = 0x2B :: Int64.textInfinity ∨
        first :: rest = 0x2D :: Int64.textInfinity) := by
      simp only [Int64.textNaN, Int64.textInfinity, List.cons.injEq]
      omega
    have c2 : ¬ (r < 2 ∨ r > 36) := by omega
    have c3 : ¬ (first ≠ 0x2D ∧ 0x2D ∈ rest) := fun h => hh h.2
    rw [if_neg c1, if_neg c2, if_neg c3, if_neg hf1]
    obtain ⟨y, hy, hyb⟩ := Int64.fromStringLoop_wasm r hr hr2 (first :: rest) hd
      (((first :: rest).length + 7) / 8) 0 Int64.ZERO (by simp)
    rw [hy, Except.ok_bind]
    refine ⟨_, rfl, Int64.valid_new _ _ _, Int64.unsigned_new _ _ _, ?_⟩
    rw [Int64.bits_new]
    have hz : Int64.ZERO.bits = 0 := by decide
    rw [hz, Nat.zero_mul, Nat.zero_add, List.drop_zero] at hyb
    rw [← hyb]
    have := Int64.bits_lt y
    unfold Int64.bits at this ⊢
    omega

/-! ## Int64: the text of a value parsed back -/

theorem Int64.eq_of_bits {x y : Int64} (hx : x.Valid) (hy : y.Valid)
    (hu : x.unsigned = y.unsigned) (hb : x.bits = y.bits) : x = y := by
  have h := Int64.words_of_bits hx hy hb
  cases x
  cases y
  simp only at hu h
  rw [hu, h.1, h.2]

/-- The method `toString` with the WebAssembly module, on a signed value that is
positive: the text is the digits of the value. -/
theorem Int64.toStringFuel_wasm_positive (r : Nat) (hr : 2 ≤ r) (hr2 : r ≤ 36) (fuel : Nat)
    (x : Int64) (hv : x.Valid) (hu : x.unsigned = false) (h0 : 0 < x.bits)
    (h63 : x.bits < 9223372036854775808) :
    ∃ text, Int64.toStringFuel true r (fuel + 1) x = .ok text ∧ text ≠ [] ∧
      textValue r text = x.bits ∧ LowerDigits r text := by
  have hr0 : (if r = 0 then 10 else r) = r := if_neg (by omega)
  have c1 : ¬ (r < 2 ∨ r > 36) := by omega
  have c2 : ¬ x.isZero = true := fun h => by
    have := (Int64.isZero_iff x hv).1 h
    omega
  have c3 : ¬ x.isNegative = true := by
    have := (Int64.high_nonneg_iff hv).2 h63
    simp only [Int64.isNegative, Bool.and_eq_true, Bool.not_eq_true', decide_eq_true_eq, not_and]
    intro _
    omega
  rw [Int64.toStringFuel]
  dsimp only
  rw [hr0, if_neg c1, if_neg c2, if_neg c3, hu]
  have hbig : x.bits < (r ^ 6) ^ (10 + 1) := by
    have h1 : 64 ^ (10 + 1) ≤ (r ^ 6) ^ (10 + 1) :=
      Nat.pow_le_pow_left (pow6_bounds r hr hr2).1 (10 + 1)
    have h2 : (64 : Nat) ^ (10 + 1) = 73786976294838206464 := by norm_num
    omega
  obtain ⟨head, h1, h2, h3, h4⟩ := Int64.toStringLoop_wasm r hr hr2 10 x [] hv hu h63 hbig
  rw [List.append_nil] at h1
  exact ⟨head, h1, h2, h3, h4⟩

theorem Int64.roundTrip_MIN_wasm (r : Nat) (hr : 2 ≤ r) (hr2 : r ≤ 36) :
    (Int64.toString true Int64.MIN_VALUE r >>= fun text =>
      Int64.fromText true text (.number r)) = .ok Int64.MIN_VALUE := by
  interval_cases r <;> decide!

/-- With the WebAssembly module, parsing the text of `x.toString(radix)` back with
`Int64.from(text, radix)` gives `x`, for every signed `x` and every radix from 2 to 36. -/
theorem Int64.toString_fromText_wasm (x : Int64) (r : Nat) (hv : x.Valid)
    (hu : x.unsigned = false) (hr : 2 ≤ r) (hr2 : r ≤ 36) :
    (Int64.toString true x r >>= fun text => Int64.fromText true text (.number r))
      = .ok x := by
  have hr0 : (if r = 0 then 10 else r) = r := if_neg (by omega)
  have c1 : ¬ (r < 2 ∨ r > 36) := by omega
  have hlt := Int64.bits_lt x
  by_cases hz : x.isZero = true
  · -- zero
    have hb := (Int64.isZero_iff x hv).1 hz
    have ht : Int64.toString true x r = .ok [0x30] := by
      show Int64.toStringFuel true r (2 + 1) x = _
      rw [Int64.toStringFuel]
      dsimp only
      rw [hr0, if_neg c1, if_pos hz]
    rw [ht, Except.ok_bind]
    obtain ⟨y, hy, hyv, hyu, hyb⟩ := Int64.fromString_wasm_digits r hr hr2 [0x30] (by simp)
      (fun c hc => ⟨0, by omega, by simpa using hc⟩)
    show Int64.fromString true false r [0x30] = _
    rw [hy]
    have e : textValue r [0x30] = 0 := by simp [textValue, digitValue]
    rw [e] at hyb
    rw [Int64.eq_of_bits hyv hv (by rw [hyu, hu]) (by rw [hyb, hb])]
  by_cases hm : x.equals Int64.MIN_VALUE = true
  · rw [Int64.eq_MIN_of_equals hu hm]
    exact Int64.roundTrip_MIN_wasm r hr hr2
  have hb0 : 0 < x.bits := by
    rcases Nat.eq_zero_or_pos x.bits with h | h
    · exact absurd ((Int64.isZero_iff x hv).2 h) hz
    · exact h
  have hbm : x.bits ≠ 9223372036854775808 := by
    rw [Int64.equals_MIN_VALUE hv hu] at hm
    simpa using hm
  by_cases hn : x.isNegative = true
  · -- negative, not the minimum
    have hneg : ¬ (0 ≤ x.high) := by
      simp only [Int64.isNegative, Bool.and_eq_true, decide_eq_true_eq] at hn
      omega
    have hb63 : ¬ x.bits < 9223372036854775808 := fun h => hneg ((Int64.high_nonneg_iff hv).2 h)
    have hnb := Int64.bits_negate_all x hv
    have hnv := Int64.valid_negate x
    have hnu : x.negate.unsigned = false := by rw [Int64.unsigned_negate, hu]
    obtain ⟨text, ht1, ht2, ht3, ht4⟩ := Int64.toStringFuel_wasm_positive r hr hr2 1 x.negate
      hnv hnu (by omega) (by omega)
    have ht : Int64.toString true x r = .ok (0x2D :: text) := by
      show Int64.toStringFuel true r (2 + 1) x = _
      rw [Int64.toStringFuel]
      dsimp only
      rw [hr0, if_neg c1, if_neg hz, if_pos hn, if_neg hm, ht1]
      rfl
    rw [ht, Except.ok_bind]
    obtain ⟨y, hy, hyv, hyu, hyb⟩ := Int64.fromString_wasm_digits r hr hr2 text ht2 ht4
    show Int64.fromString true false r (0x2D :: text) = _
    rw [Int64.fromString]
    dsimp only
    have d1 : ¬ (0x2D :: text = Int64.textNaN ∨ 0x2D :: text = Int64.textInfinity ∨
        0x2D :: text = 0x2B :: Int64.textInfinity ∨
        0x2D :: text = 0x2D :: Int64.textInfinity) := by
      intro h
      have h4 : text = Int64.textInfinity := by
        simpa [Int64.textNaN, Int64.textInfinity] using h
      have := (lowerDigit_facts r 0x49 hr2 (ht4 _ (by rw [h4]; simp [Int64.textInfinity]))).2.2.2.2
      exact this rfl
    have d3 : ¬ ((0x2D : Nat) ≠ 0x2D ∧ 0x2D ∈ text) := fun h => h.1 rfl
    rw [hr0, if_neg d1, if_neg c1, if_neg d3, if_pos rfl, hy]
    show Except.ok y.negate = _
    have hyx : y = x.negate := Int64.eq_of_bits hyv hnv (by rw [hyu, hnu]) (by
      rw [hyb, ht3]
      exact Nat.mod_eq_of_lt (Int64.bits_lt _))
    rw [hyx]
    have hnn := Int64.bits_negate_all x.negate hnv
    rw [Int64.eq_of_bits (Int64.valid_negate _) hv
      (by rw [Int64.unsigned_negate, Int64.unsigned_negate]) (by omega)]
  · -- positive
    have hb63 : x.bits < 9223372036854775808 := by
      simp only [Int64.isNegative, hu, Bool.not_false, Bool.true_and, decide_eq_true_eq,
        not_lt] at hn
      exact (Int64.high_nonneg_iff hv).1 hn
    obtain ⟨text, ht1, ht2, ht3, ht4⟩ := Int64.toStringFuel_wasm_positive r hr hr2 2 x
      hv hu hb0 hb63
    have ht : Int64.toString true x r = .ok text := ht1
    rw [ht, Except.ok_bind]
    obtain ⟨y, hy, hyv, hyu, hyb⟩ := Int64.fromString_wasm_digits r hr hr2 text ht2 ht4
    show Int64.fromString true false r text = _
    rw [hy, Int64.eq_of_bits hyv hv (by rw [hyu, hu]) (by
      rw [hyb, ht3]
      exact Nat.mod_eq_of_lt hlt)]

/-! ## A number outside the signed 32-bit range -/

theorem Nat.or_shiftLeft_of_lt (a b i : Nat) (h : a < 2 ^ i) : a ||| (b <<< i) = a + b * 2 ^ i := by
  rw [Nat.lor_comm, Nat.shiftLeft_eq, Nat.mul_comm b, ← Nat.mul_add_lt_is_or h b, Nat.add_comm]

/-- The word that `readInt32` and `readInt64` assemble from the four bytes that `setInt64`
writes for a word is that word. -/
theorem word_of_bytes (w : Int) (h1 : -2147483648 ≤ w) (h2 : w ≤ 2147483647) :
    toInt32 (((w % 256).toNat ||| ((w / 256 % 256).toNat <<< 8) |||
      ((w / 65536 % 256).toNat <<< 16) ||| ((w / 16777216 % 256).toNat <<< 24) : Nat) : Int)
      = w := by
  have e1 : (w % 256).toNat ||| ((w / 256 % 256).toNat <<< 8)
      = (w % 256).toNat + (w / 256 % 256).toNat * 2 ^ 8 :=
    Nat.or_shiftLeft_of_lt _ _ 8 (by omega)
  rw [e1]
  have e2 : ((w % 256).toNat + (w / 256 % 256).toNat * 2 ^ 8) ||| ((w / 65536 % 256).toNat <<< 16)
      = ((w % 256).toNat + (w / 256 % 256).toNat * 2 ^ 8) + (w / 65536 % 256).toNat * 2 ^ 16 :=
    Nat.or_shiftLeft_of_lt _ _ 16 (by omega)
  rw [e2]
  have e3 : (((w % 256).toNat + (w / 256 % 256).toNat * 2 ^ 8) + (w / 65536 % 256).toNat * 2 ^ 16)
        ||| ((w / 16777216 % 256).toNat <<< 24)
      = (((w % 256).toNat + (w / 256 % 256).toNat * 2 ^ 8) + (w / 65536 % 256).toNat * 2 ^ 16)
        + (w / 16777216 % 256).toNat * 2 ^ 24 :=
    Nat.or_shiftLeft_of_lt _ _ 24 (by omega)
  rw [e3]
  unfold toInt32
  omega

theorem littleEndian_word (w : Int) :
    littleEndian 4 (toUint32 w) = [(w % 256).toNat, (w / 256 % 256).toNat,
      (w / 65536 % 256).toNat, (w / 16777216 % 256).toNat] := by
  simp only [littleEndian]
  have e0 : toUint32 w % 256 = (w % 256).toNat := by unfold toUint32; omega
  have e1 : toUint32 w / 256 % 256 = (w / 256 % 256).toNat := by unfold toUint32; omega
  have e2 : toUint32 w / 256 / 256 % 256 = (w / 65536 % 256).toNat := by unfold toUint32; omega
  have e3 : toUint32 w / 256 / 256 / 256 % 256 = (w / 16777216 % 256).toNat := by
    unfold toUint32; omega
  rw [e0, e1, e2, e3]

theorem int64Bytes_lt (x : Int64) : ∀ b ∈ int64Bytes x, b < 256 := by
  intro b hb
  simp only [int64Bytes, littleEndian_word, List.cons_append, List.nil_append, List.mem_cons,
    List.mem_singleton, List.not_mem_nil, or_false] at hb
  omega

theorem BVONSerializer.writeInteger64_eq (x : Int64) (self : BVONSerializer) :
    BVONSerializer.writeInteger64 x self = BVONSerializer.setView (3 :: int64Bytes x) self := by
  rw [int64Bytes, littleEndian_word, littleEndian_word]
  simp only [BVONSerializer.writeInteger64, Step.bind_apply, BVONSerializer.setUint8,
    BVONSerializer.setInt64, Step.modify_apply, BVONSerializer.setView,
    Buffer.setBytes, List.cons_append, List.nil_append, List.length_cons,
    List.length_nil]

/-- The outcome of `serialize` on a class whose writer stands at offset 0, for a value
that `write` encodes as given bytes. -/
theorem BVON.serialize_of_setView (data : Value) (bytes : List Nat) (self : BVON)
    (h0 : self.serializer.offset = 0) (hb : ∀ b ∈ bytes, b < 256)
    (hw : BVONSerializer.write data self.serializer
      = BVONSerializer.setView bytes self.serializer) :
    ∃ serializer, BVON.serialize data none self
      = .ok bytes ({ self with serializer := serializer }, none) := by
  unfold BVON.serialize
  simp only [hw, BVONSerializer.setView, Step.modify_apply, h0, BVON.schemaAfterWrite,
    Option.map_none']
  have := Buffer.slice_setBytes self.serializer.buffer 0 bytes hb
  simp only [Nat.zero_add] at this ⊢
  rw [this]
  exact ⟨_, rfl⟩

theorem BVONDeserializer.readBlock_int64 (x : Int64) (hx : x.Valid) (d : BVONDeserializer)
    (fuel : Nat) :
    BVONDeserializer.readBlock (fuel + 1)
        { d with buffer := some (3 :: int64Bytes x), offset := some 0 }
      = .ok (.int64 (Int64.new x.low x.high false))
          { d with buffer := some (3 :: int64Bytes x), offset := some 9 } := by
  unfold Int64.Valid at hx
  have hl := word_of_bytes x.low hx.1 hx.2.1
  have hh := word_of_bytes x.high hx.2.2.1 hx.2.2.2
  rw [int64Bytes, littleEndian_word, littleEndian_word]
  simp [BVONDeserializer.readBlock, BVONDeserializer.readBlockCase,
    BVONDeserializer.readUint8, BVONDeserializer.advance,
    BVONDeserializer.readInt64, BVONDeserializer.readWord, hl, hh]

theorem toInt32_of_range (w : Int) (h1 : -2147483648 ≤ w) (h2 : w ≤ 2147483647) :
    toInt32 w = w := by
  unfold toInt32; omega

theorem Int64.new_of_valid (x : Int64) (hx : x.Valid) : Int64.new x.low x.high x.unsigned = x := by
  unfold Int64.Valid at hx
  cases x with
  | mk low high unsigned =>
    simp only [Int64.new, Int64.mk.injEq, and_true]
    exact ⟨toInt32_of_range _ hx.1 hx.2.1, toInt32_of_range _ hx.2.2.1 hx.2.2.2⟩

theorem JSNumber.not_negativeZero (number : JSNumber) (n : Int) (hn : number.toInt? = some n)
    (h0 : n ≠ 0) : number.isNegativeZero = false := by
  unfold JSNumber.isNegativeZero
  rw [decide_eq_false_iff_not]
  intro hz
  unfold JSNumber.toInt? JSNumber.exponent JSNumber.fraction at hn
  rw [if_neg (by omega), if_pos (by omega), if_pos (by omega)] at hn
  simp only [Option.some.injEq] at hn
  exact h0 hn.symm

/-- The round trip of C20 on a class at rest: for every number whose value is an integer
`n` of magnitude at most 2^53 - 1 outside the signed 32-bit range, on a class whose writer
and reader stand at offset 0 (as they do when the class is loaded and after every call
that returned), `BVON.deserialize(BVON.serialize(n))` returns an `Int64` `x` with
`x.valueOf()` equal to `n`, that is `x.high * 2^32 + (x.low >>> 0) = n`. -/
theorem roundTrip_number_outside_int32 (self : BVON) (number : JSNumber) (n : Int)
    (hw : self.serializer.offset = 0) (hr : self.deserializer.offset = some 0)
    (hn : number.toInt? = some n) (hsafe : n.natAbs ≤ 9007199254740991)
    (hout : n < -2147483648 ∨ 2147483647 < n) :
    ∃ x : Int64, BVON.roundTrip (.number number) none self = some (.int64 x) ∧
      x.valueOf = n ∧ x.high * 4294967296 + (toUint32 x.low : Int) = n := by
  obtain ⟨hv, hu, hval⟩ := Int64.fromNumber_safe n hsafe
  refine ⟨Int64.fromNumber (some n) false, ?_, hval, ?_⟩
  · have hwrite : BVONSerializer.write (.number number) self.serializer
        = BVONSerializer.setView (3 :: int64Bytes (Int64.fromNumber (some n) false))
            self.serializer := by
      rw [← BVONSerializer.writeInteger64_eq]
      simp only [BVONSerializer.write, BVONSerializer.writeNumber,
        JSNumber.not_negativeZero number n hn (by omega), JSNumber.isSafeInteger, hn, hsafe,
        decide_True, Bool.not_false, Bool.and_self, if_true]
      rw [if_neg (by simp only [INT32_MAX, INT32_MIN]; omega)]
    have hbytes : ∀ b ∈ 3 :: int64Bytes (Int64.fromNumber (some n) false), b < 256 := by
      intro b hb
      rcases List.mem_cons.1 hb with h | h
      · omega
      · exact int64Bytes_lt _ b h
    obtain ⟨serializer, hs⟩ := BVON.serialize_of_setView _ _ self hw hbytes hwrite
    have hd : ({ self.deserializer with
          buffer := some (3 :: int64Bytes (Int64.fromNumber (some n) false)) } : BVONDeserializer)
        = { self.deserializer with
          buffer := some (3 :: int64Bytes (Int64.fromNumber (some n) false)),
          offset := some 0 } := by
      rw [← hr]
    unfold BVON.roundTrip
    rw [hs]
    simp only [BVON.deserialize]
    rw [hd, BVONDeserializer.readBlock_int64 _ hv]
    simp only [Result.value?]
    have := Int64.new_of_valid _ hv
    rw [hu] at this
    rw [this]
  · have h := hval
    simp only [Int64.valueOf, hu, Bool.false_eq_true, if_false] at h
    exact h

theorem roundTrip_number_outside_int32_witness :
    ∃ x : Int64, BVON.roundTrip (.number ⟨0x41E0000000000000⟩) none (BVON.new []) = some (.int64 x) ∧
      x.valueOf = 2147483648 ∧ x.high * 4294967296 + (toUint32 x.low : Int) = 2147483648 :=
  roundTrip_number_outside_int32 (BVON.new []) ⟨0x41E0000000000000⟩ 2147483648 rfl rfl
    (by decide) (by decide) (by decide)

/-! ## The allowance of nested calls of `divide` -/

theorem Except.ok_ne_error {ε α : Type} (a : α) (e : ε) : (Except.ok a : Except ε α) ≠ .error e :=
  fun h => Except.noConfusion h

/-- The budget of nested calls of `divide` is never used up. -/
theorem Int64.divide_budget (wasm : Bool) (a b : Int64) (ha : a.Valid) (hb : b.Valid) :
    Int64.divide wasm a b ≠ .error .nestingBudget := by
  cases wasm with
  | true =>
    show Int64.divideFuel true (3 + 1) a b ≠ _
    rw [Int64.divideFuel]
    by_cases hbz : b.isZero = true
    · rw [if_pos hbz]
      intro h
      cases h
    rw [if_neg hbz, if_pos rfl]
    split_ifs <;> first
      | exact Except.ok_ne_error _ _
      | (unfold Wasm.div_u
         split_ifs <;> first | exact Except.ok_ne_error _ _ | (intro h; cases h))
      | (unfold Wasm.div_s
         split_ifs <;> first | exact Except.ok_ne_error _ _ | (intro h; cases h))
  | false =>
    cases hu : a.unsigned with
    | false =>
      rw [Int64.divide_fallback_signed a b ha hb hu]
      split_ifs <;> first | exact Except.ok_ne_error _ _ | (intro h; cases h)
    | true =>
      show Int64.divideFuel false (3 + 1) a b ≠ _
      rw [Int64.divideFuel]
      simp only [hu, Bool.false_eq_true, if_false, Bool.not_true, Int64.divideLoop]
      split_ifs <;> first | exact Except.ok_ne_error _ _ | (intro h; cases h)

/-! ## Concrete runs of the arithmetic and of the codec after a failure -/

/-- Claim C11, at a failed call followed by a call on the buffer of the number 1: the
buffer `[0x0a, 0x08, 0x01, 0x11]` (an array of one element whose tag byte 0x11 is
unsupported) makes `deserialize` throw after four bytes are consumed, and `reset` is not
reached, so the reader keeps the offset 4. The next call on the same class reads
`BVON.serialize(1)`, the bytes `[2, 1, 0, 0, 0]`, from offset 4 on: it returns
`undefined`, where the class as loaded returns the number 1. -/
theorem deserialize_after_failure_keeps_offset :
    (BVON.serialize (.number (JSNumber.ofInt 1)) none (BVON.new [])).value?
        = some [2, 1, 0, 0, 0] ∧
      (BVON.deserialize [2, 1, 0, 0, 0] none (BVON.new [])).value?
        = some (.number (JSNumber.ofInt 1)) ∧
      (BVON.deserialize [0x0A, 8, 1, 0x11] none (BVON.new [])).error?
        = some (.unsupportedType (some 0x11)) ∧
      (BVON.deserialize [0x0A, 8, 1, 0x11] none (BVON.new [])).state.1.deserializer.offset
        = some 4 ∧
      (BVON.deserialize [2, 1, 0, 0, 0] none
        (BVON.deserialize [0x0A, 8, 1, 0x11] none (BVON.new [])).state.1).value?
        = some .undefined ∧
      (BVON.deserialize [2, 1, 0, 0, 0] none
        (BVON.deserialize [0x0A, 8, 1, 0x11] none (BVON.new [])).state.1).value?
        ≠ (BVON.deserialize [2, 1, 0, 0, 0] none (BVON.new [])).value? := by
  decide!

/-- Claim C12, at the registry of the specification (code 1, `args(v) = [v.x, v.y]`,
`build(x, y) = {x, y}`) and the custom value with `x = {}` and `y = 1`: both elements of
`args(v)` come back unchanged when they are serialized alone, and `serialize(v)` is the
byte 0xFF, the header of the code 1 and the encoding of `[{}, 1]`; but
`deserialize(serialize(v))` is `{x: {}, y: null}` and not `{x: {}, y: 1}`, because the
reader of the empty record consumes the tag byte of the element that follows it. With
`x = 2` in place of the empty record the value comes back as `{x: 2, y: 1}`. -/
theorem roundTrip_custom_value_with_empty_record :
    BVON.roundTrip (.object []) none (BVON.new pointRegistry) = some (.object []) ∧
      BVON.roundTrip (point (.number (JSNumber.ofInt 2)) (.number (JSNumber.ofInt 1))) none
        (BVON.new pointRegistry)
        = some (.object [([0x78], .number (JSNumber.ofInt 2)),
            ([0x79], .number (JSNumber.ofInt 1))]) ∧
      BVON.roundTrip (.number (JSNumber.ofInt 1)) none (BVON.new pointRegistry)
        = some (.number (JSNumber.ofInt 1)) ∧
      (BVON.serialize (.array [.object [], .number (JSNumber.ofInt 1)]) none
        (BVON.new pointRegistry)).value? = some [0x0A, 8, 2, 9, 8, 0, 2, 1, 0, 0, 0] ∧
      (BVON.serialize (point (.object []) (.number (JSNumber.ofInt 1))) none
        (BVON.new pointRegistry)).value?
        = some ([0xFF] ++ headerBytes 1 ++ [0x0A, 8, 2, 9, 8, 0, 2, 1, 0, 0, 0]) ∧
      BVON.roundTrip (point (.object []) (.number (JSNumber.ofInt 1))) none
        (BVON.new pointRegistry)
        = some (.object [([0x78], .object []), ([0x79], .null)]) ∧
      BVON.roundTrip (point (.object []) (.number (JSNumber.ofInt 1))) none
        (BVON.new pointRegistry)
        ≠ some (.object [([0x78], .object []), ([0x79], .number (JSNumber.ofInt 1))]) := by
  decide!

/-- Claim C14, at the dividend `MIN_VALUE + 1` and the divisor -1. With the WebAssembly
module the overflow guard of `divide` tests the high word of the dividend only, so the
dividend is returned as it is, where its negation is `MAX_VALUE`; and `mod` returns 0,
where the dividend minus the product of that quotient and the divisor is 2. Without the
module the loop condition of `divide` raises a `TypeError`, as it does for 7 divided
by 2. -/
theorem divide_next_to_min_by_minus_one :
    (Int64.ofInt (-9223372036854775807)).valueOf = -9223372036854775807 ∧
      Int64.NEGATIVE_ONE.valueOf = -1 ∧
      Int64.divide true (Int64.ofInt (-9223372036854775807)) Int64.NEGATIVE_ONE
        = .ok (Int64.ofInt (-9223372036854775807)) ∧
      (Int64.ofInt (-9223372036854775807)).negate = Int64.MAX_VALUE ∧
      Int64.MAX_VALUE.valueOf = 9223372036854775807 ∧
      Int64.ofInt (-9223372036854775807) ≠ Int64.MAX_VALUE ∧
      Int64.mod true (Int64.ofInt (-9223372036854775807)) Int64.NEGATIVE_ONE
        = .ok Int64.ZERO ∧
      (Int64.multiply true (Int64.ofInt (-9223372036854775807)) Int64.NEGATIVE_ONE).map
          (Int64.ofInt (-9223372036854775807)).subtract
        = .ok (Int64.ofInt 2) ∧
      Int64.divide false (Int64.ofInt (-9223372036854775807)) Int64.NEGATIVE_ONE
        = .error .typeError ∧
      Int64.divide false (Int64.ofInt 7) (Int64.ofInt 2) = .error .typeError := by
  decide!

/-- Claim C15: `Int64.MIN_VALUE.divide(Int64.from(-1))` returns `Int64.MIN_VALUE`, the
value with low word 0 and high word -0x80000000 in signed mode, both with the WebAssembly
module and without it. -/
theorem divide_min_by_minus_one (wasm : Bool) :
    Int64.divide wasm Int64.MIN_VALUE (Int64.fromNumber (some (-1)) false)
        = .ok Int64.MIN_VALUE ∧
      Int64.MIN_VALUE = ⟨0, -0x80000000, false⟩ := by
  cases wasm <;> decide!

/-- Claim C16, at the value 1 and the radix 10 without the WebAssembly module:
`toString` divides by `radix^6`, and the loop condition of `divide` raises a `TypeError`,
so no text is produced to parse back (the same holds at `MIN_VALUE` and at -255 in radix
16). With the module the text is `1`, and `Int64.from('1', 10)` is the value 1 with and
without the module. -/
theorem toString_throws_without_wasm :
    Int64.toString false Int64.ONE 10 = .error .typeError ∧
      Int64.toString false Int64.MIN_VALUE 10 = .error .typeError ∧
      Int64.toString false (Int64.ofInt (-255)) 16 = .error .typeError ∧
      Int64.toString true Int64.ONE 10 = .ok [0x31] ∧
      Int64.fromText true [0x31] (.number 10) = .ok Int64.ONE ∧
      Int64.fromText false [0x31] (.number 10) = .ok Int64.ONE := by
  decide!

/-- Claim C17: for every dividend `a` and every divisor `z` that is zero, with the
WebAssembly module and without it, `a.divide(z)` throws the error `division by zero`, and
`a.mod(z)` and `a.remainder(z)` throw (the trap of the module, or the error of `divide`);
none of them returns a value. The divisor is an `Int64`. -/
theorem divide_by_zero_throws (wasm : Bool) (a z : Int64) (hz : z.isZero = true) :
    Int64.divide wasm a z = .error .divisionByZero ∧
      Int64.mod wasm a z = .error (if wasm then .wasmTrap else .divisionByZero) ∧
      Int64.remainder wasm a z = .error (if wasm then .wasmTrap else .divisionByZero) := by
  have hd : Int64.divide wasm a z = .error .divisionByZero := by
    simp only [Int64.divide, Int64.divideFuel, hz, if_true]
  have hm : Int64.mod wasm a z = .error (if wasm then .wasmTrap else .divisionByZero) := by
    unfold Int64.mod
    cases wasm with
    | false =>
      simp only [Bool.false_eq_true, if_false, hd]
      rfl
    | true =>
      simp only [Int64.isZero, decide_eq_true_eq] at hz
      have h0 : Wasm.operand z.low z.high = 0 := by rw [hz.1, hz.2]; decide
      cases a.unsigned <;> simp [Wasm.rem_u, Wasm.rem_s, h0]
  exact ⟨hd, hm, hm⟩

theorem divide_by_zero_throws_witness :
    Int64.divide true Int64.MAX_UNSIGNED_VALUE Int64.ZERO = .error .divisionByZero ∧
      Int64.mod true Int64.MAX_UNSIGNED_VALUE Int64.ZERO
        = .error (if true then .wasmTrap else .divisionByZero) ∧
      Int64.remainder true Int64.MAX_UNSIGNED_VALUE Int64.ZERO
        = .error (if true then .wasmTrap else .divisionByZero) :=
  divide_by_zero_throws true Int64.MAX_UNSIGNED_VALUE Int64.ZERO (by decide)

/-- Claim C18, at the value with low word 0 and high word -1 and the count 33: the
unsigned 64-bit value is 0xFFFFFFFF00000000, whose quotient by 2^33 is 0x7FFFFFFF, but
`shiftRightUnsigned(33)` has the pattern 0xFFFFFFFF: its last branch shifts the high word
with the signed operator `>>`, which fills the vacated bits with the sign. -/
theorem shiftRightUnsigned_sign_extends :
    (Int64.new 0 (-1) false).bits = 0xFFFFFFFF00000000 ∧
      ((Int64.new 0 (-1) false).shiftRightUnsigned 33).bits = 0xFFFFFFFF ∧
      (Int64.new 0 (-1) false).bits / 2 ^ 33 = 0x7FFFFFFF ∧
      ((Int64.new 0 (-1) false).shiftRightUnsigned 33).bits
        ≠ (Int64.new 0 (-1) false).bits / 2 ^ 33 := by
  decide!

/-- Claim C19, at the texts `007`, `12a`, `1+2` and `1-2`, none of which matches the
grammar: with the WebAssembly module and without it, `Int64.from` returns 7 for `007`, 12
for `12a` and 1 for `1+2` (the text is not tested against the grammar, and `parseInt`
reads the digits it finds at the start of each group); only `1-2` is rejected, by the
test for an interior hyphen. -/
theorem fromText_accepts_texts_outside_grammar (wasm : Bool) :
    decimalGrammar [0x30, 0x30, 0x37] = false ∧
      Int64.fromText wasm [0x30, 0x30, 0x37] .undefined = .ok (Int64.ofInt 7) ∧
      decimalGrammar [0x31, 0x32, 0x61] = false ∧
      Int64.fromText wasm [0x31, 0x32, 0x61] .undefined = .ok (Int64.ofInt 12) ∧
      decimalGrammar [0x31, 0x2B, 0x32] = false ∧
      Int64.fromText wasm [0x31, 0x2B, 0x32] .undefined = .ok (Int64.ofInt 1) ∧
      decimalGrammar [0x31, 0x2D, 0x32] = false ∧
      Int64.fromText wasm [0x31, 0x2D, 0x32] .undefined = .error .interiorHyphen := by
  cases wasm <;> decide!

/-! ## The batch API is the single API applied in turn -/

/-- The loop of `serializeCollection` appends to its response what the successive calls
of `serialize` return. -/
theorem BVON.serializeCollectionFrom_eq (vs : List Value) :
    ∀ (schema : Option Schema) (self : BVON) (response : List (List Nat)),
      BVON.serializeCollectionFrom schema self vs response =
        match serializeEach schema self vs with
        | .error e state => .error e state
        | .ok more state => .ok (response ++ more) state := by
  induction vs with
  | nil =>
    intro schema self response
    simp only [BVON.serializeCollectionFrom, serializeEach, List.append_nil]
  | cons v rest ih =>
    intro schema self response
    have key : ∀ w : BVONSerializer,
        (match BVONSerializer.write v w with
          | .error e serializer =>
            (.error e ({ self with serializer := serializer },
              BVON.schemaAfterWrite schema serializer) :
              Result (BVON × Option Schema) (List (List Nat)))
          | .ok _ serializer =>
            BVON.serializeCollectionFrom (BVON.schemaAfterWrite schema serializer)
              { self with serializer := serializer.reset } rest
              (response ++ [serializer.buffer.slice 0 serializer.offset])) =
        match
          (match
            (match BVONSerializer.write v w with
              | .error e serializer =>
                (.error e ({ self with serializer := serializer },
                  BVON.schemaAfterWrite schema serializer) :
                  Result (BVON × Option Schema) (List Nat))
              | .ok _ serializer =>
                .ok (serializer.buffer.slice 0 serializer.offset)
                  ({ self with serializer := serializer.reset },
                    BVON.schemaAfterWrite schema serializer)) with
            | .error e state => (.error e state : Result (BVON × Option Schema) (List (List Nat)))
            | .ok bytes (self1, schema1) =>
              match serializeEach schema1 self1 rest with
              | .error e state => .error e state
              | .ok more state => .ok (bytes :: more) state) with
        | .error e state => .error e state
        | .ok more state => .ok (response ++ more) state := by
      intro w
      cases BVONSerializer.write v w with
      | error e st => rfl
      | ok u st =>
        dsimp only
        rw [ih]
        cases serializeEach (BVON.schemaAfterWrite schema st)
            { self with serializer := st.reset } rest with
        | error e state => rfl
        | ok more state =>
          dsimp only
          rw [List.append_assoc]
          rfl
    cases schema with
    | none => exact key self.serializer
    | some s => exact key (self.serializer.useSchema s)

/-- The loop of `deserializeCollection` appends to its response what the successive
calls of `deserialize` return. -/
theorem BVON.deserializeCollectionFrom_eq (bs : List (List Nat)) :
    ∀ (schema : Option Schema) (self : BVON) (response : List Value),
      BVON.deserializeCollectionFrom schema self bs response =
        match deserializeEach schema self bs with
        | .error e state => .error e state
        | .ok more state => .ok (response ++ more) state := by
  induction bs with
  | nil =>
    intro schema self response
    simp only [BVON.deserializeCollectionFrom, deserializeEach, List.append_nil]
  | cons b rest ih =>
    intro schema self response
    have key : ∀ w : BVONDeserializer,
        (match BVONDeserializer.readBlock (b.length + 1) w with
          | .error e deserializer =>
            (.error e ({ self with deserializer := deserializer },
              BVON.schemaAfterRead schema deserializer) :
              Result (BVON × Option Schema) (List Value))
          | .ok res deserializer =>
            BVON.deserializeCollectionFrom (BVON.schemaAfterRead schema deserializer)
              { self with deserializer := deserializer.reset } rest (response ++ [res])) =
        match
          (match
            (match BVONDeserializer.readBlock (b.length + 1) w with
              | .error e deserializer =>
                (.error e ({ self with deserializer := deserializer },
                  BVON.schemaAfterRead schema deserializer) :
                  Result (BVON × Option Schema) Value)
              | .ok res deserializer =>
                .ok res ({ self with deserializer := deserializer.reset },
                    BVON.schemaAfterRead schema deserializer)) with
            | .error e state => (.error e state : Result (BVON × Option Schema) (List Value))
            | .ok value (self1, schema1) =>
              match deserializeEach schema1 self1 rest with
              | .error e state => .error e state
              | .ok more state => .ok (value :: more) state) with
        | .error e state => .error e state
        | .ok more state => .ok (response ++ more) state := by
      intro w
      cases BVONDeserializer.readBlock (b.length + 1) w with
      | error e st => rfl
      | ok u st =>
        dsimp only
        rw [ih]
        cases deserializeEach (BVON.schemaAfterRead schema st)
            { self with deserializer := st.reset } rest with
        | error e state => rfl
        | ok more state =>
          dsimp only
          rw [List.append_assoc]
          rfl
    cases schema with
    | none => exact key _
    | some s => exact key _

theorem serializeEach_length (vs : List Value) :
    ∀ (schema : Option Schema) (self : BVON) (ranges : List (List Nat))
      (state : BVON × Option Schema),
      serializeEach schema self vs = .ok ranges state → ranges.length = vs.length := by
  induction vs with
  | nil =>
    intro schema self ranges state h
    simp only [serializeEach, Result.ok.injEq] at h
    rw [← h.1]
    rfl
  | cons v rest ih =>
    intro schema self ranges state h
    rw [serializeEach] at h
    cases hs : BVON.serialize v schema self with
    | error e st => rw [hs] at h; cases h
    | ok bytes st =>
      obtain ⟨self1, schema1⟩ := st
      rw [hs] at h
      dsimp only at h
      cases hr : serializeEach schema1 self1 rest with
      | error e st2 => rw [hr] at h; cases h
      | ok more st2 =>
        rw [hr] at h
        simp only [Result.ok.injEq] at h
        rw [← h.1, List.length_cons, ih _ _ _ _ hr, List.length_cons]

theorem deserializeEach_length (bs : List (List Nat)) :
    ∀ (schema : Option Schema) (self : BVON) (values : List Value)
      (state : BVON × Option Schema),
      deserializeEach schema self bs = .ok values state → values.length = bs.length := by
  induction bs with
  | nil =>
    intro schema self values state h
    simp only [deserializeEach, Result.ok.injEq] at h
    rw [← h.1]
    rfl
  | cons b rest ih =>
    intro schema self values state h
    rw [deserializeEach] at h
    cases hs : BVON.deserialize b schema self with
    | error e st => rw [hs] at h; cases h
    | ok value st =>
      obtain ⟨self1, schema1⟩ := st
      rw [hs] at h
      dsimp only at h
      cases hr : deserializeEach schema1 self1 rest with
      | error e st2 => rw [hr] at h; cases h
      | ok more st2 =>
        rw [hr] at h
        simp only [Result.ok.injEq] at h
        rw [← h.1, List.length_cons, ih _ _ _ _ hr, List.length_cons]

/-- Claim C29: for every list of values, every optional schema and every state of the
class, `BVON.serializeCollection(vs, s)` is what the successive calls `BVON.serialize(v, s)`
for each `v` of `vs` give (the same byte ranges in the same order, the same state left, the
same exception when a call throws), and `BVON.deserializeCollection(bs, s)` is what the
successive calls `BVON.deserialize(b, s)` give; a list that is returned has the length of
the list given. -/
theorem collection_is_elementwise (schema : Option Schema) (self : BVON) :
    (∀ vs : List Value,
      BVON.serializeCollection vs schema self = serializeEach schema self vs ∧
      ∀ ranges state, BVON.serializeCollection vs schema self = .ok ranges state →
        ranges.length = vs.length) ∧
    (∀ bs : List (List Nat),
      BVON.deserializeCollection bs schema self = deserializeEach schema self bs ∧
      ∀ values state, BVON.deserializeCollection bs schema self = .ok values state →
        values.length = bs.length) := by
  have hs : ∀ vs : List Value,
      BVON.serializeCollection vs schema self = serializeEach schema self vs := by
    intro vs
    rw [BVON.serializeCollection, BVON.serializeCollectionFrom_eq]
    cases serializeEach schema self vs with
    | error e state => rfl
    | ok more state => rfl
  have hd : ∀ bs : List (List Nat),
      BVON.deserializeCollection bs schema self = deserializeEach schema self bs := by
    intro bs
    rw [BVON.deserializeCollection, BVON.deserializeCollectionFrom_eq]
    cases deserializeEach schema self bs with
    | error e state => rfl
    | ok more state => rfl
  refine ⟨fun vs => ⟨hs vs, fun ranges state h => ?_⟩, fun bs => ⟨hd bs, fun values state h => ?_⟩⟩
  · rw [hs] at h
    exact serializeEach_length vs _ _ _ _ h
  · rw [hd] at h
    exact deserializeEach_length bs _ _ _ _ h

/-! ## An `Int64` and a date through the codec -/

/-- The outcome of `serialize`, with or without a schema, on a class whose writer stands
at offset 0, for a value that `write` encodes as given bytes whatever the writer holds. -/
theorem BVON.serialize_bytes (data : Value) (bytes : List Nat) (schema : Option Schema)
    (self : BVON) (h0 : self.serializer.offset = 0) (hb : ∀ b ∈ bytes, b < 256)
    (hw : ∀ w : BVONSerializer, BVONSerializer.write data w = BVONSerializer.setView bytes w) :
    ∃ serializer, BVON.serialize data schema self
      = .ok bytes ({ self with serializer := serializer }, schema) := by
  unfold BVON.serialize
  cases schema with
  | none =>
    simp only [hw, BVONSerializer.setView, Step.modify_apply, h0, BVON.schemaAfterWrite,
      Option.map_none']
    have := Buffer.slice_setBytes self.serializer.buffer 0 bytes hb
    simp only [Nat.zero_add] at this ⊢
    rw [this]
    exact ⟨_, rfl⟩
  | some s =>
    simp only [hw, BVONSerializer.setView, Step.modify_apply, BVONSerializer.useSchema, h0,
      BVON.schemaAfterWrite, Option.map_some']
    have := Buffer.slice_setBytes self.serializer.buffer 0 bytes hb
    simp only [Nat.zero_add] at this ⊢
    rw [this]
    exact ⟨_, rfl⟩

/-- The reader that `deserialize` starts `readBlock` on, when the reader of the class
stands at offset 0. -/
theorem BVON.deserialize_start (buffer : List Nat) (schema : Option Schema) (self : BVON)
    (hr : self.deserializer.offset = some 0) :
    ∃ d : BVONDeserializer, d.constructors = self.deserializer.constructors ∧
      BVON.deserialize buffer schema self =
        match BVONDeserializer.readBlock (buffer.length + 1)
            { d with buffer := some buffer, offset := some 0 } with
        | .error e deserializer =>
          .error e ({ self with deserializer := deserializer },
            BVON.schemaAfterRead schema deserializer)
        | .ok res deserializer =>
          .ok res ({ self with deserializer := deserializer.reset },
            BVON.schemaAfterRead schema deserializer) := by
  cases schema with
  | none =>
    refine ⟨self.deserializer, rfl, ?_⟩
    unfold BVON.deserialize
    simp only
    rw [← hr]
  | some s =>
    refine ⟨self.deserializer.useSchema s, rfl, ?_⟩
    unfold BVON.deserialize
    simp only
    have : (self.deserializer.useSchema s).offset = some 0 := hr
    rw [← this]

theorem int64Bytes_length (x : Int64) : (int64Bytes x).length = 8 := rfl

theorem int64_bytes_lt (x : Int64) : ∀ b ∈ 3 :: int64Bytes x, b < 256 := by
  intro b hb
  rcases List.mem_cons.1 hb with h | h
  · omega
  · exact int64Bytes_lt _ b h

/-- The encoding of C21 on a class at rest: for every `Int64` whose words are signed
32-bit integers, in either sign mode, with or without a schema, on a class whose writer
and reader stand at offset 0 (as they do when the class is loaded and after every call
that returned), `BVON.serialize(x)` is nine bytes: the tag 0x03, the four little-endian
bytes of the low word, the four little-endian bytes of the high word; the bytes are those
of the same words in the other sign mode; and `BVON.deserialize` of them is an `Int64`
with the same low and high words. -/
theorem roundTrip_int64_words (self : BVON) (schema : Option Schema) (x : Int64)
    (hx : x.Valid) (hw : self.serializer.offset = 0)
    (hr : self.deserializer.offset = some 0) :
    (BVON.serialize (.int64 x) schema self).value?
        = some (3 :: (littleEndian 4 (toUint32 x.low) ++ littleEndian 4 (toUint32 x.high))) ∧
      (3 :: (littleEndian 4 (toUint32 x.low) ++ littleEndian 4 (toUint32 x.high))).length = 9 ∧
      (BVON.serialize (.int64 { x with unsigned := !x.unsigned }) schema self).value?
        = (BVON.serialize (.int64 x) schema self).value? ∧
      ∃ y : Int64, BVON.roundTrip (.int64 x) schema self = some (.int64 y) ∧
        y.low = x.low ∧ y.high = x.high := by
  have hwrite : ∀ (z : Int64) (w : BVONSerializer),
      BVONSerializer.write (.int64 z) w = BVONSerializer.setView (3 :: int64Bytes z) w := by
    intro z w
    rw [← BVONSerializer.writeInteger64_eq]
    simp only [BVONSerializer.write]
  obtain ⟨serializer, hs⟩ :=
    BVON.serialize_bytes _ _ schema self hw (int64_bytes_lt x) (hwrite x)
  obtain ⟨serializer2, hs2⟩ :=
    BVON.serialize_bytes _ _ schema self hw (int64_bytes_lt { x with unsigned := !x.unsigned })
      (hwrite { x with unsigned := !x.unsigned })
  refine ⟨?_, rfl, ?_, Int64.new x.low x.high false, ?_, ?_, ?_⟩
  · rw [hs]
    rfl
  · rw [hs, hs2]
    rfl
  · unfold BVON.roundTrip
    rw [hs]
    simp only
    obtain ⟨d, -, hd⟩ := BVON.deserialize_start (3 :: int64Bytes x) schema
      { self with serializer := serializer } hr
    rw [hd, BVONDeserializer.readBlock_int64 x hx]
    rfl
  · exact toInt32_of_range _ hx.1 hx.2.1
  · exact toInt32_of_range _ hx.2.2.1 hx.2.2.2

theorem roundTrip_int64_words_witness :
    (BVON.serialize (.int64 ⟨-2, 5, true⟩) none (BVON.new [])).value?
        = some [3, 0xFE, 0xFF, 0xFF, 0xFF, 5, 0, 0, 0] ∧
      ∃ y : Int64, BVON.roundTrip (.int64 ⟨-2, 5, true⟩) none (BVON.new []) = some (.int64 y) ∧
        y.low = -2 ∧ y.high = 5 :=
  ⟨(roundTrip_int64_words (BVON.new []) none ⟨-2, 5, true⟩ (by decide) rfl rfl).1,
    (roundTrip_int64_words (BVON.new []) none ⟨-2, 5, true⟩ (by decide) rfl rfl).2.2.2⟩

theorem littleEndian_append (a b : Nat) :
    ∀ n : Nat, littleEndian (a + b) n = littleEndian a n ++ littleEndian b (n / 256 ^ a) := by
  induction a with
  | zero => intro n; simp [littleEndian]
  | succ a ih =>
    intro n
    rw [show a + 1 + b = (a + b) + 1 by omega]
    simp only [littleEndian, List.cons_append, ih]
    rw [Nat.div_div_eq_div_mul, Nat.pow_succ, Nat.mul_comm]

theorem littleEndian_mod (a : Nat) :
    ∀ n : Nat, littleEndian a (n % 256 ^ a) = littleEndian a n := by
  induction a with
  | zero => intro n; rfl
  | succ a ih =>
    intro n
    simp only [littleEndian]
    have h1 : n % 256 ^ (a + 1) % 256 = n % 256 := by
      rw [Nat.pow_succ, Nat.mul_comm]
      exact Nat.mod_mul_right_mod n 256 (256 ^ a)
    have h2 : n % 256 ^ (a + 1) / 256 = (n / 256) % 256 ^ a := by
      rw [Nat.pow_succ, Nat.mul_comm, Nat.mod_mul_right_div_self]
    rw [h1, h2, ih]

/-- The payload of an `Int64` is the eight little-endian bytes of its pattern. -/
theorem int64Bytes_eq_littleEndian (x : Int64) : int64Bytes x = littleEndian 8 x.bits := by
  have h := littleEndian_append 4 4 x.bits
  have hl := toUint32_lt x.low
  have hh := toUint32_lt x.high
  rw [show (4 + 4 : Nat) = 8 by rfl] at h
  rw [h, int64Bytes]
  have e1 : littleEndian 4 x.bits = littleEndian 4 (toUint32 x.low) := by
    rw [← littleEndian_mod 4 x.bits]
    congr 1
    unfold Int64.bits
    omega
  have e2 : x.bits / 256 ^ 4 = toUint32 x.high := by
    unfold Int64.bits
    omega
  rw [e1, e2]

/-- The reader, at the tag of a date followed by the payload of an `Int64`. -/
theorem BVONDeserializer.readBlock_date (x : Int64) (hx : x.Valid) (d : BVONDeserializer)
    (fuel : Nat) :
    BVONDeserializer.readBlock (fuel + 1)
        { d with buffer := some (8 :: int64Bytes x), offset := some 0 }
      = .ok (.date (BVONDeserializer.timeClip
            (BVONDeserializer.int64ValueOf (Int64.new x.low x.high false))))
          { d with buffer := some (8 :: int64Bytes x), offset := some 9 } := by
  unfold Int64.Valid at hx
  have hl := word_of_bytes x.low hx.1 hx.2.1
  have hh := word_of_bytes x.high hx.2.2.1 hx.2.2.2
  rw [int64Bytes, littleEndian_word, littleEndian_word]
  simp [BVONDeserializer.readBlock, BVONDeserializer.readBlockCase,
    BVONDeserializer.readUint8, BVONDeserializer.advance,
    BVONDeserializer.readInt64, BVONDeserializer.readWord, hl, hh]

/-- The encoding of C22 on a class at rest: for every date whose time value is an integer
`t` of magnitude at most 8640000000000000, with or without a schema, on a class whose
writer and reader stand at offset 0, `BVON.serialize(d)` is the tag 0x08 followed by the
eight little-endian bytes of the two-complement pattern of `t` (the low word, then the
high word), and `BVON.deserialize(BVON.serialize(d))` is the date of time value `t`. -/
theorem roundTrip_date (self : BVON) (schema : Option Schema) (t : Int)
    (ht : t.natAbs ≤ 8640000000000000) (hw : self.serializer.offset = 0)
    (hr : self.deserializer.offset = some 0) :
    (BVON.serialize (.date (some t)) schema self).value?
        = some (8 :: littleEndian 8 (t % 18446744073709551616).toNat) ∧
      (8 :: littleEndian 8 (t % 18446744073709551616).toNat)
        = 8 :: (littleEndian 4 (toUint32 t) ++ littleEndian 4 (toUint32 (t / 4294967296))) ∧
      BVON.roundTrip (.date (some t)) schema self = some (.date (some t)) := by
  obtain ⟨hv, hu, hval⟩ := Int64.fromNumber_safe t (by omega)
  have hbits : (Int64.fromNumber (some t) false).bits = (t % 18446744073709551616).toNat := by
    rw [Int64.valueOf_signed hv hu] at hval
    have := Int64.bits_lt (Int64.fromNumber (some t) false)
    unfold Wasm.signed at hval
    split at hval <;> omega
  have hwrite : ∀ w : BVONSerializer,
      BVONSerializer.write (.date (some t)) w
        = BVONSerializer.setView (8 :: int64Bytes (Int64.fromNumber (some t) false)) w := by
    intro w
    rw [int64Bytes, littleEndian_word, littleEndian_word]
    simp only [BVONSerializer.write, BVONSerializer.writeDate, Step.bind_apply,
      BVONSerializer.setUint8, BVONSerializer.setInt64, Step.modify_apply,
      BVONSerializer.setView, Buffer.setBytes, List.cons_append, List.nil_append,
      List.length_cons, List.length_nil]
  have hlt : ∀ b ∈ 8 :: int64Bytes (Int64.fromNumber (some t) false), b < 256 := by
    intro b hb
    rcases List.mem_cons.1 hb with h | h
    · omega
    · exact int64Bytes_lt _ b h
  obtain ⟨serializer, hs⟩ := BVON.serialize_bytes _ _ schema self hw hlt hwrite
  refine ⟨?_, ?_, ?_⟩
  · rw [hs, int64Bytes_eq_littleEndian, hbits]
    rfl
  · have h := int64Bytes_eq_littleEndian (Int64.ofInt t)
    have hb := Int64.bits_ofInt t
    have e : (Int64.ofInt t).bits = (t % 18446744073709551616).toNat := by omega
    rw [e] at h
    rw [← h, int64Bytes]
    simp only [Int64.ofInt, toUint32_toInt32]
  · unfold BVON.roundTrip
    rw [hs]
    simp only
    obtain ⟨d, -, hd⟩ := BVON.deserialize_start
      (8 :: int64Bytes (Int64.fromNumber (some t) false)) schema
      { self with serializer := serializer } hr
    rw [hd, BVONDeserializer.readBlock_date _ hv]
    have hnew := Int64.new_of_valid _ hv
    rw [hu] at hnew
    rw [hnew]
    have hvo : BVONDeserializer.int64ValueOf (Int64.fromNumber (some t) false) = t := by
      have h := hval
      simp only [Int64.valueOf, hu, Bool.false_eq_true, if_false] at h
      exact h
    rw [hvo, BVONDeserializer.timeClip, if_pos ht]
    rfl

theorem roundTrip_date_witness :
    (BVON.serialize (.date (some (-1))) none (BVON.new [])).value?
        = some [8, 255, 255, 255, 255, 255, 255, 255, 255] ∧
      BVON.roundTrip (.date (some (-1))) none (BVON.new []) = some (.date (some (-1))) :=
  ⟨(roundTrip_date (BVON.new []) none (-1) (by decide) rfl rfl).1,
    (roundTrip_date (BVON.new []) none (-1) (by decide) rfl rfl).2.2⟩

/-! ## The length of a big integer and a back-reference that is not registered -/

/-- Claim C23, at the big integer 2^31: the least `k` with `b < 256^k` is 4 and the four
big-endian bytes of `b` are 0x80, 0, 0, 0, but `getBigIntByteLength(b)` is 2 and the
payload is two zero bytes (`left >>= 16` on the number 2147483648 is a signed 32-bit
shift, which gives -32768 and ends the loops), so `writeBigInt` writes the header of the
length 2 and `BVON.serialize(b)` is 5, 8, 2, 0, 0. At 2^31 - 1 and at 2^32 the length is
the least one and the payload is the big-endian bytes. -/
theorem bigint_length_two_pow_31 :
    getBigIntByteLength 2147483648 = 2 ∧
      (2147483648 : Nat) < 256 ^ 4 ∧ ¬ (2147483648 : Nat) < 256 ^ 3 ∧
      bigEndian 4 2147483648 = [0x80, 0, 0, 0] ∧
      (BVON.serialize (.bigint 2147483648) none (BVON.new [])).value?
        = some ([5] ++ headerBytes 2 ++ [0, 0]) ∧
      (BVON.serialize (.bigint 2147483648) none (BVON.new [])).value?
        ≠ some ([5] ++ headerBytes 4 ++ bigEndian 4 2147483648) ∧
      getBigIntByteLength 2147483647 = 4 ∧
      (BVON.serialize (.bigint 2147483647) none (BVON.new [])).value?
        = some ([5] ++ headerBytes 4 ++ bigEndian 4 2147483647) ∧
      getBigIntByteLength 4294967296 = 5 ∧
      (BVON.serialize (.bigint 4294967296) none (BVON.new [])).value?
        = some ([5] ++ headerBytes 5 ++ bigEndian 5 4294967296) := by
  decide!

/-- Claim C24, at a record of one field whose key is a back-reference to the id 5, read
with no schema and with the schema built from `{a: 1}` (which registers the id 1 only):
`this.map[ref]` is `undefined` and `readKey` returns it, so `BVON.deserialize` returns
the record `{undefined: null}` where the claim has a failure. -/
theorem deserialize_unregistered_reference :
    (BVON.deserialize [9, 8, 1, 0x0E, 8, 5, 1] none (BVON.new [])).value?
        = some (.object [(undefinedName, .null)]) ∧
      (BVON.deserialize [9, 8, 1, 0x0E, 8, 5, 1] none (BVON.new [])).error? = none ∧
      Schema.new (.object [([97], .number (JSNumber.ofInt 1))])
        = .ok { refs := [([97], 1)], refIndex := 1, map := [none, some [97]] } ∧
      (BVON.deserialize [9, 8, 1, 0x0E, 8, 5, 1]
        (some { refs := [([97], 1)], refIndex := 1, map := [none, some [97]] })
        (BVON.new [])).value? = some (.object [(undefinedName, .null)]) := by
  decide!

/-- A key that is a back-reference to an id for which the array of the reader has no name
is returned as `undefined`; no exception is raised. -/
theorem BVONDeserializer.readKey_unregistered (s : BVONDeserializer) (bytes : List Nat)
    (o id : Nat) (hb : s.buffer = some bytes) (ho : s.offset = some o)
    (h0 : bytes[o]? = some 8) (h1 : bytes[o + 1]? = some id)
    (hid : JSArray.get s.map id = none) :
    BVONDeserializer.readKey (some TYPES.DB_REF) s
      = .ok none { s with offset := some (o + 2) } := by
  simp [BVONDeserializer.readKey, BVONDeserializer.readHeader, BVONDeserializer.readUint8,
    BVONDeserializer.advance, BVONDeserializer.getName, hb, ho, h0, h1, hid]

/-! ## Tags and selectors that the reader rejects -/

theorem BVONDeserializer.readUint8_at (s : BVONDeserializer) (bytes : List Nat) (o : Nat)
    (hb : s.buffer = some bytes) (ho : s.offset = some o) :
    BVONDeserializer.readUint8 s = .ok bytes[o]? { s with offset := some (o + 1) } := by
  simp [BVONDeserializer.readUint8, BVONDeserializer.advance, hb, ho]

theorem BVONDeserializer.readBlockCase_unsupported (block : Step BVONDeserializer Value)
    (tag : Nat) (hv : tag ∉ valueTags) (s : BVONDeserializer) :
    BVONDeserializer.readBlockCase block (some tag) s = .error (.unsupportedType (some tag)) s := by
  simp only [valueTags, List.mem_cons, List.mem_singleton, List.not_mem_nil, or_false,
    not_or] at hv
  obtain ⟨h0, h1, h2, h3, h4, h5, h6, h7, h8, h9, h10, h11, h12, h13, h14, h15, h16⟩ := hv
  unfold BVONDeserializer.readBlockCase
  rw [if_neg (by simpa using h6), if_neg (by simpa using h15), if_neg (by simpa using h11),
    if_neg (by simpa using h2), if_neg (by simpa using h3), if_neg (by simpa using h4),
    if_neg (by simpa using h8), if_neg (by simpa using h5), if_neg (by simpa using h16),
    if_neg (by simpa using h7), if_neg (by simpa using h1), if_neg (by simpa using h0),
    if_neg (by simpa using h9), if_neg (by simpa using h13), if_neg (by simpa using h12),
    if_neg (by simpa using h10), if_neg (by simpa using h14)]
  rfl

theorem BVONDeserializer.readKey_invalid (key : Option Nat) (h1 : key ≠ some TYPES.DB_REF)
    (h2 : key ≠ some TYPES.STRING) (s : BVONDeserializer) :
    BVONDeserializer.readKey key s = .error (.invalidKey key) s := by
  unfold BVONDeserializer.readKey
  rw [if_neg h1, if_neg h2]
  rfl

/-- Claim C25: when the byte at the offset of the reader is not one of the seventeen
value tags (0x00 to 0x0D, 0x0F, 0x10, 0xFF), `readBlock` reads it and throws the
`BVONError` of the message `Unsupported type:` followed by that byte, whatever follows
and at whatever depth of nesting, and so does `BVON.deserialize` on a buffer that starts
with it; and `readKey` on a key tag other than `DB_REF` and `STRING` throws the error of
the message `Key of type ... is invalid.` that names the tag, at the first field of a
record and at every later one. -/
theorem unsupported_tag_fails (s : BVONDeserializer) (depth : Nat) (bytes : List Nat)
    (o tag key : Nat) (hb : s.buffer = some bytes) (ho : s.offset = some o)
    (ht : bytes[o]? = some tag) (hv : tag ∉ valueTags)
    (hk : key ≠ TYPES.DB_REF ∧ key ≠ TYPES.STRING) :
    BVONDeserializer.readBlock (depth + 1) s
        = .error (.unsupportedType (some tag)) { s with offset := some (o + 1) } ∧
      (∀ (rest : List Nat) (schema : Option Schema) (self : BVON),
        self.deserializer.offset = some 0 →
        (BVON.deserialize (tag :: rest) schema self).error? = some (.unsupportedType (some tag))) ∧
      (∀ t : BVONDeserializer,
        BVONDeserializer.readKey (some key) t = .error (.invalidKey (some key)) t) ∧
      (∀ (t : BVONDeserializer) (block : Step BVONDeserializer Value) (remaining : Nat)
          (obj : List (JSString × Value)),
        BVONDeserializer.readFields block (remaining + 1) (some key) obj t
          = .error (.invalidKey (some key)) t) ∧
      TYPES.DB_REF ∉ valueTags := by
  have hkey : ∀ t : BVONDeserializer,
      BVONDeserializer.readKey (some key) t = .error (.invalidKey (some key)) t := fun t =>
    BVONDeserializer.readKey_invalid (some key) (by simpa using hk.1) (by simpa using hk.2) t
  have hblock : ∀ (t : BVONDeserializer) (bs : List Nat) (p d : Nat), t.buffer = some bs →
      t.offset = some p → bs[p]? = some tag →
      BVONDeserializer.readBlock (d + 1) t
        = .error (.unsupportedType (some tag)) { t with offset := some (p + 1) } := by
    intro t bs p d h1 h2 h3
    rw [BVONDeserializer.readBlock]
    simp only [Step.bind_apply, BVONDeserializer.readUint8_at t bs p h1 h2, h3]
    exact BVONDeserializer.readBlockCase_unsupported _ tag hv _
  refine ⟨hblock s bytes o depth hb ho ht, ?_, hkey, ?_, by decide⟩
  · intro rest schema self hr
    obtain ⟨d, -, hd⟩ := BVON.deserialize_start (tag :: rest) schema self hr
    rw [hd, hblock _ (tag :: rest) 0 _ rfl rfl (List.getElem?_cons_zero)]
    rfl
  · intro t block remaining obj
    rw [BVONDeserializer.readFields]
    simp only [Step.bind_apply, hkey t]

theorem unsupported_tag_fails_witness :
    BVONDeserializer.readBlock 1
        { BVONDeserializer.new [] with buffer := some [0x0E, 8, 1] }
      = .error (.unsupportedType (some 0x0E))
          { BVONDeserializer.new [] with buffer := some [0x0E, 8, 1], offset := some 1 } :=
  (unsupported_tag_fails { BVONDeserializer.new [] with buffer := some [0x0E, 8, 1] } 0
    [0x0E, 8, 1] 0 0x0E 2 rfl rfl rfl (by decide) (by decide)).1

/-- The default case of the `switch` of `readHeader`. -/
theorem BVONDeserializer.readHeader_invalid (t : BVONDeserializer) (b : Option Nat)
    (u : BVONDeserializer) (hread : BVONDeserializer.readUint8 t = .ok b u)
    (h8 : b ≠ some 8) (h16 : b ≠ some 16) (h32 : b ≠ some 32) :
    BVONDeserializer.readHeader t = .error .invalidSize u := by
  unfold BVONDeserializer.readHeader
  simp only [Step.bind_apply, hread]
  rfl

/-- Claim C27: when the byte at the offset of the reader is not 8, 16 or 32 (also when
the buffer ends before it), `readHeader` reads it and throws the error `invalid size`;
and so does `readBlock` at the tag of a string, an identifier, a blob, a big integer, a
record, a sequence, a set, a map or an extension value followed by such a byte, and
`readKey` at a back-reference or a text key followed by such a byte. -/
theorem invalid_selector_fails (s : BVONDeserializer) (bytes : List Nat) (o : Nat)
    (hb : s.buffer = some bytes) (ho : s.offset = some o)
    (hsel : bytes[o]? ≠ some 8 ∧ bytes[o]? ≠ some 16 ∧ bytes[o]? ≠ some 32) :
    BVONDeserializer.readHeader s = .error .invalidSize { s with offset := some (o + 1) } ∧
      (∀ (block : Step BVONDeserializer Value) (tag : Nat), tag ∈ headedTags →
        BVONDeserializer.readBlockCase block (some tag) s
          = .error .invalidSize { s with offset := some (o + 1) }) ∧
      (∀ key : Nat, key = TYPES.DB_REF ∨ key = TYPES.STRING →
        BVONDeserializer.readKey (some key) s
          = .error .invalidSize { s with offset := some (o + 1) }) ∧
      (∀ (depth tag p : Nat) (t : BVONDeserializer) (bs : List Nat), tag ∈ headedTags →
        t.buffer = some bs → t.offset = some p → bs[p]? = some tag → bs[p + 1]? = bytes[o]? →
        BVONDeserializer.readBlock (depth + 1) t
          = .error .invalidSize { t with offset := some (p + 1 + 1) }) := by
  have hh : ∀ (t : BVONDeserializer) (bs : List Nat) (p : Nat), t.buffer = some bs →
      t.offset = some p → bs[p]? = bytes[o]? →
      BVONDeserializer.readHeader t = .error .invalidSize { t with offset := some (p + 1) } := by
    intro t bs p h1 h2 h3
    obtain ⟨a, b, c⟩ := hsel
    rw [← h3] at a b c
    exact BVONDeserializer.readHeader_invalid t _ _
      (BVONDeserializer.readUint8_at t bs p h1 h2) a b c
  have hcase : ∀ (t u : BVONDeserializer) (block : Step BVONDeserializer Value) (tag : Nat),
      tag ∈ headedTags → BVONDeserializer.readHeader t = .error .invalidSize u →
      BVONDeserializer.readBlockCase block (some tag) t = .error .invalidSize u := by
    intro t u block tag htag hread
    simp only [headedTags, List.mem_cons, List.mem_singleton, List.not_mem_nil, or_false] at htag
    rcases htag with h | h | h | h | h | h | h | h | h <;> subst h <;>
      simp [BVONDeserializer.readBlockCase, hread]
  refine ⟨hh s bytes o hb ho rfl, fun block tag htag => hcase s _ block tag htag
    (hh s bytes o hb ho rfl), ?_, ?_⟩
  · intro key hkey
    rcases hkey with h | h <;> subst h <;>
      simp [BVONDeserializer.readKey, hh s bytes o hb ho rfl]
  · intro depth tag p t bs htag htb hto htg hnext
    rw [BVONDeserializer.readBlock]
    simp only [Step.bind_apply, BVONDeserializer.readUint8_at t bs p htb hto, htg]
    exact hcase _ _ _ tag htag (hh { t with offset := some (p + 1) } bs (p + 1) htb rfl hnext)

theorem invalid_selector_fails_witness :
    BVONDeserializer.readHeader { BVONDeserializer.new [] with buffer := some [9, 1] }
      = .error .invalidSize
          { BVONDeserializer.new [] with buffer := some [9, 1], offset := some 1 } :=
  (invalid_selector_fails { BVONDeserializer.new [] with buffer := some [9, 1] } [9, 1] 0
    rfl rfl (by decide)).1

/-! ## The reader leaves its registry as it is -/

theorem BVONDeserializer.registry_readUint8 (c : List BVONConstructor) :
    BVONDeserializer.readUint8.Keeps (fun st => st.constructors = c) := by
  intro s h
  unfold BVONDeserializer.readUint8
  split <;> exact h

theorem BVONDeserializer.registry_readUint16 (c : List BVONConstructor) :
    BVONDeserializer.readUint16.Keeps (fun st => st.constructors = c) := by
  unfold BVONDeserializer.readUint16
  refine Step.keeps_bind _ _ _ (BVONDeserializer.registry_readUint8 c) fun first =>
    Step.keeps_bind _ _ _ (BVONDeserializer.registry_readUint8 c) fun second => ?_
  cases first <;> exact Step.keeps_pure _ _

theorem BVONDeserializer.registry_viewBytes (c : List BVONConstructor) (count : Nat) :
    (BVONDeserializer.viewBytes count).Keeps (fun st => st.constructors = c) := by
  intro s h
  unfold BVONDeserializer.viewBytes
  split
  · exact h
  · simp only
    split <;> exact h

theorem BVONDeserializer.registry_advance (c : List BVONConstructor) (length : Length) :
    (Step.modify fun self : BVONDeserializer =>
      { self with offset := BVONDeserializer.advance self.offset length }).Keeps
        (fun st => st.constructors = c) :=
  fun _ h => h

theorem BVONDeserializer.registry_readUint32 (c : List BVONConstructor) :
    BVONDeserializer.readUint32.Keeps (fun st => st.constructors = c) :=
  Step.keeps_bind _ _ _ (BVONDeserializer.registry_viewBytes c 4) fun _ =>
    Step.keeps_bind _ _ _ (BVONDeserializer.registry_advance c _) fun _ => Step.keeps_pure _ _

theorem BVONDeserializer.registry_readWord (c : List BVONConstructor) :
    BVONDeserializer.readWord.Keeps (fun st => st.constructors = c) :=
  Step.keeps_bind _ _ _ (BVONDeserializer.registry_readUint8 c) fun _ =>
    Step.keeps_bind _ _ _ (BVONDeserializer.registry_readUint8 c) fun _ =>
      Step.keeps_bind _ _ _ (BVONDeserializer.registry_readUint8 c) fun _ =>
        Step.keeps_bind _ _ _ (BVONDeserializer.registry_readUint8 c) fun _ =>
          Step.keeps_pure _ _

theorem BVONDeserializer.registry_readInt64 (c : List BVONConstructor) :
    BVONDeserializer.readInt64.Keeps (fun st => st.constructors = c) :=
  Step.keeps_bind _ _ _ (BVONDeserializer.registry_readWord c) fun _ =>
    Step.keeps_bind _ _ _ (BVONDeserializer.registry_readWord c) fun _ => Step.keeps_pure _ _

theorem BVONDeserializer.registry_readDouble (c : List BVONConstructor) :
    BVONDeserializer.readDouble.Keeps (fun st => st.constructors = c) :=
  Step.keeps_bind _ _ _ (BVONDeserializer.registry_viewBytes c 8) fun _ =>
    Step.keeps_bind _ _ _ (BVONDeserializer.registry_advance c _) fun _ => Step.keeps_pure _ _

theorem BVONDeserializer.registry_readHeader (c : List BVONConstructor) :
    BVONDeserializer.readHeader.Keeps (fun st => st.constructors = c) := by
  unfold BVONDeserializer.readHeader
  refine Step.keeps_bind _ _ _ (BVONDeserializer.registry_readUint8 c) fun lengthHeader => ?_
  split
  · refine Step.keeps_bind _ _ _ (BVONDeserializer.registry_readUint8 c) fun res => ?_
    cases res <;> exact Step.keeps_pure _ _
  · exact BVONDeserializer.registry_readUint16 c
  · exact BVONDeserializer.registry_readUint32 c
  · exact Step.keeps_throw _ _

theorem BVONDeserializer.registry_readBigInt (c : List BVONConstructor) (length : Length) :
    (BVONDeserializer.readBigInt length).Keeps (fun st => st.constructors = c) := by
  intro s h
  unfold BVONDeserializer.readBigInt
  split
  · exact h
  · simp only
    split <;> exact h

theorem BVONDeserializer.registry_readString (c : List BVONConstructor) (length : Length) :
    (BVONDeserializer.readString length).Keeps (fun st => st.constructors = c) := by
  intro s h
  unfold BVONDeserializer.readString
  split
  · exact h
  · split <;> exact h

theorem BVONDeserializer.registry_readView (c : List BVONConstructor) (length : Length) :
    (BVONDeserializer.readView length).Keeps (fun st => st.constructors = c) := by
  intro s h
  unfold BVONDeserializer.readView
  split <;> exact h

theorem BVONDeserializer.registry_getName (c : List BVONConstructor) (ref : Length) :
    (BVONDeserializer.getName ref).Keeps (fun st => st.constructors = c) := by
  intro s h
  unfold BVONDeserializer.getName
  split <;> exact h

theorem BVONDeserializer.registry_readKey (c : List BVONConstructor) (blockType : Option Nat) :
    (BVONDeserializer.readKey blockType).Keeps (fun st => st.constructors = c) := by
  unfold BVONDeserializer.readKey
  split
  · exact Step.keeps_bind _ _ _ (BVONDeserializer.registry_readHeader c) fun ref =>
      BVONDeserializer.registry_getName c ref
  split
  · refine Step.keeps_bind _ _ _ (BVONDeserializer.registry_readHeader c) fun length =>
      Step.keeps_bind _ _ _ (BVONDeserializer.registry_readString c length) fun str =>
        Step.keeps_bind _ _ _ (Step.keeps_modify _ _ ?_) fun _ => Step.keeps_pure _ _
    intro s h
    exact h
  · exact Step.keeps_throw _ _

theorem BVONDeserializer.registry_readFields (c : List BVONConstructor)
    (block : Step BVONDeserializer Value) (hb : block.Keeps (fun st => st.constructors = c))
    (remaining : Nat) :
    ∀ (curr : Option Nat) (obj : List (JSString × Value)),
      (BVONDeserializer.readFields block remaining curr obj).Keeps
        (fun st => st.constructors = c) := by
  induction remaining with
  | zero => intro curr obj; exact Step.keeps_pure _ _
  | succ k ih =>
    intro curr obj
    unfold BVONDeserializer.readFields
    refine Step.keeps_bind _ _ _ (BVONDeserializer.registry_readKey c curr) fun key =>
      Step.keeps_bind _ _ _ hb fun value => ?_
    simp only
    split
    · exact Step.keeps_bind _ _ _ (BVONDeserializer.registry_readUint8 c) fun c => ih c _
    · exact ih _ _

theorem BVONDeserializer.registry_readEntries (c : List BVONConstructor)
    (block : Step BVONDeserializer Value) (hb : block.Keeps (fun st => st.constructors = c))
    (remaining : Nat) :
    ∀ (map : List (Value × Value)),
      (BVONDeserializer.readEntries block remaining map).Keeps
        (fun st => st.constructors = c) := by
  induction remaining with
  | zero => intro map; exact Step.keeps_pure _ _
  | succ k ih =>
    intro map
    unfold BVONDeserializer.readEntries
    exact Step.keeps_bind _ _ _ hb fun key => Step.keeps_bind _ _ _ hb fun value => ih _

theorem BVONDeserializer.registry_readMembers (c : List BVONConstructor)
    (block : Step BVONDeserializer Value) (hb : block.Keeps (fun st => st.constructors = c))
    (remaining : Nat) :
    ∀ (set : List Value),
      (BVONDeserializer.readMembers block remaining set).Keeps
        (fun st => st.constructors = c) := by
  induction remaining with
  | zero => intro set; exact Step.keeps_pure _ _
  | succ k ih =>
    intro set
    unfold BVONDeserializer.readMembers
    exact Step.keeps_bind _ _ _ hb fun member => ih _

theorem BVONDeserializer.registry_readItems (c : List BVONConstructor)
    (block : Step BVONDeserializer Value) (hb : block.Keeps (fun st => st.constructors = c))
    (remaining : Nat) :
    ∀ (arr : List Value),
      (BVONDeserializer.readItems block remaining arr).Keeps
        (fun st => st.constructors = c) := by
  induction remaining with
  | zero => intro arr; exact Step.keeps_pure _ _
  | succ k ih =>
    intro arr
    unfold BVONDeserializer.readItems
    exact Step.keeps_bind _ _ _ hb fun item => ih _

theorem BVONDeserializer.registry_readBlockCase (c : List BVONConstructor)
    (block : Step BVONDeserializer Value) (ih : block.Keeps (fun st => st.constructors = c))
    (blockType : Option Nat) :
    (BVONDeserializer.readBlockCase block blockType).Keeps
      (fun st => st.constructors = c) := by
  unfold BVONDeserializer.readBlockCase
  by_cases h1 : blockType = some TYPES.STRING
  · rw [if_pos h1]
    exact Step.keeps_bind _ _ _ (BVONDeserializer.registry_readHeader c) fun length =>
      Step.keeps_bind _ _ _ (BVONDeserializer.registry_readString c length) fun _ =>
        Step.keeps_pure _ _
  rw [if_neg h1]
  by_cases h2 : blockType = some TYPES.UOID
  · rw [if_pos h2]
    refine Step.keeps_bind _ _ _ (BVONDeserializer.registry_readHeader c) fun length =>
      Step.keeps_bind _ _ _ (BVONDeserializer.registry_readString c length) fun str => ?_
    split
    · exact Step.keeps_pure _ _
    · exact Step.keeps_throw _ _
  rw [if_neg h2]
  by_cases h3 : blockType = some TYPES.BYTEVIEW
  · rw [if_pos h3]
    exact Step.keeps_bind _ _ _ (BVONDeserializer.registry_readHeader c) fun length =>
      Step.keeps_bind _ _ _ (BVONDeserializer.registry_readView c length) fun _ =>
        Step.keeps_pure _ _
  rw [if_neg h3]
  by_cases h4 : blockType = some TYPES.INT32
  · rw [if_pos h4]
    exact Step.keeps_bind _ _ _ (BVONDeserializer.registry_readWord c) fun _ =>
      Step.keeps_pure _ _
  rw [if_neg h4]
  by_cases h5 : blockType = some TYPES.INT64
  · rw [if_pos h5]
    exact Step.keeps_bind _ _ _ (BVONDeserializer.registry_readInt64 c) fun _ =>
      Step.keeps_pure _ _
  rw [if_neg h5]
  by_cases h6 : blockType = some TYPES.DOUBLE
  · rw [if_pos h6]
    exact Step.keeps_bind _ _ _ (BVONDeserializer.registry_readDouble c) fun _ =>
      Step.keeps_pure _ _
  rw [if_neg h6]
  by_cases h7 : blockType = some TYPES.DATE
  · rw [if_pos h7]
    exact Step.keeps_bind _ _ _ (BVONDeserializer.registry_readInt64 c) fun _ =>
      Step.keeps_pure _ _
  rw [if_neg h7]
  by_cases h8 : blockType = some TYPES.BIGINT
  · rw [if_pos h8]
    exact Step.keeps_bind _ _ _ (BVONDeserializer.registry_readHeader c) fun length =>
      Step.keeps_bind _ _ _ (BVONDeserializer.registry_readBigInt c length) fun _ =>
        Step.keeps_pure _ _
  rw [if_neg h8]
  by_cases h9 : blockType = some TYPES.CONSTRUCTOR
  · rw [if_pos h9]
    refine Step.keeps_bind _ _ _ (BVONDeserializer.registry_readHeader c) fun code =>
      Step.keeps_bind _ _ _ ih fun args =>
        Step.keeps_bind _ _ _ (fun _ h => h) fun constructor => ?_
    split
    · split
      · exact Step.keeps_pure _ _
      · exact Step.keeps_throw _ _
    · exact Step.keeps_throw _ _
  rw [if_neg h9]
  by_cases h10 : blockType = some TYPES.BOOLEAN
  · rw [if_pos h10]
    exact Step.keeps_bind _ _ _ (BVONDeserializer.registry_readUint8 c) fun _ =>
      Step.keeps_pure _ _
  rw [if_neg h10]
  by_cases h11 : blockType = some TYPES.NULL
  · rw [if_pos h11]
    exact Step.keeps_pure _ _
  rw [if_neg h11]
  by_cases h12 : blockType = some TYPES.UNDEFINED
  · rw [if_pos h12]
    exact Step.keeps_pure _ _
  rw [if_neg h12]
  by_cases h13 : blockType = some TYPES.OBJECT
  · rw [if_pos h13]
    exact Step.keeps_bind _ _ _ (BVONDeserializer.registry_readHeader c) fun keyLength =>
      Step.keeps_bind _ _ _ (BVONDeserializer.registry_readUint8 c) fun curr =>
        Step.keeps_bind _ _ _ (BVONDeserializer.registry_readFields c _ ih _ _ _) fun _ =>
          Step.keeps_pure _ _
  rw [if_neg h13]
  by_cases h14 : blockType = some TYPES.MAP
  · rw [if_pos h14]
    exact Step.keeps_bind _ _ _ (BVONDeserializer.registry_readHeader c) fun size =>
      Step.keeps_bind _ _ _ (BVONDeserializer.registry_readEntries c _ ih _ _) fun _ =>
        Step.keeps_pure _ _
  rw [if_neg h14]
  by_cases h15 : blockType = some TYPES.SET
  · rw [if_pos h15]
    exact Step.keeps_bind _ _ _ (BVONDeserializer.registry_readHeader c) fun size =>
      Step.keeps_bind _ _ _ (BVONDeserializer.registry_readMembers c _ ih _ _) fun _ =>
        Step.keeps_pure _ _
  rw [if_neg h15]
  by_cases h16 : blockType = some TYPES.ARRAY
  · rw [if_pos h16]
    refine Step.keeps_bind _ _ _ (BVONDeserializer.registry_readHeader c) fun length => ?_
    split
    · exact Step.keeps_throw _ _
    · exact Step.keeps_pure _ _
    · exact Step.keeps_bind _ _ _ (BVONDeserializer.registry_readItems c _ ih _ _) fun _ =>
        Step.keeps_pure _ _
  rw [if_neg h16]
  by_cases h17 : blockType = some TYPES.REGEX
  · rw [if_pos h17]
    refine Step.keeps_bind _ _ _ ih fun source => Step.keeps_bind _ _ _ ih fun flags => ?_
    split
    · exact Step.keeps_pure _ _
    · exact Step.keeps_throw _ _
  rw [if_neg h17]
  exact Step.keeps_throw _ _

theorem BVONDeserializer.registry_readBlock (c : List BVONConstructor) (depth : Nat) :
    (BVONDeserializer.readBlock depth).Keeps (fun st => st.constructors = c) := by
  induction depth with
  | zero => exact Step.keeps_throw _ _
  | succ d ih =>
    rw [BVONDeserializer.readBlock]
    exact Step.keeps_bind _ _ _ (BVONDeserializer.registry_readUint8 c) fun blockType =>
      BVONDeserializer.registry_readBlockCase c _ ih blockType

/-! ## An extension code that is not registered -/

/-- The `CONSTRUCTOR` case of `readBlock`, on a reader whose registry has no entry for
the code that the header gives: no value is returned. -/
theorem BVONDeserializer.readBlockCase_unregistered (block : Step BVONDeserializer Value)
    (hblock : ∀ c, block.Keeps (fun st => st.constructors = c)) (s : BVONDeserializer)
    (hreg : ∀ code u, BVONDeserializer.readHeader s = .ok code u →
      BVONDeserializer.findCode s.constructors code = none) :
    (BVONDeserializer.readBlockCase block (some TYPES.CONSTRUCTOR) s).value? = none := by
  have hcase : BVONDeserializer.readBlockCase block (some TYPES.CONSTRUCTOR) s =
      (do
        let code ← BVONDeserializer.readHeader
        let args ← block
        let constructor ← BVONDeserializer.getCode code
        match constructor with
        | some constructor =>
          match spread args with
          | some elements => pure (constructor.build elements)
          | none => Step.throw .typeError
        | none => Step.throw .unknownConstructor) s := by
    simp [BVONDeserializer.readBlockCase]
  rw [hcase]
  simp only [Step.bind_apply]
  cases hh : BVONDeserializer.readHeader s with
  | error e u => rfl
  | ok code u =>
    simp only
    have hu : u.constructors = s.constructors := by
      have := BVONDeserializer.registry_readHeader s.constructors s rfl
      rw [hh] at this
      exact this
    cases hb : block u with
    | error e w => rfl
    | ok args w =>
      simp only
      have hw : w.constructors = s.constructors := by
        have := hblock s.constructors u hu
        rw [hb] at this
        exact this
      simp only [BVONDeserializer.getCode, hw, hreg code u hh]
      rfl

theorem BVONDeserializer.findCode_nil (code : Length) :
    BVONDeserializer.findCode [] code = none := by
  cases code <;> rfl

/-- Claim C26: at the byte 0xFF, `readBlock` returns no value when the registry of the
reader has no entry for the code that the header gives, whatever the argument payload is
and at whatever depth of nesting; so with the empty registry `readBlock` returns no value
at any byte 0xFF, and `BVON.deserialize` of a buffer that starts with 0xFF throws an
exception of the program. -/
theorem unregistered_constructor_fails (s : BVONDeserializer) (depth : Nat)
    (bytes : List Nat) (o : Nat) (hb : s.buffer = some bytes) (ho : s.offset = some o)
    (ht : bytes[o]? = some TYPES.CONSTRUCTOR) :
    ((∀ code u, BVONDeserializer.readHeader { s with offset := some (o + 1) } = .ok code u →
        BVONDeserializer.findCode s.constructors code = none) →
      (BVONDeserializer.readBlock (depth + 1) s).value? = none) ∧
    (s.constructors = [] → (BVONDeserializer.readBlock (depth + 1) s).value? = none) ∧
    (∀ (rest : List Nat) (schema : Option Schema) (self : BVON),
      self.deserializer.offset = some 0 → self.deserializer.constructors = [] →
      ∃ e state, BVON.deserialize (TYPES.CONSTRUCTOR :: rest) schema self = .error e state ∧
        e ≠ .nestingBudget) := by
  have main : ∀ (t : BVONDeserializer) (bs : List Nat) (p d : Nat), t.buffer = some bs →
      t.offset = some p → bs[p]? = some TYPES.CONSTRUCTOR →
      (∀ code u, BVONDeserializer.readHeader { t with offset := some (p + 1) } = .ok code u →
        BVONDeserializer.findCode t.constructors code = none) →
      (BVONDeserializer.readBlock (d + 1) t).value? = none := by
    intro t bs p d h1 h2 h3 hreg
    rw [BVONDeserializer.readBlock]
    simp only [Step.bind_apply, BVONDeserializer.readUint8_at t bs p h1 h2, h3]
    exact BVONDeserializer.readBlockCase_unregistered _
      (fun c => BVONDeserializer.registry_readBlock c d) _ hreg
  refine ⟨main s bytes o depth hb ho ht, fun hnil => main s bytes o depth hb ho ht ?_, ?_⟩
  · intro code u _
    rw [hnil]
    exact BVONDeserializer.findCode_nil code
  · intro rest schema self hr hnil
    obtain ⟨d, hdc, hd⟩ := BVON.deserialize_start (TYPES.CONSTRUCTOR :: rest) schema self hr
    have hv := main { d with buffer := some (TYPES.CONSTRUCTOR :: rest), offset := some 0 }
      (TYPES.CONSTRUCTOR :: rest) 0 (TYPES.CONSTRUCTOR :: rest).length rfl rfl
      List.getElem?_cons_zero (by
        intro code u _
        show BVONDeserializer.findCode d.constructors code = none
        rw [hdc, hnil]
        exact BVONDeserializer.findCode_nil code)
    cases hres : BVON.deserialize (TYPES.CONSTRUCTOR :: rest) schema self with
    | ok v state =>
      rw [hd] at hres
      cases hrb : BVONDeserializer.readBlock ((TYPES.CONSTRUCTOR :: rest).length + 1)
          { d with buffer := some (TYPES.CONSTRUCTOR :: rest), offset := some 0 } with
      | ok v2 w => rw [hrb] at hv; cases hv
      | error e w => rw [hrb] at hres; cases hres
    | error e state =>
      refine ⟨e, state, rfl, fun he => ?_⟩
      rw [he] at hres
      exact BVON.deserialize_budget _ _ _ _ hres

theorem unregistered_constructor_fails_witness :
    (BVONDeserializer.readBlock 3
      { BVONDeserializer.new pointRegistry with buffer := some [0xFF, 8, 7, 0x0A, 8, 0] }).value?
      = none :=
  (unregistered_constructor_fails
    { BVONDeserializer.new pointRegistry with buffer := some [0xFF, 8, 7, 0x0A, 8, 0] } 2
    [0xFF, 8, 7, 0x0A, 8, 0] 0 rfl rfl rfl).1 (by
      intro code u h
      have e : BVONDeserializer.readHeader
          { ({ BVONDeserializer.new pointRegistry with
                buffer := some [0xFF, 8, 7, 0x0A, 8, 0] } : BVONDeserializer) with
            offset := some (0 + 1) }
          = .ok (.num 7)
            { BVONDeserializer.new pointRegistry with
                buffer := some [0xFF, 8, 7, 0x0A, 8, 0], offset := some 3 } := rfl
      rw [e] at h
      cases h
      rfl)

/-! ## The range error of the length header -/

theorem BVONSerializer.writeHeader_range (n : Nat) (h : 0x100000000 ≤ n)
    (self : BVONSerializer) :
    BVONSerializer.writeHeader n self = .error .headerRange self := by
  have h1 : ¬ n < 0x100 := by omega
  have h2 : ¬ n < 0x10000 := by omega
  have h3 : ¬ n < 0x100000000 := by omega
  simp [BVONSerializer.writeHeader, h1, h2, h3]

/-- A tag byte followed by a header whose value is 2^32 or more: the tag is stored, then
the range error is thrown. -/
theorem BVONSerializer.tag_then_header_range (tag n : Nat) (h : 0x100000000 ≤ n)
    (rest : Step BVONSerializer Unit) (self : BVONSerializer) :
    (do
      BVONSerializer.setUint8 tag
      BVONSerializer.writeHeader n
      rest) self = .error .headerRange (self.tagged tag) := by
  simp only [Step.bind_apply, BVONSerializer.setUint8, Step.modify_apply,
    BVONSerializer.writeHeader_range n h]
  rfl

/-- Claim C28, as the code has it: for every header value of 2^32 or more the range
error is thrown after the tag byte of the field is stored and before any byte of the
header or of the payload: writing a back-reference, a sequence, a set, a map, a blob, a
string, a record or an extension value with such a length or code throws
`RangeError`, and the writer it leaves differs from the writer before the field only in
the tag byte stored at the offset and in the offset, which is one more. -/
theorem header_range_leaves_tag (self : BVONSerializer) (n : Nat) (h : 0x100000000 ≤ n) :
    BVONSerializer.writeRef n self = .error .headerRange (self.tagged TYPES.DB_REF) ∧
    (∀ items : List Value, items.length = n →
      BVONSerializer.write (.array items) self
        = .error .headerRange (self.tagged TYPES.ARRAY)) ∧
    (∀ members : List Value, members.length = n →
      BVONSerializer.write (.set members) self
        = .error .headerRange (self.tagged TYPES.SET)) ∧
    (∀ entries : List (Value × Value), entries.length = n →
      BVONSerializer.write (.map entries) self
        = .error .headerRange (self.tagged TYPES.MAP)) ∧
    (∀ bytes : List Nat, bytes.length = n →
      BVONSerializer.write (.byteView bytes) self
        = .error .headerRange (self.tagged TYPES.BYTEVIEW)) ∧
    (∀ (string : JSString) (bytes : List Nat), ByteEncoder.encode string = .ok bytes →
      bytes.length = n →
      BVONSerializer.write (.string string) self
        = .error .headerRange (self.tagged TYPES.STRING)) ∧
    (∀ fields : List (JSString × Value), fields.length = n →
      BVONSerializer.write (.object fields) self
        = .error .headerRange (self.tagged TYPES.OBJECT)) ∧
    (∀ (kind : Nat) (fields : List (JSString × Value)) (args : Value)
        (entry : BVONConstructor),
      BVONSerializer.findConstructor self.constructors kind = some entry → entry.code = n →
      BVONSerializer.write (.classInstance kind fields args) self
        = .error .headerRange (self.tagged TYPES.CONSTRUCTOR)) ∧
    (self.tagged TYPES.CONSTRUCTOR).offset = self.offset + 1 ∧
    (self.tagged TYPES.CONSTRUCTOR).buffer self.offset = TYPES.CONSTRUCTOR ∧
    (∀ tag i, i ≠ self.offset → (self.tagged tag).buffer i = self.buffer i) ∧
    (∀ tag, (self.tagged tag).map = self.map ∧ (self.tagged tag).refIndex = self.refIndex) := by
  refine ⟨?_, ?_, ?_, ?_, ?_, ?_, ?_, ?_, rfl, ?_, ?_, fun tag => ⟨rfl, rfl⟩⟩
  · simp only [BVONSerializer.writeRef, Step.bind_apply, BVONSerializer.setUint8,
      Step.modify_apply, BVONSerializer.writeHeader_range n h]
    rfl
  · intro items hl
    rw [BVONSerializer.write, hl]
    exact BVONSerializer.tag_then_header_range _ n h _ self
  · intro members hl
    rw [BVONSerializer.write, hl]
    exact BVONSerializer.tag_then_header_range _ n h _ self
  · intro entries hl
    rw [BVONSerializer.write, hl]
    exact BVONSerializer.tag_then_header_range _ n h _ self
  · intro bytes hl
    rw [BVONSerializer.write, BVONSerializer.writeView, hl]
    exact BVONSerializer.tag_then_header_range _ n h _ self
  · intro string bytes he hl
    rw [BVONSerializer.write]
    simp only [BVONSerializer.writeString, Step.bind_apply, BVONSerializer.setUint8,
      Step.modify_apply, BVONSerializer.encode, he, hl, BVONSerializer.writeHeader_range n h]
    rfl
  · intro fields hl
    rw [BVONSerializer.write, hl]
    exact BVONSerializer.tag_then_header_range _ n h _ self
  · intro kind fields args entry hf hc
    rw [BVONSerializer.write]
    simp only [Step.bind_apply, BVONSerializer.getConstructor, hf, hc]
    exact BVONSerializer.tag_then_header_range _ n h _ self
  · simp [BVONSerializer.tagged, Buffer.setByte]
  · intro tag i hi
    simp [BVONSerializer.tagged, Buffer.setByte, hi]

theorem header_range_leaves_tag_witness :
    BVONSerializer.write (.classInstance 1 [] (.array [])) (BVONSerializer.new wideRegistry)
      = .error .headerRange ((BVONSerializer.new wideRegistry).tagged TYPES.CONSTRUCTOR) :=
  (header_range_leaves_tag (BVONSerializer.new wideRegistry) 4294967296
    (by decide)).2.2.2.2.2.2.2.1 1 [] (.array [])
    { kind := 1, code := 4294967296, build := fun _ => .null } rfl rfl

/-- Claim C28 fails at an extension value whose class is registered with the code 2^32:
`write` throws the range error, and the writer, which stood at offset 0 with a zero byte
there, is left at offset 1 with the tag byte 0xFF stored at offset 0; `BVON.serialize`
throws and leaves the writer so. -/
theorem header_range_after_tag :
    (BVONSerializer.new wideRegistry).offset = 0 ∧
    (BVONSerializer.new wideRegistry).buffer 0 = 0 ∧
    (BVONSerializer.write (.classInstance 1 [] (.array []))
      (BVONSerializer.new wideRegistry)).error? = some .headerRange ∧
    (BVONSerializer.write (.classInstance 1 [] (.array []))
      (BVONSerializer.new wideRegistry)).state.offset = 1 ∧
    (BVONSerializer.write (.classInstance 1 [] (.array []))
      (BVONSerializer.new wideRegistry)).state.buffer 0 = 0xFF ∧
    (BVON.serialize (.classInstance 1 [] (.array [])) none (BVON.new wideRegistry)).error?
      = some .headerRange ∧
    (BVON.serialize (.classInstance 1 [] (.array [])) none
      (BVON.new wideRegistry)).state.1.serializer.offset = 1 ∧
    (BVON.serialize (.classInstance 1 [] (.array [])) none
      (BVON.new wideRegistry)).state.1.serializer.buffer 0 = 0xFF := by
  decide!

/-! ## The writer never moves back and never changes a byte it has passed -/

theorem BVONSerializer.below_setView (o : Nat) (b : Buffer) (bytes : List Nat) :
    (BVONSerializer.setView bytes).Keeps (BVONSerializer.Below o b) := by
  intro s h
  refine ⟨Nat.le_trans h.1 (Nat.le_add_right _ _), fun i hi => ?_⟩
  show (s.buffer.setBytes s.offset bytes) i = b i
  rw [Buffer.setBytes_apply_lt _ _ _ _ (Nat.lt_of_lt_of_le hi h.1)]
  exact h.2 i hi

theorem BVONSerializer.below_setUint8 (o : Nat) (b : Buffer) (number : Nat) :
    (BVONSerializer.setUint8 number).Keeps (BVONSerializer.Below o b) :=
  BVONSerializer.below_setView o b [number]

theorem BVONSerializer.below_setUint16 (o : Nat) (b : Buffer) (number : Nat) :
    (BVONSerializer.setUint16 number).Keeps (BVONSerializer.Below o b) :=
  BVONSerializer.below_setView o b [number &&& 0xff, number >>> 8]

theorem BVONSerializer.below_setUint32 (o : Nat) (b : Buffer) (number : Nat) :
    (BVONSerializer.setUint32 number).Keeps (BVONSerializer.Below o b) :=
  BVONSerializer.below_setView o b (littleEndian 4 number)

theorem BVONSerializer.below_setInt32 (o : Nat) (b : Buffer) (number : Int) :
    (BVONSerializer.setInt32 number).Keeps (BVONSerializer.Below o b) :=
  BVONSerializer.below_setView o b (littleEndian 4 (toUint32 number))

theorem BVONSerializer.below_setInt64 (o : Nat) (b : Buffer) (value : Int64) :
    (BVONSerializer.setInt64 value).Keeps (BVONSerializer.Below o b) :=
  BVONSerializer.below_setView o b
    [(value.low % 256).toNat, (value.low / 256 % 256).toNat,
      (value.low / 65536 % 256).toNat, (value.low / 16777216 % 256).toNat,
      (value.high % 256).toNat, (value.high / 256 % 256).toNat,
      (value.high / 65536 % 256).toNat, (value.high / 16777216 % 256).toNat]

theorem BVONSerializer.below_setFloat64 (o : Nat) (b : Buffer) (number : JSNumber) :
    (BVONSerializer.setFloat64 number).Keeps (BVONSerializer.Below o b) :=
  BVONSerializer.below_setView o b (littleEndian 8 number.bits)

theorem BVONSerializer.below_writeHeader (o : Nat) (b : Buffer) (n : Nat) :
    (BVONSerializer.writeHeader n).Keeps (BVONSerializer.Below o b) := by
  unfold BVONSerializer.writeHeader
  split
  · exact Step.keeps_bind _ _ _ (BVONSerializer.below_setUint8 o b _) fun _ =>
      BVONSerializer.below_setUint8 o b _
  · split
    · exact Step.keeps_bind _ _ _ (BVONSerializer.below_setUint8 o b _) fun _ =>
        BVONSerializer.below_setUint16 o b _
    · split
      · exact Step.keeps_bind _ _ _ (BVONSerializer.below_setUint8 o b _) fun _ =>
          BVONSerializer.below_setUint32 o b _
      · exact Step.keeps_throw _ _

theorem BVONSerializer.below_tagged (o : Nat) (b : Buffer) (tag : Nat)
    (m : Step BVONSerializer Unit) (h : m.Keeps (BVONSerializer.Below o b)) :
    (BVONSerializer.setUint8 tag >>= fun _ => m).Keeps (BVONSerializer.Below o b) :=
  Step.keeps_bind _ _ _ (BVONSerializer.below_setUint8 o b tag) fun _ => h

theorem BVONSerializer.below_headed (o : Nat) (b : Buffer) (n : Nat)
    (m : Step BVONSerializer Unit) (h : m.Keeps (BVONSerializer.Below o b)) :
    (BVONSerializer.writeHeader n >>= fun _ => m).Keeps (BVONSerializer.Below o b) :=
  Step.keeps_bind _ _ _ (BVONSerializer.below_writeHeader o b n) fun _ => h

theorem BVONSerializer.below_encoded (o : Nat) (b : Buffer) (string : JSString) :
    (BVONSerializer.encode string >>= fun bytes =>
      BVONSerializer.writeHeader bytes.length >>= fun _ =>
        BVONSerializer.setView bytes).Keeps (BVONSerializer.Below o b) := by
  refine Step.keeps_bind _ _ _ ?_ fun bytes =>
    BVONSerializer.below_headed o b _ _ (BVONSerializer.below_setView o b bytes)
  intro s h
  unfold BVONSerializer.encode
  cases ByteEncoder.encode string <;> exact h

theorem BVONSerializer.below_writeString (o : Nat) (b : Buffer) (string : JSString) :
    (BVONSerializer.writeString string).Keeps (BVONSerializer.Below o b) :=
  BVONSerializer.below_tagged o b _ _ (BVONSerializer.below_encoded o b string)

theorem BVONSerializer.below_writeNumber (o : Nat) (b : Buffer) (number : JSNumber) :
    (BVONSerializer.writeNumber number).Keeps (BVONSerializer.Below o b) := by
  unfold BVONSerializer.writeNumber
  simp only
  split
  · split
    · split
      · exact BVONSerializer.below_tagged o b _ _ (BVONSerializer.below_setInt32 o b _)
      · exact BVONSerializer.below_tagged o b _ _ (BVONSerializer.below_setInt64 o b _)
    · exact BVONSerializer.below_tagged o b _ _ (BVONSerializer.below_setFloat64 o b _)
  · exact BVONSerializer.below_tagged o b _ _ (BVONSerializer.below_setFloat64 o b _)

theorem BVONSerializer.below_setBigInt (o : Nat) (b : Buffer) (number : Int) :
    (BVONSerializer.setBigInt (getBigIntByteLength number) number).Keeps
      (BVONSerializer.Below o b) := by
  obtain ⟨w, _, hw⟩ := BVONSerializer.setBigInt_eq number
  rw [show BVONSerializer.setBigInt (getBigIntByteLength number) number
      = BVONSerializer.setView w from funext hw]
  exact BVONSerializer.below_setView o b w

theorem BVONSerializer.below_writeBigInt (o : Nat) (b : Buffer) (number : Int) :
    (BVONSerializer.writeBigInt number).Keeps (BVONSerializer.Below o b) :=
  BVONSerializer.below_tagged o b _ _
    (BVONSerializer.below_headed o b _ _ (BVONSerializer.below_setBigInt o b number))

theorem BVONSerializer.below_writeKey (o : Nat) (b : Buffer) (string : JSString) :
    (BVONSerializer.writeKey string).Keeps (BVONSerializer.Below o b) := by
  unfold BVONSerializer.writeKey
  refine Step.keeps_bind _ _ _ (fun _ h => h) fun ref => ?_
  split
  · exact Step.keeps_bind _ _ _ (Step.keeps_modify _ _ fun _ h => h) fun _ =>
      BVONSerializer.below_tagged o b _ _ (BVONSerializer.below_encoded o b string)
  · exact BVONSerializer.below_tagged o b _ _ (BVONSerializer.below_writeHeader o b _)

mutual
theorem BVONSerializer.below_write (o : Nat) (b : Buffer) (x : Value) :
    (BVONSerializer.write x).Keeps (BVONSerializer.Below o b) :=
  match x with
  | .undefined => by rw [BVONSerializer.write]; exact BVONSerializer.below_setUint8 o b _
  | .null => by rw [BVONSerializer.write]; exact BVONSerializer.below_setUint8 o b _
  | .bigint n => by rw [BVONSerializer.write]; exact BVONSerializer.below_writeBigInt o b n
  | .string s => by rw [BVONSerializer.write]; exact BVONSerializer.below_writeString o b s
  | .number n => by rw [BVONSerializer.write]; exact BVONSerializer.below_writeNumber o b n
  | .boolean _ => by
    rw [BVONSerializer.write]
    exact BVONSerializer.below_tagged o b _ _ (BVONSerializer.below_setUint8 o b _)
  | .date t => by
    rw [BVONSerializer.write]
    exact BVONSerializer.below_tagged o b _ _ (BVONSerializer.below_setInt64 o b _)
  | .int64 i => by
    rw [BVONSerializer.write]
    exact BVONSerializer.below_tagged o b _ _ (BVONSerializer.below_setInt64 o b _)
  | .array items => by
    rw [BVONSerializer.write]
    exact BVONSerializer.below_tagged o b _ _ (BVONSerializer.below_headed o b _ _
      (BVONSerializer.below_writeMembers o b items))
  | .map entries => by
    rw [BVONSerializer.write]
    exact BVONSerializer.below_tagged o b _ _ (BVONSerializer.below_headed o b _ _
      (BVONSerializer.below_writeEntries o b entries))
  | .uoid text => by
    rw [BVONSerializer.write]
    exact BVONSerializer.below_tagged o b _ _ (BVONSerializer.below_encoded o b text)
  | .set members => by
    rw [BVONSerializer.write]
    exact BVONSerializer.below_tagged o b _ _ (BVONSerializer.below_headed o b _ _
      (BVONSerializer.below_writeMembers o b members))
  | .byteView bytes => by
    rw [BVONSerializer.write]
    exact BVONSerializer.below_tagged o b _ _ (BVONSerializer.below_headed o b _ _
      (BVONSerializer.below_setView o b bytes))
  | .regExp source flags => by
    rw [BVONSerializer.write]
    exact BVONSerializer.below_tagged o b _ _
      (Step.keeps_bind _ _ _ (BVONSerializer.below_writeString o b source) fun _ =>
        BVONSerializer.below_writeString o b flags)
  | .object fields => by
    rw [BVONSerializer.write]
    exact BVONSerializer.below_tagged o b _ _ (BVONSerializer.below_headed o b _ _
      (BVONSerializer.below_writeFields o b fields))
  | .classInstance kind fields args => by
    rw [BVONSerializer.write]
    refine Step.keeps_bind _ _ _ (fun _ h => h) fun entry => ?_
    cases entry with
    | some entry =>
      exact BVONSerializer.below_tagged o b _ _ (BVONSerializer.below_headed o b _ _
        (BVONSerializer.below_write o b args))
    | none =>
      exact BVONSerializer.below_tagged o b _ _ (BVONSerializer.below_headed o b _ _
        (BVONSerializer.below_writeStringFields o b fields))
termination_by structural x
theorem BVONSerializer.below_writeMembers (o : Nat) (b : Buffer) (x : List Value) :
    (BVONSerializer.writeMembers x).Keeps (BVONSerializer.Below o b) :=
  match x with
  | [] => by rw [BVONSerializer.writeMembers]; exact Step.keeps_pure _ _
  | member :: rest => by
    rw [BVONSerializer.writeMembers]
    exact Step.keeps_bind _ _ _ (BVONSerializer.below_write o b member) fun _ =>
      BVONSerializer.below_writeMembers o b rest
termination_by structural x
theorem BVONSerializer.below_writeEntries (o : Nat) (b : Buffer) (x : List (Value × Value)) :
    (BVONSerializer.writeEntries x).Keeps (BVONSerializer.Below o b) :=
  match x with
  | [] => by rw [BVONSerializer.writeEntries]; exact Step.keeps_pure _ _
  | (key, value) :: rest => by
    rw [BVONSerializer.writeEntries]
    exact Step.keeps_bind _ _ _ (BVONSerializer.below_write o b key) fun _ =>
      Step.keeps_bind _ _ _ (BVONSerializer.below_write o b value) fun _ =>
        BVONSerializer.below_writeEntries o b rest
termination_by structural x
theorem BVONSerializer.below_writeFields (o : Nat) (b : Buffer) (x : List (JSString × Value)) :
    (BVONSerializer.writeFields x).Keeps (BVONSerializer.Below o b) :=
  match x with
  | [] => by rw [BVONSerializer.writeFields]; exact Step.keeps_pure _ _
  | (key, value) :: rest => by
    rw [BVONSerializer.writeFields]
    exact Step.keeps_bind _ _ _ (BVONSerializer.below_writeKey o b key) fun _ =>
      Step.keeps_bind _ _ _ (BVONSerializer.below_write o b value) fun _ =>
        BVONSerializer.below_writeFields o b rest
termination_by structural x
theorem BVONSerializer.below_writeStringFields (o : Nat) (b : Buffer)
    (x : List (JSString × Value)) :
    (BVONSerializer.writeStringFields x).Keeps (BVONSerializer.Below o b) :=
  match x with
  | [] => by rw [BVONSerializer.writeStringFields]; exact Step.keeps_pure _ _
  | (key, value) :: rest => by
    rw [BVONSerializer.writeStringFields]
    exact Step.keeps_bind _ _ _ (BVONSerializer.below_writeString o b key) fun _ =>
      Step.keeps_bind _ _ _ (BVONSerializer.below_write o b value) fun _ =>
        BVONSerializer.below_writeStringFields o b rest
termination_by structural x
end

/-! ## The tags of `null` and `undefined` -/

/-- A step that stores a tag byte and then only writes forward leaves that tag at the
offset it started from, and ends past it. -/
theorem BVONSerializer.first_byte_tagged (tag : Nat) (htag : tag < 256)
    (rest : Step BVONSerializer Unit)
    (hrest : ∀ o b, rest.Keeps (BVONSerializer.Below o b)) (s : BVONSerializer) :
    ((BVONSerializer.setUint8 tag >>= fun _ => rest) s).state.buffer s.offset = tag ∧
      s.offset < ((BVONSerializer.setUint8 tag >>= fun _ => rest) s).state.offset := by
  have h := hrest (s.offset + 1) (s.buffer.setByte s.offset tag)
    { s with buffer := s.buffer.setByte s.offset tag, offset := s.offset + 1 }
    ⟨Nat.le_refl _, fun _ _ => rfl⟩
  have e : (BVONSerializer.setUint8 tag >>= fun _ => rest) s
      = rest { s with buffer := s.buffer.setByte s.offset tag, offset := s.offset + 1 } := rfl
  rw [e]
  refine ⟨?_, h.1⟩
  rw [h.2 s.offset (Nat.lt_succ_self _)]
  simp [Buffer.setByte, Nat.mod_eq_of_lt htag]

/-- The byte that `write` stores first, at the offset where it starts, is a value tag
other than `UNDEFINED`, for every value and every writer, also when `write` throws
later. -/
theorem BVONSerializer.write_first_byte (v : Value) (s : BVONSerializer) :
    ∃ tag, tag ∈ valueTags ∧ tag ≠ TYPES.UNDEFINED ∧
      (BVONSerializer.write v s).state.buffer s.offset = tag ∧
      s.offset < (BVONSerializer.write v s).state.offset := by
  have pack : ∀ (tag : Nat) (rest : Step BVONSerializer Unit), tag ∈ valueTags →
      tag ≠ TYPES.UNDEFINED → (∀ o b, rest.Keeps (BVONSerializer.Below o b)) →
      ∃ t, t ∈ valueTags ∧ t ≠ TYPES.UNDEFINED ∧
        ((BVONSerializer.setUint8 tag >>= fun _ => rest) s).state.buffer s.offset = t ∧
        s.offset < ((BVONSerializer.setUint8 tag >>= fun _ => rest) s).state.offset := by
    intro tag rest h1 h2 h3
    have hall : ∀ t ∈ valueTags, t < 256 := by decide
    have hlt : tag < 256 := hall tag h1
    exact ⟨tag, h1, h2, BVONSerializer.first_byte_tagged tag hlt rest h3 s⟩
  cases v with
  | undefined =>
    exact pack TYPES.NULL (pure ()) (by decide) (by decide) fun _ _ => Step.keeps_pure _ _
  | null =>
    exact pack TYPES.NULL (pure ()) (by decide) (by decide) fun _ _ => Step.keeps_pure _ _
  | boolean b =>
    rw [BVONSerializer.write]
    exact pack TYPES.BOOLEAN _ (by decide) (by decide) fun o b =>
      BVONSerializer.below_setUint8 o b _
  | number n =>
    have hd := pack TYPES.DOUBLE (BVONSerializer.setFloat64 n) (by decide) (by decide)
      fun o b => BVONSerializer.below_setFloat64 o b _
    rw [BVONSerializer.write]
    unfold BVONSerializer.writeNumber
    by_cases hc : (!n.isNegativeZero && n.isSafeInteger) = true
    · rw [if_pos hc]
      cases n.toInt? with
      | none => exact hd
      | some i =>
        by_cases hr : i ≤ INT32_MAX ∧ i ≥ INT32_MIN
        · simp only [hr, and_self, if_true]
          exact pack TYPES.INT32 _ (by decide) (by decide) fun o b =>
            BVONSerializer.below_setInt32 o b _
        · simp only [hr, if_false]
          exact pack TYPES.INT64 _ (by decide) (by decide) fun o b =>
            BVONSerializer.below_setInt64 o b _
    · rw [if_neg hc]
      exact hd
  | bigint n =>
    rw [BVONSerializer.write]
    exact pack TYPES.BIGINT _ (by decide) (by decide) fun o b =>
      BVONSerializer.below_headed o b _ _ (BVONSerializer.below_setBigInt o b n)
  | string str =>
    rw [BVONSerializer.write]
    exact pack TYPES.STRING _ (by decide) (by decide) fun o b =>
      BVONSerializer.below_encoded o b str
  | int64 x =>
    rw [BVONSerializer.write]
    exact pack TYPES.INT64 _ (by decide) (by decide) fun o b =>
      BVONSerializer.below_setInt64 o b _
  | date t =>
    rw [BVONSerializer.write]
    exact pack TYPES.DATE _ (by decide) (by decide) fun o b =>
      BVONSerializer.below_setInt64 o b _
  | array items =>
    rw [BVONSerializer.write]
    exact pack TYPES.ARRAY _ (by decide) (by decide) fun o b =>
      BVONSerializer.below_headed o b _ _ (BVONSerializer.below_writeMembers o b items)
  | object fields =>
    rw [BVONSerializer.write]
    exact pack TYPES.OBJECT _ (by decide) (by decide) fun o b =>
      BVONSerializer.below_headed o b _ _ (BVONSerializer.below_writeFields o b fields)
  | map entries =>
    rw [BVONSerializer.write]
    exact pack TYPES.MAP _ (by decide) (by decide) fun o b =>
      BVONSerializer.below_headed o b _ _ (BVONSerializer.below_writeEntries o b entries)
  | set members =>
    rw [BVONSerializer.write]
    exact pack TYPES.SET _ (by decide) (by decide) fun o b =>
      BVONSerializer.below_headed o b _ _ (BVONSerializer.below_writeMembers o b members)
  | byteView bytes =>
    rw [BVONSerializer.write]
    exact pack TYPES.BYTEVIEW _ (by decide) (by decide) fun o b =>
      BVONSerializer.below_headed o b _ _ (BVONSerializer.below_setView o b bytes)
  | regExp source flags =>
    rw [BVONSerializer.write]
    exact pack TYPES.REGEX _ (by decide) (by decide) fun o b =>
      Step.keeps_bind _ _ _ (BVONSerializer.below_writeString o b source) fun _ =>
        BVONSerializer.below_writeString o b flags
  | uoid text =>
    rw [BVONSerializer.write]
    exact pack TYPES.UOID _ (by decide) (by decide) fun o b =>
      BVONSerializer.below_encoded o b text
  | classInstance kind fields args =>
    rw [BVONSerializer.write]
    simp only [Step.bind_apply, BVONSerializer.getConstructor]
    cases BVONSerializer.findConstructor s.constructors kind with
    | some entry =>
      exact pack TYPES.CONSTRUCTOR _ (by decide) (by decide) fun o b =>
        BVONSerializer.below_headed o b _ _ (BVONSerializer.below_write o b args)
    | none =>
      exact pack TYPES.OBJECT _ (by decide) (by decide) fun o b =>
        BVONSerializer.below_headed o b _ _ (BVONSerializer.below_writeStringFields o b fields)

theorem BVONDeserializer.readBlock_null (t : BVONDeserializer) (bytes : List Nat)
    (o depth : Nat) (hb : t.buffer = some bytes) (ho : t.offset = some o)
    (h1 : bytes[o]? = some TYPES.NULL) :
    BVONDeserializer.readBlock (depth + 1) t = .ok .null { t with offset := some (o + 1) } := by
  rw [BVONDeserializer.readBlock]
  simp only [Step.bind_apply, BVONDeserializer.readUint8_at t bytes o hb ho, h1]
  simp [BVONDeserializer.readBlockCase]

theorem BVONDeserializer.readBlock_undefined (t : BVONDeserializer) (bytes : List Nat)
    (o depth : Nat) (hb : t.buffer = some bytes) (ho : t.offset = some o)
    (h0 : bytes[o]? = some TYPES.UNDEFINED) :
    BVONDeserializer.readBlock (depth + 1) t
      = .ok .undefined { t with offset := some (o + 1) } := by
  rw [BVONDeserializer.readBlock]
  simp only [Step.bind_apply, BVONDeserializer.readUint8_at t bytes o hb ho, h0]
  simp [BVONDeserializer.readBlockCase]

/-- Claim C30: for every writer, `write(undefined)` and `write(null)` store the one byte
0x01 at the offset and nothing else, so at top level and in every nested position (each
is a call of `write`) both are the `NULL` tag with no payload; for every value and every
writer the byte that `write` stores first is one of the value tags other than
`UNDEFINED`; and for every reader `readBlock` at the byte 0x01 returns `null` and at the
byte 0x00 returns `undefined`, stepping over that byte only. -/
theorem null_and_undefined_tags (v : Value) (s : BVONSerializer) (t : BVONDeserializer)
    (bytes : List Nat) (o depth : Nat) (hb : t.buffer = some bytes)
    (ho : t.offset = some o) :
    BVONSerializer.write .undefined s = BVONSerializer.setView [0x01] s ∧
    BVONSerializer.write .null s = BVONSerializer.setView [0x01] s ∧
    (BVON.serialize .undefined none (BVON.new [])).value? = some [0x01] ∧
    (BVON.serialize .null none (BVON.new [])).value? = some [0x01] ∧
    (BVON.serialize (.array [.undefined, .null]) none (BVON.new [])).value?
      = some [0x0A, 8, 2, 0x01, 0x01] ∧
    (BVON.serialize (.object [([97], .undefined), ([98], .null)]) none (BVON.new [])).value?
      = some [0x09, 8, 2, 6, 8, 1, 97, 0x01, 6, 8, 1, 98, 0x01] ∧
    (∃ tag, tag ∈ valueTags ∧ tag ≠ TYPES.UNDEFINED ∧
      (BVONSerializer.write v s).state.buffer s.offset = tag ∧
      s.offset < (BVONSerializer.write v s).state.offset) ∧
    (bytes[o]? = some 0x01 →
      BVONDeserializer.readBlock (depth + 1) t = .ok .null { t with offset := some (o + 1) }) ∧
    (bytes[o]? = some 0x00 →
      BVONDeserializer.readBlock (depth + 1) t
        = .ok .undefined { t with offset := some (o + 1) }) ∧
    (BVON.deserialize [0x01] none (BVON.new [])).value? = some .null ∧
    (BVON.deserialize [0x00] none (BVON.new [])).value? = some .undefined ∧
    Value.null ≠ Value.undefined :=
  ⟨rfl, rfl, by decide!, by decide!, by decide!, by decide!,
    BVONSerializer.write_first_byte v s,
    BVONDeserializer.readBlock_null t bytes o depth hb ho,
    BVONDeserializer.readBlock_undefined t bytes o depth hb ho,
    by decide!, by decide!, by decide⟩

theorem null_and_undefined_tags_witness :
    (∃ tag, tag ∈ valueTags ∧ tag ≠ TYPES.UNDEFINED ∧
      (BVONSerializer.write (.array [.undefined]) (BVONSerializer.new [])).state.buffer 0 = tag ∧
      0 < (BVONSerializer.write (.array [.undefined]) (BVONSerializer.new [])).state.offset) ∧
    BVONDeserializer.readBlock 1 { BVONDeserializer.new [] with buffer := some [0x00] }
      = .ok .undefined
          { BVONDeserializer.new [] with buffer := some [0x00], offset := some 1 } :=
  ⟨(null_and_undefined_tags (.array [.undefined]) (BVONSerializer.new [])
      { BVONDeserializer.new [] with buffer := some [0x00] } [0x00] 0 0 rfl
      rfl).2.2.2.2.2.2.1,
    (null_and_undefined_tags (.array [.undefined]) (BVONSerializer.new [])
      { BVONDeserializer.new [] with buffer := some [0x00] } [0x00] 0 0 rfl
      rfl).2.2.2.2.2.2.2.2.1 rfl⟩

theorem collection_is_elementwise_witness :
    BVON.serializeCollection [.null, .boolean true] none (BVON.new [])
        = serializeEach none (BVON.new []) [.null, .boolean true] ∧
      (serializeEach none (BVON.new []) [.null, .boolean true]).value? = some [[1], [7, 1]] ∧
      BVON.deserializeCollection [[1], [7, 1]] none (BVON.new [])
        = deserializeEach none (BVON.new []) [[1], [7, 1]] ∧
      (deserializeEach none (BVON.new []) [[1], [7, 1]]).value?
        = some [.null, .boolean true] :=
  ⟨((collection_is_elementwise none (BVON.new [])).1 [.null, .boolean true]).1, by decide!,
    ((collection_is_elementwise none (BVON.new [])).2 [[1], [7, 1]]).1, by decide!⟩

/-! ## The ids of a schema are the ranks of first discovery -/

theorem Schema.registerIndices_eq (count : Nat) :
    ∀ (start : Nat) (s : Schema),
      s.registerIndices start count = (indexNames start count).foldl Schema.register s := by
  induction count with
  | zero => intro start s; rfl
  | succ n ih =>
    intro start s
    rw [Schema.registerIndices, indexNames, List.foldl_cons, ih]

mutual
theorem Schema.searchValue_eq (x : Value) :
    ∀ s : Schema, Schema.searchValue x s = (Schema.visitedValue x).foldl Schema.register s :=
  match x with
  | .object fields => fun s => by
    rw [Schema.searchValue, Schema.visitedValue]; exact Schema.getKeysFields_eq fields s
  | .classInstance _ fields _ => fun s => by
    rw [Schema.searchValue, Schema.visitedValue]; exact Schema.getKeysFields_eq fields s
  | .array items => fun s => by
    rw [Schema.searchValue, Schema.visitedValue]; exact Schema.searchArray_eq items s
  | .int64 _ => fun s => by
    rw [Schema.searchValue, Schema.visitedValue]; rfl
  | .byteView bytes => fun s => by
    rw [Schema.searchValue, Schema.visitedValue]; exact Schema.registerIndices_eq _ _ _
  | .undefined => fun s => by simp [Schema.searchValue, Schema.visitedValue]
  | .null => fun s => by simp [Schema.searchValue, Schema.visitedValue]
  | .boolean _ => fun s => by simp [Schema.searchValue, Schema.visitedValue]
  | .number _ => fun s => by simp [Schema.searchValue, Schema.visitedValue]
  | .bigint _ => fun s => by simp [Schema.searchValue, Schema.visitedValue]
  | .string _ => fun s => by simp [Schema.searchValue, Schema.visitedValue]
  | .date _ => fun s => by simp [Schema.searchValue, Schema.visitedValue]
  | .map _ => fun s => by simp [Schema.searchValue, Schema.visitedValue]
  | .set _ => fun s => by simp [Schema.searchValue, Schema.visitedValue]
  | .regExp _ _ => fun s => by simp [Schema.searchValue, Schema.visitedValue]
  | .uoid _ => fun s => by simp [Schema.searchValue, Schema.visitedValue]
termination_by structural x
theorem Schema.getKeysFields_eq (x : List (JSString × Value)) :
    ∀ s : Schema, Schema.getKeysFields x s = (Schema.visitedFields x).foldl Schema.register s :=
  match x with
  | [] => fun s => by rw [Schema.getKeysFields, Schema.visitedFields]; rfl
  | (key, value) :: rest => fun s => by
    rw [Schema.getKeysFields, Schema.visitedFields, List.foldl_cons, List.foldl_append,
      Schema.getKeysFields_eq rest, Schema.searchValue_eq value]
termination_by structural x
theorem Schema.getKeysItems_eq (x : List Value) :
    ∀ (index : Nat) (s : Schema),
      Schema.getKeysItems x index s = (Schema.visitedItems x index).foldl Schema.register s :=
  match x with
  | [] => fun index s => by rw [Schema.getKeysItems, Schema.visitedItems]; rfl
  | item :: rest => fun index s => by
    rw [Schema.getKeysItems, Schema.visitedItems, List.foldl_cons, List.foldl_append,
      Schema.getKeysItems_eq rest, Schema.searchValue_eq item]
termination_by structural x
theorem Schema.searchArray_eq (x : List Value) :
    ∀ s : Schema, Schema.searchArray x s = (Schema.visitedArray x).foldl Schema.register s :=
  match x with
  | [] => fun s => by rw [Schema.searchArray, Schema.visitedArray]; rfl
  | item :: rest => fun s => by
    rw [Schema.searchArray, Schema.visitedArray, List.foldl_append,
      Schema.searchArray_eq rest, Schema.searchValue_eq item]
termination_by structural x
end

theorem Schema.getKeys_eq (x : Value) (s : Schema) :
    Schema.getKeys x s = (Schema.visitedKeys x).foldl Schema.register s := by
  cases x with
  | object fields =>
    rw [Schema.getKeys, Schema.visitedKeys]; exact Schema.getKeysFields_eq fields s
  | classInstance _ fields _ =>
    rw [Schema.getKeys, Schema.visitedKeys]; exact Schema.getKeysFields_eq fields s
  | array items =>
    rw [Schema.getKeys, Schema.visitedKeys]; exact Schema.getKeysItems_eq items 0 s
  | int64 _ => rw [Schema.getKeys, Schema.visitedKeys]; rfl
  | byteView bytes =>
    rw [Schema.getKeys, Schema.visitedKeys]; exact Schema.registerIndices_eq _ _ _
  | undefined => simp [Schema.getKeys, Schema.visitedKeys]
  | null => simp [Schema.getKeys, Schema.visitedKeys]
  | boolean _ => simp [Schema.getKeys, Schema.visitedKeys]
  | number _ => simp [Schema.getKeys, Schema.visitedKeys]
  | bigint _ => simp [Schema.getKeys, Schema.visitedKeys]
  | string _ => simp [Schema.getKeys, Schema.visitedKeys]
  | date _ => simp [Schema.getKeys, Schema.visitedKeys]
  | map _ => simp [Schema.getKeys, Schema.visitedKeys]
  | set _ => simp [Schema.getKeys, Schema.visitedKeys]
  | regExp _ _ => simp [Schema.getKeys, Schema.visitedKeys]
  | uoid _ => simp [Schema.getKeys, Schema.visitedKeys]

theorem JSMap.get_zip_none (names : List JSString) (k : JSString) :
    ∀ ids : List Nat, k ∉ names → JSMap.get (names.zip ids) k = none := by
  induction names with
  | nil => intro ids _; rfl
  | cons a rest ih =>
    intro ids hk
    cases ids with
    | nil => rfl
    | cons i is =>
      simp only [List.zip_cons_cons, JSMap.get]
      rw [if_neg (fun e => hk (by rw [e]; exact List.mem_cons_self _ _))]
      exact ih is (fun h => hk (List.mem_cons_of_mem _ h))

theorem JSMap.get_zip_isSome (names : List JSString) (k : JSString) :
    ∀ ids : List Nat, names.length ≤ ids.length → k ∈ names →
      (JSMap.get (names.zip ids) k).isSome = true := by
  induction names with
  | nil => intro ids _ hk; cases hk
  | cons a rest ih =>
    intro ids hl hk
    cases ids with
    | nil => simp at hl
    | cons i is =>
      simp only [List.zip_cons_cons, JSMap.get]
      by_cases e : a = k
      · rw [if_pos e]; rfl
      · rw [if_neg e]
        refine ih is (by simpa using hl) ?_
        rcases List.mem_cons.1 hk with h | h
        · exact absurd h.symm e
        · exact h

theorem JSMap.set_absent (m : JSMap) (k : JSString) (v : Nat) (h : JSMap.get m k = none) :
    JSMap.set m k v = m ++ [(k, v)] := by
  induction m with
  | nil => rfl
  | cons e rest ih =>
    obtain ⟨k1, v1⟩ := e
    simp only [JSMap.get] at h
    by_cases e1 : k1 = k
    · rw [if_pos e1] at h; cases h
    · rw [if_neg e1] at h
      simp only [JSMap.set, if_neg e1, ih h, List.cons_append]

theorem zip_range_snoc (names : List JSString) (k : JSString) :
    (names ++ [k]).zip (List.range' 1 (names ++ [k]).length)
      = names.zip (List.range' 1 names.length) ++ [(k, names.length + 1)] := by
  rw [List.length_append, List.length_singleton, List.range'_1_concat,
    List.zip_append (by simp)]
  simp [Nat.add_comm]

/-- The registration step keeps the tables numbered: a name that is held leaves them as
they are, a new name is held last, with the next number. -/
theorem Schema.holds_register (names : List JSString) (s : Schema) (k : JSString)
    (h : s.Holds names) :
    (s.register k).Holds (if k ∈ names then names else names ++ [k]) := by
  obtain ⟨h1, h2, h3⟩ := h
  unfold Schema.register
  by_cases hk : k ∈ names
  · have hs : JSMap.has s.refs k = true := by
      rw [JSMap.has, h1]
      exact JSMap.get_zip_isSome names k _ (by simp) hk
    rw [if_pos hk, if_neg (show ¬ (JSMap.has s.refs k = false) by simp [hs])]
    exact ⟨h1, h2, h3⟩
  · have hg : JSMap.get s.refs k = none := by
      rw [h1]
      exact JSMap.get_zip_none names k _ hk
    have hs : JSMap.has s.refs k = false := by
      rw [JSMap.has, hg]
      rfl
    rw [if_neg hk, if_pos hs]
    refine ⟨?_, ?_, ?_⟩
    · show JSMap.set s.refs k (s.refIndex + 1) = _
      rw [JSMap.set_absent _ _ _ hg, zip_range_snoc, h1, h2]
    · show s.refIndex + 1 = _
      rw [h2, List.length_append, List.length_singleton]
    · show JSArray.set s.map (s.refIndex + 1) k = _
      rw [if_neg (by simp), h3, h2]
      unfold JSArray.set
      by_cases hn : names = []
      · subst hn
        simp
      · rw [if_neg hn]
        simp

theorem Schema.holds_foldl (ks : List JSString) :
    ∀ (names : List JSString) (s : Schema), s.Holds names →
      (ks.foldl Schema.register s).Holds
        (ks.foldl (fun acc k => if k ∈ acc then acc else acc ++ [k]) names) := by
  induction ks with
  | nil => intro names s h; exact h
  | cons k rest ih =>
    intro names s h
    rw [List.foldl_cons, List.foldl_cons]
    exact ih _ _ (Schema.holds_register names s k h)

theorem firstSeen_nodup_aux (ks : List JSString) :
    ∀ names : List JSString, names.Nodup →
      (ks.foldl (fun acc k => if k ∈ acc then acc else acc ++ [k]) names).Nodup := by
  induction ks with
  | nil => intro names h; exact h
  | cons k rest ih =>
    intro names h
    rw [List.foldl_cons]
    apply ih
    by_cases hk : k ∈ names
    · rw [if_pos hk]; exact h
    · rw [if_neg hk]
      rw [List.nodup_append]
      refine ⟨h, List.nodup_singleton k, ?_⟩
      intro a ha hb
      rw [List.mem_singleton] at hb
      exact hk (hb ▸ ha)

theorem firstSeen_mem_aux (ks : List JSString) :
    ∀ (names : List JSString) (k : JSString),
      k ∈ ks.foldl (fun acc k => if k ∈ acc then acc else acc ++ [k]) names ↔
        k ∈ names ∨ k ∈ ks := by
  induction ks with
  | nil => intro names k; simp
  | cons a rest ih =>
    intro names k
    rw [List.foldl_cons, ih]
    by_cases ha : a ∈ names
    · rw [if_pos ha]
      constructor
      · rintro (h | h)
        · exact Or.inl h
        · exact Or.inr (List.mem_cons_of_mem _ h)
      · rintro (h | h)
        · exact Or.inl h
        · rcases List.mem_cons.1 h with e | e
          · exact Or.inl (e ▸ ha)
          · exact Or.inr e
    · rw [if_neg ha]
      simp only [List.mem_append, List.mem_singleton, List.mem_cons]
      tauto

theorem Schema.holds_empty : Schema.empty.Holds [] := ⟨rfl, rfl, rfl⟩

/-- The schema that the constructor builds holds the distinct names that the walk meets,
in the order of their first occurrence. -/
theorem Schema.holds_new (sample : Value) (s : Schema) (h : Schema.new sample = .ok s) :
    s.Holds (firstSeen (Schema.visited sample)) := by
  have key : ∀ ks : List JSString,
      (ks.foldl Schema.register Schema.empty).Holds (firstSeen ks) := fun ks =>
    Schema.holds_foldl ks [] Schema.empty Schema.holds_empty
  cases sample with
  | null => cases h
  | undefined => cases h
  | string str =>
    have e : Schema.new (.string str) = .ok (Schema.empty.registerIndices 0 str.length) := rfl
    rw [e] at h
    injection h with h
    rw [← h, Schema.registerIndices_eq]
    exact key _
  | boolean b =>
    have e : Schema.new (.boolean b) = .ok (Schema.getKeys (.boolean b) Schema.empty) := rfl
    rw [e] at h
    injection h with h
    rw [← h, Schema.getKeys_eq]
    exact key _
  | number n =>
    have e : Schema.new (.number n) = .ok (Schema.getKeys (.number n) Schema.empty) := rfl
    rw [e] at h
    injection h with h
    rw [← h, Schema.getKeys_eq]
    exact key _
  | bigint n =>
    have e : Schema.new (.bigint n) = .ok (Schema.getKeys (.bigint n) Schema.empty) := rfl
    rw [e] at h
    injection h with h
    rw [← h, Schema.getKeys_eq]
    exact key _
  | int64 x =>
    have e : Schema.new (.int64 x) = .ok (Schema.getKeys (.int64 x) Schema.empty) := rfl
    rw [e] at h
    injection h with h
    rw [← h, Schema.getKeys_eq]
    exact key _
  | date t =>
    have e : Schema.new (.date t) = .ok (Schema.getKeys (.date t) Schema.empty) := rfl
    rw [e] at h
    injection h with h
    rw [← h, Schema.getKeys_eq]
    exact key _
  | array items =>
    have e : Schema.new (.array items) = .ok (Schema.getKeys (.array items) Schema.empty) := rfl
    rw [e] at h
    injection h with h
    rw [← h, Schema.getKeys_eq]
    exact key _
  | object fields =>
    have e : Schema.new (.object fields) = .ok (Schema.getKeys (.object fields) Schema.empty) := rfl
    rw [e] at h
    injection h with h
    rw [← h, Schema.getKeys_eq]
    exact key _
  | map entries =>
    have e : Schema.new (.map entries) = .ok (Schema.getKeys (.map entries) Schema.empty) := rfl
    rw [e] at h
    injection h with h
    rw [← h, Schema.getKeys_eq]
    exact key _
  | set members =>
    have e : Schema.new (.set members) = .ok (Schema.getKeys (.set members) Schema.empty) := rfl
    rw [e] at h
    injection h with h
    rw [← h, Schema.getKeys_eq]
    exact key _
  | byteView bytes =>
    have e : Schema.new (.byteView bytes) = .ok (Schema.getKeys (.byteView bytes) Schema.empty) := rfl
    rw [e] at h
    injection h with h
    rw [← h, Schema.getKeys_eq]
    exact key _
  | regExp source flags =>
    have e : Schema.new (.regExp source flags) = .ok (Schema.getKeys (.regExp source flags) Schema.empty) := rfl
    rw [e] at h
    injection h with h
    rw [← h, Schema.getKeys_eq]
    exact key _
  | uoid text =>
    have e : Schema.new (.uoid text) = .ok (Schema.getKeys (.uoid text) Schema.empty) := rfl
    rw [e] at h
    injection h with h
    rw [← h, Schema.getKeys_eq]
    exact key _
  | classInstance kind fields args =>
    have e : Schema.new (.classInstance kind fields args) = .ok (Schema.getKeys (.classInstance kind fields args) Schema.empty) := rfl
    rw [e] at h
    injection h with h
    rw [← h, Schema.getKeys_eq]
    exact key _

/-- The number of a name in a table that pairs distinct names with consecutive numbers
is its position. -/
theorem JSMap.get_zip_range (names : List JSString) :
    ∀ (start : Nat) (k : JSString) (id : Nat), names.Nodup →
      (JSMap.get (names.zip (List.range' start names.length)) k = some id ↔
        ∃ i, names[i]? = some k ∧ id = start + i) := by
  induction names with
  | nil =>
    intro start k id _
    simp [JSMap.get]
  | cons a rest ih =>
    intro start k id hnd
    rw [List.nodup_cons] at hnd
    rw [List.length_cons, List.range'_succ, List.zip_cons_cons, JSMap.get]
    by_cases e : a = k
    · rw [if_pos e]
      constructor
      · intro h
        injection h with h
        exact ⟨0, by simp [e], by omega⟩
      · rintro ⟨i, hi, hid⟩
        cases i with
        | zero => rw [hid]; rfl
        | succ j =>
          exfalso
          rw [List.getElem?_cons_succ] at hi
          have := List.getElem?_mem hi
          rw [← e] at this
          exact hnd.1 this
    · rw [if_neg e, ih (start + 1) k id hnd.2]
      constructor
      · rintro ⟨i, hi, hid⟩
        exact ⟨i + 1, by rw [List.getElem?_cons_succ]; exact hi, by omega⟩
      · rintro ⟨i, hi, hid⟩
        cases i with
        | zero =>
          exfalso
          rw [List.getElem?_cons_zero] at hi
          injection hi with hi
          exact e hi
        | succ j =>
          rw [List.getElem?_cons_succ] at hi
          exact ⟨j, hi, by omega⟩

theorem firstSeen_nodup (ks : List JSString) : (firstSeen ks).Nodup :=
  firstSeen_nodup_aux ks [] List.nodup_nil

theorem firstSeen_mem (ks : List JSString) (k : JSString) : k ∈ firstSeen ks ↔ k ∈ ks := by
  rw [firstSeen, firstSeen_mem_aux]
  simp

/-- Claim C31: for every sample from which the constructor builds a schema (every value
but `null` and `undefined`), with `names` the distinct names that the walk of `#getKeys`
meets, in the order of their first occurrence (the walk registers a name before it
descends into its value): the forward table pairs the names with 1, 2, ... in that order
and nothing else; `refIndex` is the number of names; the inverse array is a hole at index
0 followed by the names. Hence a name has an id exactly when the walk meets it, the ids
are the numbers from 1 to `refIndex`, distinct names have distinct ids, `map[refs(k)]` is
`k`, and index 0 holds no name. -/
theorem schema_ids_are_ranks (sample : Value) (hn : sample ≠ .null) (hu : sample ≠ .undefined) :
    ∃ s, Schema.new sample = .ok s ∧
    (firstSeen (Schema.visited sample)).Nodup ∧
    s.refs = (firstSeen (Schema.visited sample)).zip
      (List.range' 1 (firstSeen (Schema.visited sample)).length) ∧
    s.refIndex = (firstSeen (Schema.visited sample)).length ∧
    s.map = (if firstSeen (Schema.visited sample) = [] then []
      else none :: (firstSeen (Schema.visited sample)).map some) ∧
    (∀ k, (∃ id, JSMap.get s.refs k = some id) ↔ k ∈ Schema.visited sample) ∧
    (∀ k id, JSMap.get s.refs k = some id ↔
      ∃ i, (firstSeen (Schema.visited sample))[i]? = some k ∧ id = 1 + i) ∧
    (∀ k id, JSMap.get s.refs k = some id →
      1 ≤ id ∧ id ≤ s.refIndex ∧ JSArray.get s.map id = some k) ∧
    (∀ id, 1 ≤ id → id ≤ s.refIndex → ∃ k, JSMap.get s.refs k = some id) ∧
    (∀ k1 k2 id, JSMap.get s.refs k1 = some id → JSMap.get s.refs k2 = some id → k1 = k2) ∧
    JSArray.get s.map 0 = none := by
  have hok : ∃ s, Schema.new sample = .ok s := by
    cases sample <;> first | exact absurd rfl hn | exact absurd rfl hu | exact ⟨_, rfl⟩
  obtain ⟨s, h⟩ := hok
  refine ⟨s, h, ?_⟩
  obtain ⟨h1, h2, h3⟩ := Schema.holds_new sample s h
  have hnd := firstSeen_nodup (Schema.visited sample)
  have hmem := firstSeen_mem (Schema.visited sample)
  generalize firstSeen (Schema.visited sample) = names at h1 h2 h3 hnd hmem ⊢
  have hget : ∀ k id, JSMap.get s.refs k = some id ↔ ∃ i, names[i]? = some k ∧ id = 1 + i := by
    intro k id
    rw [h1]
    exact JSMap.get_zip_range names 1 k id hnd
  have hlt : ∀ (i : Nat) (k : JSString), names[i]? = some k → i < names.length := by
    intro i k hi
    by_contra hc
    rw [List.getElem?_eq_none (by omega)] at hi
    cases hi
  refine ⟨hnd, h1, h2, h3, ?_, hget, ?_, ?_, ?_, ?_⟩
  · intro k
    rw [← hmem k]
    constructor
    · rintro ⟨id, hid⟩
      obtain ⟨i, hi, -⟩ := (hget k id).1 hid
      exact List.getElem?_mem hi
    · intro hk
      obtain ⟨i, hi, hik⟩ := List.getElem_of_mem hk
      exact ⟨1 + i, (hget k (1 + i)).2 ⟨i, by rw [List.getElem?_eq_getElem hi, hik], rfl⟩⟩
  · intro k id hid
    obtain ⟨i, hi, hid2⟩ := (hget k id).1 hid
    have hil := hlt i k hi
    refine ⟨by omega, by omega, ?_⟩
    have hne : names ≠ [] := by
      intro e
      rw [e] at hil
      simp at hil
    rw [h3, if_neg hne, hid2, JSArray.get, List.getD_eq_getElem?_getD, Nat.add_comm,
      List.getElem?_cons_succ, List.getElem?_map, hi]
    rfl
  · intro id h1id hid
    rw [h2] at hid
    have hi : id - 1 < names.length := by omega
    exact ⟨names[id - 1], (hget _ id).2 ⟨id - 1, List.getElem?_eq_getElem hi, by omega⟩⟩
  · intro k1 k2 id hk1 hk2
    obtain ⟨i, hi, hid1⟩ := (hget k1 id).1 hk1
    obtain ⟨j, hj, hid2⟩ := (hget k2 id).1 hk2
    have e : i = j := by omega
    rw [e, hj] at hi
    injection hi with hi
    exact hi.symm
  · rw [h3]
    by_cases hne : names = []
    · rw [if_pos hne]
      rfl
    · rw [if_neg hne]
      rfl

theorem schema_ids_are_ranks_witness :
    ∃ s, Schema.new
        (.object [([0x61], .object [([0x62], .null), ([0x61], .null)]), ([0x62], .null)])
        = .ok s ∧
      s.refs = [([0x61], 1), ([0x62], 2)] ∧ s.refIndex = 2 ∧
      s.map = [none, some [0x61], some [0x62]] := by
  obtain ⟨s, h, -, h1, h2, h3, -⟩ := schema_ids_are_ranks
    (.object [([0x61], .object [([0x62], .null), ([0x61], .null)]), ([0x62], .null)])
    (by decide) (by decide)
  exact ⟨s, h, h1.trans (by decide), h2.trans (by decide), h3.trans (by decide)⟩

/-! ## The names a schema registers for sequences and blobs -/

/-- Claim C32, at the samples `[{a: 1}]`, `{b: <blob of two bytes>}` and `{l: [{a: 1}]}`.
For the sequence that is the sample itself the constructor calls `#getKeys`, whose
`Object.keys` lists the index `0`, so the schema registers the name `0` (id 1) before the
name `a` (id 2), where the only field name of a reachable record is `a`; for the blob,
which is an object and not an array, `#getKeys` registers the indices `0` and `1` of its
bytes. For a sequence that is the value of a field `#searchArray` runs and no index is
registered. -/
theorem schema_registers_indices :
    Schema.new (.array [.object [([0x61], .number (JSNumber.ofInt 1))]])
      = .ok { refs := [([0x30], 1), ([0x61], 2)], refIndex := 2,
              map := [none, some [0x30], some [0x61]] } ∧
    Schema.new (.object [([0x62], .byteView [7, 8])])
      = .ok { refs := [([0x62], 1), ([0x30], 2), ([0x31], 3)], refIndex := 3,
              map := [none, some [0x62], some [0x30], some [0x31]] } ∧
    Schema.new (.object [([0x6C], .array [.object [([0x61], .number (JSNumber.ofInt 1))]])])
      = .ok { refs := [([0x6C], 1), ([0x61], 2)], refIndex := 2,
              map := [none, some [0x6C], some [0x61]] } := by
  decide!

/-! ## A header written is the header read -/

theorem headerBytes_length (n : Nat) :
    (headerBytes n).length = if n < 0x100 then 2 else if n < 0x10000 then 3 else 5 := by
  unfold headerBytes
  split
  · rfl
  · split <;> rfl

theorem List.getElem?_of_drop {bytes : List Nat} {o : Nat} {l : List Nat}
    (hd : bytes.drop o = l) (i : Nat) : bytes[o + i]? = l[i]? := by
  rw [← hd, List.getElem?_drop]

theorem List.drop_of_drop {bytes : List Nat} {o : Nat} {l rest : List Nat}
    (hd : bytes.drop o = l ++ rest) : bytes.drop (o + l.length) = rest := by
  rw [← List.drop_drop, hd, List.drop_left]

/-- The reader at a byte: `readUint8` returns the byte at the offset and steps over it. -/
theorem BVONDeserializer.readUint8_drop (d : BVONDeserializer) (bytes : List Nat) (o b : Nat)
    (rest : List Nat) (hb : d.buffer = some bytes) (ho : d.offset = some o)
    (hd : bytes.drop o = b :: rest) :
    BVONDeserializer.readUint8 d = .ok (some b) { d with offset := some (o + 1) } := by
  have h0 := List.getElem?_of_drop hd 0
  rw [BVONDeserializer.readUint8_at d bytes o hb ho, Nat.add_zero] at *
  rw [h0, List.getElem?_cons_zero]

/-- The reader at a length header: `readHeader` on a buffer that holds, from the offset
on, the bytes of the header of `n` returns `n` and moves the offset past them. -/
theorem BVONDeserializer.readHeader_drop (n : Nat) (h : n < 0x100000000)
    (d : BVONDeserializer) (bytes : List Nat) (o : Nat) (rest : List Nat)
    (hb : d.buffer = some bytes) (ho : d.offset = some o)
    (hd : bytes.drop o = headerBytes n ++ rest) :
    BVONDeserializer.readHeader d
      = .ok (.num n) { d with offset := some (o + (headerBytes n).length) } := by
  unfold headerBytes at hd ⊢
  by_cases h1 : n < 0x100
  · simp only [h1, if_true] at hd ⊢
    have r0 := BVONDeserializer.readUint8_drop d bytes o 8 _ hb ho hd
    have r1 := BVONDeserializer.readUint8_drop { d with offset := some (o + 1) } bytes (o + 1)
      n rest hb rfl (List.drop_of_drop (l := [8]) hd)
    simp only [BVONDeserializer.readHeader, Step.bind_apply, r0, r1]
    rfl
  · by_cases h2 : n < 0x10000
    · simp only [h1, h2, if_true, if_false] at hd ⊢
      have r0 := BVONDeserializer.readUint8_drop d bytes o 16 _ hb ho hd
      have r1 := BVONDeserializer.readUint8_drop { d with offset := some (o + 1) } bytes
        (o + 1) (n % 256) (n / 256 :: rest) hb rfl (List.drop_of_drop (l := [16]) hd)
      have r2 := BVONDeserializer.readUint8_drop { d with offset := some (o + 1 + 1) } bytes
        (o + 1 + 1) (n / 256) rest hb rfl
        (by
          have := List.drop_of_drop (l := [16, n % 256]) hd
          simpa [Nat.add_assoc] using this)
      simp only [BVONDeserializer.readHeader, Step.bind_apply, r0,
        BVONDeserializer.readUint16, r1, r2]
      have e : n % 256 + (n / 256) <<< 8 = n := by
        rw [Nat.shiftLeft_eq]
        omega
      simp only [Option.getD_some, e, Step.pure_apply, List.length_cons, List.length_nil]
    · simp only [h1, h2, if_false] at hd ⊢
      have r0 := BVONDeserializer.readUint8_drop d bytes o 32 _ hb ho hd
      have hd1 : bytes.drop (o + 1)
          = [n % 256, n / 256 % 256, n / 65536 % 256, n / 16777216 % 256] ++ rest :=
        List.drop_of_drop (l := [32]) hd
      have hlen : o + 1 + 4 ≤ bytes.length := by
        have := congrArg List.length hd1
        rw [List.length_drop] at this
        simp only [List.length_cons, List.length_nil, List.length_append] at this
        omega
      have hv : BVONDeserializer.viewBytes 4 { d with offset := some (o + 1) }
          = .ok [n % 256, n / 256 % 256, n / 65536 % 256, n / 16777216 % 256]
              { d with offset := some (o + 1) } := by
        simp only [BVONDeserializer.viewBytes, hb, Option.getD_some, hlen, if_true]
        rw [hd1]
        rfl
      simp only [BVONDeserializer.readHeader, Step.bind_apply, r0,
        BVONDeserializer.readUint32, hv, Step.modify_apply, BVONDeserializer.advance,
        Step.pure_apply, BVONDeserializer.ofLittleEndian, List.length_cons, List.length_nil]
      have e : n % 256 + 256 * (n / 256 % 256 + 256 * (n / 65536 % 256 +
          256 * (n / 16777216 % 256 + 256 * 0))) = n := by omega
      rw [e]

theorem Buffer.drop_slice (buffer : Buffer) (o m : Nat) :
    (buffer.slice 0 m).drop o = buffer.slice o m := by
  apply List.ext_getElem?
  intro i
  simp only [Buffer.slice, List.getElem?_drop, List.getElem?_map, Nat.sub_zero, Nat.zero_add]
  by_cases h : o + i < m
  · rw [List.getElem?_range h, List.getElem?_range (by omega)]
    rfl
  · rw [List.getElem?_eq_none (by simp; omega), List.getElem?_eq_none (by simp; omega)]
    rfl

/-- Claim C33: for every `n` below 2^32 and every writer, `writeHeader(n)` returns after
writing 2 bytes (n below 0x100), 3 bytes (n below 0x10000) or 5 bytes; and `readHeader`,
on a buffer that holds what the writer holds up to its new offset (followed by anything)
and at the offset where the header starts, returns `n` and leaves the offset where the
writer stopped, that is, advanced by the number of bytes written. -/
theorem readHeader_of_writeHeader (n : Nat) (h : n < 0x100000000) (w : BVONSerializer)
    (d : BVONDeserializer) (post : List Nat) :
    ∃ st, BVONSerializer.writeHeader n w = .ok () st ∧
      st.offset = w.offset + (if n < 0x100 then 2 else if n < 0x10000 then 3 else 5) ∧
      BVONDeserializer.readHeader
          { d with buffer := some (st.buffer.slice 0 st.offset ++ post),
                   offset := some w.offset }
        = .ok (.num n)
            { d with buffer := some (st.buffer.slice 0 st.offset ++ post),
                     offset := some st.offset } := by
  refine ⟨_, BVONSerializer.writeHeader_eq n h w, ?_, ?_⟩
  · show w.offset + (headerBytes n).length = _
    rw [headerBytes_length]
  · refine BVONDeserializer.readHeader_drop n h _ _ w.offset post rfl rfl ?_
    show ((w.buffer.setBytes w.offset (headerBytes n)).slice 0
        (w.offset + (headerBytes n).length) ++ post).drop w.offset = _
    rw [List.drop_append_of_le_length (by simp [Buffer.slice]), Buffer.drop_slice,
      Buffer.slice_setBytes _ _ _ (headerBytes_lt n h)]

theorem readHeader_of_writeHeader_witness :
    ∃ st, BVONSerializer.writeHeader 300 (BVONSerializer.new []) = .ok () st ∧
      st.offset = 0 + 3 ∧
      BVONDeserializer.readHeader
          { BVONDeserializer.new [] with
            buffer := some (st.buffer.slice 0 st.offset ++ [1]), offset := some 0 }
        = .ok (.num 300)
            { BVONDeserializer.new [] with
              buffer := some (st.buffer.slice 0 st.offset ++ [1]), offset := some st.offset } :=
  readHeader_of_writeHeader 300 (by decide) (BVONSerializer.new []) (BVONDeserializer.new []) [1]

/-! ## Negative big integers -/

theorem getBigIntByteLength_negative (b : Int) (h : b < 0) : getBigIntByteLength b = 0 := by
  have e : b.toNat = 0 := by omega
  simp only [getBigIntByteLength, e, bigIntLoop32, bigIntLoop16, bigIntLoop8]

theorem BVONSerializer.write_negative_bigint (b : Int) (h : b < 0) (w : BVONSerializer) :
    BVONSerializer.write (.bigint b) w = BVONSerializer.setView [5, 8, 0] w := by
  have e : b.toNat = 0 := by omega
  rw [BVONSerializer.write, BVONSerializer.writeBigInt, getBigIntByteLength_negative b h]
  simp only [Step.bind_apply, BVONSerializer.setUint8, Step.modify_apply,
    BVONSerializer.writeHeader, Nat.lt_irrefl, BVONSerializer.setBigInt, e,
    BVONSerializer.setBigIntLoop32, BVONSerializer.setBigIntLoop16,
    BVONSerializer.setBigIntLoop8, BVONSerializer.setView, Buffer.setBytes,
    List.length_cons, List.length_nil]
  simp

/-- The reader at the bytes of a big integer with a payload of no bytes. -/
theorem BVONDeserializer.readBlock_empty_bigint (d : BVONDeserializer) (fuel : Nat) :
    BVONDeserializer.readBlock (fuel + 1) { d with buffer := some [5, 8, 0], offset := some 0 }
      = .ok (.bigint 0) { d with buffer := some [5, 8, 0], offset := some 3 } := by
  simp [BVONDeserializer.readBlock, BVONDeserializer.readBlockCase,
    BVONDeserializer.readUint8, BVONDeserializer.advance, BVONDeserializer.readHeader,
    BVONDeserializer.readBigInt, BVONDeserializer.readBigIntLoop]

/-- The encoding of C34 on a class at rest: for every negative big integer `b`,
`getBigIntByteLength(b)` is 0; with or without a schema, on a class whose writer and
reader stand at offset 0, `BVON.serialize(b)` returns the three bytes 0x05, 8, 0 and
throws nothing, and `BVON.deserialize` of them is the big integer 0. -/
theorem negative_bigint_is_empty (self : BVON) (schema : Option Schema) (b : Int) (hb : b < 0)
    (hw : self.serializer.offset = 0) (hr : self.deserializer.offset = some 0) :
    getBigIntByteLength b = 0 ∧
      (BVON.serialize (.bigint b) schema self).value? = some [0x05, 8, 0] ∧
      (BVON.serialize (.bigint b) schema self).error? = none ∧
      BVON.roundTrip (.bigint b) schema self = some (.bigint 0) := by
  obtain ⟨serializer, hs⟩ := BVON.serialize_bytes (.bigint b) [5, 8, 0] schema self hw
    (by decide) (BVONSerializer.write_negative_bigint b hb)
  refine ⟨getBigIntByteLength_negative b hb, ?_, ?_, ?_⟩
  · rw [hs]
    rfl
  · rw [hs]
    rfl
  · unfold BVON.roundTrip
    rw [hs]
    simp only
    obtain ⟨d, -, hd⟩ := BVON.deserialize_start [5, 8, 0] schema
      { self with serializer := serializer } hr
    rw [hd, BVONDeserializer.readBlock_empty_bigint]
    rfl

theorem negative_bigint_is_empty_witness :
    getBigIntByteLength (-1) = 0 ∧
      (BVON.serialize (.bigint (-1)) none (BVON.new [])).value? = some [0x05, 8, 0] ∧
      (BVON.serialize (.bigint (-1)) none (BVON.new [])).error? = none ∧
      BVON.roundTrip (.bigint (-1)) none (BVON.new []) = some (.bigint 0) :=
  negative_bigint_is_empty (BVON.new []) none (-1) (by decide) rfl rfl

/-! ## Int64: equality -/

/-- Claim C35: for all `Int64` values `x` and `y`, `x.equals(y)` is true exactly when the
low words are equal, the high words are equal, and it is not the case that the sign modes
differ while `high >>> 31` is 1 in both; so two values of differing sign mode whose top
bits are both set are never equal; and `x.equals(y)` is `y.equals(x)`. For words that are
signed 32-bit integers the top bit of `high` is set exactly when `high` is negative. -/
theorem equals_is_structural (x y : Int64) :
    (x.equals y = true ↔
      x.low = y.low ∧ x.high = y.high ∧
        ¬ (x.unsigned ≠ y.unsigned ∧ toUint32 x.high >>> 31 = 1 ∧ toUint32 y.high >>> 31 = 1)) ∧
    (x.unsigned ≠ y.unsigned → toUint32 x.high >>> 31 = 1 → toUint32 y.high >>> 31 = 1 →
      x.equals y = false) ∧
    x.equals y = y.equals x ∧
    (x.Valid → (toUint32 x.high >>> 31 = 1 ↔ x.high < 0)) := by
  refine ⟨?_, ?_, ?_, ?_⟩
  · unfold Int64.equals
    by_cases h : x.unsigned ≠ y.unsigned ∧ toUint32 x.high >>> 31 = 1 ∧
        toUint32 y.high >>> 31 = 1
    · rw [if_pos h]
      constructor
      · intro hf
        cases hf
      · intro hr
        exact absurd h hr.2.2
    · rw [if_neg h, decide_eq_true_iff]
      constructor
      · intro hr
        exact ⟨hr.2, hr.1, h⟩
      · intro hr
        exact ⟨hr.2.1, hr.1⟩
  · intro h1 h2 h3
    unfold Int64.equals
    rw [if_pos ⟨h1, h2, h3⟩]
  · unfold Int64.equals
    by_cases h : x.unsigned ≠ y.unsigned ∧ toUint32 x.high >>> 31 = 1 ∧
        toUint32 y.high >>> 31 = 1
    · rw [if_pos h, if_pos ⟨fun e => h.1 e.symm, h.2.2, h.2.1⟩]
    · rw [if_neg h, if_neg (fun g => h ⟨fun e => g.1 e.symm, g.2.2, g.2.1⟩)]
      by_cases hw : x.high = y.high ∧ x.low = y.low
      · rw [decide_eq_true hw, decide_eq_true (show y.high = x.high ∧ y.low = x.low from
          ⟨hw.1.symm, hw.2.symm⟩)]
      · rw [decide_eq_false hw, decide_eq_false (show ¬ (y.high = x.high ∧ y.low = x.low) from
          fun g => hw ⟨g.1.symm, g.2.symm⟩)]
  · intro hv
    unfold Int64.Valid at hv
    rw [Nat.shiftRight_eq_div_pow]
    unfold toUint32
    omega

theorem equals_is_structural_witness :
    (Int64.new 0 (-1) true).equals (Int64.new 0 (-1) false) = false ∧
      (toUint32 (Int64.new 0 (-1) true).high >>> 31 = 1 ↔ (Int64.new 0 (-1) true).high < 0) :=
  ⟨(equals_is_structural (Int64.new 0 (-1) true) (Int64.new 0 (-1) false)).2.1
      (by decide) (by decide) (by decide),
    (equals_is_structural (Int64.new 0 (-1) true) (Int64.new 0 (-1) false)).2.2.2 (by decide)⟩

/-! ## A record with the field named __proto__ -/

/-- Claim C36, at the record whose one field has the name `__proto__` and the value 1 (as
`JSON.parse` builds it): the writer produces the record tag, the header of one field, the
key as text and the integer 1; in the reader `obj['__proto__'] = 1` on the record built
from `{}` reaches the prototype setter and adds no field, so `BVON.deserialize` returns
the empty record. -/
theorem roundTrip_proto_field :
    (BVON.serialize (.object [(protoName, .number (JSNumber.ofInt 1))]) none
        (BVON.new [])).value?
      = some [9, 8, 1, 6, 8, 9, 0x5F, 0x5F, 0x70, 0x72, 0x6F, 0x74, 0x6F, 0x5F, 0x5F,
          2, 1, 0, 0, 0] ∧
    BVON.roundTrip (.object [(protoName, .number (JSNumber.ofInt 1))]) none (BVON.new [])
      = some (.object []) ∧
    BVON.roundTrip (.object [(protoName, .number (JSNumber.ofInt 1))]) none (BVON.new [])
      ≠ some (.object [(protoName, .number (JSNumber.ofInt 1))]) := by
  decide!

/-! ## Int64: the pattern of a product -/

theorem Int64.bits_of_isZero {x : Int64} (h : x.isZero = true) : x.bits = 0 := by
  simp only [Int64.isZero, decide_eq_true_eq] at h
  unfold Int64.bits
  rw [h.1, h.2]
  decide

theorem Int64.bits_of_equals_MIN {x : Int64} (h : x.equals Int64.MIN_VALUE = true) :
    x.bits = 9223372036854775808 := by
  unfold Int64.equals at h
  split at h
  · cases h
  · simp only [decide_eq_true_eq] at h
    unfold Int64.bits
    rw [h.1, h.2]
    decide

theorem Int64.isOdd_iff (x : Int64) : x.isOdd = true ↔ x.bits % 2 = 1 := by
  simp only [Int64.isOdd, decide_eq_true_eq]
  unfold Int64.bits toUint32
  omega

theorem Int64.bits_MIN_VALUE : Int64.MIN_VALUE.bits = 9223372036854775808 := by decide

theorem Int64.bits_ZERO : Int64.ZERO.bits = 0 := by decide

/-- The pattern of the value that `fromNumber` builds from a natural number below 2^63 - 1,
in both sign modes -/
theorem Int64.fromNumber_bits (n : Nat) (u : Bool) (h : n < 9223372036854775807) :
    (Int64.fromNumber (some (n : Int)) u).Valid ∧ (Int64.fromNumber (some (n : Int)) u).bits = n := by
  have e : Int64.fromNumber (some (n : Int)) u
      = Int64.new ((n : Int) % 4294967296) ((n : Int) / 4294967296) u := by
    unfold Int64.fromNumber
    simp only
    rw [if_neg (by omega), if_neg (by omega), if_neg (by omega)]
    unfold Int64.fromNumberNonNeg
    cases u
    · simp only [Bool.false_eq_true, if_false]
      rw [if_neg (by omega)]
    · simp only [if_true]
      rw [if_neg (by omega)]
  rw [e]
  refine ⟨Int64.valid_new _ _ _, ?_⟩
  rw [Int64.bits_new]
  unfold toUint32
  omega

/-- The pattern of the sum of the products of the 16-bit chunks is the product of the
patterns, reduced modulo 2^64. -/
theorem Int64.bits_multiplyChunks (a b : Int64) :
    (Int64.multiplyChunks a b).bits = (a.bits * b.bits) % 18446744073709551616 := by
  unfold Int64.multiplyChunks
  simp only [Int64.bits_new, Nat.and_65535, Nat.shiftRight_16]
  rw [Nat.shiftLeft_16_or _ _ (Nat.mod_lt _ (by decide)),
    Nat.shiftLeft_16_or _ _ (Nat.mod_lt _ (by decide))]
  simp only [toUint32_natCast, Int64.bits]
  have h1 := toUint32_lt a.low
  have h2 := toUint32_lt a.high
  have h3 := toUint32_lt b.low
  have h4 := toUint32_lt b.high
  generalize toUint32 a.low = al at *
  generalize toUint32 a.high = ah at *
  generalize toUint32 b.low = bl at *
  generalize toUint32 b.high = bh at *
  have eal : al = al / 65536 * 65536 + al % 65536 := by omega
  have eah : ah = ah / 65536 * 65536 + ah % 65536 := by omega
  have ebl : bl = bl / 65536 * 65536 + bl % 65536 := by omega
  have ebh : bh = bh / 65536 * 65536 + bh % 65536 := by omega
  have b1 : al / 65536 < 65536 := by omega
  have b2 : al % 65536 < 65536 := by omega
  have b3 : ah / 65536 < 65536 := by omega
  have b4 : ah % 65536 < 65536 := by omega
  have b5 : bl / 65536 < 65536 := by omega
  have b6 : bl % 65536 < 65536 := by omega
  have b7 : bh / 65536 < 65536 := by omega
  have b8 : bh % 65536 < 65536 := by omega
  generalize al / 65536 = a16 at *
  generalize al % 65536 = a00 at *
  generalize ah / 65536 = a48 at *
  generalize ah % 65536 = a32 at *
  generalize bl / 65536 = b16 at *
  generalize bl % 65536 = b00 at *
  generalize bh / 65536 = b48 at *
  generalize bh % 65536 = b32 at *
  have key : (al + 4294967296 * ah) * (bl + 4294967296 * bh)
      = a00 * b00 + 65536 * (a16 * b00 + a00 * b16)
        + 4294967296 * (a32 * b00 + a16 * b16 + a00 * b32)
        + 281474976710656 * (a48 * b00 + a32 * b16 + a16 * b32 + a00 * b48)
        + 18446744073709551616 * (a48 * b16 + a32 * b32 + a16 * b48
          + 65536 * (a48 * b32 + a32 * b48) + 4294967296 * (a48 * b48)) := by
    rw [eal, eah, ebl, ebh]
    ring
  rw [key]
  generalize a48 * b16 + a32 * b32 + a16 * b48
    + 65536 * (a48 * b32 + a32 * b48) + 4294967296 * (a48 * b48) = top
  generalize a00 * b00 = p00
  generalize a16 * b00 = p10
  generalize a00 * b16 = p01
  generalize a32 * b00 = p20
  generalize a16 * b16 = p11
  generalize a00 * b32 = p02
  generalize a48 * b00 + a32 * b16 + a16 * b32 + a00 * b48 = p3
  omega

theorem Int64.neg_mul_mod (A B : Nat) (hA : A < 18446744073709551616) :
    (18446744073709551616 - ((18446744073709551616 - A) % 18446744073709551616 * B)
      % 18446744073709551616) % 18446744073709551616 = A * B % 18446744073709551616 := by
  by_cases h0 : A = 0
  · subst h0
    simp
  · have e : (18446744073709551616 - A) % 18446744073709551616 = 18446744073709551616 - A := by
      omega
    rw [e]
    have h : (18446744073709551616 - A) * B + A * B = 18446744073709551616 * B := by
      rw [← Nat.add_mul]
      congr 1
      omega
    generalize (18446744073709551616 - A) * B = P at h
    generalize A * B = Q at h
    omega

theorem Int64.mul_neg_mod (A B : Nat) (hB : B < 18446744073709551616) :
    (18446744073709551616 - (A * ((18446744073709551616 - B) % 18446744073709551616))
      % 18446744073709551616) % 18446744073709551616 = A * B % 18446744073709551616 := by
  rw [Nat.mul_comm A, Nat.mul_comm A]
  exact Int64.neg_mul_mod B A hB

theorem Int64.neg_mul_neg_mod (A B : Nat) (hA : A < 18446744073709551616)
    (hB : B < 18446744073709551616) :
    ((18446744073709551616 - A) % 18446744073709551616
      * ((18446744073709551616 - B) % 18446744073709551616)) % 18446744073709551616
      = A * B % 18446744073709551616 := by
  by_cases h0 : A = 0
  · subst h0
    simp
  by_cases h1 : B = 0
  · subst h1
    simp
  have e1 : (18446744073709551616 - A) % 18446744073709551616 = 18446744073709551616 - A := by
    omega
  have e2 : (18446744073709551616 - B) % 18446744073709551616 = 18446744073709551616 - B := by
    omega
  rw [e1, e2]
  have hX : (18446744073709551616 - A) + A = 18446744073709551616 := by omega
  have hY : (18446744073709551616 - B) + B = 18446744073709551616 := by omega
  generalize 18446744073709551616 - A = X at hX
  generalize 18446744073709551616 - B = Y at hY
  have h : X * Y + 18446744073709551616 * A + 18446744073709551616 * B
      = 18446744073709551616 * 18446744073709551616 + A * B := by
    have e3 : 18446744073709551616 * 18446744073709551616 = (X + A) * (Y + B) := by rw [hX, hY]
    have e4 : 18446744073709551616 * A = (Y + B) * A := by rw [hY]
    have e5 : 18446744073709551616 * B = (X + A) * B := by rw [hX]
    rw [e3, e4, e5]
    ring
  generalize X * Y = P at h
  generalize A * B = Q at h
  omega

/-- A value that is not negative and compares below `TWO_PWR_24` has a pattern below
2^24, in both sign modes. -/
theorem Int64.bits_lt_of_lessThan {x : Int64} (hx : x.Valid) (hn : x.isNegative = false)
    (h : x.lessThan Int64.TWO_PWR_24 = true) : x.bits < 16777216 := by
  have eh : Int64.TWO_PWR_24.high = 0 := by decide
  have el : Int64.TWO_PWR_24.low = 16777216 := by decide
  have eb : Int64.TWO_PWR_24.bits = 16777216 := by decide
  have en : Int64.TWO_PWR_24.isNegative = false := by decide
  have ev : Int64.TWO_PWR_24.Valid := by decide
  simp only [Int64.lessThan, decide_eq_true_eq, Int64.compare, hn, en] at h
  by_cases he : x.equals Int64.TWO_PWR_24 = true
  · rw [if_pos he] at h
    omega
  rw [if_neg he] at h
  simp only [Bool.not_false, Bool.and_true, Bool.false_eq_true, if_false, Bool.not_true,
    Bool.and_false, Bool.true_and] at h
  cases hu : x.unsigned with
  | false =>
    rw [hu] at h
    simp only [Bool.not_false, if_true] at h
    by_cases hs : (x.subtract Int64.TWO_PWR_24).isNegative = true
    · have hb := Int64.bits_subtract x Int64.TWO_PWR_24 ev
      rw [eb] at hb
      simp only [Int64.isNegative, Bool.and_eq_true, Bool.not_eq_true', decide_eq_true_eq] at hs
      have h1 := (Int64.high_nonneg_iff (x := x.subtract Int64.TWO_PWR_24)
        (Int64.valid_add _ _)).not.1 (by omega)
      simp only [Int64.isNegative, hu, Bool.not_false, Bool.true_and,
        decide_eq_false_iff_not] at hn
      have h2 := (Int64.high_nonneg_iff hx).1 (by omega)
      omega
    · rw [if_neg hs] at h
      omega
  | true =>
    rw [hu] at h
    simp only [Bool.not_true, Bool.false_eq_true, if_false] at h
    rw [eh, el] at h
    by_cases hc : toUint32 0 > toUint32 x.high ∨ (0 = x.high ∧ toUint32 16777216 > toUint32 x.low)
    · rcases hc with hc | ⟨hc1, hc2⟩
      · have : toUint32 0 = 0 := by decide
        omega
      · have e16 : toUint32 16777216 = 16777216 := by decide
        unfold Int64.bits
        rw [← hc1]
        have : toUint32 0 = 0 := by decide
        omega
    · rw [if_neg hc] at h
      omega

/-- The number that `valueOf` gives for a value that is not negative is its pattern -/
theorem Int64.valueOf_nonneg {x : Int64} (hx : x.Valid) (hn : x.isNegative = false) :
    x.valueOf = (x.bits : Int) := by
  unfold Int64.Valid at hx
  cases hu : x.unsigned with
  | false =>
    simp only [Int64.isNegative, hu, Bool.not_false, Bool.true_and,
      decide_eq_false_iff_not] at hn
    simp only [Int64.valueOf, hu, Bool.false_eq_true, if_false]
    unfold Int64.bits toUint32
    omega
  | true =>
    simp only [Int64.valueOf, hu, if_true]
    unfold Int64.bits
    push_cast
    omega

theorem Except.ok_of_map_ok {ε α β : Type} (f : α → β) (r : Except ε α) (p : β)
    (h : r.map f = .ok p) : ∃ q, r = .ok q ∧ p = f q := by
  cases r with
  | error e => cases h
  | ok q =>
    injection h with h
    exact ⟨q, rfl, h.symm⟩

/-- Whatever `multiply` returns, with any budget of nested calls, has the pattern of the
product modulo 2^64. -/
theorem Int64.multiplyFuel_bits (wasm : Bool) :
    ∀ (fuel : Nat) (a b : Int64), a.Valid → b.Valid →
      ∀ p, Int64.multiplyFuel wasm fuel a b = .ok p →
        p.Valid ∧ p.bits = (a.bits * b.bits) % 18446744073709551616 := by
  intro fuel
  induction fuel with
  | zero =>
    intro a b _ _ p h
    cases h
  | succ fuel ih =>
    intro a b ha hb p h
    have hA := Int64.bits_lt a
    have hB := Int64.bits_lt b
    rw [Int64.multiplyFuel] at h
    by_cases h1 : a.isZero = true
    · rw [if_pos h1] at h
      injection h with h
      rw [← h, Int64.bits_of_isZero h1, Nat.zero_mul]
      exact ⟨by decide, by decide⟩
    rw [if_neg h1] at h
    by_cases h2 : wasm = true
    · rw [if_pos h2] at h
      injection h with h
      rw [← h]
      refine ⟨Int64.valid_new _ _ _, ?_⟩
      have hw := Wasm.bits_words
        ((Wasm.operand a.low a.high : Int) * (Wasm.operand b.low b.high : Int)) a.unsigned
      rw [Wasm.operand_eq_bits, Wasm.operand_eq_bits] at hw
      unfold Wasm.mul
      simp only [Wasm.operand_eq_bits]
      have hc : ((a.bits * b.bits % 18446744073709551616 : Nat) : Int)
          = (a.bits : Int) * (b.bits : Int) % 18446744073709551616 := by
        push_cast
        rfl
      omega
    rw [if_neg h2] at h
    by_cases h3 : b.isZero = true
    · rw [if_pos h3] at h
      injection h with h
      rw [← h, Int64.bits_of_isZero h3, Nat.mul_zero]
      exact ⟨by decide, by decide⟩
    rw [if_neg h3] at h
    by_cases h4 : a.equals Int64.MIN_VALUE = true
    · rw [if_pos h4] at h
      injection h with h
      rw [← h, Int64.bits_of_equals_MIN h4]
      by_cases ho : b.isOdd = true
      · rw [if_pos ho]
        have := (Int64.isOdd_iff b).1 ho
        refine ⟨by decide, ?_⟩
        rw [Int64.bits_MIN_VALUE]
        omega
      · rw [if_neg ho]
        have := (Int64.isOdd_iff b).not.1 ho
        refine ⟨by decide, ?_⟩
        rw [Int64.bits_ZERO]
        omega
    rw [if_neg h4] at h
    by_cases h5 : b.equals Int64.MIN_VALUE = true
    · rw [if_pos h5] at h
      injection h with h
      rw [← h, Int64.bits_of_equals_MIN h5]
      by_cases ho : a.isOdd = true
      · rw [if_pos ho]
        have := (Int64.isOdd_iff a).1 ho
        refine ⟨by decide, ?_⟩
        rw [Int64.bits_MIN_VALUE]
        omega
      · rw [if_neg ho]
        have := (Int64.isOdd_iff a).not.1 ho
        refine ⟨by decide, ?_⟩
        rw [Int64.bits_ZERO]
        omega
    rw [if_neg h5] at h
    by_cases h6 : a.isNegative = true
    · rw [if_pos h6] at h
      by_cases h7 : b.isNegative = true
      · rw [if_pos h7] at h
        obtain ⟨hv, hp⟩ := ih a.negate b.negate (Int64.valid_negate a) (Int64.valid_negate b) p h
        refine ⟨hv, ?_⟩
        rw [hp, Int64.bits_negate_all a ha, Int64.bits_negate_all b hb]
        exact Int64.neg_mul_neg_mod _ _ hA hB
      · rw [if_neg h7] at h
        obtain ⟨q, hq, hpq⟩ := Except.ok_of_map_ok _ _ _ h
        obtain ⟨hv, hp⟩ := ih a.negate b (Int64.valid_negate a) hb q hq
        rw [hpq]
        refine ⟨Int64.valid_negate q, ?_⟩
        rw [Int64.bits_negate_all q hv, hp, Int64.bits_negate_all a ha]
        have := Int64.neg_mul_mod a.bits b.bits hA
        omega
    rw [if_neg h6] at h
    by_cases h7 : b.isNegative = true
    · rw [if_pos h7] at h
      obtain ⟨q, hq, hpq⟩ := Except.ok_of_map_ok _ _ _ h
      obtain ⟨hv, hp⟩ := ih a b.negate ha (Int64.valid_negate b) q hq
      rw [hpq]
      refine ⟨Int64.valid_negate q, ?_⟩
      rw [Int64.bits_negate_all q hv, hp, Int64.bits_negate_all b hb]
      have := Int64.mul_neg_mod a.bits b.bits hB
      omega
    rw [if_neg h7] at h
    simp only [Bool.not_eq_true] at h6 h7
    by_cases h8 : (a.lessThan Int64.TWO_PWR_24 && b.lessThan Int64.TWO_PWR_24) = true
    · rw [if_pos h8] at h
      injection h with h
      simp only [Bool.and_eq_true] at h8
      have la := Int64.bits_lt_of_lessThan ha h6 h8.1
      have lb := Int64.bits_lt_of_lessThan hb h7 h8.2
      have hprod : a.bits * b.bits < 16777216 * 16777216 := Nat.mul_lt_mul_of_lt_of_lt la lb
      have e : a.valueOf * b.valueOf = ((a.bits * b.bits : Nat) : Int) := by
        rw [Int64.valueOf_nonneg ha h6, Int64.valueOf_nonneg hb h7]
        push_cast
        rfl
      rw [e] at h
      obtain ⟨hv, hbits⟩ := Int64.fromNumber_bits (a.bits * b.bits) a.unsigned (by omega)
      rw [← h]
      refine ⟨hv, ?_⟩
      rw [hbits]
      omega
    · rw [if_neg h8] at h
      injection h with h
      rw [← h]
      exact ⟨Int64.valid_new _ _ _, Int64.bits_multiplyChunks a b⟩

/-- Claim C37: for all Int64 values a and b, in both sign modes and with and without the
WebAssembly module, `a.multiply(b)` returns, and the value returned has the 64-bit pattern
of the product of the patterns of a and b modulo 2^64; the sum of the products of the
16-bit limbs has that pattern on all operands, the fast paths apart. -/
theorem multiply_is_product_mod_2_64 (wasm : Bool) (a b : Int64) (ha : a.Valid) (hb : b.Valid) :
    (∃ p, Int64.multiply wasm a b = .ok p ∧ p.Valid ∧
      p.bits = (a.bits * b.bits) % 18446744073709551616) ∧
    (Int64.multiplyChunks a b).bits = (a.bits * b.bits) % 18446744073709551616 := by
  obtain ⟨p, hp⟩ := Int64.multiply_total wasm a b ha hb
  obtain ⟨hv, hbits⟩ := Int64.multiplyFuel_bits wasm 3 a b ha hb p hp
  exact ⟨⟨p, hp, hv, hbits⟩, Int64.bits_multiplyChunks a b⟩

theorem multiply_is_product_mod_2_64_witness :
    (Int64.new (-3) (-1) false).Valid ∧ (Int64.new 5 16 false).Valid ∧
    ((∃ p, Int64.multiply false (Int64.new (-3) (-1) false) (Int64.new 5 16 false) = .ok p ∧
      p.Valid ∧ p.bits = ((Int64.new (-3) (-1) false).bits * (Int64.new 5 16 false).bits)
        % 18446744073709551616) ∧
    (Int64.multiplyChunks (Int64.new (-3) (-1) false) (Int64.new 5 16 false)).bits
      = ((Int64.new (-3) (-1) false).bits * (Int64.new 5 16 false).bits)
        % 18446744073709551616) :=
  ⟨by decide, by decide,
    multiply_is_product_mod_2_64 false (Int64.new (-3) (-1) false) (Int64.new 5 16 false)
      (by decide) (by decide)⟩

/-! ## Calls that follow a failed call

`BVON.serialize` and `BVON.deserialize` call `reset()` after `write` and `readBlock` have
returned, and not when they throw: a failed call leaves the writer or the reader at the
offset it had reached, and the next call on the class starts from there. -/

/-- Claim C20, at the number 2^31 (outside the signed 32-bit range) read after a failed
call. On the class as loaded `BVON.deserialize(BVON.serialize(2147483648))` is the
`Int64` of words low 0x80000000, high 0, whose `valueOf()` is 2147483648. After
`BVON.deserialize` of the buffer `[0x0a, 0x08, 0x01, 0x11]` has thrown (unsupported tag
0x11, four bytes consumed, `reset` not reached, the reader left at offset 4),
`BVON.serialize(2147483648)` still returns the nine bytes 03 00 00 00 80 00 00 00 00, but
`BVON.deserialize` of them starts at offset 4, reads the byte 0x80 as a tag and throws
`Unsupported type: 128`: the round trip gives no `Int64`. -/
theorem roundTrip_number_after_failure :
    BVON.roundTrip (.number ⟨0x41E0000000000000⟩) none (BVON.new [])
      = some (.int64 ⟨-2147483648, 0, false⟩) ∧
    (⟨-2147483648, 0, false⟩ : Int64).valueOf = 2147483648 ∧
    (BVON.deserialize [0x0A, 8, 1, 0x11] none (BVON.new [])).error?
      = some (.unsupportedType (some 0x11)) ∧
    (BVON.deserialize [0x0A, 8, 1, 0x11] none (BVON.new [])).state.1.deserializer.offset
      = some 4 ∧
    (BVON.serialize (.number ⟨0x41E0000000000000⟩) none
      (BVON.deserialize [0x0A, 8, 1, 0x11] none (BVON.new [])).state.1).value?
      = some [3, 0, 0, 0, 0x80, 0, 0, 0, 0] ∧
    (BVON.deserialize [3, 0, 0, 0, 0x80, 0, 0, 0, 0] none
      (BVON.deserialize [0x0A, 8, 1, 0x11] none (BVON.new [])).state.1).error?
      = some (.unsupportedType (some 0x80)) ∧
    BVON.roundTrip (.number ⟨0x41E0000000000000⟩) none
      (BVON.deserialize [0x0A, 8, 1, 0x11] none (BVON.new [])).state.1 = none := by
  decide!

/-- Claim C21, at the `Int64` of words low -2, high 5 after a failed call. On the class
as loaded `BVON.serialize(x)` is the nine bytes 03 fe ff ff ff 05 00 00 00 and
`BVON.deserialize` of them has the same words. After `BVON.deserialize` of
`[0x0a, 0x08, 0x01, 0x11]` has thrown, the reader is left at offset 4, and
`BVON.deserialize` of the nine bytes reads the byte 0xff at offset 4 as the tag of a
custom type and throws `invalid size`: no `Int64` is returned. After `serialize` of a
value whose class is registered with the code 2^32 has thrown (a class made by
`createBVON`; the writer is left at offset 1 with the byte 0xff stored), `serialize(x)`
returns ten bytes, the stale byte 0xff followed by the nine. -/
theorem roundTrip_int64_after_failure :
    (BVON.serialize (.int64 ⟨-2, 5, false⟩) none (BVON.new [])).value?
      = some [3, 0xFE, 0xFF, 0xFF, 0xFF, 5, 0, 0, 0] ∧
    BVON.roundTrip (.int64 ⟨-2, 5, false⟩) none (BVON.new []) = some (.int64 ⟨-2, 5, false⟩) ∧
    (BVON.deserialize [0x0A, 8, 1, 0x11] none (BVON.new [])).error?
      = some (.unsupportedType (some 0x11)) ∧
    (BVON.deserialize [0x0A, 8, 1, 0x11] none (BVON.new [])).state.1.deserializer.offset
      = some 4 ∧
    (BVON.serialize (.int64 ⟨-2, 5, false⟩) none
      (BVON.deserialize [0x0A, 8, 1, 0x11] none (BVON.new [])).state.1).value?
      = some [3, 0xFE, 0xFF, 0xFF, 0xFF, 5, 0, 0, 0] ∧
    (BVON.deserialize [3, 0xFE, 0xFF, 0xFF, 0xFF, 5, 0, 0, 0] none
      (BVON.deserialize [0x0A, 8, 1, 0x11] none (BVON.new [])).state.1).error?
      = some .invalidSize ∧
    BVON.roundTrip (.int64 ⟨-2, 5, false⟩) none
      (BVON.deserialize [0x0A, 8, 1, 0x11] none (BVON.new [])).state.1 = none ∧
    (BVON.serialize (.classInstance 1 [] (.array [])) none (BVON.new wideRegistry)).error?
      = some .headerRange ∧
    (BVON.serialize (.classInstance 1 [] (.array [])) none
      (BVON.new wideRegistry)).state.1.serializer.offset = 1 ∧
    (BVON.serialize (.int64 ⟨-2, 5, false⟩) none
      (BVON.serialize (.classInstance 1 [] (.array [])) none
        (BVON.new wideRegistry)).state.1).value?
      = some [0xFF, 3, 0xFE, 0xFF, 0xFF, 0xFF, 5, 0, 0, 0] := by
  decide!

/-- Claim C22, at the date of time value -1 after a failed call. On the class as loaded
`BVON.serialize(d)` is the tag 0x08 and eight bytes 0xff, and the round trip returns the
date. After `BVON.deserialize` of `[0x0a, 0x08, 0x01, 0x11]` has thrown, the reader is
left at offset 4, and `BVON.deserialize(BVON.serialize(d))` reads the byte 0xff at offset
4 as the tag of a custom type and throws `invalid size`: no date is returned. After
`serialize` of a value whose class is registered with the code 2^32 has thrown, the
writer is left at offset 1, and `serialize(d)` returns ten bytes that start with the
stale byte 0xff, not with the tag 0x08. -/
theorem roundTrip_date_after_failure :
    (BVON.serialize (.date (some (-1))) none (BVON.new [])).value?
      = some [8, 0xFF, 0xFF, 0xFF, 0xFF, 0xFF, 0xFF, 0xFF, 0xFF] ∧
    BVON.roundTrip (.date (some (-1))) none (BVON.new []) = some (.date (some (-1))) ∧
    (BVON.deserialize [0x0A, 8, 1, 0x11] none (BVON.new [])).error?
      = some (.unsupportedType (some 0x11)) ∧
    (BVON.deserialize [0x0A, 8, 1, 0x11] none (BVON.new [])).state.1.deserializer.offset
      = some 4 ∧
    (BVON.serialize (.date (some (-1))) none
      (BVON.deserialize [0x0A, 8, 1, 0x11] none (BVON.new [])).state.1).value?
      = some [8, 0xFF, 0xFF, 0xFF, 0xFF, 0xFF, 0xFF, 0xFF, 0xFF] ∧
    (BVON.deserialize [8, 0xFF, 0xFF, 0xFF, 0xFF, 0xFF, 0xFF, 0xFF, 0xFF] none
      (BVON.deserialize [0x0A, 8, 1, 0x11] none (BVON.new [])).state.1).error?
      = some .invalidSize ∧
    BVON.roundTrip (.date (some (-1))) none
      (BVON.deserialize [0x0A, 8, 1, 0x11] none (BVON.new [])).state.1 = none ∧
    (BVON.serialize (.classInstance 1 [] (.array [])) none (BVON.new wideRegistry)).error?
      = some .headerRange ∧
    (BVON.serialize (.classInstance 1 [] (.array [])) none
      (BVON.new wideRegistry)).state.1.serializer.offset = 1 ∧
    (BVON.serialize (.date (some (-1))) none
      (BVON.serialize (.classInstance 1 [] (.array [])) none
        (BVON.new wideRegistry)).state.1).value?
      = some [0xFF, 8, 0xFF, 0xFF, 0xFF, 0xFF, 0xFF, 0xFF, 0xFF, 0xFF] := by
  decide!

/-- Claim C34, at the big integer -1 after a failed call. `getBigIntByteLength(-1n)` is
0, and on the class as loaded `BVON.serialize(-1n)` is the three bytes 05 08 00, read
back as `0n`. After `BVON.deserialize` of `[0x0a, 0x08, 0x01, 0x11]` has thrown, the
reader is left at offset 4, past the end of the three bytes: `BVON.deserialize` of them
reads `undefined` as the tag and throws `Unsupported type: undefined`. After `serialize`
of a value whose class is registered with the code 2^32 has thrown, the writer is left at
offset 1, and `serialize(-1n)` returns the four bytes ff 05 08 00. -/
theorem negative_bigint_after_failure :
    getBigIntByteLength (-1) = 0 ∧
    (BVON.serialize (.bigint (-1)) none (BVON.new [])).value? = some [5, 8, 0] ∧
    BVON.roundTrip (.bigint (-1)) none (BVON.new []) = some (.bigint 0) ∧
    (BVON.deserialize [0x0A, 8, 1, 0x11] none (BVON.new [])).error?
      = some (.unsupportedType (some 0x11)) ∧
    (BVON.deserialize [0x0A, 8, 1, 0x11] none (BVON.new [])).state.1.deserializer.offset
      = some 4 ∧
    (BVON.serialize (.bigint (-1)) none
      (BVON.deserialize [0x0A, 8, 1, 0x11] none (BVON.new [])).state.1).value?
      = some [5, 8, 0] ∧
    (BVON.deserialize [5, 8, 0] none
      (BVON.deserialize [0x0A, 8, 1, 0x11] none (BVON.new [])).state.1).error?
      = some (.unsupportedType none) ∧
    BVON.roundTrip (.bigint (-1)) none
      (BVON.deserialize [0x0A, 8, 1, 0x11] none (BVON.new [])).state.1 = none ∧
    (BVON.serialize (.classInstance 1 [] (.array [])) none (BVON.new wideRegistry)).error?
      = some .headerRange ∧
    (BVON.serialize (.classInstance 1 [] (.array [])) none
      (BVON.new wideRegistry)).state.1.serializer.offset = 1 ∧
    (BVON.serialize (.bigint (-1)) none
      (BVON.serialize (.classInstance 1 [] (.array [])) none
        (BVON.new wideRegistry)).state.1).value?
      = some [0xFF, 5, 8, 0] ∧
    (BVON.serialize (.bigint (-1)) none
      (BVON.serialize (.classInstance 1 [] (.array [])) none
        (BVON.new wideRegistry)).state.1).error? = none := by
  decide!

end Bvon
